import Mathlib

/-!
AutoPas: LogicHandler and VerletClusterCells.

A shallow embedding of `src/autopas/LogicHandler.h` and of the particle
bookkeeping of `src/autopas/containers/verletClusterLists/VerletClusterCells.h`.

Conventions of the embedding:

* `double` values are rationals (`ℚ`); `std::array<double, 3>` is `Fin 3 → ℚ`. A definition
  with a parameter `fl` rounds the result of every `double` operation with it; the
  arithmetic of the machine is `fl = roundToDouble`. Infinities, NaN and subnormal results
  are outside the model. A definition without `fl` computes with the exact values.
* `unsigned int` counters are natural numbers, with the wrap-around of `++` written
  out as `% (UINT32_MAX + 1)`.
* A call of `utils::ExceptionHandler::exception` is a returned `Error`; an operation that
  mutates state and may raise returns the pair of its outcome and the state it leaves.
-/

namespace autopas

/-- A `std::array<double, 3>`. -/
abbrev Vec3 : Type := Fin 3 → ℚ

/-- The integer nearest to `x`, a tie going to the even neighbour. -/
def roundHalfEven (x : ℚ) : ℤ :=
  if 2 * Int.fract x < 1 then ⌊x⌋
  else if 1 < 2 * Int.fract x then ⌊x⌋ + 1
  else if ⌊x⌋ % 2 = 0 then ⌊x⌋ else ⌊x⌋ + 1

/-- The `double` nearest to `x`: IEEE 754 binary64 rounding to nearest, ties to even, with the
53-bit significand scaled by the binade of `x`. Overflow to infinity and the subnormal range
are outside the model. -/
def roundToDouble (x : ℚ) : ℚ :=
  if x = 0 then 0
  else (roundHalfEven (x * 2 ^ (52 - Int.log 2 |x|)) : ℚ) * 2 ^ (Int.log 2 |x| - 52)

/-- The function `ArrayMath::addScalar`: adds `s` to every component. -/
def ArrayMath.addScalar (a : Vec3) (s : ℚ) : Vec3 := fun d => a d + s

/-- The function `ArrayMath::subScalar`: subtracts `s` from every component. -/
def ArrayMath.subScalar (a : Vec3) (s : ℚ) : Vec3 := fun d => a d - s

/-- The function `ArrayMath::addScalar` in `double` arithmetic: every sum is rounded. -/
def ArrayMath.addScalarFl (fl : ℚ → ℚ) (a : Vec3) (s : ℚ) : Vec3 := fun d => fl (a d + s)

/-- The function `ArrayMath::subScalar` in `double` arithmetic: every difference is rounded. -/
def ArrayMath.subScalarFl (fl : ℚ → ℚ) (a : Vec3) (s : ℚ) : Vec3 := fun d => fl (a d - s)

/-- Modelled from the spec: `utils::inBox` (header `autopas/utils/inBox.h`, not in the source
tree). The spec writes the box as `[boxMin, boxMax)`: the lower corner is inclusive and the
upper corner exclusive, in every dimension. -/
def utils.inBox (position low high : Vec3) : Bool :=
  decide (∀ d : Fin 3, low d ≤ position d ∧ position d < high d)

/-- Modelled from the spec: `utils::notInBox` (same missing header), the negation of
`utils::inBox`. -/
def utils.notInBox (position low high : Vec3) : Bool :=
  !utils.inBox position low high

/-- The class `Particle` (`particles/Particle.h`), with the `owned` flag that
`VerletClusterCells` reads through `isOwned` and writes through `setOwned`. -/
structure Particle where
  _r : Vec3
  _v : Vec3
  _f : Vec3
  _id : Nat
  _owned : Bool
deriving DecidableEq

/-- The getter `Particle::getR`. -/
def Particle.getR (p : Particle) : Vec3 := p._r

/-- The setter `Particle::setR`. -/
def Particle.setR (p : Particle) (r : Vec3) : Particle := { p with _r := r }

/-- The getter `Particle::getID`. -/
def Particle.getID (p : Particle) : Nat := p._id

/-- The getter `Particle::isOwned`. -/
def Particle.isOwned (p : Particle) : Bool := p._owned

/-- The setter `Particle::setOwned`. -/
def Particle.setOwned (p : Particle) (owned : Bool) : Particle := { p with _owned := owned }

/-- The getter `Particle::getF`. -/
def Particle.getF (p : Particle) : Vec3 := p._f

/-- The setter `Particle::setF`. -/
def Particle.setF (p : Particle) (f : Vec3) : Particle := { p with _f := f }

/-- The getter `Particle::getV`. -/
def Particle.getV (p : Particle) : Vec3 := p._v

/-- The exceptions raised through `utils::ExceptionHandler::exception` in the embedded code,
one constructor per message. -/
inductive Error where
  /-- Message "Adding of particles not allowed while neighborlists are still valid. ...". -/
  | neighborListsStillValid
  /-- Message "... wasn't able to update halo particle that is too close to domain ...". -/
  | haloNotUpdatedTooClose
  /-- Message "... trying to update halo particle that is too far inside domain ...". -/
  | haloTooFarInside
  /-- Message "Box too small.". -/
  | boxTooSmall
  /-- Message "VerletCluster: trying to add particle that is not inside the bounding box.". -/
  | particleNotInBox
  /-- Message "VerletCluster: trying to add halo particle that is inside the bounding box.". -/
  | haloParticleInBox
  /-- Any other exception of a collaborator, identified by a number. -/
  | other (code : Nat)
  /-- Message "SoA::read: requested particle id ({}) is bigger than number of particles ({})". -/
  | soaReadOutOfRange
  /-- The exception `std::out_of_range` that `std::vector::at` throws. -/
  | stdOutOfRange
  /-- The exception `std::length_error` that the constructor of `std::vector` throws. -/
  | stdLengthError
  /-- Message "Index out of range (range: [0, {}[, index: {})". -/
  | indexOutOfRange
  /-- Message "Option::parseOptionExact() no match found for: {}". -/
  | optionNoMatch
  /-- Message "Already postprocessed, endTraversal(bool newton3) was called twice without
  calling initTraversal().". -/
  | alreadyPostprocessed
  /-- Message "Trying to get upot even though calculateGlobals is false. ...". -/
  | upotNotCalculated
  /-- Message "Trying to get virial even though calculateGlobals is false. ...". -/
  | virialNotCalculated
  /-- Message "Cannot get upot, because endTraversal was not called.". -/
  | upotBeforeEndTraversal
  /-- Message "Cannot get virial, because endTraversal was not called.". -/
  | virialBeforeEndTraversal
deriving DecidableEq, Repr

/-- The largest `unsigned int`. -/
def UINT32_MAX : Nat := 4294967295

/-- The operations of `AutoTuner<Particle, ParticleCell>` and of the container it owns
(`_autoTuner.getContainer()->...`) that `LogicHandler` calls. Neither class is in the source
tree, so they are a parameter: `T` is the joint state of tuner and container, a call that may
raise returns its outcome together with the state it leaves (`updateHaloParticle` returns a
`bool` or raises, as `VerletClusterCells::updateHaloParticle` does when its region iterator
cannot be built), and the pairwise traversal (which, by the spec, runs to completion) is a
state transformer. -/
structure AutoTuner (T : Type) where
  willRebuild : T → Bool
  iteratePairwise : T → Bool → T
  getBoxMin : T → Vec3
  getBoxMax : T → Vec3
  getCutoff : T → ℚ
  getSkin : T → ℚ
  addParticle : T → Particle → Except Error Unit × T
  addHaloParticle : T → Particle → Except Error Unit × T
  updateHaloParticle : T → Particle → Except Error Bool × T
  updateContainer : T → Except Error (List Particle) × T
  deleteHaloParticles : T → Except Error Unit × T
  deleteAllParticles : T → Except Error Unit × T

/-- The data members of `LogicHandler`. -/
structure LogicHandler (T : Type) where
  _containerRebuildFrequency : Nat
  _tuningInterval : Nat
  _numSamples : Nat
  _autoTuner : T
  _containerIsValid : Bool
  _stepsSinceLastContainerRebuild : Nat

namespace LogicHandler

variable {T : Type}

/-- The loop of `LogicHandler::doAssertions` from dimension `dim` on: raises at the first
dimension whose box side `boxMax[dim] - boxMin[dim]` is smaller than `cutoff + skin`, both
computed in `double` arithmetic. -/
def doAssertionsFrom (fl : ℚ → ℚ) (tuner : AutoTuner T) (t : T) :
    List (Fin 3) → Except Error Unit
  | [] => .ok ()
  | dim :: rest =>
    if fl (tuner.getBoxMax t dim - tuner.getBoxMin t dim)
        < fl (tuner.getCutoff t + tuner.getSkin t) then
      .error Error.boxTooSmall
    else doAssertionsFrom fl tuner t rest

/-- The method `LogicHandler::doAssertions`: `for (dim = 0; dim < 3; ++dim)`. -/
def doAssertions (fl : ℚ → ℚ) (tuner : AutoTuner T) (t : T) : Except Error Unit :=
  doAssertionsFrom fl tuner t [0, 1, 2]

/-- The member initialisers of the constructor, with the default member values
`_containerIsValid{false}` and `_stepsSinceLastContainerRebuild{UINT32_MAX}`. -/
def init (autoTuner : T) (rebuildFrequency tuningInterval numSamples : Nat) : LogicHandler T :=
  { _containerRebuildFrequency := rebuildFrequency
    _tuningInterval := tuningInterval
    _numSamples := numSamples
    _autoTuner := autoTuner
    _containerIsValid := false
    _stepsSinceLastContainerRebuild := UINT32_MAX }

/-- The constructor `LogicHandler::LogicHandler`: initialises the members, then runs
`doAssertions`. -/
def new (fl : ℚ → ℚ) (tuner : AutoTuner T) (autoTuner : T)
    (rebuildFrequency tuningInterval numSamples : Nat) : Except Error (LogicHandler T) :=
  match doAssertions fl tuner autoTuner with
  | .error e => .error e
  | .ok () => .ok (init autoTuner rebuildFrequency tuningInterval numSamples)

/-- The method `LogicHandler::isContainerValid`. -/
def isContainerValid (tuner : AutoTuner T) (s : LogicHandler T) : Bool :=
  s._containerIsValid && decide (s._stepsSinceLastContainerRebuild < s._containerRebuildFrequency)
    && !tuner.willRebuild s._autoTuner

/-- The method `LogicHandler::updateContainer`. -/
def updateContainer (tuner : AutoTuner T) (s : LogicHandler T) :
    Except Error (List Particle) × LogicHandler T :=
  if !isContainerValid tuner s then
    let s1 := { s with _containerIsValid := false }
    let r := tuner.updateContainer s1._autoTuner
    (r.1, { s1 with _autoTuner := r.2 })
  else
    (.ok [], s)

/-- The method `LogicHandler::addParticle`. -/
def addParticle (tuner : AutoTuner T) (s : LogicHandler T) (p : Particle) :
    Except Error Unit × LogicHandler T :=
  if !isContainerValid tuner s then
    let r := tuner.addParticle s._autoTuner p
    (r.1, { s with _autoTuner := r.2 })
  else
    (.error Error.neighborListsStillValid, s)

/-- The method `LogicHandler::deleteHaloParticles`. -/
def deleteHaloParticles (tuner : AutoTuner T) (s : LogicHandler T) :
    Except Error Unit × LogicHandler T :=
  let s1 := { s with _containerIsValid := false }
  let r := tuner.deleteHaloParticles s1._autoTuner
  (r.1, { s1 with _autoTuner := r.2 })

/-- The method `LogicHandler::deleteAllParticles`. -/
def deleteAllParticles (tuner : AutoTuner T) (s : LogicHandler T) :
    Except Error Unit × LogicHandler T :=
  let s1 := { s with _containerIsValid := false }
  let r := tuner.deleteAllParticles s1._autoTuner
  (r.1, { s1 with _autoTuner := r.2 })

/-- The local `const bool doRebuild = not isContainerValid();` of
`LogicHandler::iteratePairwise`: the flag handed to `AutoTuner::iteratePairwise`. -/
def doRebuild (tuner : AutoTuner T) (s : LogicHandler T) : Bool :=
  !isContainerValid tuner s

/-- The method `LogicHandler::iteratePairwise` (the functor is opaque to the handler). -/
def iteratePairwise (tuner : AutoTuner T) (s : LogicHandler T) : LogicHandler T :=
  let doRebuild := doRebuild tuner s
  let s1 := { s with _autoTuner := tuner.iteratePairwise s._autoTuner doRebuild }
  let s2 :=
    if doRebuild then
      { s1 with _containerIsValid := true, _stepsSinceLastContainerRebuild := 0 }
    else s1
  { s2 with
    _stepsSinceLastContainerRebuild := (s2._stepsSinceLastContainerRebuild + 1) % (UINT32_MAX + 1) }

end LogicHandler

/-- The default constructor `Particle()`: position, velocity, force and id zero. The `owned`
member is not in the `Particle.h` of the tree; a newly constructed particle counts as owned. -/
def Particle.new : Particle :=
  { _r := fun _ => 0, _v := fun _ => 0, _f := fun _ => 0, _id := 0, _owned := true }

/-- The call `std::vector::resize(n)` on the particle vector of a `FullParticleCell`: keeps
the first `n` particles and pads with default-constructed ones when the vector is shorter. -/
def resize (particles : List Particle) (n : Nat) : List Particle :=
  particles.take n ++ List.replicate (n - particles.length) Particle.new

/-- The call `std::swap(v[i], v[j])` on two slots of a particle vector. -/
def swapAt (particles : List Particle) (i j : Nat) : List Particle :=
  match particles[i]?, particles[j]? with
  | some a, some b => (particles.set i b).set j a
  | _, _ => particles

/-- Modelled from the spec: the behaviour filter of the particle iterators (the enum
`IteratorBehavior` is declared in a header that is not in the source tree). -/
inductive IteratorBehavior where
  | haloOnly
  | ownedOnly
  | haloAndOwned
deriving DecidableEq, Repr

/-- Modelled from the spec: whether an iterator with behaviour `b` stops at particle `p`
("each iterator carries a behavior filter ∈ {ownedOnly, haloOnly, haloAndOwned}"). -/
def IteratorBehavior.fits (b : IteratorBehavior) (p : Particle) : Bool :=
  match b with
  | .haloOnly => !p.isOwned
  | .ownedOnly => p.isOwned
  | .haloAndOwned => true

/-- The data members of `VerletClusterCells` that the particle bookkeeping, `rebuild` and the
region iterators read and write, with those of its base class `ParticleContainer` (box
corners, cutoff, skin, cells). Cell `i` is the particle vector `_cells[i]._particles`; its
particles from index `_dummyStarts[i]` on are dummies. A bounding box is the array
`(xmin, ymin, zmin, xmax, ymax, zmax)`. Vector sizes and indices are natural numbers (`size_t`
does not wrap at the sizes a vector can have). -/
structure VerletClusterCells where
  _boxMin : Vec3
  _boxMax : Vec3
  _cutoff : ℚ
  _skin : ℚ
  _cells : List (List Particle)
  _boxMinWithHalo : Vec3
  _boxMaxWithHalo : Vec3
  _dummyStarts : List Nat
  _clusterSize : Nat
  _boundingBoxes : List (List (Fin 6 → ℚ))
  _gridSideLength : ℚ
  _gridSideLengthReciprocal : ℚ
  _cellsPerDim : Fin 3 → Nat
  _isValid : Bool
deriving DecidableEq

namespace VerletClusterCells

/-- The constructor `VerletClusterCells::VerletClusterCells`: one empty cell, no dummies,
lists invalid. The constructor does not initialise the grid members (`_gridSideLength`,
`_gridSideLengthReciprocal`, `_cellsPerDim`); they are zero here until `rebuild` sets them. -/
def new (boxMin boxMax : Vec3) (cutoff skin : ℚ) (clusterSize : Nat) : VerletClusterCells :=
  { _boxMin := boxMin
    _boxMax := boxMax
    _cutoff := cutoff
    _skin := skin
    _cells := [[]]
    _boxMinWithHalo := ArrayMath.subScalar boxMin (cutoff + skin)
    _boxMaxWithHalo := ArrayMath.addScalar boxMax (cutoff + skin)
    _dummyStarts := [0]
    _clusterSize := clusterSize
    _boundingBoxes := []
    _gridSideLength := 0
    _gridSideLengthReciprocal := 0
    _cellsPerDim := fun _ => 0
    _isValid := false }

/-- Modelled from the spec: `ParticleContainer::getInteractionLength` (the base class in the
tree predates the skin): the distance `cutoff + verletSkin` within which neighbours are
listed. -/
def getInteractionLength (s : VerletClusterCells) : ℚ := s._cutoff + s._skin

/-- The class invariant of the two parallel vectors: every cell has its dummy start, and the
dummy start is an index into (or the end of) the cell. -/
def wellFormedCells : List (List Particle) → List Nat → Bool
  | [], [] => true
  | c :: cs, d :: ds => decide (d ≤ c.length) && wellFormedCells cs ds
  | _, _ => false

/-- The class invariant on a container state. -/
def wellFormed (s : VerletClusterCells) : Bool := wellFormedCells s._cells s._dummyStarts

/-- The non-dummy particles of the container: the first `_dummyStarts[i]` particles of every
cell `i`. -/
def nonDummyOf : List (List Particle) → List Nat → List Particle
  | c :: cs, d :: ds => c.take d ++ nonDummyOf cs ds
  | _, _ => []

/-- The non-dummy particles of a container state. -/
def nonDummy (s : VerletClusterCells) : List Particle := nonDummyOf s._cells s._dummyStarts

/-- The method `VerletClusterCells::addParticle`. -/
def addParticle (s : VerletClusterCells) (p : Particle) : Except Error Unit × VerletClusterCells :=
  if utils.inBox p.getR s._boxMin s._boxMax then
    let dummyStart0 := s._dummyStarts.headD 0
    (.ok (),
      { s with
        _isValid := false
        _cells := s._cells.modifyHead fun cell => resize cell dummyStart0 ++ [p]
        _dummyStarts := s._dummyStarts.modifyHead fun d => d + 1 })
  else
    (.error Error.particleNotInBox, s)

/-- The method `VerletClusterCells::addHaloParticle`. -/
def addHaloParticle (s : VerletClusterCells) (haloParticle : Particle) :
    Except Error Unit × VerletClusterCells :=
  let p_copy := haloParticle
  if utils.notInBox p_copy.getR s._boxMin s._boxMax then
    let dummyStart0 := s._dummyStarts.headD 0
    let p_copy := p_copy.setOwned false
    (.ok (),
      { s with
        _isValid := false
        _cells := s._cells.modifyHead fun cell => resize cell dummyStart0 ++ [p_copy]
        _dummyStarts := s._dummyStarts.modifyHead fun d => d + 1 })
  else
    (.error Error.haloParticleInBox, s)

/-- The statements that turn the particle in slot `j` of a cell into a dummy: shift its
x-coordinate by `offset`, take one off the dummy start `dummyStart`, and swap the slot with
the last non-dummy slot. Returns the cell and the new dummy start. -/
def moveToDummies (offset : ℚ) (particles : List Particle) (dummyStart j : Nat) (p : Particle) :
    List Particle × Nat :=
  let pos := p.getR
  let pos := Function.update pos 0 (pos 0 + offset)
  let particles := particles.set j (p.setR pos)
  let dummyStart := dummyStart - 1
  (swapAt particles j dummyStart, dummyStart)

/-- The inner loop of `VerletClusterCells::deleteHaloParticles` on one cell,
`for (j = 0; j < _dummyStarts[i];)`, from index `j` on. A slot past the end of the vector is
not read (it is none when `dummyStart` is at most the size of the cell). -/
def deleteHaloParticlesCell (offset : ℚ) (particles : List Particle) (dummyStart j : Nat) :
    List Particle × Nat :=
  if j < dummyStart then
    match particles[j]? with
    | none => (particles, dummyStart)
    | some p =>
      if !p.isOwned then
        let r := moveToDummies offset particles dummyStart j p
        deleteHaloParticlesCell offset r.1 r.2 j
      else
        deleteHaloParticlesCell offset particles dummyStart (j + 1)
  else (particles, dummyStart)
termination_by dummyStart - j
decreasing_by
  · simp only [moveToDummies]
    omega
  · omega

/-- The outer loop of `VerletClusterCells::deleteHaloParticles`,
`for (i = 0; i < _cells.size(); ++i)`, over the cells and their dummy starts side by side. -/
def deleteHaloParticlesCells (offset : ℚ) :
    List (List Particle) → List Nat → List (List Particle) × List Nat
  | c :: cs, d :: ds =>
    let r := deleteHaloParticlesCell offset c d 0
    let rest := deleteHaloParticlesCells offset cs ds
    (r.1 :: rest.1, r.2 :: rest.2)
  | cs, ds => (cs, ds)

/-- The method `VerletClusterCells::deleteHaloParticles`. The shift of a removed halo particle
is `_boxMaxWithHalo[2] + 8 * getInteractionLength()`, as written in the source. -/
def deleteHaloParticles (s : VerletClusterCells) : VerletClusterCells :=
  let r := deleteHaloParticlesCells (s._boxMaxWithHalo 2 + 8 * s.getInteractionLength)
    s._cells s._dummyStarts
  { s with _isValid := false, _cells := r.1, _dummyStarts := r.2 }

/-- Modelled from the spec: the loop of `VerletClusterCells::updateContainer` over
`begin(IteratorBehavior::ownedOnly)` on one cell, from slot `j` on. The iterator class
`VerletClusterCellsParticleIterator` and `internal::deleteParticle` are not in the source
tree. By the spec the iterator stops at every non-dummy particle that fits its behaviour and
never at a dummy (slots from the dummy start on), and deleting through it swaps the particle
with the last one and takes it out of the cell: here, as in `deleteHaloParticles`, out of the
non-dummy range, shifted by the `offsetToDummy` that `begin` hands to the iterator. The
particle swapped into the slot is visited next. -/
def updateContainerCell (boxMin boxMax : Vec3) (offsetToDummy : ℚ) (particles : List Particle)
    (dummyStart j : Nat) (outsideParticles : List Particle) :
    (List Particle × Nat) × List Particle :=
  if j < dummyStart then
    match particles[j]? with
    | none => ((particles, dummyStart), outsideParticles)
    | some p =>
      if IteratorBehavior.ownedOnly.fits p && utils.notInBox p.getR boxMin boxMax then
        let r := moveToDummies offsetToDummy particles dummyStart j p
        updateContainerCell boxMin boxMax offsetToDummy r.1 r.2 j (outsideParticles ++ [p])
      else
        updateContainerCell boxMin boxMax offsetToDummy particles dummyStart (j + 1)
          outsideParticles
  else ((particles, dummyStart), outsideParticles)
termination_by dummyStart - j
decreasing_by
  · simp only [moveToDummies]
    omega
  · omega

/-- Every particle in a slot below `n` of a cell is owned. -/
def allOwnedBelow (ps : List Particle) (n : Nat) : Prop :=
  ∀ k, k < n → ∀ p, ps[k]? = some p → p.isOwned = true

/-- The loop shape shared by `deleteHaloParticlesCell` and `updateContainerCell`: every
non-dummy particle from slot `j` on that satisfies `remove` is appended to `removed` and moved
to the dummies. Used to reason about both loops at once. -/
def evictCell (remove : Particle → Bool) (offset : ℚ) (particles : List Particle)
    (dummyStart j : Nat) (removed : List Particle) : (List Particle × Nat) × List Particle :=
  if j < dummyStart then
    match particles[j]? with
    | none => ((particles, dummyStart), removed)
    | some p =>
      if remove p then
        let r := moveToDummies offset particles dummyStart j p
        evictCell remove offset r.1 r.2 j (removed ++ [p])
      else
        evictCell remove offset particles dummyStart (j + 1) removed
  else ((particles, dummyStart), removed)
termination_by dummyStart - j
decreasing_by
  · simp only [moveToDummies]
    omega
  · omega

/-- The iteration of `VerletClusterCells::updateContainer` over all cells, in cell order. -/
def updateContainerCells (boxMin boxMax : Vec3) (offsetToDummy : ℚ) :
    List (List Particle) → List Nat → List Particle →
      (List (List Particle) × List Nat) × List Particle
  | c :: cs, d :: ds, outsideParticles =>
    let r := updateContainerCell boxMin boxMax offsetToDummy c d 0 outsideParticles
    let rest := updateContainerCells boxMin boxMax offsetToDummy cs ds r.2
    ((r.1.1 :: rest.1.1, r.1.2 :: rest.1.2), rest.2)
  | cs, ds, outsideParticles => ((cs, ds), outsideParticles)

/-- The method `VerletClusterCells::updateContainer`: `deleteHaloParticles()`, then the loop
that collects and removes the owned particles outside the box. The iterator is built by
`begin` with `_boxMaxWithHalo[0] + 8 * getInteractionLength()` as its offset to the dummies. -/
def updateContainer (s : VerletClusterCells) : List Particle × VerletClusterCells :=
  let s1 := s.deleteHaloParticles
  let r := updateContainerCells s1._boxMin s1._boxMax
    (s1._boxMaxWithHalo 0 + 8 * s1.getInteractionLength) s1._cells s1._dummyStarts []
  (r.2, { s1 with _cells := r.1.1, _dummyStarts := r.1.2 })

/-- The method `VerletClusterCells::getNumParticles`: the sum of the dummy starts. -/
def getNumParticles (s : VerletClusterCells) : Nat := s._dummyStarts.sum

/-- Modelled from the spec: `ParticleContainer::deleteAllParticles` (the base class in the
tree predates it): every particle is removed, that is, every cell is cleared. -/
def ParticleContainer.deleteAllParticles (cells : List (List Particle)) : List (List Particle) :=
  cells.map fun _ => []

/-- The method `VerletClusterCells::deleteAllParticles`: `std::fill` of the dummy starts with
zero, then the base-class method. -/
def deleteAllParticles (s : VerletClusterCells) : VerletClusterCells :=
  { s with
    _isValid := false
    _dummyStarts := s._dummyStarts.map fun _ => 0
    _cells := ParticleContainer.deleteAllParticles s._cells }

end VerletClusterCells

/-- A tuner whose state is the log of the `doRebuild` flags it was handed; its container is
the box `[0, 10)³` with cutoff `1` and skin `1/5`, accepts every call and holds no particle. -/
def recordingTuner : AutoTuner (List Bool) where
  willRebuild := fun _ => false
  iteratePairwise := fun t b => t ++ [b]
  getBoxMin := fun _ _ => 0
  getBoxMax := fun _ _ => 10
  getCutoff := fun _ => 1
  getSkin := fun _ => 1 / 5
  addParticle := fun t _ => (.ok (), t)
  addHaloParticle := fun t _ => (.ok (), t)
  updateHaloParticle := fun t _ => (.ok false, t)
  updateContainer := fun t => (.ok [], t)
  deleteHaloParticles := fun t => (.ok (), t)
  deleteAllParticles := fun t => (.ok (), t)

/-- A tuner without state whose container is the cubic box `[0, side)³` with the given cutoff
and skin, accepts every call and holds no particle. -/
def boxTuner (side cutoff skin : ℚ) : AutoTuner Unit where
  willRebuild := fun _ => false
  iteratePairwise := fun t _ => t
  getBoxMin := fun _ _ => 0
  getBoxMax := fun _ _ => side
  getCutoff := fun _ => cutoff
  getSkin := fun _ => skin
  addParticle := fun t _ => (.ok (), t)
  addHaloParticle := fun t _ => (.ok (), t)
  updateHaloParticle := fun t _ => (.ok false, t)
  updateContainer := fun t => (.ok [], t)
  deleteHaloParticles := fun t => (.ok (), t)
  deleteAllParticles := fun t => (.ok (), t)

/-- A handler over `recordingTuner` whose container is valid: one step since the rebuild,
rebuild frequency two. -/
def validHandler : LogicHandler (List Bool) :=
  { _containerRebuildFrequency := 2
    _tuningInterval := 100
    _numSamples := 3
    _autoTuner := []
    _containerIsValid := true
    _stepsSinceLastContainerRebuild := 1 }

/-- A particle at position `r` with zero velocity and force. -/
def particleAt (r : Vec3) (id : Nat) (owned : Bool) : Particle :=
  { _r := r, _v := fun _ => 0, _f := fun _ => 0, _id := id, _owned := owned }

/-- A container on the box `[0, 10)³` (cutoff `1`, skin `1/5`, cluster size `4`) whose single
cell holds an owned particle inside the box, a halo particle, an owned particle that has moved
out of the box, and one dummy. -/
def sampleContainer : VerletClusterCells :=
  { VerletClusterCells.new (fun _ => 0) (fun _ => 10) 1 (1 / 5) 4 with
    _cells :=
      [[particleAt (fun _ => 1) 1 true, particleAt (fun _ => -1) 2 false,
        particleAt (fun _ => 11) 3 true, particleAt (fun _ => 100) 18446744073709551615 false]]
    _dummyStarts := [3] }


/-! Traversals: `C08BasedTraversal`, `SlicedBasedTraversal`, `DirectSumTraversal`,
`C01CudaTraversal`. A traversal is embedded as the sequence of `loopBody` calls (or cell
functor calls) it makes when its loops run one after the other; the OpenMP pragmas only
distribute the same iterations over threads. -/

/-- The largest `unsigned long` / `size_t`. -/
def UINT64_MAX : Nat := 18446744073709551615

/-- Modelled from the spec: the enum `DataLayoutOption` (its header is not in the source
tree); the spec lists the data layouts `aos, soa, cuda`. -/
inductive DataLayoutOption where
  | aos
  | soa
  | cuda
deriving DecidableEq, Repr

/-- What the `isApplicable` methods depend on besides the template arguments: whether the
build defines the macro `AUTOPAS_CUDA`, and the device count that `cudaGetDeviceCount` writes
(read only in a build with `AUTOPAS_CUDA`). -/
structure CudaEnvironment where
  AUTOPAS_CUDA : Bool
  deviceCount : Int
deriving DecidableEq, Repr

/-- Modelled from the spec: `utils::ThreeDimensionalMapping::oneToThreeD` (its header is not
in the source tree), the inverse of the row-major index `x + dims[0] * (y + dims[1] * z)`.
For `dims = {2, 2, 2}` it maps the colours `0..7` to the eight start offsets of the spec's
"8-coloring of base cells with stride (2,2,2)". -/
def utils.ThreeDimensionalMapping.oneToThreeD (ind : Nat) (dims : Fin 3 → Nat) : Fin 3 → Nat :=
  let pos2 := ind / (dims 0 * dims 1)
  let pos1 := (ind - pos2 * dims 0 * dims 1) / dims 0
  let pos0 := ind - dims 0 * (pos1 + dims 1 * pos2)
  ![pos0, pos1, pos2]

/-- The values of the loop variable of `for (i = start; i < end; i += stride)`, in order. The
counter is a natural number: in `c08Traversal` it stays below `2^64` as long as `end` does
not exceed `2^64 - 2`, which holds whenever the grid has at least one cell per dimension. -/
def forLoop (start end_ stride : Nat) : List Nat :=
  if start < end_ ∧ 0 < stride then start :: forLoop (start + stride) end_ stride else []
termination_by end_ - start
decreasing_by omega

/-- Three nested loops, `z` outermost and `x` innermost, whose body is called with
`(x, y, z)`: the sequence of calls when the loop variables run through `zs`, `ys`, `xs`. -/
def loopNest (xs ys zs : List Nat) : List (Nat × Nat × Nat) :=
  zs.flatMap fun z => ys.flatMap fun y => xs.map fun x => (x, y, z)

namespace C08BasedTraversal

/-- The method `C08BasedTraversal::isApplicable`. -/
def isApplicable (env : CudaEnvironment) (DataLayout : DataLayoutOption) : Bool :=
  if env.AUTOPAS_CUDA then
    (!(DataLayout == DataLayoutOption.cuda)) || decide (env.deviceCount > 0)
  else
    true

/-- The constant `stride = {2, 2, 2}` of `c08Traversal`. -/
def stride : Fin 3 → Nat := ![2, 2, 2]

/-- The array `end` of `c08Traversal`: `end[d] = _cellsPerDimension[d] - 1` in
`unsigned long` arithmetic. -/
def end_ (cellsPerDimension : Fin 3 → Nat) : Fin 3 → Nat :=
  fun d => (cellsPerDimension d + UINT64_MAX) % (UINT64_MAX + 1)

/-- The three nested loops of `c08Traversal` for one colour `col`: the `loopBody(x, y, z)`
calls, in order. -/
def c08Color (cellsPerDimension : Fin 3 → Nat) (col : Nat) : List (Nat × Nat × Nat) :=
  let start := utils.ThreeDimensionalMapping.oneToThreeD col stride
  loopNest (forLoop (start 0) (end_ cellsPerDimension 0) (stride 0))
    (forLoop (start 1) (end_ cellsPerDimension 1) (stride 1))
    (forLoop (start 2) (end_ cellsPerDimension 2) (stride 2))

/-- The method `C08BasedTraversal::c08Traversal`: the `loopBody(x, y, z)` calls of the eight
colours, in order. -/
def c08Traversal (cellsPerDimension : Fin 3 → Nat) : List (Nat × Nat × Nat) :=
  (List.range 8).flatMap fun col => c08Color cellsPerDimension col

/-- Modelled from the spec: the cells a c08 base step at base cell `(x, y, z)` touches, the
block `{x, x+1} × {y, y+1} × {z, z+1}` (the base-cell handler is not in the source tree; the
spec's base step interacts the base cell with adjacent cells of greater index in each
direction). -/
def stencilBlock (c : Nat × Nat × Nat) : List (Nat × Nat × Nat) :=
  [0, 1].flatMap fun k => [0, 1].flatMap fun j => [0, 1].map fun i => (c.1 + i, c.2.1 + j, c.2.2 + k)

end C08BasedTraversal

/-- The calls a traversal makes on its `CellFunctor`: `processCell(cells[i])` and
`processCellPair(cells[i], cells[j])`, with the cells named by their index in the vector. -/
inductive CellFunctorCall where
  | processCell (i : Nat)
  | processCellPair (i j : Nat)
deriving DecidableEq, Repr

/-- The class `CellFunctor` as a traversal sees it (its header is not in the source tree):
two operations that act on the state `σ` (the cells and the functor's accumulators), given
the indices of the cells they are applied to. -/
structure CellFunctor (σ : Type) where
  processCell : σ → Nat → σ
  processCellPair : σ → Nat → Nat → σ

/-- A cell functor that only records the calls it receives. -/
def recordingCellFunctor : CellFunctor (List CellFunctorCall) where
  processCell := fun log i => log ++ [CellFunctorCall.processCell i]
  processCellPair := fun log i j => log ++ [CellFunctorCall.processCellPair i j]

namespace DirectSumTraversal

/-- The method `DirectSumTraversal::isApplicable`. -/
def isApplicable (env : CudaEnvironment) (DataLayout : DataLayoutOption) : Bool :=
  let nDevices : Int := if env.AUTOPAS_CUDA then env.deviceCount else 0
  if DataLayout == DataLayoutOption.cuda then decide (nDevices > 0) else true

/-- The method `DirectSumTraversal::traverseCellPairs`. -/
def traverseCellPairs {σ : Type} (_cellFunctor : CellFunctor σ) (cells : σ) : σ :=
  let cells := _cellFunctor.processCell cells 0
  _cellFunctor.processCellPair cells 0 1

end DirectSumTraversal

namespace C01CudaTraversal

/-- The method `C01CudaTraversal::isApplicable`. -/
def isApplicable (env : CudaEnvironment) (DataLayout : DataLayoutOption) : Bool :=
  if env.AUTOPAS_CUDA then
    (DataLayout == DataLayoutOption.cuda) && decide (env.deviceCount > 0)
  else
    false

end C01CudaTraversal

/-- The element `a[i]` of a `std::array<unsigned long, 3>` for an index held in an `int` or
`size_t` variable (an index of `3` or more does not arise; the embedding reads `0` there). -/
def arrayAt (a : Fin 3 → Nat) (i : Nat) : Nat :=
  match i with
  | 0 => a 0
  | 1 => a 1
  | 2 => a 2
  | _ => 0

/-- The assignment `a[i] = v` on a `std::array<unsigned long, 3>` (an index of `3` or more
does not arise; the embedding leaves the array as it is there). -/
def arraySet (a : Fin 3 → Nat) (i : Nat) (v : Nat) : Fin 3 → Nat :=
  match i with
  | 0 => Function.update a 0 v
  | 1 => Function.update a 1 v
  | 2 => Function.update a 2 v
  | _ => a

/-- The index of the first smallest element of a `std::array<unsigned long, 3>`, as
`std::minmax_element` returns it in `.first`. -/
def minElementIndex (a : Fin 3 → Nat) : Nat :=
  let smallest := 0
  let smallest := if arrayAt a 1 < arrayAt a smallest then 1 else smallest
  let smallest := if arrayAt a 2 < arrayAt a smallest then 2 else smallest
  smallest

/-- The index of the last largest element of a `std::array<unsigned long, 3>`, as
`std::minmax_element` returns it in `.second`. -/
def maxElementIndex (a : Fin 3 → Nat) : Nat :=
  let largest := 0
  let largest := if ¬ arrayAt a 1 < arrayAt a largest then 1 else largest
  let largest := if ¬ arrayAt a 2 < arrayAt a largest then 2 else largest
  largest

/-- The loop `for (size_t i = 0; i < rest; ++i) ++_sliceThickness[i];`. An index past the
end of the vector is undefined behaviour in C++; the loop ends with the vector here, so such
increments are left out. -/
def incrementFirst : Nat → List Nat → List Nat
  | 0, thickness => thickness
  | _ + 1, [] => []
  | rest + 1, t :: thickness => (t + 1) :: incrementFirst rest thickness

/-- The statement `*--_sliceThickness.end() -= _overlapLongestAxis;` on a non-empty vector
(the last slice is at least `_overlapLongestAxis + 1` thick, so the subtraction does not
wrap). -/
def decreaseLast (overlap : Nat) : List Nat → List Nat
  | [] => []
  | [t] => [t - overlap]
  | t :: u :: thickness => t :: decreaseLast overlap (u :: thickness)

/-- The data members of `SlicedBasedTraversal` that `rebuild` and `slicedTraversal` use, with
`_cellsPerDimension` of its base class `CellPairTraversal`; `locks` is the size of the
vector of locks. -/
structure SlicedBasedTraversal where
  _cellsPerDimension : Fin 3 → Nat
  _overlap : Fin 3 → Nat
  _dimsPerLength : Fin 3 → Nat
  _cutoff : ℚ
  _cellLength : Fin 3 → ℚ
  _overlapLongestAxis : Nat
  _sliceThickness : List Nat
  locks : Nat

namespace SlicedBasedTraversal

/-- The method `SlicedBasedTraversal::rebuild` with the exact quotient
`_cutoff / _cellLength[d]`; `maxThreads` is what `autopas_get_max_threads()` returns. The
base-class call `CellPairTraversal::rebuild(dims)` stores `dims` in `_cellsPerDimension`. -/
def rebuild (maxThreads : Nat) (dims : Fin 3 → Nat) (t : SlicedBasedTraversal) :
    SlicedBasedTraversal :=
  let _cellsPerDimension := dims
  let _overlap : Fin 3 → Nat := fun d => ⌈t._cutoff / t._cellLength d⌉₊
  let dimsPerLength0 := maxElementIndex _cellsPerDimension
  let dimsPerLength2 := minElementIndex _cellsPerDimension
  let dimsPerLength1 := 3 - (dimsPerLength0 + dimsPerLength2)
  let _dimsPerLength : Fin 3 → Nat := ![dimsPerLength0, dimsPerLength1, dimsPerLength2]
  let _overlapLongestAxis := arrayAt _overlap dimsPerLength0
  let numSlices := maxThreads
  let minSliceThickness := arrayAt _cellsPerDimension dimsPerLength0 / numSlices
  let shrink := decide (minSliceThickness < _overlapLongestAxis + 1)
  let minSliceThickness := if shrink then _overlapLongestAxis + 1 else minSliceThickness
  let numSlices :=
    if shrink then arrayAt _cellsPerDimension dimsPerLength0 / minSliceThickness else numSlices
  let t1 : SlicedBasedTraversal :=
    { t with
      _cellsPerDimension := _cellsPerDimension
      _overlap := _overlap
      _dimsPerLength := _dimsPerLength
      _overlapLongestAxis := _overlapLongestAxis
      _sliceThickness := [] }
  if numSlices < 1 then t1
  else
    let _sliceThickness := List.replicate numSlices minSliceThickness
    let rest := arrayAt _cellsPerDimension dimsPerLength0 - _sliceThickness.headD 0 * numSlices
    let _sliceThickness := incrementFirst rest _sliceThickness
    let _sliceThickness := decreaseLast _overlapLongestAxis _sliceThickness
    { t1 with _sliceThickness := _sliceThickness, locks := numSlices * _overlapLongestAxis }

/-- The constructor `SlicedBasedTraversal::SlicedBasedTraversal`: the member initialisers,
then `rebuild(dims)`. -/
def new (maxThreads : Nat) (dims : Fin 3 → Nat) (cutoff : ℚ) (cellLength : Fin 3 → ℚ) :
    SlicedBasedTraversal :=
  rebuild maxThreads dims
    { _cellsPerDimension := dims
      _overlap := fun _ => 0
      _dimsPerLength := fun _ => 0
      _cutoff := cutoff
      _cellLength := cellLength
      _overlapLongestAxis := 0
      _sliceThickness := []
      locks := 0 }

/-- The method `SlicedBasedTraversal::isApplicable`. -/
def isApplicable (env : CudaEnvironment) (DataLayout : DataLayoutOption)
    (t : SlicedBasedTraversal) : Bool :=
  if DataLayout == DataLayoutOption.cuda then
    let nDevices : Int := if env.AUTOPAS_CUDA then env.deviceCount else 0
    decide (t._sliceThickness.length > 0) && decide (nDevices > 0)
  else
    decide (t._sliceThickness.length > 0)

/-- The upper bound `_cellsPerDimension[d] - _overlap[d]` of the two inner loops of
`slicedTraversal`, in `unsigned long` arithmetic. -/
def innerEnd (t : SlicedBasedTraversal) (d : Nat) : Nat :=
  (arrayAt t._cellsPerDimension d + (UINT64_MAX + 1) - arrayAt t._overlap d) % (UINT64_MAX + 1)

/-- The `loopBody` call of `slicedTraversal` for the loop variables `dimSlice`, `dimMedium`,
`dimShort`: `idArray` starts as zeros and gets the three values at the indices
`_dimsPerLength[0]`, `_dimsPerLength[1]`, `_dimsPerLength[2]`. -/
def loopBodyArguments (t : SlicedBasedTraversal) (dimSlice dimMedium dimShort : Nat) :
    Nat × Nat × Nat :=
  let idArray : Fin 3 → Nat := fun _ => 0
  let idArray := arraySet idArray (t._dimsPerLength 0) dimSlice
  let idArray := arraySet idArray (t._dimsPerLength 1) dimMedium
  let idArray := arraySet idArray (t._dimsPerLength 2) dimShort
  (idArray 0, idArray 1, idArray 2)

/-- The method `SlicedBasedTraversal::slicedTraversal`, executed slice by slice: the
`loopBody` calls in order. Slice `slice` starts at the sum of the thicknesses of the slices
before it and runs over `_sliceThickness[slice]` layers; the locks do not change which calls
are made. -/
def slicedTraversal (t : SlicedBasedTraversal) : List (Nat × Nat × Nat) :=
  let numSlices := t._sliceThickness.length
  (List.range numSlices).flatMap fun slice =>
    let myStart := (t._sliceThickness.take slice).sum
    let lastLayer := myStart + t._sliceThickness.getD slice 0
    (List.range' myStart (lastLayer - myStart)).flatMap fun dimSlice =>
      (List.range (innerEnd t (t._dimsPerLength 1))).flatMap fun dimMedium =>
        (List.range (innerEnd t (t._dimsPerLength 2))).map fun dimShort =>
          loopBodyArguments t dimSlice dimMedium dimShort

end SlicedBasedTraversal

/-- A call on one of the locks of `SlicedBasedTraversal`: `locks[i].lock()` or
`locks[i].unlock()`. -/
inductive LockEvent where
  | lock (i : Nat)
  | unlock (i : Nat)
deriving DecidableEq, Repr

namespace SlicedBasedTraversal

/-- The lock and unlock calls that `slicedTraversal` makes in the iteration `slice` of its
outer loop, in program order: the locks of the starting layers, then for every layer the lock
taken before the layer is processed and the unlocks made after it. `lastLayer - overlap` is
computed in `unsigned long` arithmetic. -/
def sliceLockEvents (t : SlicedBasedTraversal) (slice : Nat) : List LockEvent :=
  let numSlices := t._sliceThickness.length
  let overlap := t._overlapLongestAxis
  let myStart := (t._sliceThickness.take slice).sum
  let starting :=
    if slice > 0 then
      (List.range' 1 overlap).map fun i => LockEvent.lock (slice * overlap - i)
    else []
  let lastLayer := myStart + t._sliceThickness.getD slice 0
  starting ++ (List.range' myStart (lastLayer - myStart)).flatMap fun dimSlice =>
    (if slice ≠ numSlices - 1 ∧
        dimSlice ≥ (lastLayer + (UINT64_MAX + 1) - overlap) % (UINT64_MAX + 1) then
      [LockEvent.lock (slice * overlap + overlap - (lastLayer - dimSlice))]
    else []) ++
    (if slice > 0 ∧ dimSlice < myStart + overlap then
      [LockEvent.unlock (slice * overlap - (overlap - (dimSlice - myStart)))]
    else if slice ≠ numSlices - 1 ∧ dimSlice = lastLayer - 1 then
      (List.range' (slice * overlap) overlap).map fun i => LockEvent.unlock i
    else [])

/-- The locks a sequence of lock calls leaves held: every `lock(i)` adds `i`, every
`unlock(i)` takes one `i` away. -/
def heldAfter : List LockEvent → List Nat → List Nat
  | [], held => held
  | LockEvent.lock i :: events, held => heldAfter events (i :: held)
  | LockEvent.unlock i :: events, held => heldAfter events (held.erase i)

end SlicedBasedTraversal

/-- A sliced traversal before `rebuild`, as the constructor initialises it for cutoff `2` and
cell length `1` in every dimension (overlap two). -/
def sampleSlicedTraversalOverlapTwo : SlicedBasedTraversal :=
  { _cellsPerDimension := ![6, 4, 4]
    _overlap := fun _ => 0
    _dimsPerLength := fun _ => 0
    _cutoff := 2
    _cellLength := fun _ => 1
    _overlapLongestAxis := 0
    _sliceThickness := []
    locks := 0 }

/-- A sliced traversal before `rebuild`, as the constructor initialises it for cutoff `1` and
cell length `1` in every dimension. -/
def sampleSlicedTraversal : SlicedBasedTraversal :=
  { _cellsPerDimension := ![3, 5, 4]
    _overlap := fun _ => 0
    _dimsPerLength := fun _ => 0
    _cutoff := 1
    _cellLength := fun _ => 1
    _overlapLongestAxis := 0
    _sliceThickness := []
    locks := 0 }

/-! The SoA buffer (`utils/SoA.h`) and the reduced-memory cell built on it
(`cells/RMMParticleCell3T.h`). The tuple of vectors `SoAArraysType` with `n` attributes is a
function from the attribute index to a column; every stored value is an exact rational (the
`double` that `push` takes; ids and flags are stored as numbers). `write_impl`,
`writeMultiple`, `read_impl` and `readMultiple` are the methods for vectors of `double`;
`write_implTyped`, `writeMultipleTyped`, `read_implTyped` and `readMultipleTyped` are the same
methods for a tuple that also has vectors of `size_t`, with the conversions between `double`
and `size_t` that the assignments perform. -/

/-- The class `SoA<SoAArraysType>` for a tuple of `n` attribute vectors: `soaStorage` holds
the columns, `viewStart` the index shown as the first particle. -/
structure SoA (n : Nat) where
  soaStorage : Fin n → List ℚ
  viewStart : Nat

/-- The call `std::vector::resize(n)` on a column: keeps the first `n` values and pads with
zeros. -/
def resizeColumn (column : List ℚ) (n : Nat) : List ℚ :=
  column.take n ++ List.replicate (n - column.length) 0

/-- The call `std::swap(list[a], list[b])` on a column. With an index past the end the C++
behaviour is undefined; the column is then left as it is. -/
def swapColumn (column : List ℚ) (a b : Nat) : List ℚ :=
  match column[a]?, column[b]? with
  | some x, some y => (column.set a y).set b x
  | _, _ => column

namespace SoA

variable {n : Nat}

/-- The default constructor `SoA()`: empty columns, `viewStart = 0`. -/
def new : SoA n := { soaStorage := fun _ => [], viewStart := 0 }

/-- The method `SoA::getNumParticles`: the size of the first column minus `viewStart`, in
`size_t` arithmetic. -/
def getNumParticles [NeZero n] (soa : SoA n) : Nat :=
  ((soa.soaStorage 0).length + (UINT64_MAX + 1) - soa.viewStart) % (UINT64_MAX + 1)

/-- The method `SoA::resizeArrays`; `length + viewStart` is computed in `size_t`
arithmetic. -/
def resizeArrays (soa : SoA n) (length : Nat) : SoA n :=
  { soa with
    soaStorage := fun a =>
      resizeColumn (soa.soaStorage a) ((length + soa.viewStart) % (UINT64_MAX + 1)) }

/-- The method `SoA::push<attribute>`. -/
def push (soa : SoA n) (attr : Fin n) (value : ℚ) : SoA n :=
  { soa with
    soaStorage := Function.update soa.soaStorage attr (soa.soaStorage attr ++ [value]) }

/-- The method `SoA::append`: `append_impl` appends every column of `other` to the column of
the same attribute. -/
def append [NeZero n] (soa other : SoA n) : SoA n :=
  if other.getNumParticles > 0 then
    { soa with soaStorage := fun a => soa.soaStorage a ++ other.soaStorage a }
  else soa

/-- The method `SoA::write_impl<attributes...>` for a tuple of vectors of `double`: for every
attribute in turn, `get<attribute>().at(particleId) = values[_current]`; `at` throws
`std::out_of_range` past the end of the column. -/
def write_impl (storage : Fin n → List ℚ) :
    List (Fin n) → Nat → List ℚ → Nat → Except Error Unit × (Fin n → List ℚ)
  | [], _, _, _ => (.ok (), storage)
  | attr :: attributes, particleId, values, _current =>
    if particleId < (storage attr).length then
      write_impl
        (Function.update storage attr
          ((storage attr).set particleId (values.getD _current 0)))
        attributes particleId values (_current + 1)
    else (.error Error.stdOutOfRange, storage)

/-- The method `SoA::writeMultiple<attributes...>` for a tuple of vectors of `double`. -/
def writeMultiple (soa : SoA n) (attributes : List (Fin n)) (particleId : Nat)
    (values : List ℚ) : Except Error Unit × SoA n :=
  let r := write_impl soa.soaStorage attributes
    ((particleId + soa.viewStart) % (UINT64_MAX + 1)) values 0
  (r.1, { soa with soaStorage := r.2 })

/-- The method `SoA::read_impl<attributes...>` for a tuple of vectors of `double`: for every
attribute in turn, `values[_current] = get<attribute>().at(particleId)`. -/
def read_impl (storage : Fin n → List ℚ) : List (Fin n) → Nat → Except Error (List ℚ)
  | [], _ => .ok []
  | attr :: attributes, particleId =>
    match (storage attr)[particleId]? with
    | none => .error Error.stdOutOfRange
    | some value =>
      match read_impl storage attributes particleId with
      | .error e => .error e
      | .ok values => .ok (value :: values)

/-- The method `SoA::readMultiple<attributes...>` for a tuple of vectors of `double`. -/
def readMultiple [NeZero n] (soa : SoA n) (attributes : List (Fin n)) (particleId : Nat) :
    Except Error (List ℚ) :=
  if particleId ≥ soa.getNumParticles then .error Error.soaReadOutOfRange
  else read_impl soa.soaStorage attributes ((particleId + soa.viewStart) % (UINT64_MAX + 1))

/-- The method `SoA::read<attribute>`: `get<attribute>().at(particleId + viewStart)`. -/
def read (soa : SoA n) (attr : Fin n) (particleId : Nat) : Except Error ℚ :=
  match (soa.soaStorage attr)[(particleId + soa.viewStart) % (UINT64_MAX + 1)]? with
  | none => .error Error.stdOutOfRange
  | some value => .ok value

/-- The method `SoA::clear`. -/
def clear (soa : SoA n) : SoA n := { soa with soaStorage := fun _ => [] }

/-- The method `SoA::swap`. -/
def swap (soa : SoA n) (a b : Nat) : SoA n :=
  { soa with soaStorage := fun attr => swapColumn (soa.soaStorage attr) a b }

/-- The method `SoA::pop_back`. On empty columns the C++ behaviour is undefined; they then
stay empty. -/
def pop_back (soa : SoA n) : SoA n :=
  { soa with soaStorage := fun attr => (soa.soaStorage attr).dropLast }

/-- The method `SoA::setViewStart`. -/
def setViewStart (soa : SoA n) (start : Nat) : SoA n := { soa with viewStart := start }

/-- All attribute columns have the same length. -/
def equalLength (soa : SoA n) : Prop :=
  ∀ a b : Fin n, (soa.soaStorage a).length = (soa.soaStorage b).length

/-- Row `i` of the view: the values that `read<a>(i)` finds for every attribute `a`. -/
def row (soa : SoA n) (i : Nat) : Fin n → Option ℚ :=
  fun a => (soa.soaStorage a)[(i + soa.viewStart) % (UINT64_MAX + 1)]?

/-- The rows `0 .. getNumParticles() - 1` of the view, in order. -/
def rows [NeZero n] (soa : SoA n) : List (Fin n → Option ℚ) :=
  (List.range soa.getNumParticles).map soa.row

end SoA

/-- A buffer with two attributes and one row of zeros. -/
def sampleSoA : SoA 2 := { soaStorage := fun _ => [0], viewStart := 0 }

/-- The enumerator `Particle::AttributeNames::id`. -/
def Particle.AttributeNames.id : Fin 8 := 0

/-- The enumerator `Particle::AttributeNames::posX`. -/
def Particle.AttributeNames.posX : Fin 8 := 1

/-- The enumerator `Particle::AttributeNames::posY`. -/
def Particle.AttributeNames.posY : Fin 8 := 2

/-- The enumerator `Particle::AttributeNames::posZ`. -/
def Particle.AttributeNames.posZ : Fin 8 := 3

/-- The enumerator `Particle::AttributeNames::forceX`. -/
def Particle.AttributeNames.forceX : Fin 8 := 4

/-- The enumerator `Particle::AttributeNames::forceY`. -/
def Particle.AttributeNames.forceY : Fin 8 := 5

/-- The enumerator `Particle::AttributeNames::forceZ`. -/
def Particle.AttributeNames.forceZ : Fin 8 := 6

/-- The enumerator `Particle::AttributeNames::owned` that `RMMParticleCell3T` uses (the
`Particle.h` of the tree ends with `forceZ`; the spec lists `owned` after it). -/
def Particle.AttributeNames.owned : Fin 8 := 7

/-- A `std::array<double, 3>` from the values that `readMultiple` returns. -/
def arrayOfValues (values : List ℚ) : Vec3 := fun d => values.getD d 0

/-- The values of a `std::array<double, 3>` as `writeMultiple` takes them. -/
def valuesOfArray (a : Vec3) : List ℚ := [a 0, a 1, a 2]

/-- The class `RMMParticleCell3T`: its only data member is the SoA buffer. -/
structure RMMParticleCell where
  _particleSoABuffer : SoA 8

namespace RMMParticleCell

open Particle.AttributeNames

/-- The default constructor `RMMParticleCell3T()`. -/
def new : RMMParticleCell := { _particleSoABuffer := SoA.new }

/-- The method `RMMParticleCell3T::addParticle`: eight `push` calls. The id and the owned
flag are converted to the `double` that `push` takes. -/
def addParticle (cell : RMMParticleCell) (p : Particle) : RMMParticleCell :=
  let b := cell._particleSoABuffer
  let b := b.push id (p.getID : ℚ)
  let b := b.push posX (p.getR 0)
  let b := b.push posY (p.getR 1)
  let b := b.push posZ (p.getR 2)
  let b := b.push forceX (p.getF 0)
  let b := b.push forceY (p.getF 1)
  let b := b.push forceZ (p.getF 2)
  let b := b.push owned (if p.isOwned then 1 else 0)
  { _particleSoABuffer := b }

/-- The method `RMMParticleCell3T::numParticles`. -/
def numParticles (cell : RMMParticleCell) : Nat := cell._particleSoABuffer.getNumParticles

/-- The method `RMMParticleCell3T::clear`. -/
def clear (cell : RMMParticleCell) : RMMParticleCell :=
  { _particleSoABuffer := cell._particleSoABuffer.clear }

/-- The method `RMMParticleCell3T::deleteByIndex`; `numParticles() - 1` is computed in
`unsigned long` arithmetic. -/
def deleteByIndex (cell : RMMParticleCell) (index : Nat) : Except Error Unit × RMMParticleCell :=
  if index ≥ cell.numParticles then (.error Error.indexOutOfRange, cell)
  else
    let last := (cell.numParticles + UINT64_MAX) % (UINT64_MAX + 1)
    let b := cell._particleSoABuffer
    let b := if index < last then b.swap index last else b
    (.ok (), { _particleSoABuffer := b.pop_back })

/-- The method `RMMParticleCell3T::buildParticleFromSoA`: sets position, force and owned flag
of the particle behind `rmm_or_not_pointer` from row `i`; returns the particle as the call
leaves it. -/
def buildParticleFromSoA (cell : RMMParticleCell) (i : Nat) (rmm_or_not_pointer : Particle) :
    Except Error Unit × Particle :=
  match cell._particleSoABuffer.readMultiple [posX, posY, posZ] i with
  | .error e => (.error e, rmm_or_not_pointer)
  | .ok r =>
    let p := rmm_or_not_pointer.setR (arrayOfValues r)
    match cell._particleSoABuffer.readMultiple [forceX, forceY, forceZ] i with
    | .error e => (.error e, p)
    | .ok f =>
      let p := p.setF (arrayOfValues f)
      match cell._particleSoABuffer.read owned i with
      | .error e => (.error e, p)
      | .ok o => (.ok (), p.setOwned (decide (o ≠ 0)))

end RMMParticleCell

/-- The data members of `RMMParticleCellIterator` besides the pointer to its cell. -/
structure RMMParticleCellIterator where
  _AoSReservoir : Particle
  _index : Nat
  _deleted : Bool

namespace RMMParticleCellIterator

/-- The constructor `RMMParticleCellIterator(cell_arg, ind)`: the reservoir particle is
default-constructed. -/
def new (ind : Nat) : RMMParticleCellIterator :=
  { _AoSReservoir := Particle.new, _index := ind, _deleted := false }

/-- The operator `RMMParticleCellIterator::operator*`: builds the reservoir particle from the
row `_index` of the cell and returns it. -/
def deref (cell : RMMParticleCell) (it : RMMParticleCellIterator) :
    Except Error Particle × RMMParticleCellIterator :=
  let r := cell.buildParticleFromSoA it._index it._AoSReservoir
  match r.1 with
  | .error e => (.error e, { it with _AoSReservoir := r.2 })
  | .ok () => (.ok r.2, { it with _AoSReservoir := r.2 })

end RMMParticleCellIterator

/-- A particle with id `7`, position `(1, 2, 3)`, velocity `(1, 0, 0)`, force `(4, 5, 6)`,
owned. -/
def sampleParticle : Particle :=
  { _r := ![1, 2, 3], _v := ![1, 0, 0], _f := ![4, 5, 6], _id := 7, _owned := true }

/-! ## `SlicedBasedTraversal::rebuild`: the remainder loop -/

/-- The values of the local variables `rest` and `numSlices` of
`SlicedBasedTraversal::rebuild` when the loop
`for (size_t i = 0; i < rest; ++i) ++_sliceThickness[i];` is reached (that is, when
`numSlices >= 1`); `maxThreads` is what `autopas_get_max_threads()` returns. -/
def SlicedBasedTraversal.rebuildRest (maxThreads : Nat) (dims : Fin 3 → Nat)
    (t : SlicedBasedTraversal) : Nat × Nat :=
  let _cellsPerDimension := dims
  let _overlap : Fin 3 → Nat := fun d => ⌈t._cutoff / t._cellLength d⌉₊
  let dimsPerLength0 := maxElementIndex _cellsPerDimension
  let _overlapLongestAxis := arrayAt _overlap dimsPerLength0
  let numSlices := maxThreads
  let minSliceThickness := arrayAt _cellsPerDimension dimsPerLength0 / numSlices
  let shrink := decide (minSliceThickness < _overlapLongestAxis + 1)
  let minSliceThickness := if shrink then _overlapLongestAxis + 1 else minSliceThickness
  let numSlices :=
    if shrink then arrayAt _cellsPerDimension dimsPerLength0 / minSliceThickness else numSlices
  let _sliceThickness := List.replicate numSlices minSliceThickness
  let rest := arrayAt _cellsPerDimension dimsPerLength0 - _sliceThickness.headD 0 * numSlices
  (rest, numSlices)

/-- A sliced traversal before `rebuild`, as the constructor initialises it for `5 x 4 x 4`
cells, cutoff `2` and cell length `1` in every dimension (overlap two). -/
def sampleSlicedTraversalFiveCells : SlicedBasedTraversal :=
  { _cellsPerDimension := ![5, 4, 4]
    _overlap := fun _ => 0
    _dimsPerLength := fun _ => 0
    _cutoff := 2
    _cellLength := fun _ => 1
    _overlapLongestAxis := 0
    _sliceThickness := []
    locks := 0 }

/-! ## The iterator of `RMMParticleCell3T`: `operator++` -/

/-- Modelled from the spec: `SoA::write<attribute>`, which `writeParticleToSoA` calls and the
`SoA.h` of the tree does not have; the counterpart of `SoA::read<attribute>`:
`get<attribute>().at(particleId + viewStart) = value`. -/
def SoA.write {n : Nat} (soa : SoA n) (attr : Fin n) (particleId : Nat) (value : ℚ) :
    Except Error Unit × SoA n :=
  let k := (particleId + soa.viewStart) % (UINT64_MAX + 1)
  if k < (soa.soaStorage attr).length then
    (.ok (), { soa with
      soaStorage := Function.update soa.soaStorage attr ((soa.soaStorage attr).set k value) })
  else (.error Error.stdOutOfRange, soa)

/-- The method `RMMParticleCell3T::writeParticleToSoA`: position, force and owned flag of
`particle` are written to row `index`. -/
def RMMParticleCell.writeParticleToSoA (cell : RMMParticleCell) (index : Nat)
    (particle : Particle) : Except Error Unit × RMMParticleCell :=
  let r1 := cell._particleSoABuffer.writeMultiple
    [Particle.AttributeNames.posX, Particle.AttributeNames.posY, Particle.AttributeNames.posZ]
    index (valuesOfArray particle.getR)
  match r1.1 with
  | .error e => (.error e, { _particleSoABuffer := r1.2 })
  | .ok () =>
    let r2 := r1.2.writeMultiple
      [Particle.AttributeNames.forceX, Particle.AttributeNames.forceY,
        Particle.AttributeNames.forceZ]
      index (valuesOfArray particle.getF)
    match r2.1 with
    | .error e => (.error e, { _particleSoABuffer := r2.2 })
    | .ok () =>
      let r3 := r2.2.write Particle.AttributeNames.owned index
        (if particle.isOwned then 1 else 0)
      (r3.1, { _particleSoABuffer := r3.2 })

/-- The operator `RMMParticleCellIterator::operator++`; `modifiable` is the template
parameter of the iterator. Returns the cell and the iterator as the call leaves them. -/
def RMMParticleCellIterator.increment (modifiable : Bool) (cell : RMMParticleCell)
    (it : RMMParticleCellIterator) :
    Except Error Unit × RMMParticleCell × RMMParticleCellIterator :=
  if !it._deleted then
    let w : Except Error Unit × RMMParticleCell :=
      if modifiable then cell.writeParticleToSoA it._index it._AoSReservoir else (.ok (), cell)
    match w.1 with
    | .error e => (.error e, w.2, it)
    | .ok () =>
      (.ok (), w.2, { it with _index := (it._index + 1) % (UINT64_MAX + 1), _deleted := false })
  else (.ok (), cell, { it with _deleted := false })

/-! ## `AutoPas::init` (`AutoPas.h`) -/

/-- The arguments with which `AutoPas::init` constructs the `AutoTuner` (the class is not in
the source tree; `C` and `Tr` are the container and traversal option types). -/
structure AutoTunerArguments (C Tr : Type) where
  boxMin : Vec3
  boxMax : Vec3
  cutoff : ℚ
  verletSkin : ℚ
  verletRebuildFrequency : Nat
  allowedContainers : List C
  allowedTraversals : List Tr
  tuningInterval : Nat

namespace AutoPas

variable {C Tr : Type}

/-- The method `AutoPas::init(boxMin, boxMax, cutoff, verletSkin, verletRebuildFrequency,
allowedContainers, allowedTraversals, tuningInterval)`: the `AutoTuner` it makes. -/
def init (boxMin boxMax : Vec3) (cutoff verletSkin : ℚ) (verletRebuildFrequency : Nat)
    (allowedContainers : List C) (allowedTraversals : List Tr) (tuningInterval : Nat) :
    AutoTunerArguments C Tr :=
  { boxMin := boxMin
    boxMax := boxMax
    cutoff := cutoff
    verletSkin := verletSkin
    verletRebuildFrequency := verletRebuildFrequency
    allowedContainers := allowedContainers
    allowedTraversals := allowedTraversals
    tuningInterval := tuningInterval }

/-- The overload `AutoPas::init(boxSize, cutoff, verletSkin, verletRebuildFrequency,
allowedContainers, allowedTraversals, tuningInterval)`. The fourth argument of the call it
makes is `verletRebuildFrequency`, converted from `unsigned int` to `double`. -/
def initBoxSize (boxSize : Vec3) (cutoff _verletSkin : ℚ) (verletRebuildFrequency : Nat)
    (allowedContainers : List C) (allowedTraversals : List Tr) (tuningInterval : Nat) :
    AutoTunerArguments C Tr :=
  init (fun _ => 0) boxSize cutoff (verletRebuildFrequency : ℚ) verletRebuildFrequency
    allowedContainers allowedTraversals tuningInterval

end AutoPas

/-! ## `Option` and `AcquisitionFunctionOption` (`options/`) -/

/-- The class `AcquisitionFunctionOption`: its member `_value`, an enum value seen as the
integer it converts to. -/
structure AcquisitionFunctionOption where
  _value : Int
deriving DecidableEq, Repr

namespace AcquisitionFunctionOption

/-- The enumerator `upperConfidenceBound`. -/
def upperConfidenceBound : AcquisitionFunctionOption := ⟨0⟩

/-- The enumerator `lowerConfidenceBound`. -/
def lowerConfidenceBound : AcquisitionFunctionOption := ⟨1⟩

/-- The enumerator `mean`. -/
def mean : AcquisitionFunctionOption := ⟨2⟩

/-- The enumerator `variance`. -/
def variance : AcquisitionFunctionOption := ⟨3⟩

/-- The enumerator `probabilityOfDecrease`. -/
def probabilityOfDecrease : AcquisitionFunctionOption := ⟨4⟩

/-- The enumerator `expectedDecrease`. -/
def expectedDecrease : AcquisitionFunctionOption := ⟨5⟩

/-- The default constructor: `_value{Value(-1)}`. -/
def new : AcquisitionFunctionOption := ⟨-1⟩

/-- The method `AcquisitionFunctionOption::getOptionNames`: the entries of the `std::map` in
the order of their keys. -/
def getOptionNames : List (AcquisitionFunctionOption × String) :=
  [(upperConfidenceBound, "upper-confidence-bound"),
   (lowerConfidenceBound, "lower-confidence-bound"),
   (mean, "mean"),
   (variance, "variance"),
   (probabilityOfDecrease, "probability-of-decrease"),
   (expectedDecrease, "expected-decrease")]

/-- The method `Option::to_string` of the base class `Option<AcquisitionFunctionOption>`. -/
def to_string (actualThis : AcquisitionFunctionOption) : String :=
  let mapOptNames := getOptionNames
  match mapOptNames.find? (fun entry => decide (entry.1 = actualThis)) with
  | none => "Unknown Option (" ++ toString actualThis._value ++ ")"
  | some m => m.2

/-- The loop of `Option::parseOptionExact<lowercase>` over the entries of the map, and the
exception after it; `std::transform(..., ::tolower)` maps every character of the name. -/
def parseOptionExactLoop (lowercase : Bool) (optionString : String) :
    List (AcquisitionFunctionOption × String) → Except Error AcquisitionFunctionOption
  | [] => .error Error.optionNoMatch
  | (optionEnum, optionName) :: entries =>
    let optionName :=
      if lowercase then String.mk (optionName.data.map Char.toLower) else optionName
    if optionString = optionName then .ok optionEnum
    else parseOptionExactLoop lowercase optionString entries

/-- The method `Option::parseOptionExact<lowercase>` of the base class
`Option<AcquisitionFunctionOption>`. -/
def parseOptionExact (lowercase : Bool) (optionString : String) :
    Except Error AcquisitionFunctionOption :=
  parseOptionExactLoop lowercase optionString getOptionNames

end AcquisitionFunctionOption

/-! ## `Random::uniformSample` (`utils/Random.h`) -/

namespace Random

variable {α G : Type}

/-- The loop `while (result.size() < n) result.insert(result.end(), pool.begin(), pool.end())`
of `uniformSample`, run for at most `fuel` iterations; `none` when the loop has not ended by
then. `pool` lists the elements of the `std::set` in its iteration order (ascending). -/
def fill (pool : List α) (n : Nat) : Nat → List α → Option (List α)
  | 0, result => if result.length < n then none else some result
  | fuel + 1, result =>
    if result.length < n then fill pool n fuel (result ++ pool) else some result

/-- The method `Random::uniformSample`. The generator `*this` is the state `g`, and
`shuffle g l` is what `std::shuffle` makes of the range `l` with it, together with the
generator state it leaves. -/
def uniformSample (shuffle : G → List α → List α × G) (fuel : Nat) (g : G) (pool : List α)
    (n : Nat) : Option (List α × G) :=
  match fill pool n fuel [] with
  | none => none
  | some result =>
    let r : List α × G :=
      if result.length > n then
        let extra := result.length - n
        let s := shuffle g (result.drop (result.length - extra))
        ((result.take (result.length - extra) ++ s.1).take n, s.2)
      else (result, g)
    some (shuffle r.2 r.1)

/-- A `std::shuffle` that reverses the range and counts its calls in the generator state. -/
def reversingShuffle (g : Nat) (l : List Nat) : List Nat × Nat := (l.reverse, g + 1)

end Random

/-! ## The Lennard-Jones functor (`molecularDynamics/LJFunctor.h`)

The template parameters are fixed to `useMixing = false` and `applyShift = false`;
`calculateGlobals` is a member of the model. The build is without CUDA. -/

/-- The function `ArrayMath::add`: componentwise sum. -/
def ArrayMath.add (a b : Vec3) : Vec3 := fun d => a d + b d

/-- The function `ArrayMath::sub`: componentwise difference. -/
def ArrayMath.sub (a b : Vec3) : Vec3 := fun d => a d - b d

/-- The function `ArrayMath::mul`: componentwise product. -/
def ArrayMath.mul (a b : Vec3) : Vec3 := fun d => a d * b d

/-- The function `ArrayMath::mulScalar`: every component times `s`. -/
def ArrayMath.mulScalar (a : Vec3) (s : ℚ) : Vec3 := fun d => a d * s

/-- The function `ArrayMath::dot`: the scalar product. -/
def ArrayMath.dot (a b : Vec3) : ℚ := a 0 * b 0 + a 1 * b 1 + a 2 * b 2

/-- The method `Particle::addF`. -/
def Particle.addF (p : Particle) (f : Vec3) : Particle := { p with _f := ArrayMath.add p._f f }

/-- The method `Particle::subF`. -/
def Particle.subF (p : Particle) (f : Vec3) : Particle := { p with _f := ArrayMath.sub p._f f }

/-- The class `LJFunctor::AoSThreadData`. -/
structure AoSThreadData where
  virialSum : Vec3
  upotSum : ℚ

/-- The method `AoSThreadData::setZero`. -/
def AoSThreadData.setZero (_data : AoSThreadData) : AoSThreadData :=
  { virialSum := fun _ => 0, upotSum := 0 }

/-- The data members of `LJFunctor`, with its template parameter `calculateGlobals`. -/
structure LJFunctor where
  calculateGlobals : Bool
  _cutoffsquare : ℚ
  _epsilon24 : ℚ
  _sigmasquare : ℚ
  _shift6 : ℚ
  _upotSum : ℚ
  _virialSum : Vec3
  _aosThreadData : List AoSThreadData
  _duplicatedCalculations : Bool
  _postProcessed : Bool

/-- Modelled from the spec: the class `SoAView` is not in the source tree. `SoAFunctor` uses
its `getNumParticles()` and the pointers `begin<attribute>()` to the first viewed element of
the position, owned and force columns; the view is these arrays, indexed from `0`. -/
structure SoAView where
  numParticles : Nat
  r : Fin 3 → Nat → ℚ
  ownedPtr : Nat → Bool
  f : Fin 3 → Nat → ℚ

/-- The variables that the loops of `SoAFunctor(soa, newton3)` update: the force arrays
behind `fxptr`, `fyptr`, `fzptr`, and `upotSum`, `virialSumX`, `virialSumY`, `virialSumZ`. -/
structure SoAFunctorState where
  f : Fin 3 → Nat → ℚ
  upotSum : ℚ
  virialSum : Vec3

namespace LJFunctor

/-- The constructor `LJFunctor(cutoff, duplicatedCalculation)`; `maxThreads` is what
`autopas_get_max_threads()` returns. `_epsilon24` and `_sigmasquare` are not initialised by
the constructor; they are zero here until `setParticleProperties` sets them. -/
def new (calculateGlobals : Bool) (maxThreads : Nat) (cutoff : ℚ)
    (duplicatedCalculation : Bool) : LJFunctor :=
  { calculateGlobals := calculateGlobals
    _cutoffsquare := cutoff * cutoff
    _epsilon24 := 0
    _sigmasquare := 0
    _shift6 := 0
    _upotSum := 0
    _virialSum := fun _ => 0
    _aosThreadData :=
      if calculateGlobals then List.replicate maxThreads ⟨fun _ => 0, 0⟩ else []
    _duplicatedCalculations := duplicatedCalculation
    _postProcessed := false }

/-- The method `LJFunctor::setParticleProperties` (without shift). -/
def setParticleProperties (F : LJFunctor) (epsilon24 sigmaSquare : ℚ) : LJFunctor :=
  { F with _epsilon24 := epsilon24, _sigmasquare := sigmaSquare, _shift6 := 0 }

/-- The statements `_aosThreadData[threadnum].upotSum += upot;` and
`_aosThreadData[threadnum].virialSum = ArrayMath::add(_aosThreadData[threadnum].virialSum,
virial);`. A thread number past the end of the vector is undefined behaviour in C++; the
functor is then left as it is. -/
def addToThreadData (F : LJFunctor) (threadnum : Nat) (upot : ℚ) (virial : Vec3) :
    LJFunctor :=
  match F._aosThreadData[threadnum]? with
  | none => F
  | some data =>
    { F with
      _aosThreadData := F._aosThreadData.set threadnum
        { upotSum := data.upotSum + upot
          virialSum := ArrayMath.add data.virialSum virial } }

/-- The method `LJFunctor::AoSFunctor(i, j, newton3)` in exact arithmetic; `threadnum` is
what `autopas_get_thread_num()` returns. Returns the functor and the two particles as the call
leaves them (`i` and `j` are references to two different particles). -/
def AoSFunctor (F : LJFunctor) (threadnum : Nat) (i j : Particle) (newton3 : Bool) :
    LJFunctor × Particle × Particle :=
  let sigmasquare := F._sigmasquare
  let epsilon24 := F._epsilon24
  let shift6 := F._shift6
  let dr := ArrayMath.sub i.getR j.getR
  let dr2 := ArrayMath.dot dr dr
  if dr2 > F._cutoffsquare then (F, i, j)
  else
    let invdr2 := 1 / dr2
    let lj6 := sigmasquare * invdr2
    let lj6 := lj6 * lj6 * lj6
    let lj12 := lj6 * lj6
    let lj12m6 := lj12 - lj6
    let fac := epsilon24 * (lj12 + lj12m6) * invdr2
    let f := ArrayMath.mulScalar dr fac
    let i := i.addF f
    let j := if newton3 then j.subF f else j
    if F.calculateGlobals then
      let virial := ArrayMath.mul dr f
      let upot := epsilon24 * lj12m6 + shift6
      if F._duplicatedCalculations then
        let upot := if newton3 then upot * (1 / 2) else upot
        let virial := if newton3 then ArrayMath.mulScalar virial (1 / 2) else virial
        let F := if i.isOwned then F.addToThreadData threadnum upot virial else F
        let F := if newton3 && j.isOwned then F.addToThreadData threadnum upot virial else F
        (F, i, j)
      else
        (F.addToThreadData threadnum upot virial, i, j)
    else (F, i, j)

/-- The body of the inner loop of `SoAFunctor(soa, newton3)` for the indices `i` and `j`;
`acc` is `(fxacc, fyacc, fzacc)`. The three coordinates, which the source writes out one by
one, are the three components. -/
def SoAFunctorKernel (F : LJFunctor) (soa : SoAView) (i j : Nat) (acc : Vec3)
    (st : SoAFunctorState) : Vec3 × SoAFunctorState :=
  let dr : Vec3 := fun d => soa.r d i - soa.r d j
  let dr2 := dr 0 * dr 0 + dr 1 * dr 1 + dr 2 * dr 2
  let mask : ℚ := if dr2 > F._cutoffsquare then 0 else 1
  let invdr2 := 1 / dr2
  let lj2 := F._sigmasquare * invdr2
  let lj6 := lj2 * lj2 * lj2
  let lj12 := lj6 * lj6
  let lj12m6 := lj12 - lj6
  let fac := F._epsilon24 * (lj12 + lj12m6) * invdr2 * mask
  let f : Vec3 := fun d => dr d * fac
  let acc : Vec3 := fun d => acc d + f d
  let fptr : Fin 3 → Nat → ℚ := fun d => Function.update (st.f d) j (st.f d j - f d)
  if F.calculateGlobals then
    let virial : Vec3 := fun d => dr d * f d
    let upot := (F._epsilon24 * lj12m6 + F._shift6) * mask
    (acc, { f := fptr
            upotSum := st.upotSum + upot
            virialSum := fun d => st.virialSum d + virial d })
  else (acc, { st with f := fptr })

/-- The iteration `i` of the outer loop of `SoAFunctor(soa, newton3)`: the inner loop over
`j = i + 1, ..., numParticles - 1`, then `fxptr[i] += fxacc` and likewise for `y`, `z`. -/
def SoAFunctorOuter (F : LJFunctor) (soa : SoAView) (st : SoAFunctorState) (i : Nat) :
    SoAFunctorState :=
  let r := (List.range' (i + 1) (soa.numParticles - (i + 1))).foldl
    (fun p j => SoAFunctorKernel F soa i j p.1 p.2) ((fun _ => 0 : Vec3), st)
  { r.2 with f := fun d => Function.update (r.2.f d) i (r.2.f d i + r.1 d) }

/-- The method `LJFunctor::SoAFunctor(soa, newton3)`; `threadnum` is what
`autopas_get_thread_num()` returns. The loop counters are `unsigned int` and do not wrap for a
view of fewer than `2^32` particles. -/
def SoAFunctor (F : LJFunctor) (threadnum : Nat) (soa : SoAView) (newton3 : Bool) :
    LJFunctor × SoAView :=
  if soa.numParticles = 0 then (F, soa)
  else if F.calculateGlobals && !soa.ownedPtr 0 then (F, soa)
  else
    let st := (List.range soa.numParticles).foldl (SoAFunctorOuter F soa)
      { f := soa.f, upotSum := 0, virialSum := fun _ => 0 }
    let F :=
      if F.calculateGlobals then
        F.addToThreadData threadnum (st.upotSum * (if newton3 then 1 else 2))
          (fun d => st.virialSum d * (if newton3 then 1 else 2))
      else F
    (F, { soa with f := st.f })

/-- The method `LJFunctor::initTraversal`. -/
def initTraversal (F : LJFunctor) : LJFunctor :=
  { F with
    _upotSum := 0
    _virialSum := fun _ => 0
    _postProcessed := false
    _aosThreadData := F._aosThreadData.map AoSThreadData.setZero }

/-- The method `LJFunctor::endTraversal(newton3)`. -/
def endTraversal (F : LJFunctor) (newton3 : Bool) : Except Error Unit × LJFunctor :=
  if F._postProcessed then (.error Error.alreadyPostprocessed, F)
  else if F.calculateGlobals then
    let _upotSum := F._aosThreadData.foldl (fun s data => s + data.upotSum) F._upotSum
    let _virialSum :=
      F._aosThreadData.foldl (fun s data => ArrayMath.add s data.virialSum) F._virialSum
    let _upotSum := if !newton3 then _upotSum * (1 / 2) else _upotSum
    let _virialSum := if !newton3 then ArrayMath.mulScalar _virialSum (1 / 2) else _virialSum
    let _upotSum := _upotSum / 6
    (.ok (), { F with _upotSum := _upotSum, _virialSum := _virialSum, _postProcessed := true })
  else (.ok (), F)

/-- The method `LJFunctor::getUpot`. -/
def getUpot (F : LJFunctor) : Except Error ℚ :=
  if !F.calculateGlobals then .error Error.upotNotCalculated
  else if !F._postProcessed then .error Error.upotBeforeEndTraversal
  else .ok F._upotSum

/-- The method `LJFunctor::getVirial`. -/
def getVirial (F : LJFunctor) : Except Error ℚ :=
  if !F.calculateGlobals then .error Error.virialNotCalculated
  else if !F._postProcessed then .error Error.virialBeforeEndTraversal
  else .ok (F._virialSum 0 + F._virialSum 1 + F._virialSum 2)

/-- The calls `AoSFunctor(particles[a], particles[b], newton3)` for the index pairs of a
list, in order, on an array of particles. -/
def AoSFunctorPairs (threadnum : Nat) (newton3 : Bool) :
    List (Nat × Nat) → LJFunctor × (Nat → Particle) → LJFunctor × (Nat → Particle)
  | [], s => s
  | (a, b) :: pairs, s =>
    let r := AoSFunctor s.1 threadnum (s.2 a) (s.2 b) newton3
    AoSFunctorPairs threadnum newton3 pairs
      (r.1, Function.update (Function.update s.2 a r.2.1) b r.2.2)

end LJFunctor

/-- The index pairs `(a, b)` with `a < b < n`, in lexicographic order. -/
def indexPairs (n : Nat) : List (Nat × Nat) :=
  (List.range n).flatMap fun a => (List.range' (a + 1) (n - (a + 1))).map fun b => (a, b)

/-- The particle that row `k` of a view stands for: its position and force (id `k`, zero
velocity). -/
def SoAView.particle (soa : SoAView) (k : Nat) : Particle :=
  { _r := fun d => soa.r d k
    _v := fun _ => 0
    _f := fun d => soa.f d k
    _id := k
    _owned := soa.ownedPtr k }

/-- A functor with cutoff `3`, `24 epsilon = 24` and `sigma^2 = 1`. -/
def sampleLJFunctor (calculateGlobals : Bool) : LJFunctor :=
  (LJFunctor.new calculateGlobals 1 3 true).setParticleProperties 24 1

/-- A view of two particles at `(0, 0, 0)` and `(1, 0, 0)` with zero forces; `owned0` is the
owned flag of the first, the second is owned. -/
def sampleSoAView (owned0 : Bool) : SoAView :=
  { numParticles := 2
    r := fun d k => if d = 0 ∧ k = 1 then 1 else 0
    ownedPtr := fun k => if k = 0 then owned0 else true
    f := fun _ _ => 0 }

/-- The force that one evaluation of the Lennard-Jones kernel puts on the first particle of a
pair at the positions `ri`, `rj`: `dr * fac` within the cutoff, zero beyond it. -/
def LJFunctor.pairForce (F : LJFunctor) (ri rj : Vec3) : Vec3 :=
  let dr := ArrayMath.sub ri rj
  let dr2 := ArrayMath.dot dr dr
  if dr2 > F._cutoffsquare then fun _ => 0
  else
    let invdr2 := 1 / dr2
    let lj6 := F._sigmasquare * invdr2
    let lj6 := lj6 * lj6 * lj6
    let lj12 := lj6 * lj6
    let lj12m6 := lj12 - lj6
    ArrayMath.mulScalar dr (F._epsilon24 * (lj12 + lj12m6) * invdr2)

/-- The functor state `F'` differs from `F` at most in the contents of the thread data. -/
def LJFunctor.sameParameters (F' F : LJFunctor) : Prop :=
  F'._cutoffsquare = F._cutoffsquare ∧ F'._sigmasquare = F._sigmasquare ∧
  F'._epsilon24 = F._epsilon24 ∧ F'._shift6 = F._shift6 ∧
  F'.calculateGlobals = F.calculateGlobals ∧
  F'._duplicatedCalculations = F._duplicatedCalculations ∧
  F'._postProcessed = F._postProcessed ∧ F'._upotSum = F._upotSum ∧
  F'._virialSum = F._virialSum ∧ F'._aosThreadData.length = F._aosThreadData.length

/-- The pair force between the rows `a` and `b` of a view. -/
def LJFunctor.viewForce (F : LJFunctor) (soa : SoAView) (a b : Nat) : Vec3 :=
  F.pairForce (fun d => soa.r d a) (fun d => soa.r d b)

/-- The effect of one kernel evaluation with Newton's third law on force arrays: the pair
force `G a b` is added at index `a` and subtracted at index `b`. -/
def applyPairForce (G : Nat → Nat → Vec3) (f : Fin 3 → Nat → ℚ) (p : Nat × Nat) :
    Fin 3 → Nat → ℚ :=
  fun d => Function.update (Function.update (f d) p.1 (f d p.1 + G p.1 p.2 d)) p.2
    (f d p.2 - G p.1 p.2 d)

/-- The potential energy (times six) that one kernel evaluation computes for a pair at the
positions `ri`, `rj`: `epsilon24 * lj12m6 + shift6` within the cutoff, zero beyond it. -/
def LJFunctor.pairUpot (F : LJFunctor) (ri rj : Vec3) : ℚ :=
  let dr := ArrayMath.sub ri rj
  let dr2 := ArrayMath.dot dr dr
  if dr2 > F._cutoffsquare then 0
  else
    let invdr2 := 1 / dr2
    let lj6 := F._sigmasquare * invdr2
    let lj6 := lj6 * lj6 * lj6
    let lj12 := lj6 * lj6
    let lj12m6 := lj12 - lj6
    F._epsilon24 * lj12m6 + F._shift6

/-- The virial that one kernel evaluation computes for a pair at the positions `ri`, `rj`:
`dr * f` componentwise. -/
def LJFunctor.pairVirial (F : LJFunctor) (ri rj : Vec3) : Vec3 :=
  ArrayMath.mul (ArrayMath.sub ri rj) (F.pairForce ri rj)

/-- The sum of `upotSum` over the thread data of a functor. -/
def LJFunctor.threadUpot (F : LJFunctor) : ℚ := (F._aosThreadData.map fun data => data.upotSum).sum

/-- The sum of component `d` of `virialSum` over the thread data of a functor. -/
def LJFunctor.threadVirial (F : LJFunctor) (d : Fin 3) : ℚ :=
  (F._aosThreadData.map fun data => data.virialSum d).sum


/-! ## `VerletClusterCells`: `rebuild`, bounding boxes, region iterator -/

/-- The setter `Particle::setID`. -/
def Particle.setID (p : Particle) (id : Nat) : Particle := { p with _id := id }

/-- The conversion of a `double` to `size_t` (`(size_t)x`, `static_cast<size_t>(x)`): the
value is truncated toward zero. The conversion is undefined when the truncated value is
negative or does not fit a `size_t`; the result is then `none`. -/
def doubleToSizeT (x : ℚ) : Option Nat :=
  if x ≤ -1 then none
  else if x ≥ UINT64_MAX + 1 then none
  else some ⌊x⌋₊

/-- Modelled from the spec: `FullParticleCell::sortByDim(2)` (the cell class is not in the
source tree; the spec says "Sort each grid column by z"): the particles of the cell in
ascending order of their z-coordinate. -/
def sortByDim2 (particles : List Particle) : List Particle :=
  particles.insertionSort fun a b => a.getR 2 ≤ b.getR 2

/-- The call `_cells[index].addParticle(p)` on the vector of cells, for an index below its
size. -/
def addParticleToCell : List (List Particle) → Nat → Particle → List (List Particle)
  | [], _, _ => []
  | c :: cs, 0, p => (c ++ [p]) :: cs
  | c :: cs, index + 1, p => c :: addParticleToCell cs index p

namespace VerletClusterCells

/-- The loop of `VerletClusterCells::deleteDummyParticles`: `_cells[i].resize(_dummyStarts[i])`
for every cell. -/
def deleteDummyParticlesCells : List (List Particle) → List Nat → List (List Particle)
  | c :: cs, d :: ds => resize c d :: deleteDummyParticlesCells cs ds
  | cs, _ => cs

/-- The method `VerletClusterCells::deleteDummyParticles`. -/
def deleteDummyParticles (s : VerletClusterCells) : VerletClusterCells :=
  { s with _cells := deleteDummyParticlesCells s._cells s._dummyStarts, _isValid := false }

/-- The column index that `rebuild` computes for a particle:
`(size_t)((x - _boxMinWithHalo[0]) * _gridSideLengthReciprocal) +
(size_t)((y - _boxMinWithHalo[1]) * _gridSideLengthReciprocal) * _cellsPerDim[0]`, in `size_t`
arithmetic; `none` when a conversion is undefined. -/
def gridIndex (boxMinWithHalo : Vec3) (gridSideLengthReciprocal : ℚ) (cellsPerDim0 : Nat)
    (p : Particle) : Option Nat :=
  match doubleToSizeT ((p.getR 0 - boxMinWithHalo 0) * gridSideLengthReciprocal),
      doubleToSizeT ((p.getR 1 - boxMinWithHalo 1) * gridSideLengthReciprocal) with
  | some x, some y => some ((x + y * cellsPerDim0) % (UINT64_MAX + 1))
  | _, _ => none

/-- The loop of `rebuild` that puts the collected particles into the grid cells. An index
that is undefined or not below the number of cells is undefined behaviour (`_cells[index]`
past the end of the vector); the result is then `none`. -/
def binParticles (boxMinWithHalo : Vec3) (gridSideLengthReciprocal : ℚ) (cellsPerDim0 : Nat) :
    List Particle → List (List Particle) → Option (List (List Particle))
  | [], cells => some cells
  | p :: invalidParticles, cells =>
    match gridIndex boxMinWithHalo gridSideLengthReciprocal cellsPerDim0 p with
    | none => none
    | some index =>
      if index < cells.length then
        binParticles boxMinWithHalo gridSideLengthReciprocal cellsPerDim0 invalidParticles
          (addParticleToCell cells index p)
      else none

/-- The dummy particle number `j` that `rebuild` appends to cell `i`: a default-constructed
particle with its position beyond the box, the largest `size_t` as id and not owned. -/
def dummyParticle (s : VerletClusterCells) (i j : Nat) : Particle :=
  ((Particle.new.setR
    ![s._boxMaxWithHalo 0 + 8 * s.getInteractionLength + (i : ℚ),
      s._boxMaxWithHalo 1 + 8 * s.getInteractionLength + (j : ℚ),
      s._boxMaxWithHalo 2 + 8 * s.getInteractionLength]).setID UINT64_MAX).setOwned false

/-- The body of the loop of `rebuild` that sorts cell `i` and pads it with dummy particles:
the cell after it and its dummy start. -/
def padCell (s : VerletClusterCells) (i : Nat) (cell : List Particle) : List Particle × Nat :=
  let cell := sortByDim2 cell
  let numParticles := cell.length
  let numDummys := s._clusterSize
  let numDummys :=
    if numParticles > 0 then numDummys - numParticles % s._clusterSize else numDummys
  (cell ++ (List.range numDummys).map fun j => s.dummyParticle i j, numParticles)

/-- The method `VerletClusterCells::expandBoundingBox`. -/
def expandBoundingBox (box : Fin 6 → ℚ) (p : Particle) : Fin 6 → ℚ :=
  ![min (box 0) (p.getR 0), min (box 1) (p.getR 1), min (box 2) (p.getR 2),
    max (box 3) (p.getR 0), max (box 4) (p.getR 1), max (box 5) (p.getR 2)]

/-- The body of the loop of `rebuild` that makes the bounding boxes of one cell: `nClusters`
boxes, each started as `(_boxMaxWithHalo, _boxMinWithHalo)` and expanded by the particles
`pid = cid * _clusterSize, ..., _dummyStarts[i] - 1`. -/
def makeBoundingBoxes (s : VerletClusterCells) (cell : List Particle) (dummyStart : Nat) :
    List (Fin 6 → ℚ) :=
  let nClusters := cell.length / s._clusterSize
  (List.range nClusters).map fun cid =>
    (List.range' (cid * s._clusterSize) (dummyStart - cid * s._clusterSize)).foldl
      (fun box pid => expandBoundingBox box (cell.getD pid Particle.new))
      ![s._boxMaxWithHalo 0, s._boxMaxWithHalo 1, s._boxMaxWithHalo 2,
        s._boxMinWithHalo 0, s._boxMinWithHalo 1, s._boxMinWithHalo 2]

/-- The particles that `rebuild` collects to put back into the grid (`invalidParticles`):
those inside the box and those that are not owned, in the order of the cells. -/
def rebuildInvalidParticles (s : VerletClusterCells) : List Particle :=
  s.deleteDummyParticles._cells.flatten.filter fun p =>
    utils.inBox p.getR s._boxMin s._boxMax || !p.isOwned

/-- The particles that `rebuild` returns (`outsideParticles`): the owned ones outside the
box, in the order of the cells. -/
def rebuildOutsideParticles (s : VerletClusterCells) : List Particle :=
  s.deleteDummyParticles._cells.flatten.filter fun p =>
    !utils.inBox p.getR s._boxMin s._boxMax && p.isOwned

/-- The grid side length that `rebuild` chooses: `cbrt(_clusterSize / density)` with
`density = max(1, invalidParticles.size()) / volume`; `cbrt` stands for `std::cbrt`. -/
def rebuildGridSideLength (cbrt : ℚ → ℚ) (s : VerletClusterCells) : ℚ :=
  let boxSize : Vec3 := fun d => s._boxMaxWithHalo d - s._boxMinWithHalo d
  let volume := 1 * boxSize 0 * boxSize 1 * boxSize 2
  let density := max 1 (s.rebuildInvalidParticles.length : ℚ) / volume
  cbrt ((s._clusterSize : ℚ) / density)

/-- The method `VerletClusterCells::rebuild`; `cbrt` stands for `std::cbrt`. Returns
`outsideParticles` and the container, or `none` when the behaviour is undefined: a conversion
to `size_t` of a negative value, a division by a cluster size of zero, or a cell index past
the end of `_cells`. -/
def rebuild (cbrt : ℚ → ℚ) (s : VerletClusterCells) : Option (List Particle × VerletClusterCells) :=
  let invalidParticles := s.rebuildInvalidParticles
  let outsideParticles := s.rebuildOutsideParticles
  let boxSize : Vec3 := fun d => s._boxMaxWithHalo d - s._boxMinWithHalo d
  let _gridSideLength := rebuildGridSideLength cbrt s
  let _gridSideLengthReciprocal := 1 / _gridSideLength
  match doubleToSizeT (⌈boxSize 0 * _gridSideLengthReciprocal⌉ : ℚ),
      doubleToSizeT (⌈boxSize 1 * _gridSideLengthReciprocal⌉ : ℚ) with
  | some cellsPerDim0, some cellsPerDim1 =>
    let sizeGrid := (1 * cellsPerDim0 % (UINT64_MAX + 1)) * cellsPerDim1 % (UINT64_MAX + 1)
    if s._clusterSize = 0 then none
    else
      match binParticles s._boxMinWithHalo _gridSideLengthReciprocal cellsPerDim0
          invalidParticles (List.replicate sizeGrid []) with
      | none => none
      | some cells =>
        let padded := (List.range sizeGrid).map fun i => padCell s i (cells.getD i [])
        some (outsideParticles,
          { s with
            _cells := padded.map Prod.fst
            _dummyStarts := padded.map Prod.snd
            _boundingBoxes := padded.map fun c => makeBoundingBoxes s c.1 c.2
            _gridSideLength := _gridSideLength
            _gridSideLengthReciprocal := _gridSideLengthReciprocal
            _cellsPerDim := ![cellsPerDim0, cellsPerDim1, 1]
            _isValid := true })
  | _, _ => none

/-- The vector `cellsOfInterest` that the non-const `getRegionIterator(lowerCorner,
higherCorner, behavior)` computes on a container whose lists are valid; `none` when a
conversion to `size_t` is undefined. The differences are taken in `size_t` arithmetic;
`start` is taken to fit the `int` it is stored in. -/
def cellsOfInterest (s : VerletClusterCells) (lowerCorner higherCorner : Vec3) :
    Option (List Nat) :=
  let lowerCornerInBounds : Vec3 := fun d => max (lowerCorner d) (s._boxMinWithHalo d)
  let upperCornerInBounds : Vec3 := fun d => min (higherCorner d) (s._boxMaxWithHalo d)
  match
    doubleToSizeT
      ((lowerCornerInBounds 0 - s._boxMinWithHalo 0 - s._skin) * s._gridSideLengthReciprocal),
    doubleToSizeT
      ((lowerCornerInBounds 1 - s._boxMinWithHalo 1 - s._skin) * s._gridSideLengthReciprocal),
    doubleToSizeT
      ((upperCornerInBounds 0 - s._boxMinWithHalo 0 + s._skin) * s._gridSideLengthReciprocal),
    doubleToSizeT
      ((upperCornerInBounds 1 - s._boxMinWithHalo 1 + s._skin) * s._gridSideLengthReciprocal)
  with
  | some xmin, some ymin, some xtop, some ytop =>
    let xlength := ((xtop + (UINT64_MAX + 1) - xmin) % (UINT64_MAX + 1) + 1) % (UINT64_MAX + 1)
    let ylength := ((ytop + (UINT64_MAX + 1) - ymin) % (UINT64_MAX + 1) + 1) % (UINT64_MAX + 1)
    let start := xmin + ymin * s._cellsPerDim 0
    some ((List.range ylength).flatMap fun i =>
      List.range' (start + i * s._cellsPerDim 0) xlength)
  | _, _, _, _ => none

/-- The vector `cellsOfInterest` that the const overload of `getRegionIterator` computes on a
container whose lists are valid: `xlength` and `ylength` are computed in `double` and then
converted to `size_t`. -/
def cellsOfInterestConst (s : VerletClusterCells) (lowerCorner higherCorner : Vec3) :
    Option (List Nat) :=
  let lowerCornerInBounds : Vec3 := fun d => max (lowerCorner d) (s._boxMinWithHalo d)
  let upperCornerInBounds : Vec3 := fun d => min (higherCorner d) (s._boxMaxWithHalo d)
  match
    doubleToSizeT
      ((lowerCornerInBounds 0 - s._boxMinWithHalo 0 - s._skin) * s._gridSideLengthReciprocal),
    doubleToSizeT
      ((lowerCornerInBounds 1 - s._boxMinWithHalo 1 - s._skin) * s._gridSideLengthReciprocal)
  with
  | some xmin, some ymin =>
    match
      doubleToSizeT
        (((upperCornerInBounds 0 - s._boxMinWithHalo 0 + s._skin) * s._gridSideLengthReciprocal
          - (xmin : ℚ)) + 1),
      doubleToSizeT
        (((upperCornerInBounds 1 - s._boxMinWithHalo 1 + s._skin) * s._gridSideLengthReciprocal
          - (ymin : ℚ)) + 1)
    with
    | some xlength, some ylength =>
      let start := xmin + ymin * s._cellsPerDim 0
      some ((List.range ylength).flatMap fun i =>
        List.range' (start + i * s._cellsPerDim 0) xlength)
    | _, _ => none
  | _, _ => none

end VerletClusterCells

/-- A `std::cbrt` that is exact on the argument of the examples, `cbrt(1000) = 10`. -/
def sampleCbrt (x : ℚ) : ℚ := if x = 1000 then 10 else 1

/-- An owned particle at `(5, 10, 1)` with id `1`. -/
def sampleOwnedParticle : Particle := particleAt ![5, 10, 1] 1 true

/-- A halo particle at `(30, 5, 2)` with id `2`. -/
def sampleHaloParticle : Particle := particleAt ![30, 5, 2] 2 false

/-- A container on the box `[0, 23) x [0, 18) x [0, 2)` with cutoff `1`, skin `0` and cluster
size `1` (box with halo `[-1, 24] x [-1, 19] x [-1, 3]`), as the constructor, `addParticle`
of the owned particle at `(5, 10, 1)` and `addHaloParticle` of the halo particle at
`(30, 5, 2)` leave it. -/
def sampleClusterCells : VerletClusterCells :=
  { _boxMin := ![0, 0, 0]
    _boxMax := ![23, 18, 2]
    _cutoff := 1
    _skin := 0
    _cells := [[sampleOwnedParticle, sampleHaloParticle]]
    _boxMinWithHalo := ![-1, -1, -1]
    _boxMaxWithHalo := ![24, 19, 3]
    _dummyStarts := [2]
    _clusterSize := 1
    _boundingBoxes := []
    _gridSideLength := 0
    _gridSideLengthReciprocal := 0
    _cellsPerDim := fun _ => 0
    _isValid := false }

/-- The container that `rebuild` makes of `sampleClusterCells`: grid side length `10`,
`3 x 2` columns; both particles are in column `3`, followed by one dummy; every other column
holds one dummy. -/
def sampleRebuiltCells : VerletClusterCells :=
  { sampleClusterCells with
    _cells :=
      [[(Particle.new.setR ![32, 27, 11]).setID UINT64_MAX |>.setOwned false],
       [(Particle.new.setR ![33, 27, 11]).setID UINT64_MAX |>.setOwned false],
       [(Particle.new.setR ![34, 27, 11]).setID UINT64_MAX |>.setOwned false],
       [sampleOwnedParticle, sampleHaloParticle,
        (Particle.new.setR ![35, 27, 11]).setID UINT64_MAX |>.setOwned false],
       [(Particle.new.setR ![36, 27, 11]).setID UINT64_MAX |>.setOwned false],
       [(Particle.new.setR ![37, 27, 11]).setID UINT64_MAX |>.setOwned false]]
    _dummyStarts := [0, 0, 0, 2, 0, 0]
    _boundingBoxes :=
      [[![24, 19, 3, -1, -1, -1]], [![24, 19, 3, -1, -1, -1]], [![24, 19, 3, -1, -1, -1]],
       [![5, 5, 1, 30, 10, 2], ![24, 5, 2, 30, 5, 2], ![24, 19, 3, -1, -1, -1]],
       [![24, 19, 3, -1, -1, -1]], [![24, 19, 3, -1, -1, -1]]]
    _gridSideLength := 10
    _gridSideLengthReciprocal := 1 / 10
    _cellsPerDim := ![3, 2, 1]
    _isValid := true }

/-- A halo particle at `(100, 5, 2)` with id `2`, far outside the box with halo. -/
def sampleFarParticle : Particle := particleAt ![100, 5, 2] 2 false

/-- The container `sampleClusterCells` with the far halo particle at `(100, 5, 2)` in place of
the halo particle at `(30, 5, 2)`, as the constructor, `addParticle` and `addHaloParticle`
leave it. -/
def sampleFarCells : VerletClusterCells :=
  { sampleClusterCells with _cells := [[sampleOwnedParticle, sampleFarParticle]] }

/-- A halo particle at `(-1, 5, 1)` with id `7`. -/
def sampleNearHaloParticle : Particle := particleAt ![-1, 5, 1] 7 false

/-- The container on the box `[0, 23) x [0, 18) x [0, 2)` with cutoff `1`, skin `0`, as the
constructor and `addHaloParticle` of the halo particle at `(-1, 5, 1)` leave it. -/
def sampleHaloOnlyCells : VerletClusterCells :=
  { sampleClusterCells with _cells := [[sampleNearHaloParticle]], _dummyStarts := [1] }


namespace VerletClusterCells

end VerletClusterCells

namespace VerletClusterCells

/-- The number of elements `xlength * ylength`, in `size_t` arithmetic, with which the
non-const `getRegionIterator(lowerCorner, higherCorner, behavior)` constructs the vector
`cellsOfInterest` on a container whose lists are valid, in `double` arithmetic: the
differences, the sums and the products with `_gridSideLengthReciprocal` are rounded with `fl`
before the conversion to `size_t`; `none` when a conversion is undefined. -/
def cellsOfInterestSize (fl : ℚ → ℚ) (s : VerletClusterCells) (lowerCorner higherCorner : Vec3) :
    Option Nat :=
  let lowerCornerInBounds : Vec3 := fun d => max (lowerCorner d) (s._boxMinWithHalo d)
  let upperCornerInBounds : Vec3 := fun d => min (higherCorner d) (s._boxMaxWithHalo d)
  match
    doubleToSizeT
      (fl (fl (fl (lowerCornerInBounds 0 - s._boxMinWithHalo 0) - s._skin)
        * s._gridSideLengthReciprocal)),
    doubleToSizeT
      (fl (fl (fl (lowerCornerInBounds 1 - s._boxMinWithHalo 1) - s._skin)
        * s._gridSideLengthReciprocal)),
    doubleToSizeT
      (fl (fl (fl (upperCornerInBounds 0 - s._boxMinWithHalo 0) + s._skin)
        * s._gridSideLengthReciprocal)),
    doubleToSizeT
      (fl (fl (fl (upperCornerInBounds 1 - s._boxMinWithHalo 1) + s._skin)
        * s._gridSideLengthReciprocal))
  with
  | some xmin, some ymin, some xtop, some ytop =>
    let xlength := ((xtop + (UINT64_MAX + 1) - xmin) % (UINT64_MAX + 1) + 1) % (UINT64_MAX + 1)
    let ylength := ((ytop + (UINT64_MAX + 1) - ymin) % (UINT64_MAX + 1) + 1) % (UINT64_MAX + 1)
    some (xlength * ylength % (UINT64_MAX + 1))
  | _, _, _, _ => none

/-- The largest number of elements of a `std::vector<size_t>`: `max_size()`, which is
`PTRDIFF_MAX / sizeof(size_t)` with 64-bit pointers. -/
def vectorMaxSize : Nat := 1152921504606846975

/-- The method `VerletClusterCells::updateHaloParticle` in `double` arithmetic, as far as the
source tree decides it. The call `getRegionIterator(r - skin/2, r + skin/2, haloOnly)`
rebuilds the lists when they are not valid and constructs
`std::vector<size_t> cellsOfInterest(xlength * ylength)`, which throws `std::length_error` for
more than `max_size()` elements. The loop over the region iterator (its class is not in the
source tree) is the parameter `search`: it returns whether a particle was updated and the
container it leaves. `cbrt` stands for `std::cbrt`. The result is `none` when the behaviour is
undefined. -/
def updateHaloParticle (fl cbrt : ℚ → ℚ)
    (search : VerletClusterCells → Particle → Bool × VerletClusterCells)
    (s : VerletClusterCells) (haloParticle : Particle) :
    Option (Except Error Bool × VerletClusterCells) :=
  let pCopy := haloParticle
  let pCopy := pCopy.setOwned false
  let rebuilt := if !s._isValid then (rebuild cbrt s).map Prod.snd else some s
  match rebuilt with
  | none => none
  | some s1 =>
    match s1.cellsOfInterestSize fl (ArrayMath.subScalarFl fl pCopy.getR (fl (s1._skin / 2)))
        (ArrayMath.addScalarFl fl pCopy.getR (fl (s1._skin / 2))) with
    | none => none
    | some size =>
      if size > vectorMaxSize then some (.error Error.stdLengthError, s1)
      else
        let r := search s1 pCopy
        some (.ok r.1, r.2)

end VerletClusterCells

/-- The function `ArrayMath::add` in `double` arithmetic: every sum is rounded. -/
def ArrayMath.addFl (fl : ℚ → ℚ) (a b : Vec3) : Vec3 := fun d => fl (a d + b d)

/-- The function `ArrayMath::sub` in `double` arithmetic: every difference is rounded. -/
def ArrayMath.subFl (fl : ℚ → ℚ) (a b : Vec3) : Vec3 := fun d => fl (a d - b d)

/-- The function `ArrayMath::mul` in `double` arithmetic: every product is rounded. -/
def ArrayMath.mulFl (fl : ℚ → ℚ) (a b : Vec3) : Vec3 := fun d => fl (a d * b d)

/-- The function `ArrayMath::mulScalar` in `double` arithmetic: every product is rounded. -/
def ArrayMath.mulScalarFl (fl : ℚ → ℚ) (a : Vec3) (s : ℚ) : Vec3 := fun d => fl (a d * s)

/-- The function `ArrayMath::dot` in `double` arithmetic: the three products are rounded and
summed from the left, every sum rounded (no fused multiply-add). -/
def ArrayMath.dotFl (fl : ℚ → ℚ) (a b : Vec3) : ℚ :=
  fl (fl (fl (a 0 * b 0) + fl (a 1 * b 1)) + fl (a 2 * b 2))

/-- The method `Particle::addF` in `double` arithmetic. -/
def Particle.addFFl (fl : ℚ → ℚ) (p : Particle) (f : Vec3) : Particle :=
  { p with _f := ArrayMath.addFl fl p._f f }

/-- The method `Particle::subF` in `double` arithmetic. -/
def Particle.subFFl (fl : ℚ → ℚ) (p : Particle) (f : Vec3) : Particle :=
  { p with _f := ArrayMath.subFl fl p._f f }

namespace LJFunctor

/-- The statements `_aosThreadData[threadnum].upotSum += upot;` and
`_aosThreadData[threadnum].virialSum = ArrayMath::add(_aosThreadData[threadnum].virialSum,
virial);` in `double` arithmetic. A thread number past the end of the vector is undefined
behaviour in C++; the functor is then left as it is. -/
def addToThreadDataFl (fl : ℚ → ℚ) (F : LJFunctor) (threadnum : Nat) (upot : ℚ)
    (virial : Vec3) : LJFunctor :=
  match F._aosThreadData[threadnum]? with
  | none => F
  | some data =>
    { F with
      _aosThreadData := F._aosThreadData.set threadnum
        { upotSum := fl (data.upotSum + upot)
          virialSum := ArrayMath.addFl fl data.virialSum virial } }

/-- The method `LJFunctor::AoSFunctor(i, j, newton3)` in `double` arithmetic: every operation
of the body is rounded with `fl`; `threadnum` is what `autopas_get_thread_num()` returns.
Returns the functor and the two particles as the call leaves them (`i` and `j` are references
to two different particles). With `dr2 = 0` the source divides by zero and continues with an
infinity, which is outside the model. -/
def AoSFunctorFl (fl : ℚ → ℚ) (F : LJFunctor) (threadnum : Nat) (i j : Particle)
    (newton3 : Bool) : LJFunctor × Particle × Particle :=
  let sigmasquare := F._sigmasquare
  let epsilon24 := F._epsilon24
  let shift6 := F._shift6
  let dr := ArrayMath.subFl fl i.getR j.getR
  let dr2 := ArrayMath.dotFl fl dr dr
  if dr2 > F._cutoffsquare then (F, i, j)
  else
    let invdr2 := fl (1 / dr2)
    let lj6 := fl (sigmasquare * invdr2)
    let lj6 := fl (fl (lj6 * lj6) * lj6)
    let lj12 := fl (lj6 * lj6)
    let lj12m6 := fl (lj12 - lj6)
    let fac := fl (fl (epsilon24 * fl (lj12 + lj12m6)) * invdr2)
    let f := ArrayMath.mulScalarFl fl dr fac
    let i := i.addFFl fl f
    let j := if newton3 then j.subFFl fl f else j
    if F.calculateGlobals then
      let virial := ArrayMath.mulFl fl dr f
      let upot := fl (fl (epsilon24 * lj12m6) + shift6)
      if F._duplicatedCalculations then
        let upot := if newton3 then fl (upot * (1 / 2)) else upot
        let virial := if newton3 then ArrayMath.mulScalarFl fl virial (1 / 2) else virial
        let F := if i.isOwned then F.addToThreadDataFl fl threadnum upot virial else F
        let F :=
          if newton3 && j.isOwned then F.addToThreadDataFl fl threadnum upot virial else F
        (F, i, j)
      else
        (F.addToThreadDataFl fl threadnum upot virial, i, j)
    else (F, i, j)

/-- The squared distance `dr2` that `AoSFunctor` computes for the positions `ri`, `rj`, in
`double` arithmetic. -/
def squaredDistanceFl (fl : ℚ → ℚ) (ri rj : Vec3) : ℚ :=
  ArrayMath.dotFl fl (ArrayMath.subFl fl ri rj) (ArrayMath.subFl fl ri rj)

/-- The vector `f = dr * fac` that the body of `AoSFunctor` computes for a pair at the
positions `ri`, `rj` within the cutoff, in `double` arithmetic. -/
def forceFl (fl : ℚ → ℚ) (F : LJFunctor) (ri rj : Vec3) : Vec3 :=
  let dr := ArrayMath.subFl fl ri rj
  let dr2 := ArrayMath.dotFl fl dr dr
  let invdr2 := fl (1 / dr2)
  let lj6 := fl (F._sigmasquare * invdr2)
  let lj6 := fl (fl (lj6 * lj6) * lj6)
  let lj12 := fl (lj6 * lj6)
  let lj12m6 := fl (lj12 - lj6)
  let fac := fl (fl (F._epsilon24 * fl (lj12 + lj12m6)) * invdr2)
  ArrayMath.mulScalarFl fl dr fac

end LJFunctor

/-- A particle at the origin with id `0` on which the force `(10^18, 0, 0)` acts. -/
def sampleLoadedParticle : Particle :=
  { _r := fun _ => 0, _v := fun _ => 0, _f := ![1000000000000000000, 0, 0], _id := 0,
    _owned := true }

/-- The element type of one vector of a `SoAArraysType`: the tuples of the source tree hold
`double` and `size_t` (`Particle::SoAArraysType` is
`SoAType<size_t, double, double, double, double, double, double>`, the ids are `size_t`). -/
inductive SoAElementType where
  | double
  | sizeT
deriving DecidableEq

/-- The conversion of a `double` to the element type, as the assignment
`get<attribute>().at(particleId) = values[_current]` performs it: a `double` is stored as it
is, a `size_t` is the value truncated toward zero; `none` when that conversion is
undefined. -/
def SoAElementType.ofDouble : SoAElementType → ℚ → Option ℚ
  | .double, x => some x
  | .sizeT, x => (doubleToSizeT x).map fun k => (k : ℚ)

/-- The conversion of an element to `double`, as the assignment
`values[_current] = get<attribute>().at(particleId)` performs it: a `size_t` is rounded to
the nearest `double`. -/
def SoAElementType.toDouble (fl : ℚ → ℚ) : SoAElementType → ℚ → ℚ
  | .double, x => x
  | .sizeT, x => fl x

/-- The `double` that is read back after the `double` `x` was written to an element of the
given type: `x` itself for `double`, the `double` nearest to the truncated `x` for
`size_t`. -/
def SoAElementType.roundTrip (fl : ℚ → ℚ) : SoAElementType → ℚ → ℚ
  | .double, x => x
  | .sizeT, x => fl (⌊x⌋₊ : ℚ)

namespace SoA

variable {n : Nat}

/-- The method `SoA::write_impl<attributes...>` for a tuple of vectors with the element types
`types`: for every attribute in turn, `get<attribute>().at(particleId) = values[_current]`,
which converts the `double` to the element type; `at` throws `std::out_of_range` past the end
of the column. The result is `none` when a conversion is undefined. -/
def write_implTyped (types : Fin n → SoAElementType) (storage : Fin n → List ℚ) :
    List (Fin n) → Nat → List ℚ → Nat → Option (Except Error Unit × (Fin n → List ℚ))
  | [], _, _, _ => some (.ok (), storage)
  | attr :: attributes, particleId, values, _current =>
    match (types attr).ofDouble (values.getD _current 0) with
    | none => none
    | some value =>
      if particleId < (storage attr).length then
        write_implTyped types
          (Function.update storage attr ((storage attr).set particleId value))
          attributes particleId values (_current + 1)
      else some (.error Error.stdOutOfRange, storage)

/-- The method `SoA::writeMultiple<attributes...>` for a tuple of vectors with the element
types `types`. -/
def writeMultipleTyped (types : Fin n → SoAElementType) (soa : SoA n)
    (attributes : List (Fin n)) (particleId : Nat) (values : List ℚ) :
    Option (Except Error Unit × SoA n) :=
  (write_implTyped types soa.soaStorage attributes
    ((particleId + soa.viewStart) % (UINT64_MAX + 1)) values 0).map
    fun r => (r.1, { soa with soaStorage := r.2 })

/-- The method `SoA::read_impl<attributes...>` for a tuple of vectors with the element types
`types`: for every attribute in turn, `values[_current] = get<attribute>().at(particleId)`,
which converts the element to `double`. -/
def read_implTyped (fl : ℚ → ℚ) (types : Fin n → SoAElementType) (storage : Fin n → List ℚ) :
    List (Fin n) → Nat → Except Error (List ℚ)
  | [], _ => .ok []
  | attr :: attributes, particleId =>
    match (storage attr)[particleId]? with
    | none => .error Error.stdOutOfRange
    | some value =>
      match read_implTyped fl types storage attributes particleId with
      | .error e => .error e
      | .ok values => .ok ((types attr).toDouble fl value :: values)

/-- The method `SoA::readMultiple<attributes...>` for a tuple of vectors with the element
types `types`. -/
def readMultipleTyped [NeZero n] (fl : ℚ → ℚ) (types : Fin n → SoAElementType) (soa : SoA n)
    (attributes : List (Fin n)) (particleId : Nat) : Except Error (List ℚ) :=
  if particleId ≥ soa.getNumParticles then .error Error.soaReadOutOfRange
  else
    read_implTyped fl types soa.soaStorage attributes
      ((particleId + soa.viewStart) % (UINT64_MAX + 1))

end SoA

/-- The element types of a tuple of two vectors: ids (`size_t`) and one `double`
attribute. -/
def sampleSoATypes : Fin 2 → SoAElementType := ![SoAElementType.sizeT, SoAElementType.double]

namespace SlicedBasedTraversal

/-- The method `SlicedBasedTraversal::rebuild` in `double` arithmetic: the quotient
`_cutoff / _cellLength[d]` is rounded with `fl` before `std::ceil`; the rest of the method
computes with `unsigned long` and is as in `rebuild`. `maxThreads` is what
`autopas_get_max_threads()` returns. -/
def rebuildFl (fl : ℚ → ℚ) (maxThreads : Nat) (dims : Fin 3 → Nat)
    (t : SlicedBasedTraversal) : SlicedBasedTraversal :=
  let _cellsPerDimension := dims
  let _overlap : Fin 3 → Nat := fun d => ⌈fl (t._cutoff / t._cellLength d)⌉₊
  let dimsPerLength0 := maxElementIndex _cellsPerDimension
  let dimsPerLength2 := minElementIndex _cellsPerDimension
  let dimsPerLength1 := 3 - (dimsPerLength0 + dimsPerLength2)
  let _dimsPerLength : Fin 3 → Nat := ![dimsPerLength0, dimsPerLength1, dimsPerLength2]
  let _overlapLongestAxis := arrayAt _overlap dimsPerLength0
  let numSlices := maxThreads
  let minSliceThickness := arrayAt _cellsPerDimension dimsPerLength0 / numSlices
  let shrink := decide (minSliceThickness < _overlapLongestAxis + 1)
  let minSliceThickness := if shrink then _overlapLongestAxis + 1 else minSliceThickness
  let numSlices :=
    if shrink then arrayAt _cellsPerDimension dimsPerLength0 / minSliceThickness else numSlices
  let t1 : SlicedBasedTraversal :=
    { t with
      _cellsPerDimension := _cellsPerDimension
      _overlap := _overlap
      _dimsPerLength := _dimsPerLength
      _overlapLongestAxis := _overlapLongestAxis
      _sliceThickness := [] }
  if numSlices < 1 then t1
  else
    let _sliceThickness := List.replicate numSlices minSliceThickness
    let rest := arrayAt _cellsPerDimension dimsPerLength0 - _sliceThickness.headD 0 * numSlices
    let _sliceThickness := incrementFirst rest _sliceThickness
    let _sliceThickness := decreaseLast _overlapLongestAxis _sliceThickness
    { t1 with _sliceThickness := _sliceThickness, locks := numSlices * _overlapLongestAxis }

/-- The values of the local variables `rest` and `numSlices` of
`SlicedBasedTraversal::rebuild` in `double` arithmetic when the loop
`for (size_t i = 0; i < rest; ++i) ++_sliceThickness[i];` is reached (that is, when
`numSlices >= 1`). -/
def rebuildRestFl (fl : ℚ → ℚ) (maxThreads : Nat) (dims : Fin 3 → Nat)
    (t : SlicedBasedTraversal) : Nat × Nat :=
  let _cellsPerDimension := dims
  let _overlap : Fin 3 → Nat := fun d => ⌈fl (t._cutoff / t._cellLength d)⌉₊
  let dimsPerLength0 := maxElementIndex _cellsPerDimension
  let _overlapLongestAxis := arrayAt _overlap dimsPerLength0
  let numSlices := maxThreads
  let minSliceThickness := arrayAt _cellsPerDimension dimsPerLength0 / numSlices
  let shrink := decide (minSliceThickness < _overlapLongestAxis + 1)
  let minSliceThickness := if shrink then _overlapLongestAxis + 1 else minSliceThickness
  let numSlices :=
    if shrink then arrayAt _cellsPerDimension dimsPerLength0 / minSliceThickness else numSlices
  let _sliceThickness := List.replicate numSlices minSliceThickness
  let rest := arrayAt _cellsPerDimension dimsPerLength0 - _sliceThickness.headD 0 * numSlices
  (rest, numSlices)

end SlicedBasedTraversal
end autopas

namespace autopas

/-! Rounding to `double`. -/

theorem roundHalfEven_eq_of_near (x : ℚ) (m : ℤ) (h : |x - m| < 1 / 2) :
    roundHalfEven x = m := by
  rw [abs_lt] at h
  obtain ⟨h1, h2⟩ := h
  unfold roundHalfEven
  by_cases hm : (m : ℚ) ≤ x
  · have hf : ⌊x⌋ = m := Int.floor_eq_iff.2 ⟨hm, by linarith⟩
    have hfr : Int.fract x = x - m := by rw [Int.fract, hf]
    rw [if_pos (by rw [hfr]; linarith), hf]
  · push_neg at hm
    have hf : ⌊x⌋ = m - 1 := Int.floor_eq_iff.2 ⟨by push_cast; linarith, by push_cast; linarith⟩
    have hfr : Int.fract x = x - (m - 1) := by rw [Int.fract, hf]; push_cast; ring
    rw [if_neg (by rw [hfr]; linarith), if_pos (by rw [hfr]; linarith), hf]
    ring

theorem roundHalfEven_intCast (m : ℤ) : roundHalfEven (m : ℚ) = m :=
  roundHalfEven_eq_of_near _ m (by simp)

theorem roundHalfEven_mem (x : ℚ) : roundHalfEven x = ⌊x⌋ ∨ roundHalfEven x = ⌊x⌋ + 1 := by
  unfold roundHalfEven
  split_ifs <;> simp

theorem roundHalfEven_mono : Monotone roundHalfEven := by
  intro x y hxy
  have hfl : ⌊x⌋ ≤ ⌊y⌋ := Int.floor_mono hxy
  rcases lt_or_eq_of_le hfl with hlt | heq
  · have h1 : roundHalfEven x ≤ ⌊x⌋ + 1 := by
      rcases roundHalfEven_mem x with h | h <;> rw [h] <;> omega
    have h2 : ⌊y⌋ ≤ roundHalfEven y := by
      rcases roundHalfEven_mem y with h | h <;> rw [h] <;> omega
    omega
  · have hfr : Int.fract x ≤ Int.fract y := by
      unfold Int.fract
      rw [heq]
      linarith
    unfold roundHalfEven
    rw [heq]
    by_cases a1 : 2 * Int.fract x < 1
    · rw [if_pos a1]
      split_ifs <;> omega
    · rw [if_neg a1]
      have b1 : ¬ 2 * Int.fract y < 1 := by linarith
      rw [if_neg b1]
      by_cases a2 : 1 < 2 * Int.fract x
      · rw [if_pos a2, if_pos (by linarith)]
      · rw [if_neg a2]
        by_cases b2 : 1 < 2 * Int.fract y
        · rw [if_pos b2]
          split_ifs <;> omega
        · rw [if_neg b2]

/-- The binade of a nonzero rational. -/
theorem log_two_eq (x : ℚ) (e : ℤ) (h1 : (2 : ℚ) ^ e ≤ |x|) (h2 : |x| < (2 : ℚ) ^ (e + 1)) :
    Int.log 2 |x| = e := by
  have hpos : 0 < |x| := lt_of_lt_of_le (by positivity) h1
  have a : e ≤ Int.log 2 |x| := (Int.zpow_le_iff_le_log (by norm_num) hpos).1 (by exact_mod_cast h1)
  have b : Int.log 2 |x| < e + 1 :=
    (Int.lt_zpow_iff_log_lt (by norm_num) hpos).1 (by exact_mod_cast h2)
  omega

/-- Evaluation of `roundToDouble`: `x` lies in the binade `e` and the integer `m` is nearer
than one half to the scaled value. -/
theorem roundToDouble_eq (x : ℚ) (e m : ℤ) (h1 : (2 : ℚ) ^ e ≤ |x|)
    (h2 : |x| < (2 : ℚ) ^ (e + 1)) (h3 : |x * 2 ^ (52 - e) - m| < 1 / 2) :
    roundToDouble x = m * 2 ^ (e - 52) := by
  have hx : x ≠ 0 := by
    intro h0
    rw [h0, abs_zero] at h1
    exact absurd h1 (not_le.2 (by positivity))
  unfold roundToDouble
  rw [if_neg hx, log_two_eq x e h1 h2, roundHalfEven_eq_of_near _ m h3]

theorem roundToDouble_zero : roundToDouble 0 = 0 := by
  unfold roundToDouble
  rw [if_pos rfl]

/-- The binade bounds of a nonzero rational. -/
theorem log_two_bounds (x : ℚ) (hx : x ≠ 0) :
    (2 : ℚ) ^ Int.log 2 |x| ≤ |x| ∧ |x| < (2 : ℚ) ^ (Int.log 2 |x| + 1) := by
  have hpos : 0 < |x| := abs_pos.2 hx
  have a := Int.zpow_log_le_self (by norm_num : 1 < 2) hpos
  have b := Int.lt_zpow_succ_log_self (by norm_num : 1 < 2) |x|
  exact ⟨by exact_mod_cast a, by exact_mod_cast b⟩

/-- The scaled value of a nonzero rational lies between `2^52` and `2^53` in absolute value. -/
theorem scaled_bounds (x : ℚ) (hx : x ≠ 0) :
    (2 : ℚ) ^ (52 : ℤ) ≤ |x| * 2 ^ (52 - Int.log 2 |x|) ∧
    |x| * 2 ^ (52 - Int.log 2 |x|) < (2 : ℚ) ^ (53 : ℤ) := by
  obtain ⟨a, b⟩ := log_two_bounds x hx
  have hp : (0 : ℚ) < 2 ^ (52 - Int.log 2 |x|) := by positivity
  have e1 : (2 : ℚ) ^ (52 : ℤ) = 2 ^ Int.log 2 |x| * 2 ^ (52 - Int.log 2 |x|) := by
    rw [← zpow_add₀ (by norm_num : (2 : ℚ) ≠ 0)]
    congr 1
    ring
  have e2 : (2 : ℚ) ^ (53 : ℤ) = 2 ^ (Int.log 2 |x| + 1) * 2 ^ (52 - Int.log 2 |x|) := by
    rw [← zpow_add₀ (by norm_num : (2 : ℚ) ≠ 0)]
    congr 1
    ring
  rw [e1, e2]
  exact ⟨mul_le_mul_of_nonneg_right a hp.le, mul_lt_mul_of_pos_right b hp⟩

/-- A positive rational is rounded into its binade. -/
theorem roundToDouble_pos_bounds (x : ℚ) (hx : 0 < x) :
    (2 : ℚ) ^ Int.log 2 |x| ≤ roundToDouble x ∧
    roundToDouble x ≤ (2 : ℚ) ^ (Int.log 2 |x| + 1) := by
  obtain ⟨a, b⟩ := scaled_bounds x hx.ne'
  rw [abs_of_pos hx] at a b
  have hp : (0 : ℚ) < 2 ^ (Int.log 2 x - 52) := by positivity
  have m1 : ((2 : ℤ) ^ 52 : ℤ) ≤ roundHalfEven (x * 2 ^ (52 - Int.log 2 x)) := by
    have := roundHalfEven_mono (show (((2 : ℤ) ^ 52 : ℤ) : ℚ) ≤ x * 2 ^ (52 - Int.log 2 x) by
      push_cast
      exact_mod_cast a)
    rwa [roundHalfEven_intCast] at this
  have m2 : roundHalfEven (x * 2 ^ (52 - Int.log 2 x)) ≤ ((2 : ℤ) ^ 53 : ℤ) := by
    have := roundHalfEven_mono (show x * 2 ^ (52 - Int.log 2 x) ≤ (((2 : ℤ) ^ 53 : ℤ) : ℚ) by
      push_cast
      exact_mod_cast b.le)
    rwa [roundHalfEven_intCast] at this
  have m1q : (2 : ℚ) ^ (52 : ℤ) ≤ (roundHalfEven (x * 2 ^ (52 - Int.log 2 x)) : ℚ) := by
    have : (((2 : ℤ) ^ 52 : ℤ) : ℚ) ≤ (roundHalfEven (x * 2 ^ (52 - Int.log 2 x)) : ℚ) :=
      Int.cast_le.2 m1
    push_cast at this
    exact_mod_cast this
  have m2q : (roundHalfEven (x * 2 ^ (52 - Int.log 2 x)) : ℚ) ≤ (2 : ℚ) ^ (53 : ℤ) := by
    have : (roundHalfEven (x * 2 ^ (52 - Int.log 2 x)) : ℚ) ≤ (((2 : ℤ) ^ 53 : ℤ) : ℚ) :=
      Int.cast_le.2 m2
    push_cast at this
    exact_mod_cast this
  have e1 : (2 : ℚ) ^ Int.log 2 x = 2 ^ (52 : ℤ) * 2 ^ (Int.log 2 x - 52) := by
    rw [← zpow_add₀ (by norm_num : (2 : ℚ) ≠ 0)]
    congr 1
    ring
  have e2 : (2 : ℚ) ^ (Int.log 2 x + 1) = 2 ^ (53 : ℤ) * 2 ^ (Int.log 2 x - 52) := by
    rw [← zpow_add₀ (by norm_num : (2 : ℚ) ≠ 0)]
    congr 1
    ring
  unfold roundToDouble
  rw [if_neg hx.ne', abs_of_pos hx, e1, e2]
  exact ⟨mul_le_mul_of_nonneg_right m1q hp.le, mul_le_mul_of_nonneg_right m2q hp.le⟩

/-- A negative rational is rounded into its binade. -/
theorem roundToDouble_neg_bounds (x : ℚ) (hx : x < 0) :
    -(2 : ℚ) ^ (Int.log 2 |x| + 1) ≤ roundToDouble x ∧
    roundToDouble x ≤ -(2 : ℚ) ^ Int.log 2 |x| := by
  obtain ⟨a, b⟩ := scaled_bounds x hx.ne
  rw [abs_of_neg hx] at a b
  have hp : (0 : ℚ) < 2 ^ (Int.log 2 (-x) - 52) := by positivity
  have m1 : roundHalfEven (x * 2 ^ (52 - Int.log 2 (-x))) ≤ (-(2 : ℤ) ^ 52 : ℤ) := by
    have := roundHalfEven_mono (show x * 2 ^ (52 - Int.log 2 (-x)) ≤ ((-(2 : ℤ) ^ 52 : ℤ) : ℚ) by
      have a1 : (2 : ℚ) ^ (52 : ℤ) ≤ -x * 2 ^ (52 - Int.log 2 (-x)) := a
      norm_num at a1 ⊢
      linarith)
    rwa [roundHalfEven_intCast] at this
  have m2 : (-(2 : ℤ) ^ 53 : ℤ) ≤ roundHalfEven (x * 2 ^ (52 - Int.log 2 (-x))) := by
    have := roundHalfEven_mono (show ((-(2 : ℤ) ^ 53 : ℤ) : ℚ) ≤ x * 2 ^ (52 - Int.log 2 (-x)) by
      have b1 : -x * 2 ^ (52 - Int.log 2 (-x)) < (2 : ℚ) ^ (53 : ℤ) := b
      norm_num at b1 ⊢
      linarith)
    rwa [roundHalfEven_intCast] at this
  have m1q : (roundHalfEven (x * 2 ^ (52 - Int.log 2 (-x))) : ℚ) ≤ -(2 : ℚ) ^ (52 : ℤ) := by
    have : (roundHalfEven (x * 2 ^ (52 - Int.log 2 (-x))) : ℚ) ≤ ((-(2 : ℤ) ^ 52 : ℤ) : ℚ) :=
      Int.cast_le.2 m1
    push_cast at this
    exact_mod_cast this
  have m2q : -(2 : ℚ) ^ (53 : ℤ) ≤ (roundHalfEven (x * 2 ^ (52 - Int.log 2 (-x))) : ℚ) := by
    have : ((-(2 : ℤ) ^ 53 : ℤ) : ℚ) ≤ (roundHalfEven (x * 2 ^ (52 - Int.log 2 (-x))) : ℚ) :=
      Int.cast_le.2 m2
    push_cast at this
    exact_mod_cast this
  have e1 : (2 : ℚ) ^ Int.log 2 (-x) = 2 ^ (52 : ℤ) * 2 ^ (Int.log 2 (-x) - 52) := by
    rw [← zpow_add₀ (by norm_num : (2 : ℚ) ≠ 0)]
    congr 1
    ring
  have e2 : (2 : ℚ) ^ (Int.log 2 (-x) + 1) = 2 ^ (53 : ℤ) * 2 ^ (Int.log 2 (-x) - 52) := by
    rw [← zpow_add₀ (by norm_num : (2 : ℚ) ≠ 0)]
    congr 1
    ring
  unfold roundToDouble
  rw [if_neg hx.ne, abs_of_neg hx, e1, e2]
  constructor
  · have := mul_le_mul_of_nonneg_right m2q hp.le
    linarith
  · have := mul_le_mul_of_nonneg_right m1q hp.le
    linarith

/-- Rounding to `double` is monotone. -/
theorem roundToDouble_mono : Monotone roundToDouble := by
  intro x y hxy
  rcases lt_trichotomy x 0 with hx | hx | hx
  · rcases lt_trichotomy y 0 with hy | hy | hy
    · -- both negative
      have hlog : Int.log 2 |y| ≤ Int.log 2 |x| :=
        Int.log_mono_right (abs_pos.2 hy.ne) (by rw [abs_of_neg hx, abs_of_neg hy]; linarith)
      rcases lt_or_eq_of_le hlog with hlt | heq
      · have bx := (roundToDouble_neg_bounds x hx).2
        have by1 := (roundToDouble_neg_bounds y hy).1
        have hpow : (2 : ℚ) ^ (Int.log 2 |y| + 1) ≤ 2 ^ Int.log 2 |x| :=
          zpow_le_zpow_right₀ (by norm_num) (by omega)
        linarith
      · unfold roundToDouble
        rw [if_neg hx.ne, if_neg hy.ne, heq]
        have hp : (0 : ℚ) < 2 ^ (Int.log 2 |x| - 52) := by positivity
        have hq : (0 : ℚ) < 2 ^ (52 - Int.log 2 |x|) := by positivity
        exact mul_le_mul_of_nonneg_right
          (Int.cast_le.2 (roundHalfEven_mono (mul_le_mul_of_nonneg_right hxy hq.le))) hp.le
    · rw [hy, roundToDouble_zero]
      have bx := (roundToDouble_neg_bounds x hx).2
      have : (0 : ℚ) < 2 ^ Int.log 2 |x| := by positivity
      linarith
    · have bx := (roundToDouble_neg_bounds x hx).2
      have by1 := (roundToDouble_pos_bounds y hy).1
      have h1 : (0 : ℚ) < 2 ^ Int.log 2 |x| := by positivity
      have h2 : (0 : ℚ) < 2 ^ Int.log 2 |y| := by positivity
      linarith
  · have hy : 0 ≤ y := by linarith
    rw [hx, roundToDouble_zero]
    rcases lt_or_eq_of_le hy with hy1 | hy1
    · have by1 := (roundToDouble_pos_bounds y hy1).1
      have h2 : (0 : ℚ) < 2 ^ Int.log 2 |y| := by positivity
      linarith
    · rw [← hy1, roundToDouble_zero]
  · have hy : 0 < y := by linarith
    have hlog : Int.log 2 |x| ≤ Int.log 2 |y| :=
      Int.log_mono_right (abs_pos.2 hx.ne') (by rw [abs_of_pos hx, abs_of_pos hy]; exact hxy)
    rcases lt_or_eq_of_le hlog with hlt | heq
    · have bx := (roundToDouble_pos_bounds x hx).2
      have by1 := (roundToDouble_pos_bounds y hy).1
      have hpow : (2 : ℚ) ^ (Int.log 2 |x| + 1) ≤ 2 ^ Int.log 2 |y| :=
        zpow_le_zpow_right₀ (by norm_num) (by omega)
      linarith
    · unfold roundToDouble
      rw [if_neg hx.ne', if_neg hy.ne', heq]
      have hp : (0 : ℚ) < 2 ^ (Int.log 2 |y| - 52) := by positivity
      have hq : (0 : ℚ) < 2 ^ (52 - Int.log 2 |y|) := by positivity
      exact mul_le_mul_of_nonneg_right
        (Int.cast_le.2 (roundHalfEven_mono (mul_le_mul_of_nonneg_right hxy hq.le))) hp.le

/-- A value with a significand below `2^53` is a `double`: rounding leaves it as it is. -/
theorem roundToDouble_of_significand (m k : ℤ) (hm : |m| < 2 ^ 53) :
    roundToDouble ((m : ℚ) * 2 ^ k) = (m : ℚ) * 2 ^ k := by
  by_cases h0 : m = 0
  · rw [h0]
    simp [roundToDouble_zero]
  have hmq : (m : ℚ) ≠ 0 := Int.cast_ne_zero.2 h0
  obtain ⟨a1, a2⟩ := log_two_bounds (m : ℚ) hmq
  have hk : (0 : ℚ) < 2 ^ k := by positivity
  have habs : |(m : ℚ) * 2 ^ k| = |(m : ℚ)| * 2 ^ k := by
    rw [abs_mul, abs_of_pos hk]
  have hm1 : (1 : ℚ) ≤ |(m : ℚ)| := by
    have : (1 : ℤ) ≤ |m| := Int.one_le_abs h0
    exact_mod_cast this
  have hlog0 : 0 ≤ Int.log 2 |(m : ℚ)| :=
    (Int.zpow_le_iff_le_log (by norm_num) (abs_pos.2 hmq)).1 (by simpa using hm1)
  have hlog52 : Int.log 2 |(m : ℚ)| < 53 := by
    have hlt : |(m : ℚ)| < (2 : ℚ) ^ (53 : ℤ) := by
      have : ((|m| : ℤ) : ℚ) < (((2 : ℤ) ^ 53 : ℤ) : ℚ) := Int.cast_lt.2 hm
      push_cast at this
      exact_mod_cast this
    exact (Int.lt_zpow_iff_log_lt (by norm_num) (abs_pos.2 hmq)).1 (by exact_mod_cast hlt)
  have hnn : 0 ≤ 52 - Int.log 2 |(m : ℚ)| := by omega
  have key := roundToDouble_eq ((m : ℚ) * 2 ^ k) (Int.log 2 |(m : ℚ)| + k)
    (m * 2 ^ (52 - Int.log 2 |(m : ℚ)|).toNat)
    (by
      rw [habs, zpow_add₀ (by norm_num : (2 : ℚ) ≠ 0)]
      exact mul_le_mul_of_nonneg_right a1 hk.le)
    (by
      rw [habs, show Int.log 2 |(m : ℚ)| + k + 1 = (Int.log 2 |(m : ℚ)| + 1) + k by ring,
        zpow_add₀ (by norm_num : (2 : ℚ) ≠ 0)]
      exact mul_lt_mul_of_pos_right a2 hk)
    (by
      have e : (((m * 2 ^ (52 - Int.log 2 |(m : ℚ)|).toNat : ℤ)) : ℚ)
          = (m : ℚ) * 2 ^ (52 - Int.log 2 |(m : ℚ)|) := by
        push_cast
        rw [← zpow_natCast, Int.toNat_of_nonneg hnn]
      rw [e, mul_assoc, ← zpow_add₀ (by norm_num : (2 : ℚ) ≠ 0),
        show k + (52 - (Int.log 2 |(m : ℚ)| + k)) = 52 - Int.log 2 |(m : ℚ)| by ring, sub_self,
        abs_zero]
      norm_num)
  rw [key]
  push_cast
  rw [← zpow_natCast, Int.toNat_of_nonneg hnn, mul_assoc,
    ← zpow_add₀ (by norm_num : (2 : ℚ) ≠ 0)]
  congr 2
  ring

/-- An integer below `2^53` in absolute value is a `double`. -/
theorem roundToDouble_intCast (m : ℤ) (hm : |m| < 2 ^ 53) : roundToDouble (m : ℚ) = m := by
  have := roundToDouble_of_significand m 0 hm
  simpa using this

/-- Evaluation of `roundToDouble` at a positive value. -/
theorem roundToDouble_eq_of_pos (x : ℚ) (e m : ℤ) (h1 : (2 : ℚ) ^ e ≤ x)
    (h2 : x < (2 : ℚ) ^ (e + 1)) (h3 : (m : ℚ) - 1 / 2 < x * 2 ^ (52 - e))
    (h4 : x * 2 ^ (52 - e) < (m : ℚ) + 1 / 2) :
    roundToDouble x = m * 2 ^ (e - 52) := by
  have hx : 0 < x := lt_of_lt_of_le (by positivity) h1
  exact roundToDouble_eq x e m (by rw [abs_of_pos hx]; exact h1) (by rw [abs_of_pos hx]; exact h2)
    (by rw [abs_lt]; constructor <;> linarith)

/-- Evaluation of `roundToDouble` at a negative value. -/
theorem roundToDouble_eq_of_neg (x : ℚ) (e m : ℤ) (h1 : (2 : ℚ) ^ e ≤ -x)
    (h2 : -x < (2 : ℚ) ^ (e + 1)) (h3 : (m : ℚ) - 1 / 2 < x * 2 ^ (52 - e))
    (h4 : x * 2 ^ (52 - e) < (m : ℚ) + 1 / 2) :
    roundToDouble x = m * 2 ^ (e - 52) := by
  have hx : x < 0 := by
    have : (0 : ℚ) < 2 ^ e := by positivity
    linarith
  exact roundToDouble_eq x e m (by rw [abs_of_neg hx]; exact h1) (by rw [abs_of_neg hx]; exact h2)
    (by rw [abs_lt]; constructor <;> linarith)

end autopas

namespace autopas

/-! Properties of LogicHandler. -/

/-- The box test `utils::inBox` holds exactly for positions in `[low, high)`. -/
lemma utils.inBox_iff (position low high : Vec3) :
    utils.inBox position low high = true ↔
      ∀ d : Fin 3, low d ≤ position d ∧ position d < high d := by
  simp [utils.inBox]

namespace LogicHandler

variable {T : Type}

/-- The box test of `doAssertions` passes exactly when no dimension is too small. -/
lemma doAssertions_eq_ok_iff (fl : ℚ → ℚ) (tuner : AutoTuner T) (t : T) :
    doAssertions fl tuner t = .ok () ↔
      ∀ d : Fin 3, ¬ fl (tuner.getBoxMax t d - tuner.getBoxMin t d)
        < fl (tuner.getCutoff t + tuner.getSkin t) := by
  unfold doAssertions
  simp only [doAssertionsFrom]
  constructor
  · intro h d
    fin_cases d <;> intro hd <;> simp_all
  · intro h
    simp [h 0, h 1, h 2]

/-- The only exception of `doAssertions` is "Box too small." -/
lemma doAssertions_eq_error (fl : ℚ → ℚ) (tuner : AutoTuner T) (t : T) (e : Error)
    (h : doAssertions fl tuner t = .error e) : e = Error.boxTooSmall := by
  unfold doAssertions at h
  simp only [doAssertionsFrom] at h
  split_ifs at h <;> simp_all

/-- One more than `a` modulo `f`, in terms of `a` modulo `f`. -/
lemma succ_mod_cases (a f : Nat) (hf : 1 ≤ f) :
    (a % f + 1 < f ∧ (a + 1) % f = a % f + 1) ∨ (a % f + 1 = f ∧ (a + 1) % f = 0) := by
  have hlt : a % f < f := Nat.mod_lt _ (by omega)
  rcases Nat.lt_or_ge (a % f + 1) f with h | h
  · left
    refine ⟨h, ?_⟩
    have h1 : 1 % f = 1 := Nat.mod_eq_of_lt (by omega)
    rw [Nat.add_mod, h1, Nat.mod_eq_of_lt h]
  · right
    have he : a % f + 1 = f := by omega
    refine ⟨he, ?_⟩
    rcases Nat.lt_or_ge 1 f with h1 | h1
    · rw [Nat.add_mod, Nat.mod_eq_of_lt h1, he, Nat.mod_self]
    · have hf1 : f = 1 := by omega
      rw [hf1, Nat.mod_one]

/-- The state of a fresh handler after `n + 1` pairwise traversals, when the tuner never asks
for a rebuild: the lists are valid and the step counter is `n % f + 1`. -/
lemma iterate_succ_state (tuner : AutoTuner T) (t : T) (f ti ns : Nat)
    (hf : 1 ≤ f) (hf32 : f ≤ UINT32_MAX) (hwill : ∀ t, tuner.willRebuild t = false) (n : Nat) :
    ((iteratePairwise tuner)^[n + 1] (init t f ti ns))._containerIsValid = true ∧
    ((iteratePairwise tuner)^[n + 1] (init t f ti ns))._stepsSinceLastContainerRebuild = n % f + 1 ∧
    ((iteratePairwise tuner)^[n + 1] (init t f ti ns))._containerRebuildFrequency = f := by
  induction n with
  | zero =>
    simp [iteratePairwise, doRebuild, isContainerValid, init, UINT32_MAX, Nat.zero_mod]
  | succ n ih =>
    rw [Function.iterate_succ_apply']
    obtain ⟨hv, hs, hfr⟩ := ih
    generalize (iteratePairwise tuner)^[n + 1] (init t f ti ns) = s at hv hs hfr
    have hlt : n % f < f := Nat.mod_lt _ (by omega)
    simp only [UINT32_MAX] at hf32
    rcases succ_mod_cases n f hf with ⟨h1, h2⟩ | ⟨h1, h2⟩
    · have hval : isContainerValid tuner s = true := by
        simp [isContainerValid, hv, hs, hfr, hwill, h1]
      simp only [iteratePairwise, doRebuild, hval, UINT32_MAX]
      simp only [Bool.not_true, Bool.false_eq_true, if_false]
      refine ⟨hv, ?_, hfr⟩
      simp only [hs, h2]
      rw [Nat.mod_eq_of_lt (by omega)]
    · have hval : isContainerValid tuner s = false := by
        simp [isContainerValid, hv, hs, hfr, hwill, h1]
      simp only [iteratePairwise, doRebuild, hval, UINT32_MAX]
      simp [h2, hfr]

/-- A successfully constructed handler is the freshly initialised one. -/
lemma new_eq_ok (fl : ℚ → ℚ) (tuner : AutoTuner T) (t : T) (f ti ns : Nat)
    (s0 : LogicHandler T) (h : LogicHandler.new fl tuner t f ti ns = .ok s0) :
    s0 = init t f ti ns := by
  unfold LogicHandler.new at h
  split at h
  · cases h
  · cases h
    rfl

/-- The recording tuner's box passes the constructor's box test. -/
lemma new_recordingTuner (f ti ns : Nat) :
    LogicHandler.new roundToDouble recordingTuner [] f ti ns = .ok (init [] f ti ns) := by
  have h : doAssertions roundToDouble recordingTuner ([] : List Bool) = .ok () := by
    rw [doAssertions_eq_ok_iff]
    intro d
    simp only [recordingTuner]
    exact not_lt.2 (roundToDouble_mono (by norm_num))
  simp [LogicHandler.new, h]

/-- C1: `LogicHandler::addParticle(p)` hands `p` to the container's `addParticle` (and returns
what that call returns, in the state that call leaves) whenever `isContainerValid()` is false;
whenever it is true it raises the "neighbor lists still valid" error and leaves the handler,
and with it the container, as it was. -/
theorem addParticle_forwards_iff_not_valid (tuner : AutoTuner T) (s : LogicHandler T)
    (p : Particle) :
    (isContainerValid tuner s = false →
      addParticle tuner s p =
        ((tuner.addParticle s._autoTuner p).1,
          { s with _autoTuner := (tuner.addParticle s._autoTuner p).2 })) ∧
    (isContainerValid tuner s = true →
      addParticle tuner s p = (.error Error.neighborListsStillValid, s)) := by
  constructor <;> intro h <;> simp [addParticle, h]

/-- C1 at the recording tuner: the valid handler rejects the particle and is unchanged. -/
theorem addParticle_forwards_iff_not_valid_witness :
    isContainerValid recordingTuner validHandler = true ∧
      addParticle recordingTuner validHandler (particleAt (fun _ => 1) 7 true) =
        (.error Error.neighborListsStillValid, validHandler) :=
  ⟨by decide,
    (addParticle_forwards_iff_not_valid recordingTuner validHandler
      (particleAt (fun _ => 1) 7 true)).2 (by decide)⟩

/-- C2: from a freshly constructed handler with rebuild frequency `f ≥ 1` (an `unsigned int`)
over a tuner whose `willRebuild()` is always false, the `k`-th of consecutive
`iteratePairwise` calls computes `doRebuild = true` exactly when `(k - 1) % f = 0`, and that
is the flag handed to the tuner's `iteratePairwise`. -/
theorem rebuild_exactly_every_f_traversals (fl : ℚ → ℚ) (tuner : AutoTuner T) (t : T)
    (f ti ns : Nat) (s0 : LogicHandler T) (hnew : LogicHandler.new fl tuner t f ti ns = .ok s0)
    (hf : 1 ≤ f) (hf32 : f ≤ UINT32_MAX) (hwill : ∀ t, tuner.willRebuild t = false)
    (k : Nat) (hk : 1 ≤ k) :
    (doRebuild tuner ((iteratePairwise tuner)^[k - 1] s0) = true ↔ (k - 1) % f = 0) ∧
    ((iteratePairwise tuner)^[k] s0)._autoTuner =
      tuner.iteratePairwise ((iteratePairwise tuner)^[k - 1] s0)._autoTuner
        (decide ((k - 1) % f = 0)) := by
  have hs0 := new_eq_ok fl tuner t f ti ns s0 hnew
  subst hs0
  have hflag : doRebuild tuner ((iteratePairwise tuner)^[k - 1] (init t f ti ns)) = true ↔
      (k - 1) % f = 0 := by
    rcases Nat.exists_eq_add_of_le hk with ⟨m, rfl⟩
    rw [Nat.add_sub_cancel_left]
    cases m with
    | zero => simp [doRebuild, isContainerValid, init]
    | succ n =>
      obtain ⟨hv, hs, hfr⟩ := iterate_succ_state tuner t f ti ns hf hf32 hwill n
      simp only [doRebuild, isContainerValid, hv, hs, hfr, hwill]
      rcases succ_mod_cases n f hf with ⟨h1, h2⟩ | ⟨h1, h2⟩
      · simp [h1, h2]
      · simp [h1, h2]
  refine ⟨hflag, ?_⟩
  rcases Nat.exists_eq_add_of_le hk with ⟨m, rfl⟩
  rw [Nat.add_comm 1 m, Function.iterate_succ_apply', Nat.add_sub_cancel]
  rw [Nat.add_comm 1 m, Nat.add_sub_cancel] at hflag
  have hd : doRebuild tuner ((iteratePairwise tuner)^[m] (init t f ti ns)) =
      decide (m % f = 0) := by
    by_cases hm : m % f = 0
    · simp [hm, hflag.2 hm]
    · have : doRebuild tuner ((iteratePairwise tuner)^[m] (init t f ti ns)) ≠ true :=
        fun h => hm (hflag.1 h)
      simp [hm, this]
  rw [← hd]
  simp only [iteratePairwise]
  split <;> rfl

/-- C2 at the recording tuner with `f = 3`: the fourth call rebuilds. -/
theorem rebuild_exactly_every_f_traversals_witness :
    (doRebuild recordingTuner
        ((iteratePairwise recordingTuner)^[4 - 1] (init [] 3 100 3)) = true ↔ (4 - 1) % 3 = 0) ∧
    ((iteratePairwise recordingTuner)^[4] (init [] 3 100 3))._autoTuner =
      recordingTuner.iteratePairwise
        ((iteratePairwise recordingTuner)^[4 - 1] (init [] 3 100 3))._autoTuner
        (decide ((4 - 1) % 3 = 0)) :=
  rebuild_exactly_every_f_traversals roundToDouble recordingTuner [] 3 100 3 (init [] 3 100 3)
    (new_recordingTuner 3 100 3) (by decide) (by decide) (fun _ => rfl) 4 (by decide)

/-- C3 fails as stated: on a fresh handler the container is not valid, a rebuild is forced,
and the step counter is `1` afterwards, not `0`. -/
theorem steps_after_rebuild_not_zero :
    isContainerValid recordingTuner (init [] 3 100 3) = false ∧
      (iteratePairwise recordingTuner
        (init [] 3 100 3))._stepsSinceLastContainerRebuild ≠ 0 := by
  decide

/-- C3, amended: after `LogicHandler::iteratePairwise`, if the container was not valid
before the call (a rebuild was forced) the step counter is `1` (reset to `0`, then
incremented); if it was valid, the counter is exactly one more than before. The rebuild
frequency is an `unsigned int`. -/
theorem iteratePairwise_steps (tuner : AutoTuner T) (s : LogicHandler T)
    (h32 : s._containerRebuildFrequency ≤ UINT32_MAX) :
    (isContainerValid tuner s = false →
      (iteratePairwise tuner s)._stepsSinceLastContainerRebuild = 1) ∧
    (isContainerValid tuner s = true →
      (iteratePairwise tuner s)._stepsSinceLastContainerRebuild =
        s._stepsSinceLastContainerRebuild + 1) := by
  constructor
  · intro h
    simp [iteratePairwise, doRebuild, h, UINT32_MAX]
  · intro h
    have hlt : s._stepsSinceLastContainerRebuild < s._containerRebuildFrequency := by
      simp only [isContainerValid, Bool.and_eq_true, decide_eq_true_eq] at h
      exact h.1.2
    simp only [UINT32_MAX] at h32
    simp only [iteratePairwise, doRebuild, h, UINT32_MAX]
    simp only [Bool.not_true, Bool.false_eq_true, if_false]
    exact Nat.mod_eq_of_lt (by omega)

/-- C3, amended, at the valid handler: the counter goes from `1` to `2`. -/
theorem iteratePairwise_steps_witness :
    validHandler._containerRebuildFrequency ≤ UINT32_MAX ∧
    isContainerValid recordingTuner validHandler = true ∧
    (iteratePairwise recordingTuner validHandler)._stepsSinceLastContainerRebuild =
      validHandler._stepsSinceLastContainerRebuild + 1 :=
  ⟨by decide, by decide,
    (iteratePairwise_steps recordingTuner validHandler (by decide)).2 (by decide)⟩

/-- C4 fails as stated: `updateContainer` on a valid container skips the update, and
`isContainerValid()` is still true afterwards. -/
theorem updateContainer_keeps_valid :
    isContainerValid recordingTuner validHandler = true ∧
      isContainerValid recordingTuner (updateContainer recordingTuner validHandler).2 ≠ false := by
  decide

/-- C4, amended: `isContainerValid()` is false after `addParticle` when it returns normally
(the tuner's `willRebuild()` being unchanged by the call), after `deleteHaloParticles`, after
`deleteAllParticles`, and after `updateContainer` when `isContainerValid()` was false before the
call; `updateContainer` on a valid container leaves it valid. -/
theorem not_valid_after_mutation (tuner : AutoTuner T) (s : LogicHandler T) (p : Particle) :
    ((addParticle tuner s p).1 = .ok () →
      tuner.willRebuild (addParticle tuner s p).2._autoTuner = tuner.willRebuild s._autoTuner →
      isContainerValid tuner (addParticle tuner s p).2 = false) ∧
    (isContainerValid tuner s = false →
      isContainerValid tuner (updateContainer tuner s).2 = false) ∧
    isContainerValid tuner (deleteHaloParticles tuner s).2 = false ∧
    isContainerValid tuner (deleteAllParticles tuner s).2 = false ∧
    (isContainerValid tuner s = true →
      isContainerValid tuner (updateContainer tuner s).2 = true) := by
  refine ⟨?_, ?_, ?_, ?_, ?_⟩
  · intro hok hwill
    cases hv : isContainerValid tuner s with
    | true => simp [addParticle, hv] at hok
    | false =>
      simp only [addParticle, hv, Bool.not_false, if_true] at hwill ⊢
      simp only [isContainerValid] at hv ⊢
      rw [hwill]
      exact hv
  · intro hv
    simp only [updateContainer, hv, Bool.not_false, if_true]
    simp [isContainerValid]
  · simp [deleteHaloParticles, isContainerValid]
  · simp [deleteAllParticles, isContainerValid]
  · intro hv
    simp only [updateContainer, hv, Bool.not_true, Bool.false_eq_true, if_false]

/-- C4, amended, at a fresh handler over the recording tuner: the particle is added and the
container stays invalid. -/
theorem not_valid_after_mutation_witness :
    (addParticle recordingTuner (init [] 3 100 3) (particleAt (fun _ => 1) 7 true)).1 = .ok () ∧
    isContainerValid recordingTuner
      (addParticle recordingTuner (init [] 3 100 3) (particleAt (fun _ => 1) 7 true)).2 = false :=
  ⟨rfl,
    (not_valid_after_mutation recordingTuner (init [] 3 100 3)
      (particleAt (fun _ => 1) 7 true)).1 rfl rfl⟩

/-- C5: `LogicHandler::updateContainer()` on a valid container returns an empty vector and
changes nothing (container, validity flag, step counter); on a container that is not valid it
sets the validity flag to false, calls the container's `updateContainer()` and returns exactly
what that call returns, leaving the counters as they were. -/
theorem updateContainer_noop_iff_valid (tuner : AutoTuner T) (s : LogicHandler T) :
    (isContainerValid tuner s = true → updateContainer tuner s = (.ok [], s)) ∧
    (isContainerValid tuner s = false →
      (updateContainer tuner s).1 = (tuner.updateContainer s._autoTuner).1 ∧
      (updateContainer tuner s).2 =
        { s with
          _containerIsValid := false
          _autoTuner := (tuner.updateContainer s._autoTuner).2 }) := by
  constructor <;> intro h <;> simp [updateContainer, h]

/-- C5 at the valid handler: nothing is returned and nothing changes. -/
theorem updateContainer_noop_iff_valid_witness :
    isContainerValid recordingTuner validHandler = true ∧
      updateContainer recordingTuner validHandler = (.ok [], validHandler) :=
  ⟨by decide, (updateContainer_noop_iff_valid recordingTuner validHandler).1 (by decide)⟩

/-- C7 fails with the exact values of the doubles: the box `[0, 0.7999999999999999)³` with
cutoff `0.1` and skin `0.7` (the doubles nearest to these decimals, written as fractions) has
sides smaller than the exact sum `cutoff + skin`, but the sum rounds to the double
`0.7999999999999999`, the comparison in `doAssertions` is false and the constructor accepts
the box. -/
theorem new_accepts_side_below_cutoff_plus_skin :
    (∀ d : Fin 3,
      (boxTuner (7205759403792793 / 9007199254740992) (3602879701896397 / 36028797018963968)
          (3152519739159347 / 4503599627370496)).getBoxMax () d
        - (boxTuner (7205759403792793 / 9007199254740992)
          (3602879701896397 / 36028797018963968)
          (3152519739159347 / 4503599627370496)).getBoxMin () d
        < (boxTuner (7205759403792793 / 9007199254740992)
          (3602879701896397 / 36028797018963968)
          (3152519739159347 / 4503599627370496)).getCutoff ()
        + (boxTuner (7205759403792793 / 9007199254740992)
          (3602879701896397 / 36028797018963968)
          (3152519739159347 / 4503599627370496)).getSkin ()) ∧
    LogicHandler.new roundToDouble
      (boxTuner (7205759403792793 / 9007199254740992) (3602879701896397 / 36028797018963968)
        (3152519739159347 / 4503599627370496)) () 3 100 3 = .ok (init () 3 100 3) := by
  have hsum : roundToDouble
      (3602879701896397 / 36028797018963968 + 3152519739159347 / 4503599627370496)
      = 7205759403792793 / 9007199254740992 := by
    rw [roundToDouble_eq_of_pos _ (-1) 7205759403792793 (by norm_num) (by norm_num)
      (by norm_num) (by norm_num)]
    norm_num
  have hside : roundToDouble (7205759403792793 / 9007199254740992 - 0)
      = 7205759403792793 / 9007199254740992 := by
    rw [roundToDouble_eq_of_pos _ (-1) 7205759403792793 (by norm_num) (by norm_num)
      (by norm_num) (by norm_num)]
    norm_num
  refine ⟨fun d => by simp only [boxTuner]; norm_num, ?_⟩
  have h : doAssertions roundToDouble
      (boxTuner (7205759403792793 / 9007199254740992) (3602879701896397 / 36028797018963968)
        (3152519739159347 / 4503599627370496)) () = .ok () := by
    rw [doAssertions_eq_ok_iff]
    intro d
    simp only [boxTuner, hsum, hside]
    exact lt_irrefl _
  simp [LogicHandler.new, h]

/-- C7, amended: constructing a `LogicHandler` raises "Box too small." if and only if for some
dimension `d` the double difference `boxMax[d] - boxMin[d]` is smaller than the double sum
`cutoff + skin`; it raises nothing else. With a monotone rounding, as that of the machine,
a box whose every side is at least `cutoff + skin` (equality included) is accepted, and a box
that is rejected has a side smaller than `cutoff + skin`. -/
theorem new_boxTooSmall_iff (fl : ℚ → ℚ) (tuner : AutoTuner T) (t : T) (f ti ns : Nat) :
    (LogicHandler.new fl tuner t f ti ns = .error Error.boxTooSmall ↔
      ∃ d : Fin 3,
        fl (tuner.getBoxMax t d - tuner.getBoxMin t d)
          < fl (tuner.getCutoff t + tuner.getSkin t)) ∧
    ((∀ d : Fin 3,
        fl (tuner.getCutoff t + tuner.getSkin t)
          ≤ fl (tuner.getBoxMax t d - tuner.getBoxMin t d)) →
      LogicHandler.new fl tuner t f ti ns = .ok (init t f ti ns)) ∧
    (∀ e, LogicHandler.new fl tuner t f ti ns = .error e → e = Error.boxTooSmall) ∧
    (Monotone fl →
      ((∀ d : Fin 3,
          tuner.getCutoff t + tuner.getSkin t ≤ tuner.getBoxMax t d - tuner.getBoxMin t d) →
        LogicHandler.new fl tuner t f ti ns = .ok (init t f ti ns)) ∧
      (LogicHandler.new fl tuner t f ti ns = .error Error.boxTooSmall →
        ∃ d : Fin 3,
          tuner.getBoxMax t d - tuner.getBoxMin t d
            < tuner.getCutoff t + tuner.getSkin t)) := by
  have hok := doAssertions_eq_ok_iff fl tuner t
  have hiff : LogicHandler.new fl tuner t f ti ns = .error Error.boxTooSmall ↔
      ∃ d : Fin 3,
        fl (tuner.getBoxMax t d - tuner.getBoxMin t d)
          < fl (tuner.getCutoff t + tuner.getSkin t) := by
    constructor
    · intro h
      by_contra hne
      push_neg at hne
      have h1 : doAssertions fl tuner t = .ok () := hok.2 (fun d => not_lt.2 (hne d))
      simp [LogicHandler.new, h1] at h
    · rintro ⟨d, hd⟩
      cases hr : doAssertions fl tuner t with
      | ok u => exact absurd hd (hok.1 hr d)
      | error e =>
        have he := doAssertions_eq_error fl tuner t e hr
        subst he
        simp [LogicHandler.new, hr]
  have hacc : (∀ d : Fin 3,
      fl (tuner.getCutoff t + tuner.getSkin t)
        ≤ fl (tuner.getBoxMax t d - tuner.getBoxMin t d)) →
      LogicHandler.new fl tuner t f ti ns = .ok (init t f ti ns) := by
    intro h
    have h1 : doAssertions fl tuner t = .ok () := hok.2 (fun d => not_lt.2 (h d))
    simp [LogicHandler.new, h1]
  refine ⟨hiff, hacc, ?_, ?_⟩
  · intro e h
    cases hr : doAssertions fl tuner t with
    | ok u => simp [LogicHandler.new, hr] at h
    | error e2 =>
      have he := doAssertions_eq_error fl tuner t e2 hr
      simp only [LogicHandler.new, hr] at h
      cases h
      exact he
  · intro hmono
    refine ⟨fun h => hacc (fun d => hmono (h d)), fun h => ?_⟩
    obtain ⟨d, hd⟩ := hiff.1 h
    refine ⟨d, ?_⟩
    by_contra hge
    exact absurd hd (not_lt.2 (hmono (not_lt.1 hge)))

/-- C7, amended, at the recording tuner in the arithmetic of the machine: its box of side
`10` with `cutoff + skin = 6/5` is accepted. -/
theorem new_boxTooSmall_iff_witness :
    LogicHandler.new roundToDouble recordingTuner [] 3 100 3 = .ok (init [] 3 100 3) :=
  ((new_boxTooSmall_iff roundToDouble recordingTuner [] 3 100 3).2.2.2
    roundToDouble_mono).1 (fun d => by
      simp only [recordingTuner]
      norm_num)

end LogicHandler

end autopas

namespace autopas

/-! Properties of VerletClusterCells. -/

/-- Swapping two slots keeps the size of the vector. -/
lemma swapAt_length (ps : List Particle) (i j : Nat) : (swapAt ps i j).length = ps.length := by
  unfold swapAt
  split <;> simp

/-- Swapping two slots leaves every other slot as it is. -/
lemma swapAt_getElem?_of_ne (ps : List Particle) (i j k : Nat) (hi : k ≠ i) (hj : k ≠ j) :
    (swapAt ps i j)[k]? = ps[k]? := by
  unfold swapAt
  split
  · rw [List.getElem?_set_ne (Ne.symm hj), List.getElem?_set_ne (Ne.symm hi)]
  · rfl

/-- Two lists with the same slots below `n` have the same first `n` elements. -/
lemma take_eq_take_of_getElem? (n : Nat) (l₁ l₂ : List Particle)
    (h : ∀ k, k < n → l₁[k]? = l₂[k]?) : l₁.take n = l₂.take n := by
  apply List.ext_getElem?
  intro k
  rw [List.getElem?_take, List.getElem?_take]
  split
  · exact h k ‹_›
  · rfl

namespace VerletClusterCells

/-- Moving a particle to the dummies keeps the size of the cell. -/
lemma moveToDummies_length (offset : ℚ) (ps : List Particle) (ds j : Nat) (p : Particle) :
    (moveToDummies offset ps ds j p).1.length = ps.length := by
  simp [moveToDummies, swapAt_length]

/-- Moving the particle of slot `j` to the dummies leaves the slots below `j` as they are. -/
lemma moveToDummies_getElem?_of_lt (offset : ℚ) (ps : List Particle) (ds j : Nat) (p : Particle)
    (hj : j < ds) (k : Nat) (hk : k < j) :
    (moveToDummies offset ps ds j p).1[k]? = ps[k]? := by
  simp only [moveToDummies]
  rw [swapAt_getElem?_of_ne _ _ _ _ (by omega) (by omega), List.getElem?_set_ne (by omega)]

/-- The non-dummy range left by moving the particle of slot `j` to the dummies: the old
range from `j + 1` on, up to order. -/
lemma moveToDummies_perm (offset : ℚ) (ps : List Particle) (ds j : Nat) (p : Particle)
    (hj : j < ds) (hds : ds ≤ ps.length) :
    (((moveToDummies offset ps ds j p).1.take (moveToDummies offset ps ds j p).2).drop j).Perm
      ((ps.take ds).drop (j + 1)) := by
  obtain ⟨e, rfl⟩ : ∃ e, ds = e + 1 := ⟨ds - 1, by omega⟩
  simp only [moveToDummies, Nat.add_sub_cancel]
  set x := p.setR (Function.update p.getR 0 (p.getR 0 + offset)) with hx
  have hje : j ≤ e := by omega
  have he : e < ps.length := by omega
  rcases Nat.eq_or_lt_of_le hje with rfl | hlt
  · -- the removed particle is the last non-dummy
    have h1 : ((swapAt (ps.set j x) j j).take j).drop j = [] := by
      apply List.drop_eq_nil_of_le
      simp [List.length_take]
    have h2 : (ps.take (j + 1)).drop (j + 1) = [] := by
      apply List.drop_eq_nil_of_le
      simp [List.length_take]
    rw [h1, h2]
  · have hq : ∃ q, ps[e]? = some q := ⟨ps[e], by simp [he]⟩
    obtain ⟨q, hq⟩ := hq
    have hjl : j < ps.length := by omega
    have hsw : swapAt (ps.set j x) j e = (ps.set j q).set e x := by
      unfold swapAt
      have ha : (ps.set j x)[j]? = some x := by simp [hjl]
      have hb : (ps.set j x)[e]? = some q := by
        rw [List.getElem?_set_ne (by omega)]
        exact hq
      rw [ha, hb]
      simp only [List.set_set]
    rw [hsw, List.set_take, List.set_eq_of_length_le (by simp [List.length_take]), List.set_take,
      List.drop_set]
    simp only [Nat.lt_irrefl, if_false, Nat.sub_self]
    have hpj : ∃ p0, ps[j]? = some p0 := ⟨ps[j], by simp [hjl]⟩
    obtain ⟨p0, hp0⟩ := hpj
    have hd : (ps.take e).drop j = p0 :: (ps.take e).drop (j + 1) := by
      have hlen : j < (ps.take e).length := by
        simp [List.length_take]
        omega
      rw [List.drop_eq_getElem_cons hlen]
      congr 1
      have : (ps.take e)[j]? = some p0 := by
        rw [List.getElem?_take_of_lt hlt]
        exact hp0
      rw [List.getElem?_eq_getElem hlen] at this
      exact Option.some.inj this
    rw [hd, List.set_cons_zero, List.take_succ, hq]
    simp only [Option.toList]
    rw [List.drop_append_of_le_length (by simp [List.length_take]; omega)]
    exact (List.perm_append_singleton q _).symm

/-- The non-dummy range from slot `j` on starts with the particle of slot `j`. -/
lemma drop_take_eq_cons (ps : List Particle) (ds j : Nat) (p : Particle) (hj : j < ds)
    (hp : ps[j]? = some p) : (ps.take ds).drop j = p :: (ps.take ds).drop (j + 1) := by
  have hjl : j < ps.length := by
    rcases List.getElem?_eq_some_iff.1 hp with ⟨h, _⟩
    exact h
  have hlen : j < (ps.take ds).length := by
    simp [List.length_take]
    omega
  rw [List.drop_eq_getElem_cons hlen]
  congr 1
  have : (ps.take ds)[j]? = some p := by
    rw [List.getElem?_take_of_lt hj]
    exact hp
  rw [List.getElem?_eq_getElem hlen] at this
  exact Option.some.inj this

/-- What `evictCell` does on a well-formed cell: the cell keeps its size, the dummy start does
not grow, the non-dummy range afterwards holds the particles below slot `j` and the kept ones
from slot `j` on, and the removed ones are appended to `removed` (both up to order). -/
lemma evictCell_spec (remove : Particle → Bool) (offset : ℚ) (ps : List Particle)
    (ds j : Nat) (removed : List Particle) :
    j ≤ ds → ds ≤ ps.length →
    (evictCell remove offset ps ds j removed).1.1.length = ps.length ∧
    (evictCell remove offset ps ds j removed).1.2 ≤ ds ∧
    ((evictCell remove offset ps ds j removed).1.1.take
        (evictCell remove offset ps ds j removed).1.2).Perm
      (ps.take j ++ ((ps.take ds).drop j).filter (fun p => !remove p)) ∧
    (evictCell remove offset ps ds j removed).2.Perm
      (removed ++ ((ps.take ds).drop j).filter remove) := by
  induction ps, ds, j, removed using evictCell.induct remove offset with
  | case1 ps ds j removed hlt hnone =>
    intro _ hds
    have := List.getElem?_eq_none_iff.1 hnone
    omega
  | case2 ps ds j removed hlt p hp hrem r ih =>
    intro hj hds
    have hlen : r.1.length = ps.length := moveToDummies_length offset ps ds j p
    have hr2 : r.2 = ds - 1 := rfl
    obtain ⟨ih1, ih2, ih3, ih4⟩ := ih (by omega) (by omega)
    rw [evictCell]
    simp only [hlt, if_true, hp, hrem]
    have hcons := drop_take_eq_cons ps ds j p hlt hp
    have hpre : r.1.take j = ps.take j :=
      take_eq_take_of_getElem? j _ _
        (fun k hk => moveToDummies_getElem?_of_lt offset ps ds j p hlt k hk)
    have hperm : ((r.1.take r.2).drop j).Perm ((ps.take ds).drop (j + 1)) :=
      moveToDummies_perm offset ps ds j p hlt hds
    have h2 : (evictCell remove offset r.1 r.2 j (removed ++ [p])).1.2 ≤ ds := by
      have h := ih2
      rw [hr2] at h
      omega
    refine ⟨ih1.trans hlen, h2, ?_, ?_⟩
    · rw [hcons, List.filter_cons_of_neg (by simp [hrem]), ← hpre]
      exact ih3.trans (List.Perm.append_left _ (hperm.filter _))
    · rw [hcons, List.filter_cons_of_pos hrem]
      refine ih4.trans ?_
      rw [List.append_assoc]
      exact List.Perm.append_left _ (List.Perm.cons _ (hperm.filter _))
  | case3 ps ds j removed hlt p hp hrem ih =>
    intro hj hds
    obtain ⟨ih1, ih2, ih3, ih4⟩ := ih (by omega) hds
    rw [evictCell]
    simp only [hlt, if_true, hp, hrem]
    have hcons := drop_take_eq_cons ps ds j p hlt hp
    refine ⟨ih1, ih2, ?_, ?_⟩
    · rw [hcons, List.filter_cons_of_pos (by simp [hrem])]
      refine ih3.trans ?_
      rw [List.take_succ, hp]
      simp
    · rw [hcons, List.filter_cons_of_neg hrem]
      exact ih4
  | case4 ps ds j removed hlt =>
    intro hj hds
    have hjd : j = ds := by omega
    subst hjd
    rw [evictCell]
    simp only [hlt, if_false]
    have : (ps.take j).drop j = [] := by
      apply List.drop_eq_nil_of_le
      simp [List.length_take]
    simp [this]

/-- The loop of `deleteHaloParticles` on a cell is `evictCell` for the particles that are not
owned. -/
lemma deleteHaloParticlesCell_eq (offset : ℚ) (ps : List Particle) (ds j : Nat)
    (removed : List Particle) :
    deleteHaloParticlesCell offset ps ds j =
      (evictCell (fun p => !p.isOwned) offset ps ds j removed).1 := by
  induction ps, ds, j, removed using evictCell.induct (fun p => !p.isOwned) offset with
  | case1 ps ds j removed hlt hnone =>
    rw [evictCell, deleteHaloParticlesCell]
    simp [hlt, hnone]
  | case2 ps ds j removed hlt p hp hrem r ih =>
    rw [evictCell, deleteHaloParticlesCell]
    simp only [hlt, if_true, hp, hrem]
    exact ih
  | case3 ps ds j removed hlt p hp hrem ih =>
    rw [evictCell, deleteHaloParticlesCell]
    simp only [hlt, if_true, hp, hrem]
    exact ih
  | case4 ps ds j removed hlt =>
    rw [evictCell, deleteHaloParticlesCell]
    simp [hlt]

/-- The loop of `updateContainer` on a cell is `evictCell` for the owned particles outside the
box. -/
lemma updateContainerCell_eq (boxMin boxMax : Vec3) (offset : ℚ) (ps : List Particle)
    (ds j : Nat) (removed : List Particle) :
    updateContainerCell boxMin boxMax offset ps ds j removed =
      evictCell (fun p => IteratorBehavior.ownedOnly.fits p && utils.notInBox p.getR boxMin boxMax)
        offset ps ds j removed := by
  induction ps, ds, j, removed using evictCell.induct
    (fun p => IteratorBehavior.ownedOnly.fits p && utils.notInBox p.getR boxMin boxMax) offset with
  | case1 ps ds j removed hlt hnone =>
    rw [evictCell, updateContainerCell]
    simp [hlt, hnone]
  | case2 ps ds j removed hlt p hp hrem r ih =>
    rw [evictCell, updateContainerCell]
    simp only [hlt, if_true, hp, hrem]
    exact ih
  | case3 ps ds j removed hlt p hp hrem ih =>
    rw [evictCell, updateContainerCell]
    simp only [hlt, if_true, hp, hrem]
    exact ih
  | case4 ps ds j removed hlt =>
    rw [evictCell, updateContainerCell]
    simp [hlt]

/-- After the loop of `deleteHaloParticles` on a cell, every non-dummy particle is owned. -/
lemma deleteHaloParticlesCell_allOwned (offset : ℚ) (ps : List Particle) (ds j : Nat) :
    allOwnedBelow ps j →
      allOwnedBelow (deleteHaloParticlesCell offset ps ds j).1
        (deleteHaloParticlesCell offset ps ds j).2 := by
  induction ps, ds, j using deleteHaloParticlesCell.induct offset with
  | case1 ps ds j hlt hnone =>
    intro h
    rw [deleteHaloParticlesCell]
    simp only [hlt, if_true, hnone]
    intro k _ p hp
    have h1 := List.getElem?_eq_none_iff.1 hnone
    have h2 := (List.getElem?_eq_some_iff.1 hp).1
    exact h k (by omega) p hp
  | case2 ps ds j hlt p hp hrem r ih =>
    intro h
    rw [deleteHaloParticlesCell]
    simp only [hlt, if_true, hp, hrem]
    apply ih
    intro k hk q hq
    have hq2 : ps[k]? = some q := by
      rw [← moveToDummies_getElem?_of_lt offset ps ds j p hlt k hk]
      exact hq
    exact h k hk q hq2
  | case3 ps ds j hlt p hp hrem ih =>
    intro h
    rw [deleteHaloParticlesCell]
    simp only [hlt, if_true, hp, hrem]
    apply ih
    intro k hk q hq
    rcases Nat.lt_or_ge k j with hkj | hkj
    · exact h k hkj q hq
    · have hkeq : k = j := by omega
      subst hkeq
      rw [hp] at hq
      cases hq
      simpa using hrem
  | case4 ps ds j hlt =>
    intro h
    rw [deleteHaloParticlesCell]
    simp only [hlt, if_false]
    intro k hk p hp
    exact h k (by omega) p hp

/-- On a cell whose non-dummy particles are all owned, the loop of `deleteHaloParticles`
changes nothing. -/
lemma deleteHaloParticlesCell_of_allOwned (offset : ℚ) (ps : List Particle) (ds j : Nat) :
    allOwnedBelow ps ds → deleteHaloParticlesCell offset ps ds j = (ps, ds) := by
  induction ps, ds, j using deleteHaloParticlesCell.induct offset with
  | case1 ps ds j hlt hnone =>
    intro _
    rw [deleteHaloParticlesCell]
    simp [hlt, hnone]
  | case2 ps ds j hlt p hp hrem r ih =>
    intro h
    have := h j hlt p hp
    simp [this] at hrem
  | case3 ps ds j hlt p hp hrem ih =>
    intro h
    rw [deleteHaloParticlesCell]
    simp only [hlt, if_true, hp, hrem]
    exact ih h
  | case4 ps ds j hlt =>
    intro _
    rw [deleteHaloParticlesCell]
    simp [hlt]

/-- The loop of `deleteHaloParticles` over all cells changes nothing when run a second time. -/
lemma deleteHaloParticlesCells_idem (offset offset2 : ℚ) (cells : List (List Particle))
    (dss : List Nat) :
    deleteHaloParticlesCells offset2 (deleteHaloParticlesCells offset cells dss).1
        (deleteHaloParticlesCells offset cells dss).2 =
      deleteHaloParticlesCells offset cells dss := by
  induction cells generalizing dss with
  | nil => cases dss <;> simp [deleteHaloParticlesCells]
  | cons c cs ih =>
    cases dss with
    | nil => simp [deleteHaloParticlesCells]
    | cons d ds =>
      simp only [deleteHaloParticlesCells]
      rw [ih ds, deleteHaloParticlesCell_of_allOwned offset2 _ _ 0
        (deleteHaloParticlesCell_allOwned offset c d 0 (fun k hk => absurd hk (Nat.not_lt_zero k)))]

/-- The loop of `deleteHaloParticles` over all cells keeps the class invariant and leaves, as
non-dummy particles, exactly the owned ones (up to order). -/
lemma deleteHaloParticlesCells_spec (offset : ℚ) (cells : List (List Particle)) (dss : List Nat) :
    wellFormedCells cells dss = true →
    wellFormedCells (deleteHaloParticlesCells offset cells dss).1
        (deleteHaloParticlesCells offset cells dss).2 = true ∧
    (nonDummyOf (deleteHaloParticlesCells offset cells dss).1
        (deleteHaloParticlesCells offset cells dss).2).Perm
      ((nonDummyOf cells dss).filter (fun p => p.isOwned)) := by
  induction cells generalizing dss with
  | nil =>
    cases dss <;> simp [deleteHaloParticlesCells, wellFormedCells, nonDummyOf]
  | cons c cs ih =>
    cases dss with
    | nil => simp [wellFormedCells]
    | cons d ds =>
      intro hwf
      simp only [wellFormedCells, Bool.and_eq_true, decide_eq_true_eq] at hwf
      obtain ⟨ih1, ih2⟩ := ih ds hwf.2
      have hc := evictCell_spec (fun p => !p.isOwned) offset c d 0 [] (Nat.zero_le _) hwf.1
      rw [← deleteHaloParticlesCell_eq offset c d 0 []] at hc
      obtain ⟨hc1, hc2, hc3, _⟩ := hc
      simp only [deleteHaloParticlesCells, wellFormedCells, nonDummyOf, Bool.and_eq_true,
        decide_eq_true_eq, List.filter_append]
      refine ⟨⟨by omega, ih1⟩, ?_⟩
      refine List.Perm.append ?_ ih2
      simpa using hc3

/-- The loop of `updateContainer` over all cells keeps the class invariant, leaves as
non-dummy particles those that are not owned-and-outside, and appends the owned ones outside
the box to the returned vector (up to order). -/
lemma updateContainerCells_spec (boxMin boxMax : Vec3) (offset : ℚ)
    (cells : List (List Particle)) (dss : List Nat) (removed : List Particle) :
    wellFormedCells cells dss = true →
    wellFormedCells (updateContainerCells boxMin boxMax offset cells dss removed).1.1
        (updateContainerCells boxMin boxMax offset cells dss removed).1.2 = true ∧
    (nonDummyOf (updateContainerCells boxMin boxMax offset cells dss removed).1.1
        (updateContainerCells boxMin boxMax offset cells dss removed).1.2).Perm
      ((nonDummyOf cells dss).filter
        (fun p => !(IteratorBehavior.ownedOnly.fits p && utils.notInBox p.getR boxMin boxMax))) ∧
    (updateContainerCells boxMin boxMax offset cells dss removed).2.Perm
      (removed ++ (nonDummyOf cells dss).filter
        (fun p => IteratorBehavior.ownedOnly.fits p && utils.notInBox p.getR boxMin boxMax)) := by
  induction cells generalizing dss removed with
  | nil =>
    cases dss <;> simp [updateContainerCells, wellFormedCells, nonDummyOf]
  | cons c cs ih =>
    cases dss with
    | nil => simp [wellFormedCells]
    | cons d ds =>
      intro hwf
      simp only [wellFormedCells, Bool.and_eq_true, decide_eq_true_eq] at hwf
      have hc := evictCell_spec
        (fun p => IteratorBehavior.ownedOnly.fits p && utils.notInBox p.getR boxMin boxMax)
        offset c d 0 removed (Nat.zero_le _) hwf.1
      rw [← updateContainerCell_eq boxMin boxMax offset c d 0 removed] at hc
      obtain ⟨hc1, hc2, hc3, hc4⟩ := hc
      obtain ⟨ih1, ih2, ih3⟩ :=
        ih ds (updateContainerCell boxMin boxMax offset c d 0 removed).2 hwf.2
      simp only [updateContainerCells, wellFormedCells, nonDummyOf, Bool.and_eq_true,
        decide_eq_true_eq, List.filter_append]
      refine ⟨⟨by omega, ih1⟩, ?_, ?_⟩
      · refine List.Perm.append ?_ ih2
        simpa using hc3
      · refine ih3.trans ?_
        rw [← List.append_assoc]
        refine List.Perm.append_right _ ?_
        simpa using hc4

/-- The class invariant holds for a newly constructed container and is kept by
`addParticle`, `addHaloParticle`, `deleteHaloParticles` and `deleteAllParticles`. -/
lemma wellFormed_preserved (s : VerletClusterCells) (p : Particle) (boxMin boxMax : Vec3)
    (cutoff skin : ℚ) (clusterSize : Nat) :
    (VerletClusterCells.new boxMin boxMax cutoff skin clusterSize).wellFormed = true ∧
    (s.wellFormed = true →
      (s.addParticle p).2.wellFormed = true ∧ (s.addHaloParticle p).2.wellFormed = true ∧
      s.deleteHaloParticles.wellFormed = true ∧ s.deleteAllParticles.wellFormed = true) := by
  refine ⟨rfl, fun hwf => ?_⟩
  have hadd : ∀ q : Particle,
      wellFormedCells
        (s._cells.modifyHead fun cell => resize cell (s._dummyStarts.headD 0) ++ [q])
        (s._dummyStarts.modifyHead fun d => d + 1) = true := by
    intro q
    simp only [wellFormed] at hwf
    rcases hc : s._cells with _ | ⟨c, cs⟩ <;> rcases hd : s._dummyStarts with _ | ⟨d, ds⟩ <;>
      rw [hc, hd] at hwf <;>
      simp only [wellFormedCells, Bool.and_eq_true, decide_eq_true_eq, Bool.false_eq_true] at hwf
    · rfl
    · simp only [List.modifyHead, List.headD, wellFormedCells, Bool.and_eq_true,
        decide_eq_true_eq]
      refine ⟨?_, hwf.2⟩
      simp [resize, List.length_take]
      omega
  have hall : ∀ (cells : List (List Particle)) (dss : List Nat),
      wellFormedCells cells dss = true →
        wellFormedCells (ParticleContainer.deleteAllParticles cells) (dss.map fun _ => 0)
          = true := by
    intro cells
    induction cells with
    | nil =>
      intro dss h
      cases dss <;> simp_all [wellFormedCells, ParticleContainer.deleteAllParticles]
    | cons c cs ih =>
      intro dss h
      cases dss with
      | nil => simp [wellFormedCells] at h
      | cons d ds =>
        simp only [wellFormedCells, Bool.and_eq_true, decide_eq_true_eq] at h
        have := ih ds h.2
        simp only [ParticleContainer.deleteAllParticles] at this
        simp only [ParticleContainer.deleteAllParticles, List.map_cons, wellFormedCells,
          List.length_nil, Nat.le_refl, decide_True, Bool.true_and]
        exact this
  refine ⟨?_, ?_, ?_, ?_⟩
  · simp only [addParticle]
    split
    · exact hadd p
    · exact hwf
  · simp only [addHaloParticle]
    split
    · exact hadd _
    · exact hwf
  · exact (deleteHaloParticlesCells_spec _ s._cells s._dummyStarts hwf).1
  · exact hall s._cells s._dummyStarts hwf

/-- C8: for every particle `p` and every container box, exactly one of `addParticle(p)` and
`addHaloParticle(p)` succeeds: `addParticle` succeeds if and only if
`boxMin[d] <= p.r[d] < boxMax[d]` in every dimension `d` and raises otherwise;
`addHaloParticle` raises if and only if `p` lies inside the box in that sense and succeeds
otherwise. -/
theorem addParticle_addHaloParticle_exclusive (s : VerletClusterCells) (p : Particle) :
    ((s.addParticle p).1 = .ok () ↔
      ∀ d : Fin 3, s._boxMin d ≤ p.getR d ∧ p.getR d < s._boxMax d) ∧
    ((∃ e, (s.addParticle p).1 = .error e) ↔
      ¬ ∀ d : Fin 3, s._boxMin d ≤ p.getR d ∧ p.getR d < s._boxMax d) ∧
    ((∃ e, (s.addHaloParticle p).1 = .error e) ↔
      ∀ d : Fin 3, s._boxMin d ≤ p.getR d ∧ p.getR d < s._boxMax d) ∧
    ((s.addHaloParticle p).1 = .ok () ↔
      ¬ ∀ d : Fin 3, s._boxMin d ≤ p.getR d ∧ p.getR d < s._boxMax d) ∧
    Xor' ((s.addParticle p).1 = .ok ()) ((s.addHaloParticle p).1 = .ok ()) := by
  rw [← utils.inBox_iff]
  simp only [addParticle, addHaloParticle, utils.notInBox, Xor']
  cases utils.inBox p.getR s._boxMin s._boxMax <;> simp

/-- C9: on a container state that satisfies the class invariant, `updateContainer()` returns
exactly the owned non-dummy particles whose position is not inside `[boxMin, boxMax)` (as a
multiset); the non-dummy particles afterwards are exactly the owned ones inside the box, so the
returned particles and every halo particle are removed, every owned particle inside the box is
kept, and no remaining non-dummy particle lies outside the box. The class invariant holds
again afterwards. -/
theorem updateContainer_returns_owned_outside (s : VerletClusterCells)
    (hwf : s.wellFormed = true) :
    s.updateContainer.1.Perm
      (s.nonDummy.filter fun p => p.isOwned && utils.notInBox p.getR s._boxMin s._boxMax) ∧
    s.updateContainer.2.nonDummy.Perm
      (s.nonDummy.filter fun p => p.isOwned && utils.inBox p.getR s._boxMin s._boxMax) ∧
    (∀ p ∈ s.updateContainer.2.nonDummy,
      p.isOwned = true ∧ ∀ d : Fin 3, s._boxMin d ≤ p.getR d ∧ p.getR d < s._boxMax d) ∧
    s.updateContainer.2.wellFormed = true := by
  obtain ⟨h1, h2⟩ := deleteHaloParticlesCells_spec
    (s._boxMaxWithHalo 2 + 8 * s.getInteractionLength) s._cells s._dummyStarts hwf
  obtain ⟨h3, h4, h5⟩ := updateContainerCells_spec s._boxMin s._boxMax
    (s._boxMaxWithHalo 0 + 8 * s.getInteractionLength)
    (deleteHaloParticlesCells (s._boxMaxWithHalo 2 + 8 * s.getInteractionLength)
      s._cells s._dummyStarts).1
    (deleteHaloParticlesCells (s._boxMaxWithHalo 2 + 8 * s.getInteractionLength)
      s._cells s._dummyStarts).2 [] h1
  have hout : s.updateContainer.1.Perm
      (s.nonDummy.filter fun p => p.isOwned && utils.notInBox p.getR s._boxMin s._boxMax) := by
    refine h5.trans ?_
    rw [List.nil_append]
    refine (h2.filter _).trans ?_
    rw [List.filter_filter]
    refine List.Perm.of_eq (List.filter_congr ?_)
    intro p _
    cases hp : p.isOwned <;> simp [IteratorBehavior.fits, hp]
  have hin : s.updateContainer.2.nonDummy.Perm
      (s.nonDummy.filter fun p => p.isOwned && utils.inBox p.getR s._boxMin s._boxMax) := by
    refine h4.trans ?_
    refine (h2.filter _).trans ?_
    rw [List.filter_filter]
    refine List.Perm.of_eq (List.filter_congr ?_)
    intro p _
    cases hp : p.isOwned <;> simp [IteratorBehavior.fits, utils.notInBox, hp]
  refine ⟨hout, hin, ?_, h3⟩
  intro p hp
  have hmem := (hin.mem_iff).1 hp
  rw [List.mem_filter, Bool.and_eq_true, utils.inBox_iff] at hmem
  exact hmem.2

/-- C9 on the sample container: one owned particle inside the box, one halo particle and one
owned particle that has left the box. -/
theorem updateContainer_returns_owned_outside_witness :
    sampleContainer.wellFormed = true ∧
    sampleContainer.updateContainer.1.Perm
      (sampleContainer.nonDummy.filter fun p =>
        p.isOwned && utils.notInBox p.getR sampleContainer._boxMin sampleContainer._boxMax) ∧
    sampleContainer.updateContainer.2.nonDummy.Perm
      (sampleContainer.nonDummy.filter fun p =>
        p.isOwned && utils.inBox p.getR sampleContainer._boxMin sampleContainer._boxMax) :=
  ⟨by decide,
    (updateContainer_returns_owned_outside sampleContainer (by decide)).1,
    (updateContainer_returns_owned_outside sampleContainer (by decide)).2.1⟩

/-- C10: `deleteHaloParticles` and `deleteAllParticles` are idempotent on `VerletClusterCells`:
on every container state, applying the operation twice gives the same state (cells, dummy
starts, validity flag, and with them `getNumParticles`) as applying it once, and after it the
neighbor lists are invalid. -/
theorem delete_operations_idempotent (s : VerletClusterCells) :
    s.deleteHaloParticles.deleteHaloParticles = s.deleteHaloParticles ∧
    s.deleteHaloParticles.deleteHaloParticles.getNumParticles =
      s.deleteHaloParticles.getNumParticles ∧
    s.deleteHaloParticles._isValid = false ∧
    s.deleteAllParticles.deleteAllParticles = s.deleteAllParticles ∧
    s.deleteAllParticles.deleteAllParticles.getNumParticles =
      s.deleteAllParticles.getNumParticles ∧
    s.deleteAllParticles._isValid = false := by
  have h1 : s.deleteHaloParticles.deleteHaloParticles = s.deleteHaloParticles := by
    simp only [deleteHaloParticles, getInteractionLength]
    rw [deleteHaloParticlesCells_idem]
  have h2 : s.deleteAllParticles.deleteAllParticles = s.deleteAllParticles := by
    simp [deleteAllParticles, ParticleContainer.deleteAllParticles]
  refine ⟨h1, by rw [h1], rfl, h2, by rw [h2], rfl⟩

end VerletClusterCells

end autopas

namespace autopas

/-! Properties of the traversals. -/

/-- Every value of a `for` loop variable is at least the start value. -/
lemma forLoop_ge (start end_ stride x : Nat) (h : x ∈ forLoop start end_ stride) : start ≤ x := by
  induction start, end_, stride using forLoop.induct with
  | case1 start end_ stride hc ih =>
    rw [forLoop, if_pos hc] at h
    rcases List.mem_cons.1 h with rfl | h
    · exact Nat.le_refl _
    · have := ih h
      omega
  | case2 start end_ stride hc =>
    rw [forLoop, if_neg hc] at h
    simp at h

/-- A `for` loop visits no value twice. -/
lemma forLoop_nodup (start end_ stride : Nat) : (forLoop start end_ stride).Nodup := by
  induction start, end_, stride using forLoop.induct with
  | case1 start end_ stride hc ih =>
    rw [forLoop, if_pos hc]
    refine List.nodup_cons.2 ⟨fun hmem => ?_, ih⟩
    have := forLoop_ge _ _ _ _ hmem
    omega
  | case2 start end_ stride hc =>
    rw [forLoop, if_neg hc]
    exact List.nodup_nil

/-- The values of a loop with stride two: those from the start value up to the end that
differ from the start by an even number. -/
lemma forLoop_two_mem (start end_ x : Nat) :
    x ∈ forLoop start end_ 2 ↔ start ≤ x ∧ x < end_ ∧ (x - start) % 2 = 0 := by
  generalize hs : (2 : Nat) = stride
  induction start, end_, stride using forLoop.induct with
  | case1 start end_ stride hc ih =>
    subst hs
    rw [forLoop, if_pos hc, List.mem_cons, ih rfl]
    omega
  | case2 start end_ stride hc =>
    subst hs
    rw [forLoop, if_neg hc]
    simp only [List.not_mem_nil, false_iff]
    omega

/-- The calls of a loop nest are the triples of values of the three loop variables. -/
lemma mem_loopNest (xs ys zs : List Nat) (x y z : Nat) :
    (x, y, z) ∈ loopNest xs ys zs ↔ x ∈ xs ∧ y ∈ ys ∧ z ∈ zs := by
  simp only [loopNest, List.mem_flatMap, List.mem_map, Prod.mk.injEq]
  constructor
  · rintro ⟨z', hz, y', hy, x', hx, rfl, rfl, rfl⟩
    exact ⟨hx, hy, hz⟩
  · rintro ⟨hx, hy, hz⟩
    exact ⟨z, hz, y, hy, x, hx, rfl, rfl, rfl⟩

/-- A loop nest whose loop variables take no value twice makes no call twice. -/
lemma nodup_loopNest (xs ys zs : List Nat) (hx : xs.Nodup) (hy : ys.Nodup) (hz : zs.Nodup) :
    (loopNest xs ys zs).Nodup := by
  unfold loopNest
  rw [List.nodup_flatMap]
  refine ⟨fun z _ => ?_, ?_⟩
  · rw [List.nodup_flatMap]
    refine ⟨fun y _ => ?_, ?_⟩
    · exact hx.map (fun a b h => by simpa using h)
    · refine hy.pairwise_of_forall_ne (fun a _ b _ hab => ?_)
      intro c hca hcb
      simp only [List.mem_map] at hca hcb
      obtain ⟨_, _, rfl⟩ := hca
      obtain ⟨_, _, h⟩ := hcb
      simp only [Prod.mk.injEq] at h
      exact hab h.2.1.symm
  · refine hz.pairwise_of_forall_ne (fun a _ b _ hab => ?_)
    intro c hca hcb
    simp only [List.mem_flatMap, List.mem_map] at hca hcb
    obtain ⟨_, _, _, _, rfl⟩ := hca
    obtain ⟨_, _, _, _, h⟩ := hcb
    simp only [Prod.mk.injEq] at h
    exact hab h.2.2.symm

/-- The number of calls of a loop nest. -/
lemma length_loopNest (xs ys zs : List Nat) :
    (loopNest xs ys zs).length = xs.length * ys.length * zs.length := by
  unfold loopNest
  have hy : ∀ z : Nat,
      (ys.flatMap fun y => xs.map fun x => (x, y, z)).length = xs.length * ys.length := by
    intro z
    induction ys with
    | nil => simp
    | cons y ys ihy =>
      rw [List.flatMap_cons, List.length_append, ihy, List.length_map, List.length_cons]
      ring
  induction zs with
  | nil => simp
  | cons z zs ih =>
    rw [List.flatMap_cons, List.length_append, ih, hy, List.length_cons]
    ring

namespace C08BasedTraversal

/-- The array `end` holds `cellsPerDimension[d] - 1` when the grid has at least one cell in
dimension `d`. -/
lemma end_eq (cellsPerDimension : Fin 3 → Nat) (d : Fin 3) (h1 : 1 ≤ cellsPerDimension d)
    (h64 : cellsPerDimension d ≤ UINT64_MAX) :
    end_ cellsPerDimension d = cellsPerDimension d - 1 := by
  simp only [end_, UINT64_MAX] at *
  omega

/-- The start offset of a colour below eight, coordinate by coordinate. -/
lemma start_eq (col : Nat) :
    utils.ThreeDimensionalMapping.oneToThreeD col stride 0 = col - 2 * ((col - col / 4 * 2 * 2) / 2 + 2 * (col / 4)) ∧
    utils.ThreeDimensionalMapping.oneToThreeD col stride 1 = (col - col / 4 * 2 * 2) / 2 ∧
    utils.ThreeDimensionalMapping.oneToThreeD col stride 2 = col / 4 := by
  simp [utils.ThreeDimensionalMapping.oneToThreeD, stride]

/-- The base cells of one colour: the coordinates below `end` that differ from the colour's
start offset by even numbers. -/
lemma mem_c08Color (cellsPerDimension : Fin 3 → Nat) (col x y z : Nat) :
    (x, y, z) ∈ c08Color cellsPerDimension col ↔
      (utils.ThreeDimensionalMapping.oneToThreeD col stride 0 ≤ x ∧
        x < end_ cellsPerDimension 0 ∧
        (x - utils.ThreeDimensionalMapping.oneToThreeD col stride 0) % 2 = 0) ∧
      (utils.ThreeDimensionalMapping.oneToThreeD col stride 1 ≤ y ∧
        y < end_ cellsPerDimension 1 ∧
        (y - utils.ThreeDimensionalMapping.oneToThreeD col stride 1) % 2 = 0) ∧
      (utils.ThreeDimensionalMapping.oneToThreeD col stride 2 ≤ z ∧
        z < end_ cellsPerDimension 2 ∧
        (z - utils.ThreeDimensionalMapping.oneToThreeD col stride 2) % 2 = 0) := by
  have hs : ∀ d : Fin 3, stride d = 2 := by
    intro d
    fin_cases d <;> rfl
  simp only [c08Color, mem_loopNest, hs, forLoop_two_mem]

/-- The base cells of the whole traversal: the coordinates below `end`. -/
lemma mem_c08Traversal (cellsPerDimension : Fin 3 → Nat) (x y z : Nat) :
    (x, y, z) ∈ c08Traversal cellsPerDimension ↔
      x < end_ cellsPerDimension 0 ∧ y < end_ cellsPerDimension 1 ∧
        z < end_ cellsPerDimension 2 := by
  simp only [c08Traversal, List.mem_flatMap, List.mem_range, mem_c08Color]
  constructor
  · rintro ⟨col, _, ⟨_, hx, _⟩, ⟨_, hy, _⟩, ⟨_, hz, _⟩⟩
    exact ⟨hx, hy, hz⟩
  · rintro ⟨hx, hy, hz⟩
    refine ⟨x % 2 + 2 * (y % 2) + 4 * (z % 2), by omega, ?_⟩
    obtain ⟨h0, h1, h2⟩ := start_eq (x % 2 + 2 * (y % 2) + 4 * (z % 2))
    rw [h0, h1, h2]
    refine ⟨⟨?_, hx, ?_⟩, ⟨?_, hy, ?_⟩, ⟨?_, hz, ?_⟩⟩ <;> omega

/-- The traversal calls `loopBody` at most once per coordinate. -/
lemma nodup_c08Traversal (cellsPerDimension : Fin 3 → Nat) :
    (c08Traversal cellsPerDimension).Nodup := by
  unfold c08Traversal
  rw [List.nodup_flatMap]
  refine ⟨fun col _ => ?_, ?_⟩
  · exact nodup_loopNest _ _ _ (forLoop_nodup _ _ _) (forLoop_nodup _ _ _) (forLoop_nodup _ _ _)
  · refine (List.nodup_range 8).pairwise_of_forall_ne (fun a ha b hb hab => ?_)
    rintro ⟨x, y, z⟩ hca hcb
    rw [mem_c08Color] at hca hcb
    obtain ⟨a0, a1, a2⟩ := start_eq a
    obtain ⟨b0, b1, b2⟩ := start_eq b
    rw [a0, a1, a2] at hca
    rw [b0, b1, b2] at hcb
    rw [List.mem_range] at ha hb
    omega

/-- C13: for every cell grid with at least one cell per dimension (dimensions are
`unsigned long`), `c08Traversal` calls `loopBody` exactly once for every coordinate
`(x, y, z)` with `x < dx - 1`, `y < dy - 1`, `z < dz - 1` and never for another coordinate
(the sequence of calls has no repetition and holds exactly these coordinates):
`(dx - 1) * (dy - 1) * (dz - 1)` calls in all, hence thirteen times as many pair interactions
when every base step makes thirteen. -/
theorem c08Traversal_each_base_cell_once (cellsPerDimension : Fin 3 → Nat)
    (h1 : ∀ d, 1 ≤ cellsPerDimension d) (h64 : ∀ d, cellsPerDimension d ≤ UINT64_MAX) :
    (c08Traversal cellsPerDimension).Nodup ∧
    (∀ x y z : Nat,
      (x, y, z) ∈ c08Traversal cellsPerDimension ↔
        x < cellsPerDimension 0 - 1 ∧ y < cellsPerDimension 1 - 1 ∧
          z < cellsPerDimension 2 - 1) ∧
    (c08Traversal cellsPerDimension).length =
      (cellsPerDimension 0 - 1) * (cellsPerDimension 1 - 1) * (cellsPerDimension 2 - 1) ∧
    (c08Traversal cellsPerDimension).length * 13 =
      (cellsPerDimension 0 - 1) * (cellsPerDimension 1 - 1) * (cellsPerDimension 2 - 1) * 13 := by
  have hmem : ∀ x y z : Nat, (x, y, z) ∈ c08Traversal cellsPerDimension ↔
      x < cellsPerDimension 0 - 1 ∧ y < cellsPerDimension 1 - 1 ∧
        z < cellsPerDimension 2 - 1 := by
    intro x y z
    rw [mem_c08Traversal, end_eq _ 0 (h1 0) (h64 0), end_eq _ 1 (h1 1) (h64 1),
      end_eq _ 2 (h1 2) (h64 2)]
  have hnd := nodup_c08Traversal cellsPerDimension
  have hlen : (c08Traversal cellsPerDimension).length =
      (cellsPerDimension 0 - 1) * (cellsPerDimension 1 - 1) * (cellsPerDimension 2 - 1) := by
    have hperm : (c08Traversal cellsPerDimension).Perm
        (loopNest (List.range (cellsPerDimension 0 - 1)) (List.range (cellsPerDimension 1 - 1))
          (List.range (cellsPerDimension 2 - 1))) := by
      rw [List.perm_ext_iff_of_nodup hnd
        (nodup_loopNest _ _ _ (List.nodup_range _) (List.nodup_range _) (List.nodup_range _))]
      rintro ⟨x, y, z⟩
      rw [hmem, mem_loopNest, List.mem_range, List.mem_range, List.mem_range]
    rw [hperm.length_eq, length_loopNest, List.length_range, List.length_range,
      List.length_range]
  exact ⟨hnd, hmem, hlen, by rw [hlen]⟩

/-- C13 on the `2 x 3 x 4` grid of the test `testTraversal2x3x4`: six calls. -/
theorem c08Traversal_each_base_cell_once_witness :
    (c08Traversal ![2, 3, 4]).length = (2 - 1) * (3 - 1) * (4 - 1) :=
  (c08Traversal_each_base_cell_once ![2, 3, 4]
    (fun d => by fin_cases d <;> simp)
    (fun d => by fin_cases d <;> simp [UINT64_MAX])).2.2.1

/-- C14: two distinct base cells visited within the same colour of `c08Traversal` differ by
at least two in some coordinate, so their stencil blocks `{x, x+1} × {y, y+1} × {z, z+1}`
share no cell. -/
theorem c08_same_color_blocks_disjoint (cellsPerDimension : Fin 3 → Nat) (col : Nat)
    (a b : Nat × Nat × Nat) (ha : a ∈ c08Color cellsPerDimension col)
    (hb : b ∈ c08Color cellsPerDimension col) (hab : a ≠ b) :
    (a.1 + 2 ≤ b.1 ∨ b.1 + 2 ≤ a.1 ∨ a.2.1 + 2 ≤ b.2.1 ∨ b.2.1 + 2 ≤ a.2.1 ∨
      a.2.2 + 2 ≤ b.2.2 ∨ b.2.2 + 2 ≤ a.2.2) ∧
    ∀ c, c ∈ stencilBlock a → c ∉ stencilBlock b := by
  obtain ⟨ax, ay, az⟩ := a
  obtain ⟨bx, by_, bz⟩ := b
  rw [mem_c08Color] at ha hb
  have hne : ax ≠ bx ∨ ay ≠ by_ ∨ az ≠ bz := by
    by_contra h
    push_neg at h
    obtain ⟨h1, h2, h3⟩ := h
    exact hab (by rw [h1, h2, h3])
  have hfar : ax + 2 ≤ bx ∨ bx + 2 ≤ ax ∨ ay + 2 ≤ by_ ∨ by_ + 2 ≤ ay ∨
      az + 2 ≤ bz ∨ bz + 2 ≤ az := by
    omega
  refine ⟨hfar, ?_⟩
  rintro ⟨cx, cy, cz⟩ hca hcb
  simp only [stencilBlock, List.mem_flatMap, List.mem_map, List.mem_cons, List.mem_singleton,
    List.not_mem_nil, or_false, Prod.mk.injEq] at hca hcb
  obtain ⟨k, hk, j, hj, i, hi, rfl, rfl, rfl⟩ := hca
  obtain ⟨k2, hk2, j2, hj2, i2, hi2, h1, h2, h3⟩ := hcb
  omega

/-- C14 on the `5 x 5 x 5` grid: the base cells `(0, 0, 0)` and `(2, 0, 0)` of colour `0`. -/
theorem c08_same_color_blocks_disjoint_witness :
    (1, 1, 0) ∈ stencilBlock (0, 0, 0) ∧ (1, 1, 0) ∉ stencilBlock (2, 0, 0) :=
  ⟨by decide, (c08_same_color_blocks_disjoint ![5, 5, 5] 0 (0, 0, 0) (2, 0, 0)
    (by
      rw [mem_c08Color]
      simp [end_, UINT64_MAX, utils.ThreeDimensionalMapping.oneToThreeD, stride])
    (by
      rw [mem_c08Color]
      simp [end_, UINT64_MAX, utils.ThreeDimensionalMapping.oneToThreeD, stride])
    (by decide)).2 (1, 1, 0) (by decide)⟩

end C08BasedTraversal

/-- C16: `DirectSumTraversal::traverseCellPairs` makes exactly two cell functor calls, in this
order: `processCell(cells[0])`, then `processCellPair(cells[0], cells[1])`; `cells[1]` is never
processed on its own. -/
theorem directSum_traverseCellPairs_calls {σ : Type} (f : CellFunctor σ) (cells : σ)
    (log : List CellFunctorCall) :
    DirectSumTraversal.traverseCellPairs f cells =
      f.processCellPair (f.processCell cells 0) 0 1 ∧
    DirectSumTraversal.traverseCellPairs recordingCellFunctor log =
      log ++ [CellFunctorCall.processCell 0, CellFunctorCall.processCellPair 0 1] ∧
    CellFunctorCall.processCell 1 ∉
      DirectSumTraversal.traverseCellPairs recordingCellFunctor [] := by
  refine ⟨rfl, ?_, ?_⟩
  · simp [DirectSumTraversal.traverseCellPairs, recordingCellFunctor]
  · simp [DirectSumTraversal.traverseCellPairs, recordingCellFunctor]

/-- C17 fails for `C08BasedTraversal`: in a build without `AUTOPAS_CUDA` its `isApplicable`
returns true for the data layout `cuda`, whatever the device count, while
`SlicedBasedTraversal`, `DirectSumTraversal` and `C01CudaTraversal` return false there; with
`AUTOPAS_CUDA` and no device all four return false. -/
theorem c08_isApplicable_cuda_without_cuda_build (deviceCount : Int)
    (t : SlicedBasedTraversal) :
    C08BasedTraversal.isApplicable ⟨false, deviceCount⟩ DataLayoutOption.cuda = true ∧
    SlicedBasedTraversal.isApplicable ⟨false, deviceCount⟩ DataLayoutOption.cuda t = false ∧
    DirectSumTraversal.isApplicable ⟨false, deviceCount⟩ DataLayoutOption.cuda = false ∧
    (∀ layout, C01CudaTraversal.isApplicable ⟨false, deviceCount⟩ layout = false) ∧
    (deviceCount ≤ 0 →
      C08BasedTraversal.isApplicable ⟨true, deviceCount⟩ DataLayoutOption.cuda = false ∧
      SlicedBasedTraversal.isApplicable ⟨true, deviceCount⟩ DataLayoutOption.cuda t = false ∧
      DirectSumTraversal.isApplicable ⟨true, deviceCount⟩ DataLayoutOption.cuda = false ∧
      ∀ layout, C01CudaTraversal.isApplicable ⟨true, deviceCount⟩ layout = false) := by
  refine ⟨rfl, ?_, ?_, fun _ => rfl, fun h => ⟨?_, ?_, ?_, fun layout => ?_⟩⟩
  · simp [SlicedBasedTraversal.isApplicable]
  · simp [DirectSumTraversal.isApplicable]
  · simp [C08BasedTraversal.isApplicable, h]
  · simp [SlicedBasedTraversal.isApplicable, h]
  · simp [DirectSumTraversal.isApplicable, h]
  · simp [C01CudaTraversal.isApplicable, h]

/-- The loop that thickens the first slices keeps the number of slices. -/
lemma length_incrementFirst (rest : Nat) (thickness : List Nat) :
    (incrementFirst rest thickness).length = thickness.length := by
  induction thickness generalizing rest with
  | nil => cases rest <;> rfl
  | cons t ts ih =>
    cases rest with
    | zero => rfl
    | succ r => simp [incrementFirst, ih]

/-- The loop that thickens the first slices adds one layer per slice it reaches. -/
lemma sum_incrementFirst (rest : Nat) (thickness : List Nat) :
    (incrementFirst rest thickness).sum = thickness.sum + min rest thickness.length := by
  induction thickness generalizing rest with
  | nil => cases rest <;> simp [incrementFirst]
  | cons t ts ih =>
    cases rest with
    | zero => simp [incrementFirst]
    | succ r =>
      simp only [incrementFirst, List.sum_cons, ih, List.length_cons]
      omega

/-- The loop that thickens the first slices makes no slice thinner. -/
lemma le_of_mem_incrementFirst (rest m : Nat) (thickness : List Nat)
    (h : ∀ x ∈ thickness, m ≤ x) : ∀ x ∈ incrementFirst rest thickness, m ≤ x := by
  induction thickness generalizing rest with
  | nil => cases rest <;> simp [incrementFirst]
  | cons t ts ih =>
    cases rest with
    | zero => simpa [incrementFirst] using h
    | succ r =>
      intro x hx
      simp only [incrementFirst, List.mem_cons] at hx
      rcases hx with rfl | hx
      · have := h t (List.mem_cons_self _ _)
        omega
      · exact ih r (fun y hy => h y (List.mem_cons_of_mem _ hy)) x hx

/-- Thinning the last slice keeps the number of slices. -/
lemma length_decreaseLast (overlap : Nat) (thickness : List Nat) :
    (decreaseLast overlap thickness).length = thickness.length := by
  induction thickness with
  | nil => rfl
  | cons t ts ih =>
    cases ts with
    | nil => rfl
    | cons u us => simp only [decreaseLast, List.length_cons] at ih ⊢; omega

/-- Thinning the last slice takes `overlap` layers off the total when every slice is at least
`overlap` thick. -/
lemma sum_decreaseLast (overlap : Nat) (thickness : List Nat) (hne : thickness ≠ [])
    (h : ∀ x ∈ thickness, overlap ≤ x) :
    (decreaseLast overlap thickness).sum + overlap = thickness.sum := by
  induction thickness with
  | nil => exact absurd rfl hne
  | cons t ts ih =>
    cases ts with
    | nil =>
      have := h t (List.mem_cons_self _ _)
      simp only [decreaseLast, List.sum_cons, List.sum_nil]
      omega
    | cons u us =>
      have := ih (by simp) (fun y hy => h y (List.mem_cons_of_mem _ hy))
      simp only [decreaseLast, List.sum_cons] at this ⊢
      omega

/-- The layers of all slices, slice after slice, are the layers from the first start on, as
many as the thicknesses add up to. -/
lemma slices_cover (thickness : List Nat) (offset : Nat) :
    ((List.range thickness.length).flatMap fun slice =>
        List.range' (offset + (thickness.take slice).sum) (thickness.getD slice 0)) =
      List.range' offset thickness.sum := by
  induction thickness generalizing offset with
  | nil => simp
  | cons t ts ih =>
    rw [List.length_cons, List.range_succ_eq_map, List.flatMap_cons, List.flatMap_map]
    simp only [List.take_zero, List.sum_nil, Nat.add_zero, List.getD_cons_zero,
      List.take_succ_cons, List.sum_cons, List.getD_cons_succ]
    have := ih (offset + t)
    simp only [Nat.add_assoc] at this
    rw [this, List.range'_append_1, Nat.add_comm ts.sum t]

/-- Three nested loops with any body are the image of the loop nest under the body. -/
lemma nested_flatMap_eq_map_loopNest (body : Nat → Nat → Nat → Nat × Nat × Nat)
    (as bs cs : List Nat) :
    (as.flatMap fun a => bs.flatMap fun b => cs.map fun c => body a b c) =
      (loopNest cs bs as).map fun q => body q.2.2 q.2.1 q.1 := by
  simp only [loopNest, List.map_flatMap, List.map_map]
  rfl

/-- The first smallest and the last largest of three numbers sit at different indices, and
with the third index they are a rearrangement of `0, 1, 2`. -/
lemma minmax_indices (a : Fin 3 → Nat) :
    (maxElementIndex a, 3 - (maxElementIndex a + minElementIndex a), minElementIndex a) ∈
      [(0, 1, 2), (0, 2, 1), (1, 0, 2), (1, 2, 0), (2, 0, 1), (2, 1, 0)] := by
  simp only [maxElementIndex, minElementIndex, arrayAt]
  split_ifs <;> simp_all <;> omega

namespace SlicedBasedTraversal

/-- The overlap is one cell when the cutoff is positive and at most the cell length. -/
lemma overlap_eq_one (cutoff cellLength : ℚ) (h0 : 0 < cutoff) (h1 : cutoff ≤ cellLength) :
    ⌈cutoff / cellLength⌉₊ = 1 := by
  rw [Nat.ceil_eq_iff (by decide)]
  have hpos : 0 < cellLength := lt_of_lt_of_le h0 h1
  refine ⟨by simpa using div_pos h0 hpos, ?_⟩
  simpa using (div_le_one hpos).2 h1

/-- The members that `rebuild` sets before it slices the domain. -/
lemma rebuild_fields (maxThreads : Nat) (dims : Fin 3 → Nat) (t : SlicedBasedTraversal) :
    (rebuild maxThreads dims t)._cellsPerDimension = dims ∧
    (rebuild maxThreads dims t)._overlap = (fun d => ⌈t._cutoff / t._cellLength d⌉₊) ∧
    (rebuild maxThreads dims t)._dimsPerLength =
      ![maxElementIndex dims, 3 - (maxElementIndex dims + minElementIndex dims),
        minElementIndex dims] ∧
    (rebuild maxThreads dims t)._overlapLongestAxis =
      arrayAt (fun d => ⌈t._cutoff / t._cellLength d⌉₊) (maxElementIndex dims) := by
  simp only [rebuild]
  split_ifs <;> exact ⟨rfl, rfl, rfl, rfl⟩

/-- The slice thicknesses that `rebuild` computes, in terms of the number of layers `n` along
the longest axis, the overlap `o` along it and the thread count. -/
lemma rebuild_sliceThickness (maxThreads : Nat) (dims : Fin 3 → Nat) (t : SlicedBasedTraversal) :
    (rebuild maxThreads dims t)._sliceThickness =
      (let n := arrayAt dims (maxElementIndex dims)
       let o := arrayAt (fun d => ⌈t._cutoff / t._cellLength d⌉₊) (maxElementIndex dims)
       let m := if n / maxThreads < o + 1 then o + 1 else n / maxThreads
       let k := if n / maxThreads < o + 1 then n / (o + 1) else maxThreads
       if k < 1 then []
       else decreaseLast o (incrementFirst (n - m * k) (List.replicate k m))) := by
  simp only [rebuild]
  by_cases hs : arrayAt dims (maxElementIndex dims) / maxThreads <
      arrayAt (fun d => ⌈t._cutoff / t._cellLength d⌉₊) (maxElementIndex dims) + 1
  · simp only [hs, decide_True, if_true]
    split
    · rfl
    · rename_i hk
      have hk1 : 1 ≤ arrayAt dims (maxElementIndex dims) /
          (arrayAt (fun d => ⌈t._cutoff / t._cellLength d⌉₊) (maxElementIndex dims) + 1) := by
        omega
      obtain ⟨k, hk2⟩ := Nat.exists_eq_add_of_le hk1
      simp [hk2, List.replicate_succ, Nat.add_comm 1 k]
  · simp only [hs, decide_False, if_false, Bool.false_eq_true]
    split
    · rfl
    · rename_i hk
      have hk1 : 1 ≤ maxThreads := by omega
      obtain ⟨k, hk2⟩ := Nat.exists_eq_add_of_le hk1
      simp [hk2, List.replicate_succ, Nat.add_comm 1 k]

/-- With overlap one along the longest axis, the slices that `rebuild` forms have
`n - 1` layers in all, where `n` is the number of cells along that axis. -/
lemma rebuild_sliceThickness_sum (maxThreads : Nat) (dims : Fin 3 → Nat)
    (t : SlicedBasedTraversal) (hT : 1 ≤ maxThreads)
    (ho : arrayAt (fun d => ⌈t._cutoff / t._cellLength d⌉₊) (maxElementIndex dims) = 1)
    (hne : (rebuild maxThreads dims t)._sliceThickness ≠ []) :
    (rebuild maxThreads dims t)._sliceThickness.sum = arrayAt dims (maxElementIndex dims) - 1 := by
  rw [rebuild_sliceThickness] at hne ⊢
  simp only [ho] at hne ⊢
  generalize arrayAt dims (maxElementIndex dims) = n at hne ⊢
  by_cases hs : n / maxThreads < 1 + 1
  · simp only [hs, if_true] at hne ⊢
    by_cases hk : n / (1 + 1) < 1
    · simp [hk] at hne
    · simp only [hk, if_false]
      have hge : ∀ x ∈ incrementFirst (n - (1 + 1) * (n / (1 + 1)))
          (List.replicate (n / (1 + 1)) (1 + 1)), 1 ≤ x := by
        apply le_of_mem_incrementFirst
        intro x hx
        rw [List.mem_replicate] at hx
        omega
      have hnil : incrementFirst (n - (1 + 1) * (n / (1 + 1)))
          (List.replicate (n / (1 + 1)) (1 + 1)) ≠ [] := by
        intro h
        have := congrArg List.length h
        rw [length_incrementFirst, List.length_replicate] at this
        simp only [List.length_nil] at this
        omega
      have hsum := sum_decreaseLast 1 _ hnil hge
      rw [sum_incrementFirst, List.sum_replicate, List.length_replicate] at hsum
      simp only [smul_eq_mul] at hsum
      omega
  · simp only [hs, if_false] at hne ⊢
    have hk : ¬ maxThreads < 1 := by omega
    simp only [hk, if_false]
    have hge : ∀ x ∈ incrementFirst (n - n / maxThreads * maxThreads)
        (List.replicate maxThreads (n / maxThreads)), 1 ≤ x := by
      apply le_of_mem_incrementFirst
      intro x hx
      rw [List.mem_replicate] at hx
      omega
    have hnil : incrementFirst (n - n / maxThreads * maxThreads)
        (List.replicate maxThreads (n / maxThreads)) ≠ [] := by
      intro h
      have := congrArg List.length h
      rw [length_incrementFirst, List.length_replicate] at this
      simp only [List.length_nil] at this
      omega
    have hsum := sum_decreaseLast 1 _ hnil hge
    rw [sum_incrementFirst, List.sum_replicate, List.length_replicate] at hsum
    simp only [smul_eq_mul] at hsum
    have h1 := Nat.div_add_mod n maxThreads
    have h2 := Nat.mod_lt n (show 0 < maxThreads by omega)
    rw [Nat.mul_comm maxThreads (n / maxThreads)] at h1
    rw [Nat.mul_comm maxThreads (n / maxThreads)] at hsum
    omega

/-- The `loopBody` calls of `slicedTraversal`, given the slices cover the layers `0` up to
their total thickness: three nested loops over the layers, the medium and the short axis. -/
lemma slicedTraversal_eq (t : SlicedBasedTraversal) :
    slicedTraversal t =
      (List.range' 0 t._sliceThickness.sum).flatMap fun dimSlice =>
        (List.range (innerEnd t (t._dimsPerLength 1))).flatMap fun dimMedium =>
          (List.range (innerEnd t (t._dimsPerLength 2))).map fun dimShort =>
            loopBodyArguments t dimSlice dimMedium dimShort := by
  have h := slices_cover t._sliceThickness 0
  simp only [Nat.zero_add] at h
  rw [← h, List.flatMap_assoc]
  simp only [slicedTraversal, Nat.add_sub_cancel_left]

/-- The calls of `slicedTraversal` when the axes are ordered `(p0, p1, p2)` (longest, medium,
shortest), a rearrangement of `0, 1, 2`: no call is made twice, and the calls are the
coordinates whose entry on the longest axis is a layer of a slice and whose entries on the
other two axes are below the inner loop bounds. -/
lemma slicedTraversal_calls (t : SlicedBasedTraversal) (p0 p1 p2 : Nat)
    (hdpl : t._dimsPerLength = ![p0, p1, p2])
    (hperm : (p0, p1, p2) ∈
      [(0, 1, 2), (0, 2, 1), (1, 0, 2), (1, 2, 0), (2, 0, 1), (2, 1, 0)]) :
    (slicedTraversal t).Nodup ∧
    ∀ x y z : Nat, (x, y, z) ∈ slicedTraversal t ↔
      arrayAt ![x, y, z] p0 < t._sliceThickness.sum ∧
      arrayAt ![x, y, z] p1 < innerEnd t p1 ∧
      arrayAt ![x, y, z] p2 < innerEnd t p2 := by
  have h0 : t._dimsPerLength 0 = p0 := by rw [hdpl]; rfl
  have h1 : t._dimsPerLength 1 = p1 := by rw [hdpl]; rfl
  have h2 : t._dimsPerLength 2 = p2 := by rw [hdpl]; rfl
  rw [slicedTraversal_eq, nested_flatMap_eq_map_loopNest, ← List.range_eq_range', h1, h2]
  have hnd := nodup_loopNest (List.range (innerEnd t p2)) (List.range (innerEnd t p1))
    (List.range t._sliceThickness.sum) (List.nodup_range _) (List.nodup_range _)
    (List.nodup_range _)
  simp only [List.mem_cons, Prod.mk.injEq, List.mem_singleton, List.not_mem_nil, or_false]
    at hperm
  rcases hperm with hp | hp | hp | hp | hp | hp
  all_goals
    obtain ⟨rfl, rfl, rfl⟩ := hp
    refine ⟨hnd.map ?_, ?_⟩
    · rintro ⟨a, b, c⟩ ⟨a', b', c'⟩ h
      simp [loopBodyArguments, arraySet, h0, h1, h2, Function.update] at h
      simp [h]
    · intro x y z
      simp only [List.mem_map, Prod.exists, mem_loopNest, List.mem_range, loopBodyArguments,
        arraySet, arrayAt, h0, h1, h2]
      constructor
      · rintro ⟨a, b, c, ⟨ha, hb, hc⟩, h⟩
        simp [Function.update] at h
        obtain ⟨rfl, rfl, rfl⟩ := h
        simp [ha, hb, hc]
      · intro h
        simp at h
        first
          | exact ⟨z, y, x, ⟨h.2.2, h.2.1, h.1⟩, by simp [Function.update]⟩
          | exact ⟨y, z, x, ⟨h.2.2, h.2.1, h.1⟩, by simp [Function.update]⟩
          | exact ⟨z, x, y, ⟨h.2.2, h.2.1, h.1⟩, by simp [Function.update]⟩
          | exact ⟨x, z, y, ⟨h.2.2, h.2.1, h.1⟩, by simp [Function.update]⟩
          | exact ⟨y, x, z, ⟨h.2.2, h.2.1, h.1⟩, by simp [Function.update]⟩
          | exact ⟨x, y, z, ⟨h.2.2, h.2.1, h.1⟩, by simp [Function.update]⟩

/-- C15: for every cell grid with at least one cell per dimension (dimensions are
`unsigned long`), every thread count `T >= 1` and every positive cutoff not larger than the
cell length in any dimension (overlap one), if the sliced traversal is applicable after
`rebuild`, then `slicedTraversal`, run slice by slice, calls `loopBody` on exactly the
base-cell coordinates on which `c08Traversal` calls it on the same grid, each exactly once. -/
theorem slicedTraversal_same_calls_as_c08 (env : CudaEnvironment)
    (DataLayout : DataLayoutOption) (maxThreads : Nat) (dims : Fin 3 → Nat)
    (t : SlicedBasedTraversal) (hT : 1 ≤ maxThreads)
    (h1 : ∀ d, 1 ≤ dims d) (h64 : ∀ d, dims d ≤ UINT64_MAX)
    (hc : 0 < t._cutoff) (hcl : ∀ d, t._cutoff ≤ t._cellLength d)
    (happ : isApplicable env DataLayout (rebuild maxThreads dims t) = true) :
    (slicedTraversal (rebuild maxThreads dims t)).Nodup ∧
    (slicedTraversal (rebuild maxThreads dims t)).Perm (C08BasedTraversal.c08Traversal dims) ∧
    ∀ x y z : Nat, (x, y, z) ∈ slicedTraversal (rebuild maxThreads dims t) ↔
      (x, y, z) ∈ C08BasedTraversal.c08Traversal dims := by
  obtain ⟨hcpd, hov, hdpl, _⟩ := rebuild_fields maxThreads dims t
  have hperm := minmax_indices dims
  have hov1 : (fun d => ⌈t._cutoff / t._cellLength d⌉₊) = fun _ => 1 := by
    funext d
    exact overlap_eq_one _ _ hc (hcl d)
  have hne : (rebuild maxThreads dims t)._sliceThickness ≠ [] := by
    intro h
    simp only [isApplicable, h] at happ
    split at happ <;> simp at happ
  have hmax : maxElementIndex dims < 3 := by
    simp only [maxElementIndex]
    split_ifs <;> omega
  have ho : arrayAt (fun d => ⌈t._cutoff / t._cellLength d⌉₊) (maxElementIndex dims) = 1 := by
    rw [hov1]
    generalize maxElementIndex dims = i at hmax
    interval_cases i <;> rfl
  have hsum := rebuild_sliceThickness_sum maxThreads dims t hT ho hne
  have hinner : ∀ i, i < 3 → innerEnd (rebuild maxThreads dims t) i = arrayAt dims i - 1 := by
    intro i hi
    simp only [innerEnd, hcpd, hov, hov1]
    have hd1 : 1 ≤ arrayAt dims i := by interval_cases i <;> simp [arrayAt, h1]
    have hd2 : arrayAt dims i ≤ UINT64_MAX := by interval_cases i <;> simp [arrayAt, h64]
    have hone : arrayAt (fun _ => 1) i = 1 := by interval_cases i <;> rfl
    rw [hone]
    simp only [UINT64_MAX] at hd2 ⊢
    omega
  obtain ⟨hnd, hmem⟩ := slicedTraversal_calls (rebuild maxThreads dims t) _ _ _ hdpl hperm
  have hiff : ∀ x y z : Nat, (x, y, z) ∈ slicedTraversal (rebuild maxThreads dims t) ↔
      (x, y, z) ∈ C08BasedTraversal.c08Traversal dims := by
    intro x y z
    rw [hmem, hsum, C08BasedTraversal.mem_c08Traversal,
      C08BasedTraversal.end_eq _ 0 (h1 0) (h64 0), C08BasedTraversal.end_eq _ 1 (h1 1) (h64 1),
      C08BasedTraversal.end_eq _ 2 (h1 2) (h64 2)]
    generalize maxElementIndex dims = p0 at hperm ⊢
    generalize minElementIndex dims = p2 at hperm ⊢
    simp only [List.mem_cons, Prod.mk.injEq, List.mem_singleton, List.not_mem_nil, or_false]
      at hperm
    rcases hperm with hp | hp | hp | hp | hp | hp
    all_goals
      obtain ⟨rfl, h, rfl⟩ := hp
      simp only [h]
      rw [hinner _ (by omega), hinner _ (by omega)]
      simp only [arrayAt, Matrix.cons_val_zero, Matrix.cons_val_one, Matrix.cons_val_two,
        Matrix.head_cons, Matrix.tail_cons]
      first
        | done
        | tauto
  refine ⟨hnd, ?_, hiff⟩
  rw [List.perm_ext_iff_of_nodup hnd (C08BasedTraversal.nodup_c08Traversal dims)]
  rintro ⟨x, y, z⟩
  exact hiff x y z

/-- The slices of the `3 x 5 x 4` grid for four threads, cutoff `1` and cell length `1`: the
longest axis has five layers, cut into slices of three layers and one layer. -/
lemma sampleSlicedTraversal_sliceThickness :
    (rebuild 4 ![3, 5, 4] sampleSlicedTraversal)._sliceThickness = [3, 1] := by
  have hmax : maxElementIndex ![3, 5, 4] = 1 := by decide
  have ho : arrayAt (fun d => ⌈sampleSlicedTraversal._cutoff /
      sampleSlicedTraversal._cellLength d⌉₊) 1 = 1 := by
    simp [arrayAt, sampleSlicedTraversal]
  rw [rebuild_sliceThickness, hmax, ho]
  decide

/-- C15 on the `3 x 5 x 4` grid with four threads, cutoff `1` and cell length `1`. -/
theorem slicedTraversal_same_calls_as_c08_witness :
    (slicedTraversal (rebuild 4 ![3, 5, 4] sampleSlicedTraversal)).Perm
      (C08BasedTraversal.c08Traversal ![3, 5, 4]) :=
  (slicedTraversal_same_calls_as_c08 ⟨false, 0⟩ DataLayoutOption.aos 4 ![3, 5, 4]
    sampleSlicedTraversal (by decide)
    (fun d => by fin_cases d <;> simp)
    (fun d => by fin_cases d <;> simp [UINT64_MAX])
    (by simp [sampleSlicedTraversal])
    (fun d => by simp [sampleSlicedTraversal])
    (by simp [isApplicable, sampleSlicedTraversal_sliceThickness])).2.1

/-- Thinning the last slice leaves the other slices as they are. -/
lemma dropLast_decreaseLast (overlap : Nat) (thickness : List Nat) :
    (decreaseLast overlap thickness).dropLast = thickness.dropLast := by
  induction thickness with
  | nil => rfl
  | cons t ts ih =>
    cases ts with
    | nil => rfl
    | cons u us =>
      cases us with
      | nil => rfl
      | cons v vs =>
        simp only [decreaseLast, List.dropLast_cons₂] at ih ⊢
        rw [ih]

/-- Thinning the last slice takes `overlap` layers off the last slice. -/
lemma getLast?_decreaseLast (overlap : Nat) (thickness : List Nat) :
    (decreaseLast overlap thickness).getLast? = thickness.getLast?.map (fun x => x - overlap) := by
  induction thickness with
  | nil => rfl
  | cons t ts ih =>
    cases ts with
    | nil => rfl
    | cons u us =>
      cases us with
      | nil => rfl
      | cons v vs =>
        simp only [decreaseLast, List.getLast?_cons_cons] at ih ⊢
        exact ih

/-- The members that `rebuild` computes on the `3 x 5 x 4` grid for cutoff `1` and cell
length `1`. -/
lemma sampleSlicedTraversal_overlap :
    (rebuild 4 ![3, 5, 4] sampleSlicedTraversal)._overlapLongestAxis = 1 := by
  have hmax : maxElementIndex ![3, 5, 4] = 1 := by decide
  rw [(rebuild_fields 4 ![3, 5, 4] sampleSlicedTraversal).2.2.2, hmax]
  simp [arrayAt, sampleSlicedTraversal]

/-- C29 fails as stated: on the `3 x 5 x 4` grid with four threads, cutoff `1` and cell
length `1` (overlap one) `rebuild` forms the slices `[3, 1]`, and the last one is thinner
than `overlapLongestAxis + 1 = 2`. -/
theorem last_slice_thinner_than_overlap_plus_one :
    (rebuild 4 ![3, 5, 4] sampleSlicedTraversal)._sliceThickness ≠ [] ∧
    ∃ x ∈ (rebuild 4 ![3, 5, 4] sampleSlicedTraversal)._sliceThickness,
      x < (rebuild 4 ![3, 5, 4] sampleSlicedTraversal)._overlapLongestAxis + 1 := by
  rw [sampleSlicedTraversal_sliceThickness, sampleSlicedTraversal_overlap]
  decide

/-- The slices formed from `k` slices of thickness `m`, with `m` at least `o + 1`: all but
the last keep at least `o + 1` layers, the last keeps at least one. -/
lemma sliceThickness_bounds_aux (o m k rest : Nat) (hm : o + 1 ≤ m) :
    (∀ x ∈ (decreaseLast o (incrementFirst rest (List.replicate k m))).dropLast, o + 1 ≤ x) ∧
    (∀ x ∈ (decreaseLast o (incrementFirst rest (List.replicate k m))).getLast?, 1 ≤ x) ∧
    (decreaseLast o (incrementFirst rest (List.replicate k m))).length = k := by
  rw [dropLast_decreaseLast, getLast?_decreaseLast, length_decreaseLast,
    length_incrementFirst, List.length_replicate]
  have hall : ∀ x ∈ incrementFirst rest (List.replicate k m), o + 1 ≤ x := by
    apply le_of_mem_incrementFirst
    intro x hx
    rw [List.mem_replicate] at hx
    omega
  refine ⟨fun x hx => hall x (List.mem_of_mem_dropLast hx), ?_, rfl⟩
  intro x hx
  rw [Option.mem_def, Option.map_eq_some'] at hx
  obtain ⟨y, hy, rfl⟩ := hx
  have := hall y (List.mem_of_getLast?_eq_some hy)
  omega

/-- With a remainder of at most the number of slices, the slices and the overlap add up to
the number of layers. -/
lemma sliceThickness_sum_aux (n o m k : Nat) (hm : o + 1 ≤ m) (hk : 1 ≤ k) (hmk : m * k ≤ n)
    (hrest : n - (List.replicate k m).headD 0 * k ≤ k) :
    (decreaseLast o (incrementFirst (n - m * k) (List.replicate k m))).sum + o = n := by
  have hhead : (List.replicate k m).headD 0 = m := by
    cases k with
    | zero => omega
    | succ k => rfl
  rw [hhead] at hrest
  have hall : ∀ x ∈ incrementFirst (n - m * k) (List.replicate k m), o ≤ x := by
    apply le_of_mem_incrementFirst
    intro x hx
    rw [List.mem_replicate] at hx
    omega
  have hnil : incrementFirst (n - m * k) (List.replicate k m) ≠ [] := by
    intro h
    have := congrArg List.length h
    rw [length_incrementFirst, List.length_replicate] at this
    simp at this
    omega
  rw [sum_decreaseLast o _ hnil hall, sum_incrementFirst, List.sum_replicate,
    List.length_replicate, Nat.min_eq_left hrest, smul_eq_mul, Nat.mul_comm k m]
  omega

/-- The members that `rebuild` in `double` arithmetic sets before it slices the domain. -/
lemma rebuildFl_fields (fl : ℚ → ℚ) (maxThreads : Nat) (dims : Fin 3 → Nat)
    (t : SlicedBasedTraversal) :
    (rebuildFl fl maxThreads dims t)._cellsPerDimension = dims ∧
    (rebuildFl fl maxThreads dims t)._overlap
      = (fun d => ⌈fl (t._cutoff / t._cellLength d)⌉₊) ∧
    (rebuildFl fl maxThreads dims t)._dimsPerLength =
      ![maxElementIndex dims, 3 - (maxElementIndex dims + minElementIndex dims),
        minElementIndex dims] ∧
    (rebuildFl fl maxThreads dims t)._overlapLongestAxis =
      arrayAt (fun d => ⌈fl (t._cutoff / t._cellLength d)⌉₊) (maxElementIndex dims) := by
  simp only [rebuildFl]
  split_ifs <;> exact ⟨rfl, rfl, rfl, rfl⟩

/-- The slice thicknesses that `rebuild` in `double` arithmetic computes, in terms of the
number of layers `n` along the longest axis, the overlap `o` along it and the thread
count. -/
lemma rebuildFl_sliceThickness (fl : ℚ → ℚ) (maxThreads : Nat) (dims : Fin 3 → Nat)
    (t : SlicedBasedTraversal) :
    (rebuildFl fl maxThreads dims t)._sliceThickness =
      (let n := arrayAt dims (maxElementIndex dims)
       let o := arrayAt (fun d => ⌈fl (t._cutoff / t._cellLength d)⌉₊) (maxElementIndex dims)
       let m := if n / maxThreads < o + 1 then o + 1 else n / maxThreads
       let k := if n / maxThreads < o + 1 then n / (o + 1) else maxThreads
       if k < 1 then []
       else decreaseLast o (incrementFirst (n - m * k) (List.replicate k m))) := by
  simp only [rebuildFl]
  by_cases hs : arrayAt dims (maxElementIndex dims) / maxThreads <
      arrayAt (fun d => ⌈fl (t._cutoff / t._cellLength d)⌉₊) (maxElementIndex dims) + 1
  · simp only [hs, decide_True, if_true]
    split
    · rfl
    · rename_i hk
      have hk1 : 1 ≤ arrayAt dims (maxElementIndex dims) /
          (arrayAt (fun d => ⌈fl (t._cutoff / t._cellLength d)⌉₊) (maxElementIndex dims)
            + 1) := by
        omega
      obtain ⟨k, hk2⟩ := Nat.exists_eq_add_of_le hk1
      simp [hk2, List.replicate_succ, Nat.add_comm 1 k]
  · simp only [hs, decide_False, if_false, Bool.false_eq_true]
    split
    · rfl
    · rename_i hk
      have hk1 : 1 ≤ maxThreads := by omega
      obtain ⟨k, hk2⟩ := Nat.exists_eq_add_of_le hk1
      simp [hk2, List.replicate_succ, Nat.add_comm 1 k]

/-- The remainder and the number of slices of `rebuild` in `double` arithmetic, in terms
of the number of layers
`n` along the longest axis, the overlap `o` along it and the thread count. -/
lemma rebuildRestFl_eq (fl : ℚ → ℚ) (maxThreads : Nat) (dims : Fin 3 → Nat)
    (t : SlicedBasedTraversal) :
    rebuildRestFl fl maxThreads dims t =
      (let n := arrayAt dims (maxElementIndex dims)
       let o := arrayAt (fun d => ⌈fl (t._cutoff / t._cellLength d)⌉₊) (maxElementIndex dims)
       let m := if n / maxThreads < o + 1 then o + 1 else n / maxThreads
       let k := if n / maxThreads < o + 1 then n / (o + 1) else maxThreads
       (n - (List.replicate k m).headD 0 * k, k)) := by
  simp only [rebuildRestFl]
  split_ifs <;> simp_all


/-- With exact arithmetic the rounded `rebuild` is the exact one. -/
lemma rebuildFl_id (maxThreads : Nat) (dims : Fin 3 → Nat) (t : SlicedBasedTraversal) :
    rebuildFl id maxThreads dims t = rebuild maxThreads dims t := rfl

/-- C29, amended: in `double` arithmetic, for a positive thread count, grid dimensions that
fit an `unsigned long`, nonzero cell lengths and quotients `cutoff / cellLength` for which
the conversion of the ceiling to `unsigned long` is defined and `_overlap[d] + 1` does not
wrap: whenever `rebuild` produces at least one slice and
its remainder `rest` is at most the number of slices, so that the loop
`++_sliceThickness[i]` stays inside the vector, every entry of `_sliceThickness` except the
last is at least `_overlapLongestAxis + 1`, the last entry, which `rebuild` decreases by
`_overlapLongestAxis`, is at least one, the number of slices is at most the number of
threads, the thicknesses and the overlap add up to the number of layers along the longest
axis, and `_overlapLongestAxis` is the ceiling of the `double` quotient
`cutoff / cellLength` along the longest axis. -/
theorem sliceThickness_bounds (fl : ℚ → ℚ) (maxThreads : Nat) (dims : Fin 3 → Nat)
    (t : SlicedBasedTraversal) (hT : 1 ≤ maxThreads) (_hdims : ∀ d, dims d ≤ UINT64_MAX)
    (_hcell : ∀ d, t._cellLength d ≠ 0)
    (_hconv : ∀ d, -1 < fl (t._cutoff / t._cellLength d) ∧
      fl (t._cutoff / t._cellLength d) + 1 ≤ UINT64_MAX)
    (hne : (rebuildFl fl maxThreads dims t)._sliceThickness ≠ [])
    (hrest : (rebuildRestFl fl maxThreads dims t).1 ≤ (rebuildRestFl fl maxThreads dims t).2) :
    (∀ x ∈ (rebuildFl fl maxThreads dims t)._sliceThickness.dropLast,
      (rebuildFl fl maxThreads dims t)._overlapLongestAxis + 1 ≤ x) ∧
    (∀ x ∈ (rebuildFl fl maxThreads dims t)._sliceThickness.getLast?, 1 ≤ x) ∧
    (rebuildFl fl maxThreads dims t)._sliceThickness.length ≤ maxThreads ∧
    (rebuildFl fl maxThreads dims t)._sliceThickness.sum
        + (rebuildFl fl maxThreads dims t)._overlapLongestAxis
      = arrayAt dims (maxElementIndex dims) ∧
    (rebuildFl fl maxThreads dims t)._overlapLongestAxis
      = arrayAt (fun d => ⌈fl (t._cutoff / t._cellLength d)⌉₊) (maxElementIndex dims) := by
  rw [(rebuildFl_fields fl maxThreads dims t).2.2.2]
  rw [rebuildFl_sliceThickness] at hne ⊢
  rw [rebuildRestFl_eq] at hrest
  generalize arrayAt dims (maxElementIndex dims) = n at hne hrest ⊢
  generalize arrayAt (fun d => ⌈fl (t._cutoff / t._cellLength d)⌉₊) (maxElementIndex dims) = o
    at hne hrest ⊢
  by_cases hs : n / maxThreads < o + 1
  · simp only [hs, if_true] at hne hrest ⊢
    by_cases hk : n / (o + 1) < 1
    · simp [hk] at hne
    · simp only [hk, if_false]
      obtain ⟨h1, h2, h3⟩ := sliceThickness_bounds_aux o (o + 1) (n / (o + 1))
        (n - (o + 1) * (n / (o + 1))) (Nat.le_refl _)
      refine ⟨h1, h2, ?_, ?_, trivial⟩
      · rw [h3]
        have hlt : n < maxThreads * (o + 1) := by
          rw [Nat.div_lt_iff_lt_mul (by omega)] at hs
          rw [Nat.mul_comm]
          exact hs
        exact Nat.le_of_lt (Nat.div_lt_of_lt_mul (by rw [Nat.mul_comm]; exact hlt))
      · exact sliceThickness_sum_aux n o (o + 1) (n / (o + 1)) (Nat.le_refl _) (by omega)
          (Nat.mul_div_le n (o + 1)) hrest
  · simp only [hs, if_false] at hne hrest ⊢
    have hk : ¬ maxThreads < 1 := by omega
    simp only [hk, if_false]
    obtain ⟨h1, h2, h3⟩ := sliceThickness_bounds_aux o (n / maxThreads) maxThreads
      (n - n / maxThreads * maxThreads) (by omega)
    exact ⟨h1, h2, Nat.le_of_eq h3,
      sliceThickness_sum_aux n o (n / maxThreads) maxThreads (by omega) hT
        (Nat.div_mul_le_self n maxThreads) hrest, trivial⟩

/-- The overlap on the `3 x 5 x 4` grid for cutoff `1` and cell length `1` in the arithmetic of
the machine. -/
lemma sampleSlicedTraversal_overlapFl :
    arrayAt (fun d => ⌈roundToDouble (sampleSlicedTraversal._cutoff /
      sampleSlicedTraversal._cellLength d)⌉₊) 1 = 1 := by
  have h1 : roundToDouble 1 = 1 := by
    have h := roundToDouble_intCast 1 (by norm_num)
    simpa using h
  simp [arrayAt, sampleSlicedTraversal, h1]

/-- C29, amended, on the `3 x 5 x 4` grid with four threads, cutoff `1` and cell length `1`
in the arithmetic of the machine: the remainder `1` is at most the two slices, the slices are
`[3, 1]` and the overlap is `1`; the slice before the last has at least `overlap + 1 = 2`
layers, the last at least one, there are at most four slices, and the thicknesses `3 + 1`
and the overlap `1` add up to the five layers. -/
theorem sliceThickness_bounds_witness :
    (rebuildFl roundToDouble 4 ![3, 5, 4] sampleSlicedTraversal)._sliceThickness = [3, 1] ∧
    rebuildRestFl roundToDouble 4 ![3, 5, 4] sampleSlicedTraversal = (1, 2) ∧
    (∀ x ∈ (rebuildFl roundToDouble 4 ![3, 5, 4] sampleSlicedTraversal)._sliceThickness.dropLast,
      (rebuildFl roundToDouble 4 ![3, 5, 4] sampleSlicedTraversal)._overlapLongestAxis + 1
        ≤ x) ∧
    (∀ x ∈ (rebuildFl roundToDouble 4 ![3, 5, 4] sampleSlicedTraversal)._sliceThickness.getLast?,
      1 ≤ x) ∧
    (rebuildFl roundToDouble 4 ![3, 5, 4] sampleSlicedTraversal)._sliceThickness.length ≤ 4 ∧
    (rebuildFl roundToDouble 4 ![3, 5, 4] sampleSlicedTraversal)._sliceThickness.sum
        + (rebuildFl roundToDouble 4 ![3, 5, 4] sampleSlicedTraversal)._overlapLongestAxis
      = arrayAt ![3, 5, 4] (maxElementIndex ![3, 5, 4]) ∧
    (rebuildFl roundToDouble 4 ![3, 5, 4] sampleSlicedTraversal)._overlapLongestAxis = 1 := by
  have hmax : maxElementIndex ![3, 5, 4] = 1 := by decide
  have ho := sampleSlicedTraversal_overlapFl
  have h1 : roundToDouble 1 = 1 := by
    have h := roundToDouble_intCast 1 (by norm_num)
    simpa using h
  have hst : (rebuildFl roundToDouble 4 ![3, 5, 4] sampleSlicedTraversal)._sliceThickness
      = [3, 1] := by
    rw [rebuildFl_sliceThickness, hmax, ho]
    decide
  have hr : rebuildRestFl roundToDouble 4 ![3, 5, 4] sampleSlicedTraversal = (1, 2) := by
    simp only [rebuildRestFl, hmax, ho]
    decide
  obtain ⟨a, b, c, d, e⟩ := sliceThickness_bounds roundToDouble 4 ![3, 5, 4]
    sampleSlicedTraversal (by decide)
    (fun d => by fin_cases d <;> simp [UINT64_MAX])
    (fun d => by simp [sampleSlicedTraversal])
    (fun d => by
      simp only [sampleSlicedTraversal, div_one, h1]
      norm_num [UINT64_MAX])
    (by rw [hst]; decide) (by rw [hr]; decide)
  refine ⟨hst, hr, a, b, c, d, ?_⟩
  rw [e, hmax, ho]

/-- The members that `rebuild` computes on the `6 x 4 x 4` grid for two threads, cutoff `2`
and cell length `1`: overlap two, slices of three layers and one layer, four locks. -/
lemma sampleSlicedTraversalOverlapTwo_members :
    (rebuild 2 ![6, 4, 4] sampleSlicedTraversalOverlapTwo)._sliceThickness = [3, 1] ∧
    (rebuild 2 ![6, 4, 4] sampleSlicedTraversalOverlapTwo)._overlapLongestAxis = 2 := by
  have hmax : maxElementIndex ![6, 4, 4] = 0 := by decide
  have ho : arrayAt (fun d => ⌈sampleSlicedTraversalOverlapTwo._cutoff /
      sampleSlicedTraversalOverlapTwo._cellLength d⌉₊) 0 = 2 := by
    simp only [arrayAt, sampleSlicedTraversalOverlapTwo, div_one]
    exact Nat.ceil_natCast 2
  refine ⟨?_, ?_⟩
  · rw [rebuild_sliceThickness, hmax, ho]
    decide
  · rw [(rebuild_fields 2 ![6, 4, 4] sampleSlicedTraversalOverlapTwo).2.2.2, hmax, ho]

/-- C30 fails on the `6 x 4 x 4` grid with two threads and overlap two (cutoff `2`, cell
length `1`): the slices are three layers and one layer thick; the last slice locks
`locks[1]` and `locks[0]` for its two starting layers, has one layer only, and unlocks
`locks[0]` alone, so `locks[1]` is still held when the traversal ends. -/
theorem last_slice_keeps_lock_with_overlap_two :
    sliceLockEvents (rebuild 2 ![6, 4, 4] sampleSlicedTraversalOverlapTwo) 1 =
      [LockEvent.lock 1, LockEvent.lock 0, LockEvent.unlock 0] ∧
    heldAfter (sliceLockEvents (rebuild 2 ![6, 4, 4] sampleSlicedTraversalOverlapTwo) 1) [] =
      [1] ∧
    heldAfter
      (sliceLockEvents (rebuild 2 ![6, 4, 4] sampleSlicedTraversalOverlapTwo) 0 ++
        sliceLockEvents (rebuild 2 ![6, 4, 4] sampleSlicedTraversalOverlapTwo) 1) [] = [1] := by
  obtain ⟨h1, h2⟩ := sampleSlicedTraversalOverlapTwo_members
  simp only [sliceLockEvents, h1, h2]
  decide

end SlicedBasedTraversal

end autopas

/-! ## The SoA buffer (`utils/SoA.h`) -/

namespace autopas

theorem length_resizeColumn (column : List ℚ) (k : Nat) : (resizeColumn column k).length = k := by
  simp only [resizeColumn, List.length_append, List.length_take, List.length_replicate]
  omega

theorem length_swapColumn (column : List ℚ) (a b : Nat) :
    (swapColumn column a b).length = column.length := by
  unfold swapColumn
  split <;> simp

namespace SoA

variable {n : Nat}

theorem write_impl_length (A : List (Fin n)) :
    ∀ (storage : Fin n → List ℚ) (particleId : Nat) (values : List ℚ) (c : Nat) (a : Fin n),
      ((write_impl storage A particleId values c).2 a).length = (storage a).length := by
  induction A with
  | nil => intro storage particleId values c a; rfl
  | cons attr A ih =>
    intro storage particleId values c a
    simp only [write_impl]
    split_ifs with h
    · rw [ih]
      by_cases ha : a = attr
      · subst ha; simp
      · simp [Function.update_noteq ha]
    · rfl

theorem write_impl_frame (A : List (Fin n)) :
    ∀ (storage : Fin n → List ℚ) (particleId : Nat) (values : List ℚ) (c : Nat) (a : Fin n)
      (j : Nat), (a ∉ A ∨ j ≠ particleId) →
      ((write_impl storage A particleId values c).2 a)[j]? = (storage a)[j]? := by
  induction A with
  | nil => intro storage particleId values c a j _; rfl
  | cons attr A ih =>
    intro storage particleId values c a j hj
    simp only [write_impl]
    split_ifs with h
    · rw [ih]
      · by_cases ha : a = attr
        · subst ha
          have hne : j ≠ particleId := by
            rcases hj with hj | hj
            · exact absurd (List.mem_cons_self _ _) hj
            · exact hj
          simp [List.getElem?_set, Ne.symm hne]
        · simp [Function.update_noteq ha]
      · rcases hj with hj | hj
        · exact Or.inl (fun hm => hj (List.mem_cons_of_mem _ hm))
        · exact Or.inr hj
    · rfl

theorem write_impl_ok (A : List (Fin n)) :
    ∀ (storage : Fin n → List ℚ) (particleId : Nat) (values : List ℚ) (c : Nat),
      (∀ a ∈ A, particleId < (storage a).length) →
      (write_impl storage A particleId values c).1 = .ok () := by
  induction A with
  | nil => intro storage particleId values c _; rfl
  | cons attr A ih =>
    intro storage particleId values c hA
    simp only [write_impl]
    rw [if_pos (hA attr (List.mem_cons_self _ _))]
    apply ih
    intro a ha
    by_cases hat : a = attr
    · subst hat; simpa using hA a (List.mem_cons_self _ _)
    · simpa [Function.update_noteq hat] using hA a (List.mem_cons_of_mem _ ha)

theorem read_impl_congr (A : List (Fin n)) (s t : Fin n → List ℚ) (particleId : Nat)
    (h : ∀ a ∈ A, (s a)[particleId]? = (t a)[particleId]?) :
    read_impl s A particleId = read_impl t A particleId := by
  induction A with
  | nil => rfl
  | cons attr A ih =>
    simp only [read_impl]
    rw [h attr (List.mem_cons_self _ _), ih (fun a ha => h a (List.mem_cons_of_mem _ ha))]

theorem write_impl_read (A : List (Fin n)) :
    ∀ (storage : Fin n → List ℚ) (particleId : Nat) (values : List ℚ) (c : Nat),
      A.Nodup → (∀ a ∈ A, particleId < (storage a).length) →
      read_impl (write_impl storage A particleId values c).2 A particleId
        = .ok ((List.range A.length).map (fun k => values.getD (c + k) 0)) := by
  induction A with
  | nil => intro storage particleId values c _ _; rfl
  | cons attr A ih =>
    intro storage particleId values c hnd hA
    have hattr := hA attr (List.mem_cons_self _ _)
    have hnotin : attr ∉ A := (List.nodup_cons.mp hnd).1
    have hlen : ∀ a ∈ A, particleId <
        ((Function.update storage attr
          ((storage attr).set particleId (values.getD c 0))) a).length := by
      intro a ha
      by_cases hat : a = attr
      · subst hat; simpa using hattr
      · simpa [Function.update_noteq hat] using hA a (List.mem_cons_of_mem _ ha)
    simp only [write_impl, if_pos hattr, read_impl]
    rw [write_impl_frame A _ particleId values (c + 1) attr particleId (Or.inl hnotin)]
    rw [ih _ particleId values (c + 1) (List.nodup_cons.mp hnd).2 hlen]
    simp only [Function.update_same, List.length_cons]
    rw [List.getElem?_set_self hattr]
    simp only [List.range_succ_eq_map, List.map_cons, List.map_map, Nat.add_zero]
    congr 2
    apply List.map_congr_left
    intro k _
    simp only [Function.comp, Nat.succ_eq_add_one]
    congr 1
    omega

theorem range_map_getD (values : List ℚ) :
    (List.range values.length).map (fun k => values.getD (0 + k) 0) = values := by
  apply List.ext_getElem
  · simp
  · intro i h1 h2
    simp [List.getD_eq_getElem?_getD, List.getElem?_eq_getElem h2]

theorem getNumParticles_of_le [NeZero n] (soa : SoA n)
    (hvs : soa.viewStart ≤ (soa.soaStorage 0).length)
    (hlen : (soa.soaStorage 0).length ≤ UINT64_MAX) :
    soa.getNumParticles = (soa.soaStorage 0).length - soa.viewStart := by
  unfold getNumParticles
  have h : (soa.soaStorage 0).length + (UINT64_MAX + 1) - soa.viewStart
      = ((soa.soaStorage 0).length - soa.viewStart) + (UINT64_MAX + 1) := by omega
  rw [h, Nat.add_mod_right, Nat.mod_eq_of_lt]
  omega

end SoA

end autopas

namespace autopas

namespace SoA

variable {n : Nat}

/-- C18, counterexample: on the empty buffer with two attributes all columns have the same
length, and after one `push<0>` column `0` has length `1` while column `1` is still empty;
and with `viewStart` past the end of the columns `getNumParticles()` is not the common
length minus `viewStart` but wraps around. -/
theorem push_breaks_equalLength :
    (SoA.new : SoA 2).equalLength ∧ ¬ ((SoA.new : SoA 2).push 0 1).equalLength ∧
      (sampleSoA.setViewStart 2).equalLength ∧
      (sampleSoA.setViewStart 2).getNumParticles = UINT64_MAX := by
  refine ⟨fun _ _ => rfl, ?_, fun _ _ => rfl, by decide⟩
  intro h
  have h01 := h 0 1
  simp [push, SoA.new] at h01

/-- C18, amended: on a buffer whose columns have the same length, `append` (of a buffer
whose columns have the same length), `resizeArrays`, `writeMultiple`, `swap`, `pop_back`,
`clear` and `setViewStart` keep the columns at the same length; `push<attr>` lengthens
column `attr` by one and no other column; `getNumParticles()` is the length of any column
minus `viewStart` modulo `2^64`, which is the plain difference when `viewStart` is at most
the length and the length fits a `size_t`. -/
theorem operations_preserve_equalLength [NeZero n] (soa : SoA n) (heq : soa.equalLength) :
    (∀ other : SoA n, other.equalLength → (soa.append other).equalLength) ∧
    (∀ length, (soa.resizeArrays length).equalLength) ∧
    (∀ A i v, (soa.writeMultiple A i v).2.equalLength) ∧
    (∀ a b, (soa.swap a b).equalLength) ∧
    soa.pop_back.equalLength ∧ soa.clear.equalLength ∧
    (∀ start, (soa.setViewStart start).equalLength) ∧
    (∀ attr value a, ((soa.push attr value).soaStorage a).length
        = (soa.soaStorage a).length + (if a = attr then 1 else 0)) ∧
    (∀ a, soa.getNumParticles
        = ((soa.soaStorage a).length + (UINT64_MAX + 1) - soa.viewStart) % (UINT64_MAX + 1)) ∧
    (∀ a, soa.viewStart ≤ (soa.soaStorage a).length → (soa.soaStorage a).length ≤ UINT64_MAX →
      soa.getNumParticles = (soa.soaStorage a).length - soa.viewStart) := by
  refine ⟨?_, ?_, ?_, ?_, ?_, ?_, ?_, ?_, ?_, ?_⟩
  · intro other ho a b
    unfold append
    split_ifs
    · simp only [List.length_append]; rw [heq a b, ho a b]
    · exact heq a b
  · intro length a b
    simp only [resizeArrays, length_resizeColumn]
  · intro A i v a b
    simp only [writeMultiple, write_impl_length]
    exact heq a b
  · intro x y a b
    simp only [swap, length_swapColumn]
    exact heq a b
  · intro a b
    simp only [pop_back, List.length_dropLast]
    rw [heq a b]
  · intro a b; rfl
  · intro start a b; exact heq a b
  · intro attr value a
    by_cases ha : a = attr
    · subst ha; simp [push]
    · simp [push, Function.update_noteq ha, ha]
  · intro a
    unfold getNumParticles
    rw [heq 0 a]
  · intro a hvs hlen
    rw [← heq 0 a] at hvs hlen ⊢
    exact getNumParticles_of_le soa hvs hlen

/-- C18, witness: the operations on the buffer with two attributes and one row. -/
theorem operations_preserve_equalLength_witness :
    sampleSoA.equalLength ∧ sampleSoA.pop_back.equalLength ∧
      (sampleSoA.resizeArrays 3).equalLength ∧ sampleSoA.getNumParticles = 1 - 0 :=
  have h := operations_preserve_equalLength sampleSoA (fun _ _ => rfl)
  ⟨fun _ _ => rfl, h.2.2.2.2.1, h.2.1 3, h.2.2.2.2.2.2.2.2.2 0 (by decide) (by decide)⟩

/-- With vectors of `double` only, the typed write is the plain one. -/
theorem write_implTyped_double (A : List (Fin n)) :
    ∀ (storage : Fin n → List ℚ) (particleId : Nat) (values : List ℚ) (c : Nat),
      write_implTyped (fun _ => SoAElementType.double) storage A particleId values c
        = some (write_impl storage A particleId values c) := by
  induction A with
  | nil => intro storage particleId values c; rfl
  | cons attr A ih =>
    intro storage particleId values c
    simp only [write_implTyped, write_impl, SoAElementType.ofDouble]
    split_ifs
    · exact ih _ _ _ _
    · rfl

/-- With vectors of `double` only, the typed read is the plain one. -/
theorem read_implTyped_double (fl : ℚ → ℚ) (storage : Fin n → List ℚ) (A : List (Fin n))
    (particleId : Nat) :
    read_implTyped fl (fun _ => SoAElementType.double) storage A particleId
      = read_impl storage A particleId := by
  induction A with
  | nil => rfl
  | cons attr A ih =>
    simp only [read_implTyped, read_impl, ih, SoAElementType.toDouble]

theorem write_implTyped_length (types : Fin n → SoAElementType) (A : List (Fin n)) :
    ∀ (storage : Fin n → List ℚ) (particleId : Nat) (values : List ℚ) (c : Nat)
      (r : Except Error Unit × (Fin n → List ℚ)),
      write_implTyped types storage A particleId values c = some r →
      ∀ a, (r.2 a).length = (storage a).length := by
  induction A with
  | nil =>
    intro storage particleId values c r h a
    simp only [write_implTyped, Option.some.injEq] at h
    rw [← h]
  | cons attr A ih =>
    intro storage particleId values c r h a
    simp only [write_implTyped] at h
    split at h
    · exact absurd h (by simp)
    · split_ifs at h with hlt
      · rw [ih _ _ _ _ r h a]
        by_cases ha : a = attr
        · subst ha; simp
        · simp [Function.update_noteq ha]
      · simp only [Option.some.injEq] at h
        rw [← h]

theorem write_implTyped_frame (types : Fin n → SoAElementType) (A : List (Fin n)) :
    ∀ (storage : Fin n → List ℚ) (particleId : Nat) (values : List ℚ) (c : Nat)
      (r : Except Error Unit × (Fin n → List ℚ)),
      write_implTyped types storage A particleId values c = some r →
      ∀ (a : Fin n) (j : Nat), (a ∉ A ∨ j ≠ particleId) → (r.2 a)[j]? = (storage a)[j]? := by
  induction A with
  | nil =>
    intro storage particleId values c r h a j _
    simp only [write_implTyped, Option.some.injEq] at h
    rw [← h]
  | cons attr A ih =>
    intro storage particleId values c r h a j hj
    simp only [write_implTyped] at h
    split at h
    · exact absurd h (by simp)
    · split_ifs at h with hlt
      · rw [ih _ _ _ _ r h a j]
        · by_cases ha : a = attr
          · subst ha
            have hne : j ≠ particleId := by
              rcases hj with hj | hj
              · exact absurd (List.mem_cons_self _ _) hj
              · exact hj
            simp [List.getElem?_set, Ne.symm hne]
          · simp [Function.update_noteq ha]
        · rcases hj with hj | hj
          · exact Or.inl (fun hm => hj (List.mem_cons_of_mem _ hm))
          · exact Or.inr hj
      · simp only [Option.some.injEq] at h
        rw [← h]

/-- The conversion to `size_t` and back of a value in the range of `size_t`. -/
theorem ofDouble_toDouble (fl : ℚ → ℚ) (t : SoAElementType) (x : ℚ)
    (hx : t = SoAElementType.sizeT → -1 < x ∧ x < UINT64_MAX + 1) :
    ∃ value, t.ofDouble x = some value ∧ t.toDouble fl value = t.roundTrip fl x := by
  cases t with
  | double => exact ⟨x, rfl, rfl⟩
  | sizeT =>
    obtain ⟨h1, h2⟩ := hx rfl
    refine ⟨(⌊x⌋₊ : ℚ), ?_, rfl⟩
    simp only [SoAElementType.ofDouble, doubleToSizeT]
    rw [if_neg (by linarith), if_neg (by linarith)]
    rfl

/-- The typed write of values that can be converted, to attributes without repetition whose
columns hold the row: it returns normally, and the typed read of the same attributes finds
the converted values. -/
theorem write_implTyped_read (fl : ℚ → ℚ) (types : Fin n → SoAElementType)
    (A : List (Fin n)) :
    ∀ (storage : Fin n → List ℚ) (particleId : Nat) (values : List ℚ) (c : Nat)
      (vs : List ℚ), A.Nodup → (∀ a ∈ A, particleId < (storage a).length) →
      vs.length = A.length → (∀ k, k < A.length → values.getD (c + k) 0 = vs.getD k 0) →
      (∀ p ∈ List.zip A vs, types p.1 = SoAElementType.sizeT →
        -1 < p.2 ∧ p.2 < UINT64_MAX + 1) →
      ∃ st, write_implTyped types storage A particleId values c = some (.ok (), st) ∧
        read_implTyped fl types st A particleId
          = .ok (List.zipWith (fun a x => (types a).roundTrip fl x) A vs) := by
  induction A with
  | nil =>
    intro storage particleId values c vs _ _ hvs _ _
    exact ⟨storage, rfl, by simp [read_implTyped]⟩
  | cons attr A ih =>
    intro storage particleId values c vs hnd hA hvs hval hfit
    cases vs with
    | nil => simp at hvs
    | cons x vs =>
      have hattr := hA attr (List.mem_cons_self _ _)
      have hnotin : attr ∉ A := (List.nodup_cons.mp hnd).1
      have hx : values.getD c 0 = x := by
        have := hval 0 (by simp)
        simpa using this
      obtain ⟨value, hof, hto⟩ := ofDouble_toDouble fl (types attr) x
        (hfit (attr, x) (by simp))
      have hlen : ∀ a ∈ A, particleId <
          ((Function.update storage attr ((storage attr).set particleId value)) a).length := by
        intro a ha
        by_cases hat : a = attr
        · subst hat; simpa using hattr
        · simpa [Function.update_noteq hat] using hA a (List.mem_cons_of_mem _ ha)
      obtain ⟨st, hw, hr⟩ := ih
        (Function.update storage attr ((storage attr).set particleId value)) particleId values
        (c + 1) vs (List.nodup_cons.mp hnd).2 hlen (by simpa using hvs)
        (fun k hk => by
          have := hval (k + 1) (by simpa using hk)
          simpa [Nat.add_assoc, Nat.add_comm 1 k] using this)
        (fun p hp => hfit p (by
          simp only [List.zip_cons_cons, List.mem_cons]
          exact Or.inr hp))
      refine ⟨st, ?_, ?_⟩
      · simp only [write_implTyped, hx, hof, if_pos hattr]
        exact hw
      · have hfr := write_implTyped_frame types A _ particleId values (c + 1) _ hw attr
          particleId (Or.inl hnotin)
        simp only [read_implTyped, hr, List.zipWith_cons_cons]
        rw [hfr]
        simp only [Function.update_same]
        rw [List.getElem?_set_self hattr]
        simp only [hto]

/-- The values that are read back when every column written is a vector of `double`, or
every value written to a vector of `size_t` is a natural number that is a `double`. -/
theorem zipWith_roundTrip_eq (fl : ℚ → ℚ) (types : Fin n → SoAElementType) :
    ∀ (A : List (Fin n)) (vs : List ℚ), vs.length = A.length →
      (∀ p ∈ List.zip A vs, types p.1 = SoAElementType.sizeT → fl (⌊p.2⌋₊ : ℚ) = p.2) →
      List.zipWith (fun a x => (types a).roundTrip fl x) A vs = vs := by
  intro A
  induction A with
  | nil =>
    intro vs hvs _
    cases vs with
    | nil => rfl
    | cons x vs => simp at hvs
  | cons attr A ih =>
    intro vs hvs h
    cases vs with
    | nil => simp at hvs
    | cons x vs =>
      simp only [List.zipWith_cons_cons]
      rw [ih vs (by simpa using hvs) (fun p hp => h p (by
        simp only [List.zip_cons_cons, List.mem_cons]
        exact Or.inr hp))]
      have hx : (types attr).roundTrip fl x = x := by
        cases ht : types attr with
        | double => rfl
        | sizeT => exact h (attr, x) (by simp) ht
      rw [hx]

/-- The write of `{1.5, 5}` to the id vector (`size_t`) and the `double` vector of row `0` of
the sample buffer, and what is read back, in the arithmetic of the machine. -/
theorem sample_typed_write_read :
    ∃ soa1, sampleSoA.writeMultipleTyped sampleSoATypes [0, 1] 0 [3 / 2, 5]
        = some (.ok (), soa1) ∧
      soa1.readMultipleTyped roundToDouble sampleSoATypes [0, 1] 0 = .ok [1, 5] := by
  obtain ⟨st, hw, hr⟩ := write_implTyped_read roundToDouble sampleSoATypes [0, 1]
    sampleSoA.soaStorage 0 [3 / 2, 5] 0 [3 / 2, 5] (by decide) (by decide) rfl
    (fun k _ => by rw [Nat.zero_add])
    (by
      intro p hp _
      simp only [List.zip_cons_cons, List.zip_nil_right, List.mem_cons, List.mem_singleton,
        List.not_mem_nil, or_false] at hp
      rcases hp with rfl | rfl <;> norm_num [UINT64_MAX])
  have hl := write_implTyped_length sampleSoATypes [0, 1] _ _ _ _ _ hw
  have hfloor : ⌊(3 / 2 : ℚ)⌋₊ = 1 := by
    rw [Nat.floor_eq_iff (by norm_num)]
    norm_num
  have hone : roundToDouble ((1 : Nat) : ℚ) = 1 := by
    have h := roundToDouble_intCast 1 (by norm_num)
    simpa using h
  have e0 : sampleSoATypes 0 = SoAElementType.sizeT := rfl
  have e1 : sampleSoATypes 1 = SoAElementType.double := rfl
  have hnum : ({ sampleSoA with soaStorage := st } : SoA 2).getNumParticles = 1 := by
    simp only [getNumParticles]
    rw [show st 0 = (Except.ok (), st).2 0 from rfl, hl 0]
    decide
  refine ⟨{ sampleSoA with soaStorage := st }, ?_, ?_⟩
  · have hidx : (0 + sampleSoA.viewStart) % (UINT64_MAX + 1) = 0 := by decide
    simp only [writeMultipleTyped, hidx, hw, Option.map_some']
  · unfold readMultipleTyped
    rw [hnum, if_neg (by decide)]
    have hidx : (0 + sampleSoA.viewStart) % (UINT64_MAX + 1) = 0 := by decide
    simp only [hidx]
    rw [hr]
    simp only [List.zipWith_cons_cons, List.zipWith_nil_right, e0, e1,
      SoAElementType.roundTrip, hfloor, hone]

/-- C19, counterexample: with the attribute list `<0, 0>` the write of `[1, 2]` to row `0`
is read back as `[2, 2]`; with `viewStart = 2` on columns of length `1`, row `0` is
below `getNumParticles()` and the write to it raises `std::out_of_range`; and on a buffer
whose attribute `0` is a vector of `size_t` (the ids of `Particle::SoAArraysType`) the write
of `{1.5, 5}` to the attributes `<0, 1>` of row `0` is read back as `{1, 5}`. -/
theorem read_after_write_fails :
    sampleSoA.equalLength ∧ 0 < sampleSoA.getNumParticles ∧
      ((sampleSoA.writeMultiple [0, 0] 0 [1, 2]).2.readMultiple [0, 0] 0) = .ok [2, 2] ∧
      (sampleSoA.setViewStart 2).equalLength ∧ 0 < (sampleSoA.setViewStart 2).getNumParticles ∧
      ((sampleSoA.setViewStart 2).writeMultiple [0] 0 [5]).1 = .error Error.stdOutOfRange ∧
      ∃ soa1, sampleSoA.writeMultipleTyped sampleSoATypes [0, 1] 0 [3 / 2, 5]
          = some (.ok (), soa1) ∧
        soa1.readMultipleTyped roundToDouble sampleSoATypes [0, 1] 0 = .ok [1, 5] :=
  ⟨fun _ _ => rfl, by decide, by rfl, fun _ _ => rfl, by decide, by rfl,
    sample_typed_write_read⟩

/-- C19, amended: on a buffer with columns of the same length that fits a `size_t`, with
`viewStart` at most that length, for a row `i < getNumParticles()`, an attribute list `A`
without repetition and as many values `v` as attributes, every value for a vector of `size_t`
in the range that converts to `size_t`: `writeMultiple<A>(i, v)` returns normally; afterwards
`readMultiple<A>(i)` returns, for a vector of `double`, the value written and, for a vector of
`size_t`, the `double` nearest to the truncated value, which is `v` when every value written
to a vector of `size_t` is a natural number that is a `double`; every entry of a column not in
`A` and every entry of another row is unchanged, no column changes its length, `viewStart` and
`getNumParticles()` are unchanged; and `readMultiple<A>(k)` raises for every
`k >= getNumParticles()`. -/
theorem read_after_write [NeZero n] (fl : ℚ → ℚ) (types : Fin n → SoAElementType)
    (soa : SoA n) (A : List (Fin n)) (i : Nat) (v : List ℚ)
    (heq : soa.equalLength) (hvs : soa.viewStart ≤ (soa.soaStorage 0).length)
    (hlen : (soa.soaStorage 0).length ≤ UINT64_MAX) (hi : i < soa.getNumParticles)
    (hA : A.Nodup) (hv : v.length = A.length)
    (hfit : ∀ p ∈ List.zip A v, types p.1 = SoAElementType.sizeT →
      -1 < p.2 ∧ p.2 < UINT64_MAX + 1) :
    ∃ soa1, soa.writeMultipleTyped types A i v = some (.ok (), soa1) ∧
      soa1.readMultipleTyped fl types A i
        = .ok (List.zipWith (fun a x => (types a).roundTrip fl x) A v) ∧
      ((∀ p ∈ List.zip A v, types p.1 = SoAElementType.sizeT → fl (⌊p.2⌋₊ : ℚ) = p.2) →
        soa1.readMultipleTyped fl types A i = .ok v) ∧
      (∀ a j, (a ∉ A ∨ j ≠ i + soa.viewStart) →
        (soa1.soaStorage a)[j]? = (soa.soaStorage a)[j]?) ∧
      (∀ a, (soa1.soaStorage a).length = (soa.soaStorage a).length) ∧
      soa1.viewStart = soa.viewStart ∧
      soa1.getNumParticles = soa.getNumParticles ∧
      (∀ k, k ≥ soa.getNumParticles →
        soa.readMultipleTyped fl types A k = .error Error.soaReadOutOfRange) := by
  have hnum := getNumParticles_of_le soa hvs hlen
  have hidx : (i + soa.viewStart) % (UINT64_MAX + 1) = i + soa.viewStart := by
    apply Nat.mod_eq_of_lt; omega
  have hin : ∀ a ∈ A, i + soa.viewStart < (soa.soaStorage a).length := by
    intro a _; rw [heq a 0]; omega
  obtain ⟨st, hw, hr⟩ := write_implTyped_read fl types A soa.soaStorage (i + soa.viewStart) v 0 v
    hA hin hv (fun k _ => by rw [Nat.zero_add]) hfit
  have hl := write_implTyped_length types A _ _ _ _ _ hw
  have hnum2 : ({ soa with soaStorage := st } : SoA n).getNumParticles
      = soa.getNumParticles := by
    simp only [getNumParticles]
    rw [show st 0 = (Except.ok (), st).2 0 from rfl, hl 0]
  have hread : ({ soa with soaStorage := st } : SoA n).readMultipleTyped fl types A i
      = .ok (List.zipWith (fun a x => (types a).roundTrip fl x) A v) := by
    unfold readMultipleTyped
    rw [hnum2, if_neg (by omega)]
    simp only [hidx]
    exact hr
  refine ⟨{ soa with soaStorage := st }, ?_, hread, ?_, ?_, ?_, rfl, hnum2, ?_⟩
  · simp only [writeMultipleTyped, hidx, hw, Option.map_some']
  · intro h
    rw [hread, zipWith_roundTrip_eq fl types A v hv h]
  · intro a j hj
    exact write_implTyped_frame types A _ _ _ _ _ hw a j hj
  · intro a
    exact hl a
  · intro k hk
    unfold readMultipleTyped
    rw [if_pos hk]

/-- C19, amended, on the buffer with one row of an id vector (`size_t`) and a `double`
vector, in the arithmetic of the machine: `writeMultiple<0, 1>(0, {1.5, 5})` returns normally
and `readMultiple<0, 1>(0)` then returns `{1, 5}`. -/
theorem read_after_write_witness :
    sampleSoA.equalLength ∧
    ∃ soa1, sampleSoA.writeMultipleTyped sampleSoATypes [0, 1] 0 [3 / 2, 5]
        = some (.ok (), soa1) ∧
      soa1.readMultipleTyped roundToDouble sampleSoATypes [0, 1] 0 = .ok [1, 5] := by
  obtain ⟨soa1, h1, h2, _⟩ := read_after_write roundToDouble sampleSoATypes sampleSoA [0, 1] 0
    [3 / 2, 5] (fun _ _ => rfl) (by decide) (by decide) (by decide) (by decide) rfl
    (by
      intro p hp _
      simp only [List.zip_cons_cons, List.zip_nil_right, List.mem_cons, List.mem_singleton,
        List.not_mem_nil, or_false] at hp
      rcases hp with rfl | rfl <;> norm_num [UINT64_MAX])
  refine ⟨fun _ _ => rfl, soa1, h1, ?_⟩
  rw [h2]
  have hfloor : ⌊(3 / 2 : ℚ)⌋₊ = 1 := by
    rw [Nat.floor_eq_iff (by norm_num)]
    norm_num
  have hone : roundToDouble ((1 : Nat) : ℚ) = 1 := by
    have h := roundToDouble_intCast 1 (by norm_num)
    simpa using h
  have e0 : sampleSoATypes 0 = SoAElementType.sizeT := rfl
  have e1 : sampleSoATypes 1 = SoAElementType.double := rfl
  simp only [List.zipWith_cons_cons, List.zipWith_nil_right, e0, e1, SoAElementType.roundTrip,
    hfloor, hone]

end SoA

end autopas

/-! ## The cell `RMMParticleCell3T` (`cells/RMMParticleCell3T.h`) -/

namespace autopas

namespace RMMParticleCell

open Particle.AttributeNames

/-- The values that `addParticle` pushes, by attribute. -/
theorem addParticle_storage (cell : RMMParticleCell) (p : Particle) (a : Fin 8) :
    (cell.addParticle p)._particleSoABuffer.soaStorage a
      = cell._particleSoABuffer.soaStorage a ++
        [(![(p.getID : ℚ), p.getR 0, p.getR 1, p.getR 2, p.getF 0, p.getF 1, p.getF 2,
          if p.isOwned then 1 else 0] : Fin 8 → ℚ) a] := by
  fin_cases a <;>
    simp [addParticle, SoA.push, Function.update, Particle.AttributeNames.id, posX, posY, posZ, forceX, forceY, forceZ,
      owned] <;> rfl

theorem addParticle_viewStart (cell : RMMParticleCell) (p : Particle) :
    (cell.addParticle p)._particleSoABuffer.viewStart = cell._particleSoABuffer.viewStart := rfl

theorem addParticle_equalLength (cell : RMMParticleCell) (p : Particle)
    (heq : cell._particleSoABuffer.equalLength) :
    (cell.addParticle p)._particleSoABuffer.equalLength := by
  intro a b
  rw [addParticle_storage, addParticle_storage, List.length_append, List.length_append, heq a b]
  rfl

theorem addParticle_getElem_last (cell : RMMParticleCell) (p : Particle)
    (heq : cell._particleSoABuffer.equalLength) (a : Fin 8) :
    ((cell.addParticle p)._particleSoABuffer.soaStorage a)[
        (cell._particleSoABuffer.soaStorage 0).length]?
      = some ((![(p.getID : ℚ), p.getR 0, p.getR 1, p.getR 2, p.getF 0, p.getF 1, p.getF 2,
          if p.isOwned then 1 else 0] : Fin 8 → ℚ) a) := by
  rw [addParticle_storage, ← heq a 0, List.getElem?_concat_length]

theorem addParticle_numParticles (cell : RMMParticleCell) (p : Particle)
    (hvs : cell._particleSoABuffer.viewStart ≤ (cell._particleSoABuffer.soaStorage 0).length)
    (hlen : (cell._particleSoABuffer.soaStorage 0).length < UINT64_MAX) :
    (cell.addParticle p).numParticles = cell.numParticles + 1 := by
  unfold numParticles
  rw [SoA.getNumParticles_of_le _ hvs (Nat.le_of_lt hlen), SoA.getNumParticles_of_le]
  · rw [addParticle_storage, addParticle_viewStart, List.length_append, List.length_singleton]
    omega
  · rw [addParticle_storage, addParticle_viewStart, List.length_append]
    omega
  · rw [addParticle_storage, List.length_append, List.length_singleton]
    omega

theorem arrayOfValues_eq (a : Vec3) : arrayOfValues [a 0, a 1, a 2] = a := by
  funext d
  fin_cases d <;> rfl

/-- C20, counterexample: the particle with id `7` and velocity `(1, 0, 0)` is added to an empty
cell; the iterator at index `0` yields a particle with id `0` and velocity `(0, 0, 0)`. -/
theorem deref_forgets_id_and_velocity :
    ∃ q, (RMMParticleCellIterator.deref (RMMParticleCell.new.addParticle sampleParticle)
        (RMMParticleCellIterator.new 0)).1 = .ok q ∧
      q.getID = 0 ∧ sampleParticle.getID = 7 ∧ q.getV 0 = 0 ∧ sampleParticle.getV 0 = 1 :=
  ⟨_, rfl, rfl, rfl, rfl, rfl⟩

/-- C20, amended: on a cell whose columns have the same length below the `size_t` maximum and
whose `viewStart` is at most that length, after `addParticle(p)` the iterator positioned at
the index of the new particle yields a particle with the position, the force and the owned
flag of `p`; its id and its velocity are those of the reservoir particle of the iterator,
not those of `p`. -/
theorem deref_after_addParticle (cell : RMMParticleCell) (p : Particle)
    (it : RMMParticleCellIterator) (heq : cell._particleSoABuffer.equalLength)
    (hvs : cell._particleSoABuffer.viewStart ≤ (cell._particleSoABuffer.soaStorage 0).length)
    (hlen : (cell._particleSoABuffer.soaStorage 0).length < UINT64_MAX)
    (hidx : it._index = cell.numParticles) :
    ∃ q, (RMMParticleCellIterator.deref (cell.addParticle p) it).1 = .ok q ∧
      q.getR = p.getR ∧ q.getF = p.getF ∧ q.isOwned = p.isOwned ∧
      q.getV = it._AoSReservoir.getV ∧ q.getID = it._AoSReservoir.getID := by
  have hnum : cell.numParticles
      = (cell._particleSoABuffer.soaStorage 0).length - cell._particleSoABuffer.viewStart :=
    SoA.getNumParticles_of_le _ hvs (Nat.le_of_lt hlen)
  have hnum2 := addParticle_numParticles cell p hvs hlen
  have hpos : (it._index + (cell.addParticle p)._particleSoABuffer.viewStart) % (UINT64_MAX + 1)
      = (cell._particleSoABuffer.soaStorage 0).length := by
    rw [addParticle_viewStart, hidx, hnum, Nat.mod_eq_of_lt] <;> omega
  have hlt : ¬ it._index ≥ (cell.addParticle p)._particleSoABuffer.getNumParticles := by
    have : (cell.addParticle p)._particleSoABuffer.getNumParticles = cell.numParticles + 1 :=
      hnum2
    omega
  have hr : (cell.addParticle p)._particleSoABuffer.readMultiple [posX, posY, posZ] it._index
      = .ok [p.getR 0, p.getR 1, p.getR 2] := by
    unfold SoA.readMultiple
    rw [if_neg hlt, hpos]
    simp only [SoA.read_impl, addParticle_getElem_last cell p heq]
    rfl
  have hf : (cell.addParticle p)._particleSoABuffer.readMultiple [forceX, forceY, forceZ]
      it._index = .ok [p.getF 0, p.getF 1, p.getF 2] := by
    unfold SoA.readMultiple
    rw [if_neg hlt, hpos]
    simp only [SoA.read_impl, addParticle_getElem_last cell p heq]
    rfl
  have ho : (cell.addParticle p)._particleSoABuffer.read owned it._index
      = .ok (if p.isOwned then 1 else 0) := by
    unfold SoA.read
    rw [hpos]
    simp only [addParticle_getElem_last cell p heq]
    rfl
  have hd : (RMMParticleCellIterator.deref (cell.addParticle p) it).1
      = .ok (((it._AoSReservoir.setR (arrayOfValues [p.getR 0, p.getR 1, p.getR 2])).setF
          (arrayOfValues [p.getF 0, p.getF 1, p.getF 2])).setOwned
            (decide ((if p.isOwned then (1 : ℚ) else 0) ≠ 0))) := by
    simp only [RMMParticleCellIterator.deref, buildParticleFromSoA, hr, hf, ho]
  refine ⟨_, hd, ?_, ?_, ?_, rfl, rfl⟩
  · exact arrayOfValues_eq p.getR
  · exact arrayOfValues_eq p.getF
  · simp only [Particle.isOwned, Particle.setOwned]
    by_cases h : p._owned = true
    · simp [h]
    · simp [h]

/-- C20, witness: the particle with position `(1, 2, 3)` and force `(4, 5, 6)` added to an
empty cell and read at index `0`. -/
theorem deref_after_addParticle_witness :
    ∃ q, (RMMParticleCellIterator.deref (RMMParticleCell.new.addParticle sampleParticle)
        (RMMParticleCellIterator.new 0)).1 = .ok q ∧
      q.getR = sampleParticle.getR ∧ q.getF = sampleParticle.getF ∧
      q.isOwned = sampleParticle.isOwned ∧
      q.getV = (RMMParticleCellIterator.new 0)._AoSReservoir.getV ∧
      q.getID = (RMMParticleCellIterator.new 0)._AoSReservoir.getID :=
  deref_after_addParticle RMMParticleCell.new sampleParticle (RMMParticleCellIterator.new 0)
    (fun _ _ => rfl) (by decide) (by decide) (by decide)

end RMMParticleCell

end autopas

namespace autopas

theorem swapColumn_getElem? (column : List ℚ) (a b j : Nat) (ha : a < column.length)
    (hb : b < column.length) :
    (swapColumn column a b)[j]?
      = if j = b then column[a]? else if j = a then column[b]? else column[j]? := by
  unfold swapColumn
  rw [List.getElem?_eq_getElem ha, List.getElem?_eq_getElem hb]
  simp only [List.getElem?_set, List.length_set]
  by_cases h1 : j = b
  · subst h1
    simp [hb]
  · by_cases h2 : j = a
    · subst h2
      simp [h1, Ne.symm h1, ha]
    · simp [h1, h2, Ne.symm h1, Ne.symm h2]

theorem map_eraseIdx {α β : Type} (f : α → β) (l : List α) (k : Nat) :
    (l.map f).eraseIdx k = (l.eraseIdx k).map f := by
  rw [List.eraseIdx_eq_take_drop_succ, List.eraseIdx_eq_take_drop_succ, List.map_append,
    List.map_take, List.map_drop]

/-- The indices `0 .. m - 2` with `k` replaced by `m - 1` are the indices `0 .. m - 1`
without `k`, up to order. -/
theorem swap_pop_indices_perm (m k : Nat) (hk : k < m) :
    ((List.range (m - 1)).map (fun j => if j = k then m - 1 else j)).Perm
      ((List.range m).eraseIdx k) := by
  rw [List.perm_ext_iff_of_nodup]
  · intro x
    rw [List.mem_eraseIdx_iff_getElem?]
    simp only [List.mem_map, List.mem_range]
    constructor
    · rintro ⟨j, hj, rfl⟩
      by_cases h : j = k
      · subst h
        refine ⟨m - 1, by omega, ?_⟩
        rw [if_pos rfl, List.getElem?_range (by omega)]
      · refine ⟨j, h, ?_⟩
        rw [if_neg h, List.getElem?_range (by omega)]
    · rintro ⟨i, hik, hi⟩
      have him : i < m := by
        by_contra hc
        rw [List.getElem?_eq_none (by simpa using hc)] at hi
        exact Option.noConfusion hi
      rw [List.getElem?_range him] at hi
      have hx : i = x := Option.some.inj hi
      subst hx
      by_cases hl : i = m - 1
      · refine ⟨k, by omega, ?_⟩
        rw [if_pos rfl, hl]
      · refine ⟨i, by omega, ?_⟩
        rw [if_neg hik]
  · apply List.Nodup.map_on _ (List.nodup_range _)
    intro x hx y hy hxy
    simp only [List.mem_range] at hx hy
    by_cases h1 : x = k <;> by_cases h2 : y = k
    · rw [h1, h2]
    · rw [if_pos h1, if_neg h2] at hxy; omega
    · rw [if_neg h1, if_pos h2] at hxy; omega
    · rw [if_neg h1, if_neg h2] at hxy; exact hxy
  · exact List.Nodup.sublist (List.eraseIdx_sublist _ _) (List.nodup_range _)

namespace RMMParticleCell

/-- After a successful `deleteByIndex(k)` slot `j` holds what slot `k` replaced by the last
slot held before, for every remaining slot `j`. -/
theorem deleteByIndex_row (cell : RMMParticleCell) (k j : Nat)
    (heq : cell._particleSoABuffer.equalLength) (hvs : cell._particleSoABuffer.viewStart = 0)
    (hlen : (cell._particleSoABuffer.soaStorage 0).length ≤ UINT64_MAX)
    (hk : k < cell.numParticles) (hj : j < cell.numParticles - 1) :
    (cell.deleteByIndex k).2._particleSoABuffer.row j
      = cell._particleSoABuffer.row (if j = k then cell.numParticles - 1 else j) := by
  have hnum : cell.numParticles = (cell._particleSoABuffer.soaStorage 0).length := by
    unfold numParticles
    rw [SoA.getNumParticles_of_le _ (by omega) hlen, hvs, Nat.sub_zero]
  have hlast : (cell.numParticles + UINT64_MAX) % (UINT64_MAX + 1) = cell.numParticles - 1 := by
    have h : cell.numParticles + UINT64_MAX = (cell.numParticles - 1) + (UINT64_MAX + 1) := by
      omega
    rw [h, Nat.add_mod_right, Nat.mod_eq_of_lt]
    omega
  funext a
  have hla : (cell._particleSoABuffer.soaStorage a).length = cell.numParticles := by
    rw [heq a 0, hnum]
  have hjm : j % (UINT64_MAX + 1) = j := Nat.mod_eq_of_lt (by omega)
  have hsm : (if j = k then cell.numParticles - 1 else j) % (UINT64_MAX + 1)
      = if j = k then cell.numParticles - 1 else j := by
    apply Nat.mod_eq_of_lt
    split_ifs <;> omega
  by_cases hkl : k < cell.numParticles - 1
  · have hres : (cell.deleteByIndex k).2
        = { _particleSoABuffer := (cell._particleSoABuffer.swap k (cell.numParticles - 1)).pop_back } := by
      simp only [deleteByIndex, if_neg (Nat.not_le_of_lt hk), hlast, if_pos hkl]
    rw [hres]
    simp only [SoA.row, SoA.pop_back, SoA.swap, hvs, Nat.add_zero, hjm, hsm,
      List.getElem?_dropLast, length_swapColumn, hla, if_pos hj]
    rw [swapColumn_getElem? _ _ _ _ (by omega) (by omega)]
    by_cases hjk : j = k
    · subst hjk
      rw [if_pos rfl, if_neg (by omega), if_pos rfl]
    · rw [if_neg hjk, if_neg (by omega), if_neg hjk]
  · have hjk : j ≠ k := by omega
    have hres : (cell.deleteByIndex k).2
        = { _particleSoABuffer := cell._particleSoABuffer.pop_back } := by
      simp only [deleteByIndex, if_neg (Nat.not_le_of_lt hk), hlast, if_neg hkl]
    rw [hres]
    simp only [SoA.row, SoA.pop_back, hvs, Nat.add_zero, hjm, hsm, List.getElem?_dropLast, hla,
      if_pos hj, if_neg hjk]

theorem numParticles_of_le (cell : RMMParticleCell)
    (hvs : cell._particleSoABuffer.viewStart ≤ (cell._particleSoABuffer.soaStorage 0).length)
    (hlen : (cell._particleSoABuffer.soaStorage 0).length ≤ UINT64_MAX) :
    cell.numParticles
      = (cell._particleSoABuffer.soaStorage 0).length - cell._particleSoABuffer.viewStart :=
  SoA.getNumParticles_of_le cell._particleSoABuffer hvs hlen

/-- C21: on a cell whose view starts at `0` and whose columns have the same length within
`size_t`, `deleteByIndex(k)` raises "Index out of range" exactly when `k` is at least the
number of particles (the cell is then unchanged); otherwise it returns normally, the cell has
one particle less, slot `k` holds the row that was last when `k` was not the last slot, every
other remaining slot holds the row it held before, and the rows of the cell are those of
before without the row at `k`, up to order. -/
theorem deleteByIndex_swaps_last_into_slot (cell : RMMParticleCell) (k : Nat)
    (heq : cell._particleSoABuffer.equalLength) (hvs : cell._particleSoABuffer.viewStart = 0)
    (hlen : (cell._particleSoABuffer.soaStorage 0).length ≤ UINT64_MAX) :
    ((cell.deleteByIndex k).1 = .error Error.indexOutOfRange ↔ k ≥ cell.numParticles) ∧
    (k ≥ cell.numParticles → (cell.deleteByIndex k).2 = cell) ∧
    (k < cell.numParticles →
      (cell.deleteByIndex k).1 = .ok () ∧
      (cell.deleteByIndex k).2.numParticles = cell.numParticles - 1 ∧
      (k < cell.numParticles - 1 →
        (cell.deleteByIndex k).2._particleSoABuffer.row k
          = cell._particleSoABuffer.row (cell.numParticles - 1)) ∧
      (∀ j, j < cell.numParticles - 1 → j ≠ k →
        (cell.deleteByIndex k).2._particleSoABuffer.row j = cell._particleSoABuffer.row j) ∧
      ((cell.deleteByIndex k).2._particleSoABuffer.rows).Perm
        (cell._particleSoABuffer.rows.eraseIdx k)) := by
  have hnum : cell.numParticles = (cell._particleSoABuffer.soaStorage 0).length := by
    unfold numParticles
    rw [SoA.getNumParticles_of_le _ (by omega) hlen, hvs, Nat.sub_zero]
  refine ⟨?_, ?_, ?_⟩
  · constructor
    · intro h
      by_contra hc
      simp only [deleteByIndex, if_neg hc] at h
      exact Except.noConfusion h
    · intro h
      simp only [deleteByIndex, if_pos h]
  · intro h
    simp only [deleteByIndex, if_pos h]
  · intro hk
    have hlast : (cell.numParticles + UINT64_MAX) % (UINT64_MAX + 1)
        = cell.numParticles - 1 := by
      have h : cell.numParticles + UINT64_MAX = (cell.numParticles - 1) + (UINT64_MAX + 1) := by
        omega
      rw [h, Nat.add_mod_right, Nat.mod_eq_of_lt]
      omega
    have hres : (cell.deleteByIndex k).2
        = { _particleSoABuffer :=
            (if k < cell.numParticles - 1 then
              cell._particleSoABuffer.swap k (cell.numParticles - 1)
            else cell._particleSoABuffer).pop_back } := by
      simp only [deleteByIndex, if_neg (Nat.not_le_of_lt hk), hlast]
    have hnum2 : (cell.deleteByIndex k).2.numParticles = cell.numParticles - 1 := by
      rw [hres]
      by_cases hkl : k < cell.numParticles - 1
      · rw [if_pos hkl]
        rw [numParticles_of_le]
        · simp only [SoA.pop_back, SoA.swap, List.length_dropLast, length_swapColumn, hvs]
          omega
        · simp only [SoA.pop_back, SoA.swap, hvs]
          omega
        · simp only [SoA.pop_back, SoA.swap, List.length_dropLast, length_swapColumn]
          omega
      · rw [if_neg hkl]
        rw [numParticles_of_le]
        · simp only [SoA.pop_back, List.length_dropLast, hvs]
          omega
        · simp only [SoA.pop_back, hvs]
          omega
        · simp only [SoA.pop_back, List.length_dropLast]
          omega
    refine ⟨?_, hnum2, ?_, ?_, ?_⟩
    · simp only [deleteByIndex, if_neg (Nat.not_le_of_lt hk)]
    · intro hkl
      rw [deleteByIndex_row cell k k heq hvs hlen hk hkl, if_pos rfl]
    · intro j hj hjk
      rw [deleteByIndex_row cell k j heq hvs hlen hk hj, if_neg hjk]
    · have hrows : (cell.deleteByIndex k).2._particleSoABuffer.rows
          = ((List.range (cell.numParticles - 1)).map
              (fun j => if j = k then cell.numParticles - 1 else j)).map
              cell._particleSoABuffer.row := by
        have hn : (cell.deleteByIndex k).2._particleSoABuffer.getNumParticles
            = cell.numParticles - 1 := hnum2
        unfold SoA.rows
        rw [hn, List.map_map]
        apply List.map_congr_left
        intro j hj
        exact deleteByIndex_row cell k j heq hvs hlen hk (List.mem_range.mp hj)
      have hold : cell._particleSoABuffer.rows.eraseIdx k
          = ((List.range cell.numParticles).eraseIdx k).map cell._particleSoABuffer.row := by
        unfold SoA.rows
        rw [map_eraseIdx]
        rfl
      rw [hrows, hold]
      exact (swap_pop_indices_perm cell.numParticles k hk).map _

/-- C21, witness: deleting index `0` of a cell with two particles. -/
theorem deleteByIndex_swaps_last_into_slot_witness :
    (((RMMParticleCell.new.addParticle sampleParticle).addParticle Particle.new).deleteByIndex
        0).2.numParticles = 2 - 1 :=
  ((deleteByIndex_swaps_last_into_slot
    ((RMMParticleCell.new.addParticle sampleParticle).addParticle Particle.new) 0
    (addParticle_equalLength _ _ (addParticle_equalLength _ _ (fun _ _ => rfl))) rfl
    (by decide)).2.2 (by decide)).2.1

end RMMParticleCell

end autopas

/-! ## `SlicedBasedTraversal::rebuild`: the remainder loop -/

namespace autopas

namespace SlicedBasedTraversal

/-- C35 fails on the `5 x 4 x 4` grid with two threads, cutoff `2` and cell length `1`
(overlap two): `5 / 2 = 2` is below `overlap + 1 = 3`, so the minimal thickness becomes `3`
and one slice is formed; the remainder is `5 - 3 * 1 = 2`, larger than the one slice there
is, so the loop `++_sliceThickness[i]` runs to index `1`, past the end of the vector. The
entry that exists becomes `3 + 1 - 2 = 2`, and the thicknesses add up to `2`, not to
`5 - 2 = 3`. -/
theorem rebuild_rest_exceeds_numSlices :
    rebuildRest 2 ![5, 4, 4] sampleSlicedTraversalFiveCells = (2, 1) ∧
    (rebuild 2 ![5, 4, 4] sampleSlicedTraversalFiveCells)._overlapLongestAxis = 2 ∧
    (rebuild 2 ![5, 4, 4] sampleSlicedTraversalFiveCells)._sliceThickness = [2] ∧
    (rebuild 2 ![5, 4, 4] sampleSlicedTraversalFiveCells)._sliceThickness.sum ≠ 5 - 2 := by
  have hmax : maxElementIndex ![5, 4, 4] = 0 := by decide
  have ho : arrayAt (fun d => ⌈sampleSlicedTraversalFiveCells._cutoff /
      sampleSlicedTraversalFiveCells._cellLength d⌉₊) 0 = 2 := by
    simp only [arrayAt, sampleSlicedTraversalFiveCells, div_one]
    exact Nat.ceil_natCast 2
  have hthick : (rebuild 2 ![5, 4, 4] sampleSlicedTraversalFiveCells)._sliceThickness
      = [2] := by
    rw [rebuild_sliceThickness, hmax, ho]
    decide
  refine ⟨?_, ?_, hthick, ?_⟩
  · simp only [rebuildRest, hmax, ho]
    decide
  · rw [(rebuild_fields 2 ![5, 4, 4] sampleSlicedTraversalFiveCells).2.2.2, hmax, ho]
  · rw [hthick]
    decide

end SlicedBasedTraversal

/-! ## The iterator of `RMMParticleCell3T`: `operator++` -/

namespace RMMParticleCellIterator

/-- C36 fails for an iterator that is advanced without being dereferenced: a cell holds one
particle at position `(1, 2, 3)`; a new modifiable iterator at index `0` is incremented once.
`operator++` writes the iterator's reservoir particle (default-constructed, position zero) to
row `0`, so the x-coordinate stored in the cell changes from `1` to `0`. When the iterator is
dereferenced before the increment, the row is written back as it was. -/
theorem increment_without_deref_overwrites_row :
    (RMMParticleCell.new.addParticle sampleParticle)._particleSoABuffer.row 0
        Particle.AttributeNames.posX = some 1 ∧
    (increment true (RMMParticleCell.new.addParticle sampleParticle)
        (RMMParticleCellIterator.new 0)).1 = .ok () ∧
    (increment true (RMMParticleCell.new.addParticle sampleParticle)
        (RMMParticleCellIterator.new 0)).2.1._particleSoABuffer.row 0
        Particle.AttributeNames.posX = some 0 ∧
    (increment true (RMMParticleCell.new.addParticle sampleParticle)
        (deref (RMMParticleCell.new.addParticle sampleParticle)
          (RMMParticleCellIterator.new 0)).2).2.1._particleSoABuffer.row 0
        Particle.AttributeNames.posX = some 1 :=
  ⟨rfl, rfl, rfl, rfl⟩

end RMMParticleCellIterator

/-! ## `AutoPas::init` -/

namespace AutoPas

/-- C26 fails: the overload `init(boxSize, cutoff, verletSkin, verletRebuildFrequency, ...)`
hands `verletRebuildFrequency` to the `AutoTuner` as the skin, not `verletSkin`. It makes the
same `AutoTuner` as `init({0,0,0}, boxSize, cutoff, verletSkin, verletRebuildFrequency, ...)`
exactly when `verletSkin` equals `verletRebuildFrequency`; with the default arguments
(`verletSkin = 0`, `verletRebuildFrequency = 1`) the skin is `1`. -/
theorem initBoxSize_passes_frequency_as_skin {C Tr : Type} (boxSize : Vec3)
    (cutoff verletSkin : ℚ) (verletRebuildFrequency : Nat) (allowedContainers : List C)
    (allowedTraversals : List Tr) (tuningInterval : Nat) :
    (initBoxSize boxSize cutoff verletSkin verletRebuildFrequency allowedContainers
        allowedTraversals tuningInterval).verletSkin = (verletRebuildFrequency : ℚ) ∧
    (initBoxSize boxSize cutoff verletSkin verletRebuildFrequency allowedContainers
        allowedTraversals tuningInterval
      = init (fun _ => 0) boxSize cutoff verletSkin verletRebuildFrequency allowedContainers
        allowedTraversals tuningInterval ↔ verletSkin = (verletRebuildFrequency : ℚ)) ∧
    (initBoxSize (fun _ => 10) 1 0 1 ([] : List C) ([] : List Tr) 100).verletSkin = 1 ∧
    (init (fun _ => 0) (fun _ => 10) 1 0 1 ([] : List C) ([] : List Tr) 100).verletSkin
      = 0 := by
  refine ⟨rfl, ⟨fun h => ?_, fun h => ?_⟩, ?_, rfl⟩
  · have h2 := congrArg AutoTunerArguments.verletSkin h
    exact h2.symm
  · simp only [initBoxSize, h]
  · simp [initBoxSize, init]

end AutoPas

/-! ## `Option::to_string` and `Option::parseOptionExact` -/

namespace AcquisitionFunctionOption

/-- C27: for each of the six registered options, `parseOptionExact` of its `to_string`
returns the option, with and without `lowercase`; the six names are pairwise distinct;
`to_string` of a value that is not registered is "Unknown Option (" followed by the integer
value and ")"; and `parseOptionExact` raises for a string that is none of the names. -/
theorem parseOptionExact_to_string :
    (∀ entry ∈ getOptionNames, ∀ lowercase : Bool,
      parseOptionExact lowercase (to_string entry.1) = .ok entry.1) ∧
    (getOptionNames.map Prod.snd).Nodup ∧
    (getOptionNames.map Prod.fst).Nodup ∧
    (∀ o : AcquisitionFunctionOption, o ∉ getOptionNames.map Prod.fst →
      to_string o = "Unknown Option (" ++ toString o._value ++ ")") ∧
    (∀ (s : String) (lowercase : Bool), s ∉ getOptionNames.map Prod.snd →
      parseOptionExact lowercase s = .error Error.optionNoMatch) := by
  refine ⟨?_, by decide, by decide, ?_, ?_⟩
  · intro entry h lowercase
    simp only [getOptionNames, List.mem_cons, List.mem_singleton, List.not_mem_nil,
      or_false] at h
    rcases h with h | h | h | h | h | h <;> subst h <;> cases lowercase <;> rfl
  · intro o ho
    simp only [getOptionNames, List.map_cons, List.map_nil, List.mem_cons, List.not_mem_nil,
      or_false, not_or] at ho
    obtain ⟨h0, h1, h2, h3, h4, h5⟩ := ho
    simp only [to_string, getOptionNames, List.find?, decide_eq_false (Ne.symm h0),
      decide_eq_false (Ne.symm h1), decide_eq_false (Ne.symm h2),
      decide_eq_false (Ne.symm h3), decide_eq_false (Ne.symm h4),
      decide_eq_false (Ne.symm h5)]
  · intro s lowercase hs
    simp only [getOptionNames, List.map_cons, List.map_nil, List.mem_cons, List.not_mem_nil,
      or_false, not_or] at hs
    obtain ⟨h0, h1, h2, h3, h4, h5⟩ := hs
    have l0 : String.mk ("upper-confidence-bound".data.map Char.toLower)
        = "upper-confidence-bound" := by decide
    have l1 : String.mk ("lower-confidence-bound".data.map Char.toLower)
        = "lower-confidence-bound" := by decide
    have l2 : String.mk ("mean".data.map Char.toLower) = "mean" := by decide
    have l3 : String.mk ("variance".data.map Char.toLower) = "variance" := by decide
    have l4 : String.mk ("probability-of-decrease".data.map Char.toLower)
        = "probability-of-decrease" := by decide
    have l5 : String.mk ("expected-decrease".data.map Char.toLower)
        = "expected-decrease" := by decide
    cases lowercase
    · simp only [parseOptionExact, getOptionNames, parseOptionExactLoop, Bool.false_eq_true,
        if_false, if_neg h0, if_neg h1, if_neg h2, if_neg h3, if_neg h4, if_neg h5]
    · simp only [parseOptionExact, getOptionNames, parseOptionExactLoop, if_true, l0, l1, l2,
        l3, l4, l5, if_neg h0, if_neg h1, if_neg h2, if_neg h3, if_neg h4, if_neg h5]

/-- C27, witness: the option `mean`, parsed back from its name with `lowercase`. -/
theorem parseOptionExact_to_string_witness :
    parseOptionExact true (to_string mean) = .ok mean :=
  parseOptionExact_to_string.1 (mean, "mean") (by decide) true

end AcquisitionFunctionOption

end autopas

/-! ## `Random::uniformSample` -/

namespace autopas

namespace Random

variable {α G : Type}

/-- Rounding `m / len` up takes one step more than rounding `(m - len) / len` up. -/
theorem ceilDiv_step (m len : Nat) (hm : 0 < m) (hlen : 0 < len) :
    (m + len - 1) / len = (m - len + len - 1) / len + 1 := by
  by_cases hge : len ≤ m
  · have h : m + len - 1 = (m - len + len - 1) + len := by omega
    rw [h, Nat.add_div_right _ hlen]
  · have h1 : m - len = 0 := by omega
    have e1 : (m + len - 1) / len = 1 := Nat.div_eq_of_lt_le (by omega) (by omega)
    have e2 : (len - 1) / len = 0 := Nat.div_eq_of_lt (by omega)
    rw [h1, Nat.zero_add, e1, e2]

/-- The loop of `uniformSample` ends when it has fuel for every copy it appends, and then
`result` holds the least number of whole copies of the pool that reach `n` elements. -/
theorem fill_eq (pool : List α) (n : Nat) (hpool : pool ≠ []) :
    ∀ (fuel : Nat) (result : List α), n ≤ result.length + fuel * pool.length →
      fill pool n fuel result = some (result ++
        (List.replicate ((n - result.length + pool.length - 1) / pool.length) pool).flatten) := by
  have hlen : 0 < pool.length := List.length_pos.mpr hpool
  intro fuel
  induction fuel with
  | zero =>
    intro result h
    have h0 : n - result.length = 0 := by omega
    have hdiv : (n - result.length + pool.length - 1) / pool.length = 0 := by
      rw [h0, Nat.zero_add]
      exact Nat.div_eq_of_lt (by omega)
    simp only [fill]
    rw [if_neg (by omega), hdiv]
    simp
  | succ fuel ih =>
    intro result h
    simp only [fill]
    by_cases hlt : result.length < n
    · rw [if_pos hlt, ih (result ++ pool)]
      · have hk : (n - result.length + pool.length - 1) / pool.length
            = (n - (result ++ pool).length + pool.length - 1) / pool.length + 1 := by
          rw [List.length_append, Nat.sub_add_eq]
          exact ceilDiv_step (n - result.length) pool.length (by omega) hlen
        rw [hk, List.replicate_succ, List.flatten_cons, List.append_assoc]
      · rw [List.length_append]
        have : (fuel + 1) * pool.length = fuel * pool.length + pool.length := by ring
        omega
    · have h0 : n - result.length = 0 := by omega
      have hdiv : (n - result.length + pool.length - 1) / pool.length = 0 := by
        rw [h0, Nat.zero_add]
        exact Nat.div_eq_of_lt (by omega)
      rw [if_neg hlt, hdiv]
      simp

theorem length_flatten_replicate (pool : List α) (k : Nat) :
    (List.replicate k pool).flatten.length = k * pool.length := by
  induction k with
  | zero => simp
  | succ k ih =>
    rw [List.replicate_succ, List.flatten_cons, List.length_append, ih]
    ring

/-- The first `n` elements of enough copies of the pool: `n / |pool|` whole copies and the
first `n % |pool|` elements of the pool. -/
theorem take_flatten_replicate (pool : List α) (n k : Nat) (hk : n ≤ k * pool.length) :
    (List.replicate k pool).flatten.take n
      = (List.replicate (n / pool.length) pool).flatten ++ pool.take (n % pool.length) := by
  induction k generalizing n with
  | zero =>
    have h0 : n = 0 := by omega
    subst h0
    simp
  | succ k ih =>
    rw [List.replicate_succ, List.flatten_cons, List.take_append_eq_append_take]
    by_cases hlt : n < pool.length
    · have h1 : n - pool.length = 0 := by omega
      rw [h1, List.take_zero, List.append_nil, Nat.div_eq_of_lt hlt, Nat.mod_eq_of_lt hlt]
      simp
    · have hge : pool.length ≤ n := by omega
      have hlen : 0 < pool.length ∨ pool.length = 0 := by omega
      rcases hlen with hlen | hlen
      · rw [List.take_of_length_le hge, ih (n - pool.length)]
        · have hd : n / pool.length = (n - pool.length) / pool.length + 1 := by
            have : n = (n - pool.length) + pool.length := by omega
            rw [this, Nat.add_div_right _ hlen]
            simp
          have hm : n % pool.length = (n - pool.length) % pool.length := by
            have : n = (n - pool.length) + pool.length := by omega
            rw [this, Nat.add_mod_right]
            simp
          rw [hd, hm, List.replicate_succ, List.flatten_cons, List.append_assoc]
        · have : (k + 1) * pool.length = k * pool.length + pool.length := by ring
          omega
      · have hnil : pool = [] := List.length_eq_zero.mp hlen
        subst hnil
        simp at hk
        subst hk
        simp

/-- What `uniformSample` returns for a non-empty pool, given fuel for the loop: the second
shuffle applied to the first `n` elements of the copies of the pool, whatever the first
shuffle made of the elements that `resize(n)` drops. -/
theorem uniformSample_eq (shuffle : G → List α → List α × G) (fuel : Nat) (g : G)
    (pool : List α) (n : Nat) (hpool : pool ≠ []) (hfuel : n ≤ fuel) :
    ∃ g1 : G, uniformSample shuffle fuel g pool n
      = some (shuffle g1 ((List.replicate (n / pool.length) pool).flatten
          ++ pool.take (n % pool.length))) := by
  have hlen : 0 < pool.length := List.length_pos.mpr hpool
  have hf : n ≤ ([] : List α).length + fuel * pool.length := by
    have : fuel * 1 ≤ fuel * pool.length := Nat.mul_le_mul_left fuel hlen
    simp only [List.length_nil]
    omega
  have hfill := fill_eq pool n hpool fuel [] hf
  simp only [List.length_nil, Nat.sub_zero, List.nil_append] at hfill
  have hkn : n ≤ ((n + pool.length - 1) / pool.length) * pool.length := by
    have h1 := Nat.div_add_mod (n + pool.length - 1) pool.length
    have h2 := Nat.mod_lt (n + pool.length - 1) hlen
    rw [Nat.mul_comm] at h1
    omega
  have htake := take_flatten_replicate pool n _ hkn
  have hl := length_flatten_replicate pool ((n + pool.length - 1) / pool.length)
  unfold uniformSample
  rw [hfill]
  simp only
  by_cases hgt : (List.replicate ((n + pool.length - 1) / pool.length) pool).flatten.length > n
  · refine ⟨(shuffle g ((List.replicate ((n + pool.length - 1) / pool.length)
      pool).flatten.drop ((List.replicate ((n + pool.length - 1) / pool.length)
      pool).flatten.length - ((List.replicate ((n + pool.length - 1) / pool.length)
      pool).flatten.length - n)))).2, ?_⟩
    rw [if_pos hgt]
    simp only
    have hsub : (List.replicate ((n + pool.length - 1) / pool.length) pool).flatten.length
        - ((List.replicate ((n + pool.length - 1) / pool.length) pool).flatten.length - n)
        = n := by omega
    rw [hsub, List.take_append_of_le_length (by rw [List.length_take]; omega),
      List.take_take, Nat.min_self, htake]
  · refine ⟨g, ?_⟩
    rw [if_neg hgt]
    simp only
    have hall : (List.replicate ((n + pool.length - 1) / pool.length) pool).flatten.take n
        = (List.replicate ((n + pool.length - 1) / pool.length) pool).flatten :=
      List.take_of_length_le (by omega)
    rw [← hall, htake]

theorem count_flatten_replicate [DecidableEq α] (pool : List α) (k : Nat) (x : α) :
    ((List.replicate k pool).flatten).count x = k * pool.count x := by
  induction k with
  | zero => simp
  | succ k ih =>
    rw [List.replicate_succ, List.flatten_cons, List.count_append, ih]
    ring

/-- How often a pool element occurs among the first `n` elements of the copies of a pool
without repetition. -/
theorem count_sample [DecidableEq α] (pool : List α) (hnodup : pool.Nodup) (n : Nat) (x : α)
    (hx : x ∈ pool) :
    ((List.replicate (n / pool.length) pool).flatten ++ pool.take (n % pool.length)).count x
      = n / pool.length + (if x ∈ pool.take (n % pool.length) then 1 else 0) := by
  rw [List.count_append, count_flatten_replicate, List.count_eq_one_of_mem hnodup hx,
    Nat.mul_one]
  congr 1
  have hnd : (pool.take (n % pool.length)).Nodup :=
    List.Nodup.sublist (List.take_sublist _ _) hnodup
  split_ifs with h
  · exact List.count_eq_one_of_mem hnd h
  · exact List.count_eq_zero_of_not_mem h

/-- C28: for a non-empty pool (a `std::set`: no repetition), every `n` and every generator
(`std::shuffle` returns a permutation of its range), the loop of `uniformSample` ends within
`n` iterations and the call returns exactly `n` elements, all of them from the pool, and the
numbers of occurrences of two pool elements differ by at most one. -/
theorem uniformSample_balanced [DecidableEq α] (shuffle : G → List α → List α × G)
    (hshuffle : ∀ g l, (shuffle g l).1.Perm l) (pool : List α) (hpool : pool ≠ [])
    (hnodup : pool.Nodup) (n fuel : Nat) (g : G) (hfuel : n ≤ fuel) :
    ∃ r, uniformSample shuffle fuel g pool n = some r ∧ r.1.length = n ∧
      (∀ x ∈ r.1, x ∈ pool) ∧
      ∀ x ∈ pool, ∀ y ∈ pool, r.1.count x ≤ r.1.count y + 1 := by
  have hlen : 0 < pool.length := List.length_pos.mpr hpool
  obtain ⟨g1, h⟩ := uniformSample_eq shuffle fuel g pool n hpool hfuel
  refine ⟨_, h, ?_, ?_, ?_⟩
  · rw [(hshuffle _ _).length_eq, List.length_append, length_flatten_replicate,
      List.length_take]
    have h1 := Nat.div_add_mod n pool.length
    have h2 := Nat.mod_lt n hlen
    rw [Nat.mul_comm] at h1
    omega
  · intro x hx
    have hx2 := (hshuffle _ _).mem_iff.mp hx
    rw [List.mem_append] at hx2
    rcases hx2 with hx2 | hx2
    · rw [List.mem_flatten] at hx2
      obtain ⟨l, hl, hxl⟩ := hx2
      rw [List.eq_of_mem_replicate hl] at hxl
      exact hxl
    · exact List.mem_of_mem_take hx2
  · intro x hx y hy
    rw [(hshuffle _ _).count_eq, (hshuffle _ _).count_eq, count_sample pool hnodup n x hx,
      count_sample pool hnodup n y hy]
    split_ifs <;> omega

/-- C28, witness: seven samples from the pool `{1, 2, 3}` with the reversing shuffle. -/
theorem uniformSample_balanced_witness :
    ∃ r, uniformSample reversingShuffle 7 0 [1, 2, 3] 7 = some r ∧ r.1.length = 7 ∧
      (∀ x ∈ r.1, x ∈ [1, 2, 3]) ∧
      ∀ x ∈ [1, 2, 3], ∀ y ∈ [1, 2, 3], r.1.count x ≤ r.1.count y + 1 :=
  uniformSample_balanced reversingShuffle (fun _ l => List.reverse_perm l) [1, 2, 3]
    (by decide) (by decide) 7 7 0 (Nat.le_refl 7)

/-- C40: for a non-empty pool listed in ascending order and every `n`, the results of
`uniformSample` for two generator states hold the same elements with the same
multiplicities; a pool element occurs `ceil(n / |pool|)` times when it is among the first
`n mod |pool|` elements of the pool and `floor(n / |pool|)` times otherwise, and those first
elements are smaller than all others. -/
theorem uniformSample_multiset_fixed [LinearOrder α] (shuffle : G → List α → List α × G)
    (hshuffle : ∀ g l, (shuffle g l).1.Perm l) (pool : List α) (hpool : pool ≠ [])
    (hsorted : pool.Sorted (· < ·)) (n fuel : Nat) (g g' : G) (hfuel : n ≤ fuel) :
    ∃ r r', uniformSample shuffle fuel g pool n = some r ∧
      uniformSample shuffle fuel g' pool n = some r' ∧ r.1.Perm r'.1 ∧
      (∀ x ∈ pool, r.1.count x
        = if x ∈ pool.take (n % pool.length) then (n + pool.length - 1) / pool.length
          else n / pool.length) ∧
      (∀ x ∈ pool.take (n % pool.length), ∀ y ∈ pool.drop (n % pool.length), x < y) := by
  have hlen : 0 < pool.length := List.length_pos.mpr hpool
  have hnodup : pool.Nodup := hsorted.nodup
  obtain ⟨g1, h⟩ := uniformSample_eq shuffle fuel g pool n hpool hfuel
  obtain ⟨g2, h'⟩ := uniformSample_eq shuffle fuel g' pool n hpool hfuel
  refine ⟨_, _, h, h', ?_, ?_, ?_⟩
  · exact (hshuffle _ _).trans (hshuffle _ _).symm
  · intro x hx
    rw [(hshuffle _ _).count_eq, count_sample pool hnodup n x hx]
    split_ifs with hmem
    · have hpos : 0 < n % pool.length := by
        by_contra hc
        have h0 : n % pool.length = 0 := by omega
        rw [h0, List.take_zero] at hmem
        exact List.not_mem_nil _ hmem
      have h1 := Nat.div_add_mod n pool.length
      have h2 := Nat.mod_lt n hlen
      have h3 : (n / pool.length + 1) * pool.length
          = pool.length * (n / pool.length) + pool.length := by ring
      have h4 : (n / pool.length + 1 + 1) * pool.length
          = pool.length * (n / pool.length) + pool.length + pool.length := by ring
      symm
      apply Nat.div_eq_of_lt_le
      · rw [h3]; omega
      · rw [h4]; omega
    · rfl
  · intro x hx y hy
    have hp : (pool.take (n % pool.length) ++ pool.drop (n % pool.length)).Pairwise
        (· < ·) := by
      rw [List.take_append_drop]
      exact hsorted
    exact (List.pairwise_append.mp hp).2.2 x hx y hy

/-- C40, witness: seven samples from the pool `{1, 2, 3}` for two generator states. -/
theorem uniformSample_multiset_fixed_witness :
    ∃ r r', uniformSample reversingShuffle 7 0 [1, 2, 3] 7 = some r ∧
      uniformSample reversingShuffle 7 5 [1, 2, 3] 7 = some r' ∧ r.1.Perm r'.1 ∧
      (∀ x ∈ [1, 2, 3], r.1.count x
        = if x ∈ [1, 2, 3].take (7 % [1, 2, 3].length) then
            (7 + [1, 2, 3].length - 1) / [1, 2, 3].length
          else 7 / [1, 2, 3].length) ∧
      (∀ x ∈ [1, 2, 3].take (7 % [1, 2, 3].length),
        ∀ y ∈ [1, 2, 3].drop (7 % [1, 2, 3].length), x < y) :=
  uniformSample_multiset_fixed reversingShuffle (fun _ l => List.reverse_perm l) [1, 2, 3]
    (by decide) (by decide) 7 7 0 5 (Nat.le_refl 7)

end Random

end autopas

/-! ## The Lennard-Jones functor -/

namespace autopas

theorem Particle.addF_zero (p : Particle) : p.addF (fun _ => 0) = p := by
  cases p
  simp only [Particle.addF, Particle.mk.injEq, true_and, and_true]
  funext d
  simp [ArrayMath.add]

theorem Particle.addF_neg (p : Particle) (g g' : Vec3) (h : ∀ d, g' d = - g d) :
    p.addF g' = p.subF g := by
  cases p
  simp only [Particle.addF, Particle.subF, Particle.mk.injEq, true_and, and_true]
  funext d
  simp only [ArrayMath.add, ArrayMath.sub, h d]
  ring

namespace LJFunctor

/-- The particles that `AoSFunctor` leaves: the first with the pair force added, the second
with the pair force subtracted when `newton3` is set. -/
theorem AoSFunctor_particles (F : LJFunctor) (threadnum : Nat) (i j : Particle)
    (newton3 : Bool) :
    (F.AoSFunctor threadnum i j newton3).2
      = (i.addF (F.pairForce i.getR j.getR),
          if newton3 then j.subF (F.pairForce i.getR j.getR) else j) := by
  unfold AoSFunctor pairForce
  by_cases h : ArrayMath.dot (ArrayMath.sub i.getR j.getR) (ArrayMath.sub i.getR j.getR)
      > F._cutoffsquare
  · simp only [h, if_true, Particle.addF_zero]
    cases newton3
    · rfl
    · cases j
      simp only [if_true, Particle.subF, Prod.mk.injEq, Particle.mk.injEq, true_and, and_true]
      funext d
      simp [ArrayMath.sub]
  · simp only [h, if_false]
    split_ifs <;> rfl

theorem sameParameters_refl (F : LJFunctor) : F.sameParameters F :=
  ⟨rfl, rfl, rfl, rfl, rfl, rfl, rfl, rfl, rfl, rfl⟩

theorem sameParameters_trans {F1 F2 F3 : LJFunctor} (h12 : F1.sameParameters F2)
    (h23 : F2.sameParameters F3) : F1.sameParameters F3 := by
  obtain ⟨a1, a2, a3, a4, a5, a6, a7, a8, a9, a10⟩ := h12
  obtain ⟨b1, b2, b3, b4, b5, b6, b7, b8, b9, b10⟩ := h23
  exact ⟨a1.trans b1, a2.trans b2, a3.trans b3, a4.trans b4, a5.trans b5, a6.trans b6,
    a7.trans b7, a8.trans b8, a9.trans b9, a10.trans b10⟩

theorem addToThreadData_parameters (F : LJFunctor) (threadnum : Nat) (upot : ℚ)
    (virial : Vec3) : (F.addToThreadData threadnum upot virial).sameParameters F := by
  unfold addToThreadData
  split
  · exact sameParameters_refl F
  · exact ⟨rfl, rfl, rfl, rfl, rfl, rfl, rfl, rfl, rfl, by simp⟩

/-- A kernel call changes the thread data of the functor only. -/
theorem AoSFunctor_parameters (F : LJFunctor) (threadnum : Nat) (i j : Particle)
    (newton3 : Bool) : (F.AoSFunctor threadnum i j newton3).1.sameParameters F := by
  unfold AoSFunctor
  simp only
  split_ifs
  all_goals first
    | exact sameParameters_refl F
    | exact addToThreadData_parameters _ _ _ _
    | exact sameParameters_trans (addToThreadData_parameters _ _ _ _)
        (addToThreadData_parameters _ _ _ _)

theorem dot_sub_swap (a b : Vec3) :
    ArrayMath.dot (ArrayMath.sub b a) (ArrayMath.sub b a)
      = ArrayMath.dot (ArrayMath.sub a b) (ArrayMath.sub a b) := by
  simp only [ArrayMath.dot, ArrayMath.sub]
  ring

/-- The pair force on the second particle is the opposite of that on the first. -/
theorem pairForce_swap (F : LJFunctor) (ri rj : Vec3) (d : Fin 3) :
    F.pairForce rj ri d = - F.pairForce ri rj d := by
  unfold pairForce
  simp only [dot_sub_swap ri rj]
  split_ifs
  · simp
  · simp only [ArrayMath.mulScalar, ArrayMath.sub]
    ring

/-- With exact arithmetic the rounded functor is the exact one. -/
theorem AoSFunctorFl_id (F : LJFunctor) (threadnum : Nat) (i j : Particle) (newton3 : Bool) :
    F.AoSFunctorFl id threadnum i j newton3 = F.AoSFunctor threadnum i j newton3 := rfl

/-- The particles that `AoSFunctor` leaves, in `double` arithmetic. -/
theorem AoSFunctorFl_particles (fl : ℚ → ℚ) (F : LJFunctor) (threadnum : Nat) (i j : Particle)
    (newton3 : Bool) :
    (F.AoSFunctorFl fl threadnum i j newton3).2 =
      if squaredDistanceFl fl i.getR j.getR > F._cutoffsquare then (i, j)
      else (i.addFFl fl (F.forceFl fl i.getR j.getR),
        if newton3 then j.subFFl fl (F.forceFl fl i.getR j.getR) else j) := by
  unfold AoSFunctorFl squaredDistanceFl forceFl
  simp only []
  split_ifs <;> rfl

/-- C22, amended: in `double` arithmetic, for a pair whose computed squared distance `dr2` is
at most `cutoff^2`, `AoSFunctor(i, j, true)` replaces the force of `i` by the rounded sum
`i.f + f` and the force of `j` by the rounded difference `j.f - f`, for one and the same
vector `f = dr * fac` of the source; `AoSFunctor(i, j, false)` replaces the force of `i` by
the same rounded sum and leaves `j` as it is; where both roundings are exact the sum of the
two forces is unchanged. When `dr2` exceeds `cutoff^2` neither particle is changed. Positions,
velocities and ids are never changed. -/
theorem AoSFunctor_newton3 (fl : ℚ → ℚ) (F : LJFunctor) (threadnum : Nat) (i j : Particle) :
    (¬ squaredDistanceFl fl i.getR j.getR > F._cutoffsquare →
      squaredDistanceFl fl i.getR j.getR ≠ 0 →
      ((F.AoSFunctorFl fl threadnum i j true).2.1.getF
          = fun d => fl (i.getF d + F.forceFl fl i.getR j.getR d)) ∧
      ((F.AoSFunctorFl fl threadnum i j true).2.2.getF
          = fun d => fl (j.getF d - F.forceFl fl i.getR j.getR d)) ∧
      ((F.AoSFunctorFl fl threadnum i j false).2.1.getF
          = fun d => fl (i.getF d + F.forceFl fl i.getR j.getR d)) ∧
      (F.AoSFunctorFl fl threadnum i j false).2.2 = j ∧
      ((∀ d, fl (i.getF d + F.forceFl fl i.getR j.getR d)
            = i.getF d + F.forceFl fl i.getR j.getR d) →
        (∀ d, fl (j.getF d - F.forceFl fl i.getR j.getR d)
            = j.getF d - F.forceFl fl i.getR j.getR d) →
        ∀ d, (F.AoSFunctorFl fl threadnum i j true).2.1.getF d
            + (F.AoSFunctorFl fl threadnum i j true).2.2.getF d = i.getF d + j.getF d)) ∧
    (squaredDistanceFl fl i.getR j.getR > F._cutoffsquare →
      ∀ newton3, (F.AoSFunctorFl fl threadnum i j newton3).2 = (i, j)) ∧
    (∀ newton3,
      (F.AoSFunctorFl fl threadnum i j newton3).2.1.getR = i.getR ∧
      (F.AoSFunctorFl fl threadnum i j newton3).2.1.getV = i.getV ∧
      (F.AoSFunctorFl fl threadnum i j newton3).2.1.getID = i.getID ∧
      (F.AoSFunctorFl fl threadnum i j newton3).2.2.getR = j.getR ∧
      (F.AoSFunctorFl fl threadnum i j newton3).2.2.getV = j.getV ∧
      (F.AoSFunctorFl fl threadnum i j newton3).2.2.getID = j.getID) := by
  refine ⟨?_, ?_, ?_⟩
  · intro h _
    simp only [AoSFunctorFl_particles, if_neg h, if_true]
    refine ⟨rfl, rfl, rfl, rfl, ?_⟩
    intro h1 h2 d
    show fl (i.getF d + F.forceFl fl i.getR j.getR d)
      + fl (j.getF d - F.forceFl fl i.getR j.getR d) = _
    rw [h1 d, h2 d]
    ring
  · intro h newton3
    rw [AoSFunctorFl_particles, if_pos h]
  · intro newton3
    rw [AoSFunctorFl_particles]
    split_ifs <;> exact ⟨rfl, rfl, rfl, rfl, rfl, rfl⟩


/-- Values of `roundToDouble` at small integers. -/
theorem roundToDouble_small_integers :
    roundToDouble 1 = 1 ∧ roundToDouble (-1) = -1 ∧ roundToDouble 24 = 24 ∧
      roundToDouble (-24) = -24 := by
  refine ⟨?_, ?_, ?_, ?_⟩
  · have h := roundToDouble_intCast 1 (by norm_num)
    simpa using h
  · have h := roundToDouble_intCast (-1) (by norm_num)
    simpa using h
  · have h := roundToDouble_intCast 24 (by norm_num)
    simpa using h
  · have h := roundToDouble_intCast (-24) (by norm_num)
    simpa using h

/-- The double `10^18` absorbs the summand `-24`: the doubles next to `10^18` are `128`
apart. -/
theorem roundToDouble_absorbs :
    roundToDouble 999999999999999976 = 1000000000000000000 := by
  rw [roundToDouble_eq_of_pos _ 59 7812500000000000 (by norm_num) (by norm_num)
    (by norm_num) (by norm_num)]
  norm_num

/-- The squared distance and the force vector of the sample functor for the positions
`(0, 0, 0)` and `(1, 0, 0)` in the arithmetic of the machine: `dr2 = 1` and
`f = (-24, 0, 0)`. -/
theorem sample_forceFl (ri rj : Vec3) (hi : ri = fun _ => 0) (hj : rj = ![1, 0, 0]) :
    squaredDistanceFl roundToDouble ri rj = 1 ∧
    (sampleLJFunctor false).forceFl roundToDouble ri rj = ![-24, 0, 0] ∧
    (sampleLJFunctor false)._cutoffsquare = 9 := by
  subst hi hj
  obtain ⟨r1, rm1, r24, rm24⟩ := roundToDouble_small_integers
  have hs : (sampleLJFunctor false)._sigmasquare = 1 := rfl
  have he : (sampleLJFunctor false)._epsilon24 = 24 := rfl
  have hd : ArrayMath.subFl roundToDouble (fun _ => 0) ![1, 0, 0] = ![-1, 0, 0] := by
    funext d
    fin_cases d <;> simp [ArrayMath.subFl, roundToDouble_zero, rm1]
  have h2 : ArrayMath.dotFl roundToDouble ![-1, 0, 0] ![-1, 0, 0] = 1 := by
    simp [ArrayMath.dotFl, roundToDouble_zero, r1]
  refine ⟨?_, ?_, by norm_num [sampleLJFunctor, LJFunctor.new, setParticleProperties]⟩
  · unfold squaredDistanceFl
    rw [hd, h2]
  · unfold forceFl
    simp only [hd, h2, hs, he]
    funext d
    fin_cases d <;>
      simp [ArrayMath.mulScalarFl, roundToDouble_zero, r1, r24, rm24]

/-- C22, amended, in the arithmetic of the machine: two particles at distance `1` with zero
forces, within the cutoff `3`; the call with `newton3 = true` leaves the forces
`(-24, 0, 0)` and `(24, 0, 0)`, the call with `newton3 = false` leaves the second particle as
it is. -/
theorem AoSFunctor_newton3_witness :
    ¬ squaredDistanceFl roundToDouble (particleAt (fun _ => 0) 0 true).getR
        (particleAt ![1, 0, 0] 1 true).getR > (sampleLJFunctor false)._cutoffsquare ∧
    squaredDistanceFl roundToDouble (particleAt (fun _ => 0) 0 true).getR
        (particleAt ![1, 0, 0] 1 true).getR ≠ 0 ∧
    ((sampleLJFunctor false).AoSFunctorFl roundToDouble 0 (particleAt (fun _ => 0) 0 true)
        (particleAt ![1, 0, 0] 1 true) true).2.1.getF = ![-24, 0, 0] ∧
    ((sampleLJFunctor false).AoSFunctorFl roundToDouble 0 (particleAt (fun _ => 0) 0 true)
        (particleAt ![1, 0, 0] 1 true) true).2.2.getF = ![24, 0, 0] ∧
    ((sampleLJFunctor false).AoSFunctorFl roundToDouble 0 (particleAt (fun _ => 0) 0 true)
        (particleAt ![1, 0, 0] 1 true) false).2.1.getF = ![-24, 0, 0] ∧
    ((sampleLJFunctor false).AoSFunctorFl roundToDouble 0 (particleAt (fun _ => 0) 0 true)
        (particleAt ![1, 0, 0] 1 true) false).2.2 = particleAt ![1, 0, 0] 1 true := by
  have hs := sample_forceFl (particleAt (fun _ => 0) 0 true).getR
    (particleAt ![1, 0, 0] 1 true).getR rfl rfl
  have hc : ¬ squaredDistanceFl roundToDouble (particleAt (fun _ => 0) 0 true).getR
      (particleAt ![1, 0, 0] 1 true).getR > (sampleLJFunctor false)._cutoffsquare := by
    rw [hs.1, hs.2.2]
    norm_num
  have hz : squaredDistanceFl roundToDouble (particleAt (fun _ => 0) 0 true).getR
      (particleAt ![1, 0, 0] 1 true).getR ≠ 0 := by
    rw [hs.1]
    norm_num
  have hf : (sampleLJFunctor false).forceFl roundToDouble (particleAt (fun _ => 0) 0 true).getR
      (particleAt ![1, 0, 0] 1 true).getR = ![-24, 0, 0] := hs.2.1
  obtain ⟨r1, rm1, r24, rm24⟩ := roundToDouble_small_integers
  obtain ⟨h1, h2, h3, h4, _⟩ := (AoSFunctor_newton3 roundToDouble (sampleLJFunctor false) 0
    (particleAt (fun _ => 0) 0 true) (particleAt ![1, 0, 0] 1 true)).1 hc hz
  rw [hf] at h1 h2 h3
  refine ⟨hc, hz, ?_, ?_, ?_, h4⟩
  · rw [h1]
    funext d
    fin_cases d <;> simp [particleAt, Particle.getF, roundToDouble_zero, rm24]
  · rw [h2]
    funext d
    fin_cases d <;> simp [particleAt, Particle.getF, roundToDouble_zero, r24]
  · rw [h3]
    funext d
    fin_cases d <;> simp [particleAt, Particle.getF, roundToDouble_zero, rm24]

/-- C22 fails in the arithmetic of the machine: a particle at the origin with the force
`(10^18, 0, 0)` and a particle at `(1, 0, 0)` with zero force, within the cutoff `3`. The
call with `newton3 = true` computes `f = (-24, 0, 0)`; the double sum `10^18 + (-24)` is
`10^18`, so the force of the first particle is unchanged, while the force of the second
becomes `(24, 0, 0)`. No vector is added to the one force and subtracted from the other, and
the sum of the two forces changes. -/
theorem AoSFunctor_force_sum_changes :
    sampleLoadedParticle.getR ≠ (particleAt ![1, 0, 0] 1 true).getR ∧
    ((sampleLJFunctor false).AoSFunctorFl roundToDouble 0 sampleLoadedParticle
        (particleAt ![1, 0, 0] 1 true) true).2.1.getF = sampleLoadedParticle.getF ∧
    (particleAt ![1, 0, 0] 1 true).getF = ![0, 0, 0] ∧
    ((sampleLJFunctor false).AoSFunctorFl roundToDouble 0 sampleLoadedParticle
        (particleAt ![1, 0, 0] 1 true) true).2.2.getF = ![24, 0, 0] ∧
    (¬ ∃ f : Vec3,
      ((sampleLJFunctor false).AoSFunctorFl roundToDouble 0 sampleLoadedParticle
          (particleAt ![1, 0, 0] 1 true) true).2.1.getF
        = ArrayMath.add sampleLoadedParticle.getF f ∧
      ((sampleLJFunctor false).AoSFunctorFl roundToDouble 0 sampleLoadedParticle
          (particleAt ![1, 0, 0] 1 true) true).2.2.getF
        = ArrayMath.sub (particleAt ![1, 0, 0] 1 true).getF f) := by
  obtain ⟨r1, rm1, r24, rm24⟩ := roundToDouble_small_integers
  have hs := sample_forceFl sampleLoadedParticle.getR
    (particleAt ![1, 0, 0] 1 true).getR rfl rfl
  have hc : ¬ squaredDistanceFl roundToDouble sampleLoadedParticle.getR
      (particleAt ![1, 0, 0] 1 true).getR > (sampleLJFunctor false)._cutoffsquare := by
    rw [hs.1, hs.2.2]
    norm_num
  have hf : (sampleLJFunctor false).forceFl roundToDouble sampleLoadedParticle.getR
      (particleAt ![1, 0, 0] 1 true).getR = ![-24, 0, 0] := hs.2.1
  have hi : ((sampleLJFunctor false).AoSFunctorFl roundToDouble 0 sampleLoadedParticle
      (particleAt ![1, 0, 0] 1 true) true).2.1.getF = sampleLoadedParticle.getF := by
    rw [AoSFunctorFl_particles, if_neg hc, hf]
    funext d
    simp only [Particle.addFFl, ArrayMath.addFl, Particle.getF, sampleLoadedParticle]
    fin_cases d
    · simp only [Fin.zero_eta, Matrix.cons_val_zero]
      have e : (1000000000000000000 + -24 : ℚ) = 999999999999999976 := by norm_num
      rw [e, roundToDouble_absorbs]
    · simp [roundToDouble_zero]
    · simp [roundToDouble_zero]
  have hj : ((sampleLJFunctor false).AoSFunctorFl roundToDouble 0 sampleLoadedParticle
      (particleAt ![1, 0, 0] 1 true) true).2.2.getF = ![24, 0, 0] := by
    rw [AoSFunctorFl_particles, if_neg hc, hf]
    funext d
    simp only [Particle.subFFl, ArrayMath.subFl, Particle.getF, particleAt, if_true]
    fin_cases d <;> simp [roundToDouble_zero, r24]
  have h0 : (particleAt ![1, 0, 0] 1 true).getF = ![0, 0, 0] := by
    funext d
    fin_cases d <;> rfl
  refine ⟨?_, hi, h0, hj, ?_⟩
  · intro h
    have h1 : (0 : ℚ) = 1 := congrFun h 0
    norm_num at h1
  · rintro ⟨f, h1, h2⟩
    rw [hi] at h1
    rw [hj, h0] at h2
    have a := congrFun h1 0
    have b := congrFun h2 0
    simp only [ArrayMath.add, ArrayMath.sub] at a b
    have b1 : (24 : ℚ) = 0 - f 0 := b
    linarith

/-- C23: the particles after `AoSFunctor(i, j, false)` followed by `AoSFunctor(j, i, false)`
are the particles after the single call `AoSFunctor(i, j, true)`. -/
theorem AoSFunctor_twice_without_newton3 (F : LJFunctor) (threadnum : Nat) (i j : Particle) :
    (((F.AoSFunctor threadnum i j false).1.AoSFunctor threadnum
        (F.AoSFunctor threadnum i j false).2.2 (F.AoSFunctor threadnum i j false).2.1
        false).2.2
      = (F.AoSFunctor threadnum i j true).2.1) ∧
    (((F.AoSFunctor threadnum i j false).1.AoSFunctor threadnum
        (F.AoSFunctor threadnum i j false).2.2 (F.AoSFunctor threadnum i j false).2.1
        false).2.1
      = (F.AoSFunctor threadnum i j true).2.2) := by
  have h1 : (F.AoSFunctor threadnum i j false).2 = (i.addF (F.pairForce i.getR j.getR), j) := by
    rw [AoSFunctor_particles]
    rfl
  have h2 : (F.AoSFunctor threadnum i j true).2
      = (i.addF (F.pairForce i.getR j.getR), j.subF (F.pairForce i.getR j.getR)) := by
    rw [AoSFunctor_particles]
    rfl
  have h3 : ∀ F1 : LJFunctor, F1.sameParameters F →
      (F1.AoSFunctor threadnum j (i.addF (F.pairForce i.getR j.getR)) false).2
        = (j.subF (F.pairForce i.getR j.getR), i.addF (F.pairForce i.getR j.getR)) := by
    intro F1 hF1
    obtain ⟨p1, p2, p3, _⟩ := hF1
    have hF : F1.pairForce j.getR i.getR = F.pairForce j.getR i.getR := by
      unfold pairForce
      rw [p1, p2, p3]
    have hr : (i.addF (F.pairForce i.getR j.getR)).getR = i.getR := rfl
    rw [AoSFunctor_particles, hr, hF,
      Particle.addF_neg j _ _ (fun d => pairForce_swap F i.getR j.getR d)]
    rfl
  rw [h1, h2]
  show ((F.AoSFunctor threadnum i j false).1.AoSFunctor threadnum j
        (i.addF (F.pairForce i.getR j.getR)) false).2.2 = i.addF (F.pairForce i.getR j.getR) ∧
      ((F.AoSFunctor threadnum i j false).1.AoSFunctor threadnum j
        (i.addF (F.pairForce i.getR j.getR)) false).2.1 = j.subF (F.pairForce i.getR j.getR)
  rw [h3 _ (AoSFunctor_parameters F threadnum i j false)]
  exact ⟨rfl, rfl⟩

end LJFunctor

end autopas

namespace autopas

namespace LJFunctor

/-- C25, counterexample: for a functor that does not calculate globals, `endTraversal` can be
called twice after `initTraversal` and returns normally both times. -/
theorem endTraversal_twice_without_globals :
    (((sampleLJFunctor false).initTraversal.endTraversal true).2.endTraversal true).1
      = .ok () := rfl

/-- C25, amended: with `calculateGlobals`, `endTraversal` after `initTraversal` returns
normally and a second `endTraversal` without `initTraversal` in between raises "Already
postprocessed"; without `calculateGlobals`, `endTraversal` changes nothing and never raises
after `initTraversal`; `getUpot` and `getVirial` raise after `initTraversal` until
`endTraversal` has been called, and always raise without `calculateGlobals`. -/
theorem endTraversal_postprocessing_order (F : LJFunctor) (newton3 newton3' : Bool) :
    (F.calculateGlobals = true →
      (F.initTraversal.endTraversal newton3).1 = .ok () ∧
      ((F.initTraversal.endTraversal newton3).2.endTraversal newton3').1
        = .error Error.alreadyPostprocessed ∧
      ∃ u v, (F.initTraversal.endTraversal newton3).2.getUpot = .ok u ∧
        (F.initTraversal.endTraversal newton3).2.getVirial = .ok v) ∧
    (F.calculateGlobals = false →
      F.initTraversal.endTraversal newton3 = (.ok (), F.initTraversal) ∧
      ((F.initTraversal.endTraversal newton3).2.endTraversal newton3').1 = .ok () ∧
      (F.initTraversal.endTraversal newton3).2.getUpot = .error Error.upotNotCalculated ∧
      (F.initTraversal.endTraversal newton3).2.getVirial
        = .error Error.virialNotCalculated) ∧
    F.initTraversal.getUpot
      = .error (if F.calculateGlobals then Error.upotBeforeEndTraversal
        else Error.upotNotCalculated) ∧
    F.initTraversal.getVirial
      = .error (if F.calculateGlobals then Error.virialBeforeEndTraversal
        else Error.virialNotCalculated) := by
  refine ⟨?_, ?_, ?_, ?_⟩
  · intro h
    simp [endTraversal, initTraversal, getUpot, getVirial, h]
  · intro h
    simp [endTraversal, initTraversal, getUpot, getVirial, h]
  · cases h : F.calculateGlobals <;> simp [getUpot, initTraversal, h]
  · cases h : F.calculateGlobals <;> simp [getVirial, initTraversal, h]

/-- C25, witness: a functor that calculates globals raises at the second `endTraversal`. -/
theorem endTraversal_postprocessing_order_witness :
    (((sampleLJFunctor true).initTraversal.endTraversal true).2.endTraversal false).1
      = .error Error.alreadyPostprocessed :=
  ((endTraversal_postprocessing_order (sampleLJFunctor true) true false).1 rfl).2.1

/-- What the kernel of `SoAFunctor` does to the force accumulator and the force arrays. -/
theorem SoAFunctorKernel_forces (F : LJFunctor) (soa : SoAView) (i j : Nat) (acc : Vec3)
    (st : SoAFunctorState) :
    (F.SoAFunctorKernel soa i j acc st).1 = (fun d => acc d + F.viewForce soa i j d) ∧
    (F.SoAFunctorKernel soa i j acc st).2.f
      = fun d => Function.update (st.f d) j (st.f d j - F.viewForce soa i j d) := by
  unfold SoAFunctorKernel viewForce pairForce
  simp only [ArrayMath.dot, ArrayMath.sub, ArrayMath.mulScalar]
  split_ifs <;> refine ⟨?_, ?_⟩ <;> funext d <;>
    simp only [ArrayMath.dot, ArrayMath.sub, ArrayMath.mulScalar, mul_zero, mul_one, sub_zero,
      add_zero]

/-- The inner loop of `SoAFunctor` followed by the update of row `i`, as kernel evaluations
with Newton's third law on the force arrays. -/
theorem SoAFunctor_inner (F : LJFunctor) (soa : SoAView) (i : Nat) (js : List Nat)
    (hi : i ∉ js) :
    ∀ (acc : Vec3) (st : SoAFunctorState),
      (fun d => Function.update
          ((js.foldl (fun p j => F.SoAFunctorKernel soa i j p.1 p.2) (acc, st)).2.f d) i
          ((js.foldl (fun p j => F.SoAFunctorKernel soa i j p.1 p.2) (acc, st)).2.f d i
            + (js.foldl (fun p j => F.SoAFunctorKernel soa i j p.1 p.2) (acc, st)).1 d))
        = (js.map fun j => (i, j)).foldl (applyPairForce (F.viewForce soa))
            (fun d => Function.update (st.f d) i (st.f d i + acc d)) := by
  induction js with
  | nil => intro acc st; rfl
  | cons j js ih =>
    intro acc st
    have hij : i ≠ j := fun h => hi (h ▸ List.mem_cons_self _ _)
    have hjs : i ∉ js := fun h => hi (List.mem_cons_of_mem _ h)
    obtain ⟨h1, h2⟩ := SoAFunctorKernel_forces F soa i j acc st
    simp only [List.foldl_cons, List.map_cons]
    have hp : F.SoAFunctorKernel soa i j acc st
        = ((F.SoAFunctorKernel soa i j acc st).1, (F.SoAFunctorKernel soa i j acc st).2) := rfl
    rw [hp, ih hjs]
    congr 1
    rw [h1, h2]
    funext d k
    simp only [applyPairForce, Function.update_apply]
    by_cases hki : k = i
    · subst hki
      simp only [if_true, if_neg hij, if_neg (Ne.symm hij)]
      ring
    · by_cases hkj : k = j
      · subst hkj
        simp only [if_true, if_neg hki, if_neg (Ne.symm hki)]
      · simp only [if_neg hki, if_neg hkj]

/-- One iteration of the outer loop of `SoAFunctor`, as kernel evaluations with Newton's third
law for the pairs `(i, j)`, `i < j < numParticles`. -/
theorem SoAFunctorOuter_forces (F : LJFunctor) (soa : SoAView) (st : SoAFunctorState)
    (i : Nat) :
    (F.SoAFunctorOuter soa st i).f
      = ((List.range' (i + 1) (soa.numParticles - (i + 1))).map fun j => (i, j)).foldl
          (applyPairForce (F.viewForce soa)) st.f := by
  have hi : i ∉ List.range' (i + 1) (soa.numParticles - (i + 1)) := by
    intro h
    rw [List.mem_range'_1] at h
    omega
  have h := SoAFunctor_inner F soa i _ hi (fun _ => 0) st
  simp only [add_zero] at h
  have h0 : (fun d => Function.update (st.f d) i (st.f d i)) = st.f := by
    funext d
    exact Function.update_eq_self i (st.f d)
  rw [h0] at h
  exact h

/-- The loops of `SoAFunctor`, as kernel evaluations with Newton's third law for the index
pairs in lexicographic order. -/
theorem SoAFunctor_loops (F : LJFunctor) (soa : SoAView) (is : List Nat) :
    ∀ st : SoAFunctorState,
      (is.foldl (F.SoAFunctorOuter soa) st).f
        = (is.flatMap fun a =>
            (List.range' (a + 1) (soa.numParticles - (a + 1))).map fun b => (a, b)).foldl
            (applyPairForce (F.viewForce soa)) st.f := by
  induction is with
  | nil => intro st; rfl
  | cons i is ih =>
    intro st
    simp only [List.foldl_cons, List.flatMap_cons, List.foldl_append]
    rw [ih, SoAFunctorOuter_forces]

/-- The force arrays that `SoAFunctor(soa, newton3)` leaves when it does not return early. -/
theorem SoAFunctor_forces (F : LJFunctor) (threadnum : Nat) (soa : SoAView) (newton3 : Bool)
    (hrun : ¬ (F.calculateGlobals = true ∧ soa.ownedPtr 0 = false)) :
    (F.SoAFunctor threadnum soa newton3).2.f
      = (indexPairs soa.numParticles).foldl (applyPairForce (F.viewForce soa)) soa.f := by
  unfold SoAFunctor
  by_cases hn : soa.numParticles = 0
  · simp only [hn, if_true, indexPairs, List.range_zero, List.flatMap_nil, List.foldl_nil]
  · have hskip : (F.calculateGlobals && !soa.ownedPtr 0) = false := by
      cases hc : F.calculateGlobals <;> cases ho : soa.ownedPtr 0 <;> simp_all
    simp only [hn, if_false, hskip, Bool.false_eq_true]
    exact SoAFunctor_loops F soa (List.range soa.numParticles) _

/-- C37, counterexample: a view of two particles at distance `1` whose first particle is not
owned. With `calculateGlobals = false` the force on the first particle becomes `-24`; with
`calculateGlobals = true` the call returns at once and the force stays `0`. -/
theorem SoAFunctor_forces_depend_on_calculateGlobals :
    ((sampleLJFunctor false).SoAFunctor 0 (sampleSoAView false) true).2.f 0 0 = -24 ∧
    ((sampleLJFunctor true).SoAFunctor 0 (sampleSoAView false) true).2.f 0 0 = 0 := by
  constructor
  · rw [SoAFunctor_forces _ _ _ _ (by simp [sampleLJFunctor, LJFunctor.new,
      setParticleProperties])]
    simp [indexPairs, sampleSoAView, applyPairForce, viewForce, pairForce, sampleLJFunctor,
      LJFunctor.new, setParticleProperties, ArrayMath.dot, ArrayMath.sub,
      ArrayMath.mulScalar, List.range_succ, List.range'_succ]
    norm_num [ArrayMath.mulScalar, ArrayMath.sub]
  · rfl

/-- C37, amended: when the view is empty or its first particle is owned, the force arrays
after `SoAFunctor(soa, newton3)` are the same with and without `calculateGlobals`, for both
values of `newton3`; when the first particle of a non-empty view is not owned, the call with
`calculateGlobals` returns at once and leaves the view as it is. -/
theorem SoAFunctor_forces_independent_of_globals (F : LJFunctor) (threadnum : Nat)
    (soa : SoAView) (newton3 newton3' : Bool) :
    (soa.numParticles = 0 ∨ soa.ownedPtr 0 = true →
      ({ F with calculateGlobals := true }.SoAFunctor threadnum soa newton3).2.f
        = ({ F with calculateGlobals := false }.SoAFunctor threadnum soa newton3').2.f) ∧
    (soa.ownedPtr 0 = false →
      ({ F with calculateGlobals := true }.SoAFunctor threadnum soa newton3).2 = soa) := by
  constructor
  · intro h
    rcases h with h | h
    · simp only [SoAFunctor, h, if_true]
    · rw [SoAFunctor_forces _ _ _ _ (by simp [h]), SoAFunctor_forces _ _ _ _ (by simp)]
      rfl
  · intro h
    unfold SoAFunctor
    by_cases hn : soa.numParticles = 0
    · simp only [hn, if_true]
    · simp only [hn, if_false, h, Bool.not_false, Bool.and_self, if_true]

/-- C37, witness: the view of two particles whose first particle is owned. -/
theorem SoAFunctor_forces_independent_of_globals_witness :
    ({ sampleLJFunctor false with calculateGlobals := true }.SoAFunctor 0
        (sampleSoAView true) true).2.f
      = ({ sampleLJFunctor false with calculateGlobals := false }.SoAFunctor 0
        (sampleSoAView true) false).2.f :=
  (SoAFunctor_forces_independent_of_globals (sampleLJFunctor false) 0 (sampleSoAView true)
    true false).1 (Or.inr rfl)

end LJFunctor

end autopas

namespace autopas

namespace LJFunctor

/-- A sequence of kernel calls with Newton's third law on an array of particles leaves the
positions and owned flags, and changes the forces as `applyPairForce` does. -/
theorem AoSFunctorPairs_forces (F : LJFunctor) (threadnum : Nat) (pos : Nat → Vec3)
    (pairs : List (Nat × Nat)) (hne : ∀ p ∈ pairs, p.1 ≠ p.2) :
    ∀ s : LJFunctor × (Nat → Particle), s.1.sameParameters F →
      (∀ k, (s.2 k).getR = pos k) →
      (∀ k, ((AoSFunctorPairs threadnum true pairs s).2 k).getR = pos k) ∧
      (fun d k => ((AoSFunctorPairs threadnum true pairs s).2 k).getF d)
        = pairs.foldl (applyPairForce fun a b => F.pairForce (pos a) (pos b))
            (fun d k => (s.2 k).getF d) := by
  induction pairs with
  | nil => intro s _ hpos; exact ⟨hpos, rfl⟩
  | cons p pairs ih =>
    intro s hs hpos
    obtain ⟨a, b⟩ := p
    have hab : a ≠ b := hne (a, b) (List.mem_cons_self _ _)
    have hrest : ∀ p ∈ pairs, p.1 ≠ p.2 := fun p hp => hne p (List.mem_cons_of_mem _ hp)
    have hG : s.1.pairForce (s.2 a).getR (s.2 b).getR = F.pairForce (pos a) (pos b) := by
      obtain ⟨p1, p2, p3, _⟩ := hs
      rw [hpos a, hpos b]
      unfold pairForce
      rw [p1, p2, p3]
    have hpart := AoSFunctor_particles s.1 threadnum (s.2 a) (s.2 b) true
    rw [hG] at hpart
    simp only [if_true] at hpart
    have hs1 : (AoSFunctor s.1 threadnum (s.2 a) (s.2 b) true).1.sameParameters F :=
      sameParameters_trans (AoSFunctor_parameters _ _ _ _ _) hs
    have hpos1 : ∀ k, ((Function.update (Function.update s.2 a
        (AoSFunctor s.1 threadnum (s.2 a) (s.2 b) true).2.1) b
        (AoSFunctor s.1 threadnum (s.2 a) (s.2 b) true).2.2) k).getR = pos k := by
      intro k
      rw [hpart]
      simp only [Function.update_apply]
      split_ifs with h1 h2
      · rw [h1]; exact hpos b
      · rw [h2]; exact hpos a
      · exact hpos k
    have h := ih hrest ((AoSFunctor s.1 threadnum (s.2 a) (s.2 b) true).1,
      Function.update (Function.update s.2 a
        (AoSFunctor s.1 threadnum (s.2 a) (s.2 b) true).2.1) b
        (AoSFunctor s.1 threadnum (s.2 a) (s.2 b) true).2.2) hs1 hpos1
    have hstep : AoSFunctorPairs threadnum true ((a, b) :: pairs) s
        = AoSFunctorPairs threadnum true pairs
          ((AoSFunctor s.1 threadnum (s.2 a) (s.2 b) true).1,
            Function.update (Function.update s.2 a
              (AoSFunctor s.1 threadnum (s.2 a) (s.2 b) true).2.1) b
              (AoSFunctor s.1 threadnum (s.2 a) (s.2 b) true).2.2) := rfl
    rw [hstep, List.foldl_cons]
    refine ⟨h.1, ?_⟩
    rw [h.2]
    congr 1
    simp only [hpart]
    funext d k
    simp only [applyPairForce, Function.update_apply]
    by_cases hkb : k = b
    · subst hkb
      simp only [if_true]
      rfl
    · by_cases hka : k = a
      · subst hka
        simp only [if_neg hkb, if_true]
        rfl
      · simp only [if_neg hkb, if_neg hka]

theorem mem_indexPairs (n : Nat) (p : Nat × Nat) (h : p ∈ indexPairs n) : p.1 ≠ p.2 := by
  simp only [indexPairs, List.mem_flatMap, List.mem_range, List.mem_map,
    List.mem_range'_1] at h
  obtain ⟨a, _, b, hb, rfl⟩ := h
  simp only
  omega

/-- C24: without `calculateGlobals`, for both values of `newton3`, the force of every
particle after `SoAFunctor(soa, newton3)` is its force after the calls
`AoSFunctor(p_a, p_b, true)` for all index pairs `a < b` of the particles of the view. -/
theorem SoAFunctor_forces_eq_AoSFunctor_pairs (F : LJFunctor)
    (hcg : F.calculateGlobals = false) (threadnum : Nat) (soa : SoAView) (newton3 : Bool)
    (d : Fin 3) (k : Nat) :
    (F.SoAFunctor threadnum soa newton3).2.f d k
      = ((AoSFunctorPairs threadnum true (indexPairs soa.numParticles)
          (F, soa.particle)).2 k).getF d := by
  have hsoa := SoAFunctor_forces F threadnum soa newton3 (by simp [hcg])
  have haos := (AoSFunctorPairs_forces F threadnum (fun k d => soa.r d k)
    (indexPairs soa.numParticles) (mem_indexPairs _) (F, soa.particle)
    (sameParameters_refl F) (fun _ => rfl)).2
  have h1 := congrFun (congrFun haos d) k
  simp only at h1
  rw [h1, hsoa]
  rfl

/-- C24, witness: the view of two particles at distance `1`. -/
theorem SoAFunctor_forces_eq_AoSFunctor_pairs_witness :
    ((sampleLJFunctor false).SoAFunctor 0 (sampleSoAView true) false).2.f 0 1
      = ((AoSFunctorPairs 0 true (indexPairs (sampleSoAView true).numParticles)
          (sampleLJFunctor false, (sampleSoAView true).particle)).2 1).getF 0 :=
  SoAFunctor_forces_eq_AoSFunctor_pairs (sampleLJFunctor false) rfl 0 (sampleSoAView true)
    false 0 1

end LJFunctor

end autopas

namespace autopas

theorem sum_map_set {α : Type} (g : α → ℚ) (l : List α) (t : Nat) (x y : α)
    (h : l[t]? = some y) : ((l.set t x).map g).sum = (l.map g).sum - g y + g x := by
  induction l generalizing t with
  | nil => simp at h
  | cons a l ih =>
    cases t with
    | zero =>
      simp only [List.getElem?_cons_zero, Option.some.injEq] at h
      subst h
      simp only [List.set_cons_zero, List.map_cons, List.sum_cons]
      ring
    | succ t =>
      simp only [List.getElem?_cons_succ] at h
      simp only [List.set_cons_succ, List.map_cons, List.sum_cons, ih t h]
      ring

namespace LJFunctor

/-- Adding to the data of a thread of the functor adds to the sums over all threads. -/
theorem addToThreadData_sums (F : LJFunctor) (threadnum : Nat) (upot : ℚ) (virial : Vec3)
    (ht : threadnum < F._aosThreadData.length) :
    (F.addToThreadData threadnum upot virial).threadUpot = F.threadUpot + upot ∧
    ∀ d, (F.addToThreadData threadnum upot virial).threadVirial d
      = F.threadVirial d + virial d := by
  have hget : F._aosThreadData[threadnum]? = some (F._aosThreadData.get ⟨threadnum, ht⟩) :=
    List.getElem?_eq_getElem ht
  unfold addToThreadData
  rw [hget]
  simp only [threadUpot, threadVirial]
  refine ⟨?_, fun d => ?_⟩
  · rw [sum_map_set _ _ _ _ _ hget]
    ring
  · rw [sum_map_set _ _ _ _ _ hget]
    simp only [ArrayMath.add]
    ring

/-- The globals that a kernel call on two owned particles adds to the thread data, with
duplicated calculations: the pair's energy and virial, for both values of `newton3`. -/
theorem AoSFunctor_sums (F : LJFunctor) (threadnum : Nat) (i j : Particle) (newton3 : Bool)
    (hcg : F.calculateGlobals = true) (hdup : F._duplicatedCalculations = true)
    (hi : i.isOwned = true) (hj : j.isOwned = true)
    (ht : threadnum < F._aosThreadData.length) :
    (F.AoSFunctor threadnum i j newton3).1.threadUpot
      = F.threadUpot + F.pairUpot i.getR j.getR ∧
    ∀ d, (F.AoSFunctor threadnum i j newton3).1.threadVirial d
      = F.threadVirial d + F.pairVirial i.getR j.getR d := by
  unfold AoSFunctor pairUpot pairVirial pairForce
  by_cases h : ArrayMath.dot (ArrayMath.sub i.getR j.getR) (ArrayMath.sub i.getR j.getR)
      > F._cutoffsquare
  · simp only [h, if_true, add_zero, ArrayMath.mul, mul_zero, implies_true, and_self]
  · have hio : ∀ f, (i.addF f).isOwned = true := fun _ => hi
    have hjo : ∀ f, (j.subF f).isOwned = true := fun _ => hj
    simp only [h, if_false, hcg, hdup, if_true, hio]
    cases newton3
    · simp only [Bool.false_eq_true, if_false, Bool.false_and]
      exact addToThreadData_sums F threadnum _ _ ht
    · simp only [Bool.true_and, hjo, if_true]
      have hlen : ∀ u v, threadnum < (F.addToThreadData threadnum u v)._aosThreadData.length := by
        intro u v
        rw [(addToThreadData_parameters F threadnum u v).2.2.2.2.2.2.2.2.2]
        exact ht
      refine ⟨?_, fun d => ?_⟩
      · rw [(addToThreadData_sums _ threadnum _ _ (hlen _ _)).1,
          (addToThreadData_sums F threadnum _ _ ht).1]
        ring
      · rw [(addToThreadData_sums _ threadnum _ _ (hlen _ _)).2 d,
          (addToThreadData_sums F threadnum _ _ ht).2 d]
        simp only [ArrayMath.mulScalar, ArrayMath.mul]
        ring

theorem pairUpot_swap (F : LJFunctor) (ri rj : Vec3) : F.pairUpot rj ri = F.pairUpot ri rj := by
  unfold pairUpot
  simp only [dot_sub_swap ri rj]

theorem pairVirial_swap (F : LJFunctor) (ri rj : Vec3) (d : Fin 3) :
    F.pairVirial rj ri d = F.pairVirial ri rj d := by
  simp only [pairVirial, ArrayMath.mul, pairForce_swap F ri rj d, ArrayMath.sub]
  ring

/-- The sums over the thread data after a sequence of kernel calls on owned particles: every
call adds the energy and the virial of its pair. -/
theorem AoSFunctorPairs_sums (F : LJFunctor) (threadnum : Nat) (newton3 : Bool)
    (pos : Nat → Vec3) (hcg : F.calculateGlobals = true)
    (hdup : F._duplicatedCalculations = true) (ht : threadnum < F._aosThreadData.length)
    (pairs : List (Nat × Nat)) (hne : ∀ p ∈ pairs, p.1 ≠ p.2) :
    ∀ s : LJFunctor × (Nat → Particle), s.1.sameParameters F →
      (∀ k, (s.2 k).getR = pos k) → (∀ k, (s.2 k).isOwned = true) →
      (AoSFunctorPairs threadnum newton3 pairs s).1.sameParameters F ∧
      (AoSFunctorPairs threadnum newton3 pairs s).1.threadUpot
        = s.1.threadUpot + (pairs.map fun p => F.pairUpot (pos p.1) (pos p.2)).sum ∧
      ∀ d, (AoSFunctorPairs threadnum newton3 pairs s).1.threadVirial d
        = s.1.threadVirial d + (pairs.map fun p => F.pairVirial (pos p.1) (pos p.2) d).sum := by
  induction pairs with
  | nil =>
    intro s hs _ _
    exact ⟨hs, by simp [AoSFunctorPairs], fun d => by simp [AoSFunctorPairs]⟩
  | cons p pairs ih =>
    intro s hs hpos hown
    obtain ⟨a, b⟩ := p
    have hab : a ≠ b := hne (a, b) (List.mem_cons_self _ _)
    have hrest : ∀ p ∈ pairs, p.1 ≠ p.2 := fun p hp => hne p (List.mem_cons_of_mem _ hp)
    obtain ⟨p1, p2, p3, p4, p5, p6, p7, p8, p9, p10⟩ := hs
    have hpart := AoSFunctor_particles s.1 threadnum (s.2 a) (s.2 b) newton3
    have hs1 : (AoSFunctor s.1 threadnum (s.2 a) (s.2 b) newton3).1.sameParameters F :=
      sameParameters_trans (AoSFunctor_parameters _ _ _ _ _)
        ⟨p1, p2, p3, p4, p5, p6, p7, p8, p9, p10⟩
    have hpos1 : ∀ k, ((Function.update (Function.update s.2 a
        (AoSFunctor s.1 threadnum (s.2 a) (s.2 b) newton3).2.1) b
        (AoSFunctor s.1 threadnum (s.2 a) (s.2 b) newton3).2.2) k).getR = pos k := by
      intro k
      rw [hpart]
      simp only [Function.update_apply]
      split_ifs with h1 h2 h3
      · rw [h1]; exact hpos b
      · rw [h1]; exact hpos b
      · rw [h3]; exact hpos a
      · exact hpos k
    have hown1 : ∀ k, ((Function.update (Function.update s.2 a
        (AoSFunctor s.1 threadnum (s.2 a) (s.2 b) newton3).2.1) b
        (AoSFunctor s.1 threadnum (s.2 a) (s.2 b) newton3).2.2) k).isOwned = true := by
      intro k
      rw [hpart]
      simp only [Function.update_apply]
      split_ifs with h1 h2 h3
      · exact hown b
      · exact hown b
      · exact hown a
      · exact hown k
    have h := ih hrest ((AoSFunctor s.1 threadnum (s.2 a) (s.2 b) newton3).1,
      Function.update (Function.update s.2 a
        (AoSFunctor s.1 threadnum (s.2 a) (s.2 b) newton3).2.1) b
        (AoSFunctor s.1 threadnum (s.2 a) (s.2 b) newton3).2.2) hs1 hpos1 hown1
    have hstep : AoSFunctorPairs threadnum newton3 ((a, b) :: pairs) s
        = AoSFunctorPairs threadnum newton3 pairs
          ((AoSFunctor s.1 threadnum (s.2 a) (s.2 b) newton3).1,
            Function.update (Function.update s.2 a
              (AoSFunctor s.1 threadnum (s.2 a) (s.2 b) newton3).2.1) b
              (AoSFunctor s.1 threadnum (s.2 a) (s.2 b) newton3).2.2) := rfl
    have hsum := AoSFunctor_sums s.1 threadnum (s.2 a) (s.2 b) newton3 (p5.trans hcg)
      (p6.trans hdup) (hown a) (hown b) (by rw [p10]; exact ht)
    have hU : s.1.pairUpot (s.2 a).getR (s.2 b).getR = F.pairUpot (pos a) (pos b) := by
      rw [hpos a, hpos b]
      unfold pairUpot
      rw [p1, p2, p3, p4]
    have hV : ∀ d, s.1.pairVirial (s.2 a).getR (s.2 b).getR d
        = F.pairVirial (pos a) (pos b) d := by
      intro d
      rw [hpos a, hpos b]
      unfold pairVirial pairForce
      rw [p1, p2, p3]
    rw [hstep]
    refine ⟨h.1, ?_, fun d => ?_⟩
    · rw [h.2.1, hsum.1, hU, List.map_cons, List.sum_cons]
      ring
    · rw [h.2.2 d, hsum.2 d, hV d, List.map_cons, List.sum_cons]
      ring

theorem foldl_upotSum (l : List AoSThreadData) (init : ℚ) :
    l.foldl (fun s data => s + data.upotSum) init
      = init + (l.map fun data => data.upotSum).sum := by
  induction l generalizing init with
  | nil => simp
  | cons a l ih =>
    simp only [List.foldl_cons, ih, List.map_cons, List.sum_cons]
    ring

theorem foldl_virialSum (l : List AoSThreadData) (init : Vec3) (d : Fin 3) :
    l.foldl (fun s data => ArrayMath.add s data.virialSum) init d
      = init d + (l.map fun data => data.virialSum d).sum := by
  induction l generalizing init with
  | nil => simp
  | cons a l ih =>
    simp only [List.foldl_cons, ih, List.map_cons, List.sum_cons, ArrayMath.add]
    ring

/-- What `getUpot` and `getVirial` return after `endTraversal(newton3)` on a functor that
calculates globals and has not been postprocessed. -/
theorem endTraversal_globals (F : LJFunctor) (newton3 : Bool)
    (hcg : F.calculateGlobals = true) (hpost : F._postProcessed = false) :
    (F.endTraversal newton3).1 = .ok () ∧
    (F.endTraversal newton3).2.getUpot
      = .ok ((F._upotSum + F.threadUpot) * (if newton3 then 1 else 1 / 2) / 6) ∧
    (F.endTraversal newton3).2.getVirial
      = .ok (((F._virialSum 0 + F.threadVirial 0) + (F._virialSum 1 + F.threadVirial 1)
          + (F._virialSum 2 + F.threadVirial 2)) * (if newton3 then 1 else 1 / 2)) := by
  unfold endTraversal getUpot getVirial
  simp only [hpost, hcg, Bool.false_eq_true, if_false, if_true, Bool.not_true,
    foldl_upotSum, foldl_virialSum, threadUpot, threadVirial, true_and]
  cases newton3
  · simp only [Bool.not_false, if_true, Bool.false_eq_true, if_false, ArrayMath.mulScalar,
      foldl_virialSum]
    refine ⟨trivial, ?_⟩
    congr 1
    ring
  · simp only [Bool.not_true, Bool.false_eq_true, if_false, if_true, mul_one, foldl_virialSum]
    exact ⟨trivial, trivial⟩

theorem initTraversal_sums (F : LJFunctor) :
    F.initTraversal.threadUpot = 0 ∧ (∀ d, F.initTraversal.threadVirial d = 0) ∧
    F.initTraversal._upotSum = 0 ∧ (∀ d, F.initTraversal._virialSum d = 0) ∧
    F.initTraversal._postProcessed = false ∧
    F.initTraversal._aosThreadData.length = F._aosThreadData.length ∧
    F.initTraversal.calculateGlobals = F.calculateGlobals ∧
    F.initTraversal._duplicatedCalculations = F._duplicatedCalculations := by
  refine ⟨?_, fun d => ?_, rfl, fun _ => rfl, rfl, by simp [initTraversal], rfl, rfl⟩
  · simp only [threadUpot, initTraversal, List.map_map]
    induction F._aosThreadData with
    | nil => rfl
    | cons a l ih => simpa [AoSThreadData.setZero] using ih
  · simp only [threadVirial, initTraversal, List.map_map]
    induction F._aosThreadData with
    | nil => rfl
    | cons a l ih => simpa [AoSThreadData.setZero] using ih

/-- C34: with `calculateGlobals`, duplicated calculations and all particles owned, after
`initTraversal` the calls `AoSFunctor(i, j, true)` for a list of pairs of different particles
at different positions accumulate the sum `U` of the pairs' energy terms and the sums `V` of their virials, and the
calls `AoSFunctor(i, j, false)` for those pairs in both orders (in any sequence) accumulate
`2 U` and `2 V`: every contribution twice. `endTraversal(true)` on the first and
`endTraversal(false)`, which halves, on the second give the same `getUpot() = U / 6` and the
same `getVirial() = V[0] + V[1] + V[2]`. -/
theorem globals_newton3_equivalence (F : LJFunctor) (threadnum : Nat)
    (particles : Nat → Particle) (unordered ordered : List (Nat × Nat))
    (hcg : F.calculateGlobals = true) (hdup : F._duplicatedCalculations = true)
    (ht : threadnum < F._aosThreadData.length)
    (howned : ∀ k, (particles k).isOwned = true)
    (hne : ∀ p ∈ unordered, p.1 ≠ p.2)
    (_hpos : ∀ p ∈ unordered, (particles p.1).getR ≠ (particles p.2).getR)
    (hperm : ordered.Perm (unordered ++ unordered.map Prod.swap)) :
    ((AoSFunctorPairs threadnum true unordered (F.initTraversal, particles)).1.threadUpot
        = (unordered.map fun p =>
            F.pairUpot (particles p.1).getR (particles p.2).getR).sum ∧
      (AoSFunctorPairs threadnum false ordered (F.initTraversal, particles)).1.threadUpot
        = 2 * (unordered.map fun p =>
            F.pairUpot (particles p.1).getR (particles p.2).getR).sum ∧
      ∀ d,
        (AoSFunctorPairs threadnum true unordered (F.initTraversal, particles)).1.threadVirial d
          = (unordered.map fun p =>
              F.pairVirial (particles p.1).getR (particles p.2).getR d).sum ∧
        (AoSFunctorPairs threadnum false ordered (F.initTraversal, particles)).1.threadVirial d
          = 2 * (unordered.map fun p =>
              F.pairVirial (particles p.1).getR (particles p.2).getR d).sum) ∧
    (((AoSFunctorPairs threadnum true unordered
        (F.initTraversal, particles)).1.endTraversal true).2.getUpot
      = .ok ((unordered.map fun p =>
          F.pairUpot (particles p.1).getR (particles p.2).getR).sum / 6) ∧
      ((AoSFunctorPairs threadnum false ordered
        (F.initTraversal, particles)).1.endTraversal false).2.getUpot
      = .ok ((unordered.map fun p =>
          F.pairUpot (particles p.1).getR (particles p.2).getR).sum / 6)) ∧
    (((AoSFunctorPairs threadnum true unordered
        (F.initTraversal, particles)).1.endTraversal true).2.getVirial
      = .ok ((unordered.map fun p =>
            F.pairVirial (particles p.1).getR (particles p.2).getR 0).sum
          + (unordered.map fun p =>
            F.pairVirial (particles p.1).getR (particles p.2).getR 1).sum
          + (unordered.map fun p =>
            F.pairVirial (particles p.1).getR (particles p.2).getR 2).sum) ∧
      ((AoSFunctorPairs threadnum false ordered
        (F.initTraversal, particles)).1.endTraversal false).2.getVirial
      = .ok ((unordered.map fun p =>
            F.pairVirial (particles p.1).getR (particles p.2).getR 0).sum
          + (unordered.map fun p =>
            F.pairVirial (particles p.1).getR (particles p.2).getR 1).sum
          + (unordered.map fun p =>
            F.pairVirial (particles p.1).getR (particles p.2).getR 2).sum)) := by
  obtain ⟨i1, i2, i3, i4, i5, i6, i7, i8⟩ := initTraversal_sums F
  have hne2 : ∀ p ∈ ordered, p.1 ≠ p.2 := by
    intro p hp
    have hp2 := hperm.mem_iff.mp hp
    rw [List.mem_append, List.mem_map] at hp2
    rcases hp2 with hp2 | ⟨q, hq, rfl⟩
    · exact hne p hp2
    · exact fun h => hne q hq h.symm
  have hpu : ∀ a b, F.initTraversal.pairUpot a b = F.pairUpot a b := fun _ _ => rfl
  have hpv : ∀ a b d, F.initTraversal.pairVirial a b d = F.pairVirial a b d :=
    fun _ _ _ => rfl
  obtain ⟨n1, n2, n3⟩ := AoSFunctorPairs_sums F.initTraversal threadnum true
    (fun k => (particles k).getR) (i7.trans hcg) (i8.trans hdup) (by rw [i6]; exact ht)
    unordered hne (F.initTraversal, particles) (sameParameters_refl _) (fun _ => rfl) howned
  obtain ⟨o1, o2, o3⟩ := AoSFunctorPairs_sums F.initTraversal threadnum false
    (fun k => (particles k).getR) (i7.trans hcg) (i8.trans hdup) (by rw [i6]; exact ht)
    ordered hne2 (F.initTraversal, particles) (sameParameters_refl _) (fun _ => rfl) howned
  simp only [hpu, hpv] at n2 n3 o2 o3
  have hU : (ordered.map fun p => F.pairUpot (particles p.1).getR (particles p.2).getR).sum
      = 2 * (unordered.map fun p => F.pairUpot (particles p.1).getR
          (particles p.2).getR).sum := by
    rw [(hperm.map _).sum_eq, List.map_append, List.sum_append, List.map_map]
    have : ((fun p : Nat × Nat => F.pairUpot (particles p.1).getR (particles p.2).getR)
        ∘ Prod.swap)
        = fun p => F.pairUpot (particles p.1).getR (particles p.2).getR := by
      funext p
      exact pairUpot_swap _ _ _
    rw [this]
    ring
  have hV : ∀ d, (ordered.map fun p => F.pairVirial (particles p.1).getR
      (particles p.2).getR d).sum
      = 2 * (unordered.map fun p => F.pairVirial (particles p.1).getR
          (particles p.2).getR d).sum := by
    intro d
    rw [(hperm.map _).sum_eq, List.map_append, List.sum_append, List.map_map]
    have : ((fun p : Nat × Nat => F.pairVirial (particles p.1).getR (particles p.2).getR d)
        ∘ Prod.swap)
        = fun p => F.pairVirial (particles p.1).getR (particles p.2).getR d := by
      funext p
      exact pairVirial_swap _ _ _ d
    rw [this]
    ring
  have tU : (AoSFunctorPairs threadnum true unordered (F.initTraversal, particles)).1.threadUpot
      = (unordered.map fun p =>
          F.pairUpot (particles p.1).getR (particles p.2).getR).sum := by
    rw [n2, i1, zero_add]
  have tU2 : (AoSFunctorPairs threadnum false ordered (F.initTraversal, particles)).1.threadUpot
      = 2 * (unordered.map fun p =>
          F.pairUpot (particles p.1).getR (particles p.2).getR).sum := by
    rw [o2, i1, zero_add, hU]
  have tV : ∀ d,
      (AoSFunctorPairs threadnum true unordered (F.initTraversal, particles)).1.threadVirial d
        = (unordered.map fun p =>
            F.pairVirial (particles p.1).getR (particles p.2).getR d).sum := by
    intro d
    rw [n3 d, i2 d, zero_add]
  have tV2 : ∀ d,
      (AoSFunctorPairs threadnum false ordered (F.initTraversal, particles)).1.threadVirial d
        = 2 * (unordered.map fun p =>
            F.pairVirial (particles p.1).getR (particles p.2).getR d).sum := by
    intro d
    rw [o3 d, i2 d, zero_add, hV d]
  obtain ⟨a1, a2, a3, a4, a5, a6, a7, a8, a9, a10⟩ := n1
  obtain ⟨b1, b2, b3, b4, b5, b6, b7, b8, b9, b10⟩ := o1
  obtain ⟨_, eu, ev⟩ := endTraversal_globals
    (AoSFunctorPairs threadnum true unordered (F.initTraversal, particles)).1 true
    (a5.trans (i7.trans hcg)) (a7.trans i5)
  obtain ⟨_, fu, fv⟩ := endTraversal_globals
    (AoSFunctorPairs threadnum false ordered (F.initTraversal, particles)).1 false
    (b5.trans (i7.trans hcg)) (b7.trans i5)
  refine ⟨⟨tU, tU2, fun d => ⟨tV d, tV2 d⟩⟩, ⟨?_, ?_⟩, ⟨?_, ?_⟩⟩
  · rw [eu, tU, a8, i3]
    congr 1
    simp only [if_true]
    ring
  · rw [fu, tU2, b8, i3]
    congr 1
    simp only [Bool.false_eq_true, if_false]
    ring
  · rw [ev, tV 0, tV 1, tV 2, a9, i4 0, i4 1, i4 2]
    congr 1
    simp only [if_true]
    ring
  · rw [fv, tV2 0, tV2 1, tV2 2, b9, i4 0, i4 1, i4 2]
    congr 1
    simp only [Bool.false_eq_true, if_false]
    ring

/-- C34 on two owned particles at distance `2` (cutoff `3`, `24 epsilon = 24`,
`sigma^2 = 1`): the pair's energy term is `-189/512`; the traversal without Newton's third
law accumulates twice that, and both traversals report `-63/1024`. -/
theorem globals_newton3_equivalence_witness :
    (AoSFunctorPairs 0 true [(0, 1)] ((sampleLJFunctor true).initTraversal,
        fun k => particleAt ![2 * (k : ℚ), 0, 0] k true)).1.threadUpot = -189 / 512 ∧
    (AoSFunctorPairs 0 false [(1, 0), (0, 1)] ((sampleLJFunctor true).initTraversal,
        fun k => particleAt ![2 * (k : ℚ), 0, 0] k true)).1.threadUpot = 2 * (-189 / 512) ∧
    ((AoSFunctorPairs 0 true [(0, 1)] ((sampleLJFunctor true).initTraversal,
        fun k => particleAt ![2 * (k : ℚ), 0, 0] k true)).1.endTraversal true).2.getUpot
      = .ok (-189 / 512 / 6) ∧
    ((AoSFunctorPairs 0 false [(1, 0), (0, 1)] ((sampleLJFunctor true).initTraversal,
        fun k => particleAt ![2 * (k : ℚ), 0, 0] k true)).1.endTraversal false).2.getUpot
      = .ok (-189 / 512 / 6) := by
  have hU : ([((0 : Nat), (1 : Nat))].map fun p =>
      (sampleLJFunctor true).pairUpot
        ((fun k : Nat => particleAt ![2 * (k : ℚ), 0, 0] k true) p.1).getR
        ((fun k : Nat => particleAt ![2 * (k : ℚ), 0, 0] k true) p.2).getR).sum
      = -189 / 512 := by
    simp only [List.map_cons, List.map_nil, List.sum_cons, List.sum_nil, pairUpot,
      ArrayMath.dot, ArrayMath.sub, particleAt, Particle.getR, sampleLJFunctor, LJFunctor.new,
      setParticleProperties]
    norm_num
  have h := globals_newton3_equivalence (sampleLJFunctor true) 0
    (fun k => particleAt ![2 * (k : ℚ), 0, 0] k true) [(0, 1)] [(1, 0), (0, 1)] rfl rfl
    (by decide) (fun _ => rfl) (by decide)
    (by
      intro p hp h
      rw [List.mem_singleton] at hp
      subst hp
      have h0 := congrFun h 0
      simp [particleAt, Particle.getR] at h0)
    (List.Perm.swap _ _ _)
  rw [hU] at h
  exact ⟨h.1.1, h.1.2.1, h.2.1.1, h.2.1.2⟩

end LJFunctor

end autopas


/-! ## `VerletClusterCells`: `rebuild`, bounding boxes, region iterator -/

namespace autopas

/-- The conversion to `size_t` of a value between `n` and `n + 1`. -/
theorem doubleToSizeT_eq (x : ℚ) (n : Nat) (h1 : (n : ℚ) ≤ x) (h2 : x < n + 1)
    (h3 : n ≤ UINT64_MAX) : doubleToSizeT x = some n := by
  have h0 : (0 : ℚ) ≤ x := le_trans (Nat.cast_nonneg n) h1
  have hmax : x < (UINT64_MAX : ℚ) + 1 := by
    have : (n : ℚ) ≤ (UINT64_MAX : ℚ) := by exact_mod_cast h3
    linarith
  unfold doubleToSizeT
  rw [if_neg (by linarith), if_neg (by linarith)]
  congr 1
  exact (Nat.floor_eq_iff h0).2 ⟨h1, h2⟩

theorem vec6_five (a b c d e f : ℚ) : (![a, b, c, d, e, f] : Fin 6 → ℚ) 5 = f := rfl

theorem vec6_four (a b c d e f : ℚ) : (![a, b, c, d, e, f] : Fin 6 → ℚ) 4 = e := rfl

theorem vec6_three (a b c d e f : ℚ) : (![a, b, c, d, e, f] : Fin 6 → ℚ) 3 = d := rfl

namespace VerletClusterCells

/-- The sample container is what the constructor and the two additions make. -/
theorem sampleClusterCells_reached :
    (((VerletClusterCells.new ![0, 0, 0] ![23, 18, 2] 1 0 1).addParticle
      sampleOwnedParticle).2.addHaloParticle sampleHaloParticle).2 = sampleClusterCells := by
  have h1 : utils.inBox sampleOwnedParticle.getR ![0, 0, 0] ![23, 18, 2] = true := by rfl
  have h2 : utils.notInBox sampleHaloParticle.getR ![0, 0, 0] ![23, 18, 2] = true := by rfl
  have hmin : ArrayMath.subScalar ![0, 0, 0] (1 + 0) = ![-1, -1, -1] := by
    funext d
    fin_cases d <;> simp [ArrayMath.subScalar]
  have hmax : ArrayMath.addScalar ![23, 18, 2] (1 + 0) = ![24, 19, 3] := by
    funext d
    fin_cases d <;> simp [ArrayMath.addScalar] <;> norm_num
  simp only [VerletClusterCells.new, addParticle, h1, if_true, addHaloParticle, h2, hmin, hmax]
  rfl

theorem sample_invalidParticles :
    sampleClusterCells.rebuildInvalidParticles = [sampleOwnedParticle, sampleHaloParticle] ∧
    sampleClusterCells.rebuildOutsideParticles = [] := by
  constructor <;> rfl

theorem sample_gridSideLength : sampleClusterCells.rebuildGridSideLength sampleCbrt = 10 := by
  unfold rebuildGridSideLength
  rw [sample_invalidParticles.1]
  simp only [sampleClusterCells, sampleCbrt, List.length_cons, List.length_nil]
  norm_num

theorem sample_gridIndex :
    gridIndex ![-1, -1, -1] (1 / 10) 3 sampleOwnedParticle = some 3 ∧
    gridIndex ![-1, -1, -1] (1 / 10) 3 sampleHaloParticle = some 3 := by
  constructor
  · have hx : doubleToSizeT ((sampleOwnedParticle.getR 0 - (![-1, -1, -1] : Vec3) 0) * (1 / 10))
        = some 0 := by
      apply doubleToSizeT_eq <;>
        norm_num [sampleOwnedParticle, particleAt, Particle.getR, UINT64_MAX]
    have hy : doubleToSizeT ((sampleOwnedParticle.getR 1 - (![-1, -1, -1] : Vec3) 1) * (1 / 10))
        = some 1 := by
      apply doubleToSizeT_eq <;>
        norm_num [sampleOwnedParticle, particleAt, Particle.getR, UINT64_MAX]
    simp only [gridIndex, hx, hy]
    rfl
  · have hx : doubleToSizeT ((sampleHaloParticle.getR 0 - (![-1, -1, -1] : Vec3) 0) * (1 / 10))
        = some 3 := by
      apply doubleToSizeT_eq <;>
        norm_num [sampleHaloParticle, particleAt, Particle.getR, UINT64_MAX]
    have hy : doubleToSizeT ((sampleHaloParticle.getR 1 - (![-1, -1, -1] : Vec3) 1) * (1 / 10))
        = some 0 := by
      apply doubleToSizeT_eq <;>
        norm_num [sampleHaloParticle, particleAt, Particle.getR, UINT64_MAX]
    simp only [gridIndex, hx, hy]
    rfl

theorem sample_cellsPerDim :
    doubleToSizeT (⌈((![24, 19, 3] : Vec3) 0 - (![-1, -1, -1] : Vec3) 0) * (1 / 10)⌉ : ℚ)
      = some 3 ∧
    doubleToSizeT (⌈((![24, 19, 3] : Vec3) 1 - (![-1, -1, -1] : Vec3) 1) * (1 / 10)⌉ : ℚ)
      = some 2 := by
  have c0 : ⌈((![24, 19, 3] : Vec3) 0 - (![-1, -1, -1] : Vec3) 0) * (1 / 10)⌉ = 3 := by
    rw [Int.ceil_eq_iff]
    norm_num
  have c1 : ⌈((![24, 19, 3] : Vec3) 1 - (![-1, -1, -1] : Vec3) 1) * (1 / 10)⌉ = 2 := by
    rw [Int.ceil_eq_iff]
    norm_num
  rw [c0, c1]
  constructor <;> apply doubleToSizeT_eq <;> norm_num [UINT64_MAX]

theorem sample_binParticles :
    binParticles ![-1, -1, -1] (1 / 10) 3 [sampleOwnedParticle, sampleHaloParticle]
        (List.replicate 6 [])
      = some [[], [], [], [sampleOwnedParticle, sampleHaloParticle], [], []] := by
  simp only [binParticles, sample_gridIndex.1, sample_gridIndex.2]
  rfl

theorem sample_dummyParticle (i j : Nat) :
    sampleClusterCells.dummyParticle i j
      = ((Particle.new.setR ![32 + (i : ℚ), 27 + (j : ℚ), 11]).setID UINT64_MAX).setOwned
          false := by
  unfold dummyParticle
  congr 3
  funext d
  fin_cases d <;> simp [sampleClusterCells, getInteractionLength] <;> norm_num

theorem sample_padCell_empty (i : Nat) :
    padCell sampleClusterCells i []
      = ([((Particle.new.setR ![32 + (i : ℚ), 27, 11]).setID UINT64_MAX).setOwned false],
          0) := by
  have hcs : sampleClusterCells._clusterSize = 1 := rfl
  have hr1 : List.range 1 = [0] := rfl
  simp only [padCell, sortByDim2, List.insertionSort, List.length_nil, hcs, gt_iff_lt,
    Nat.lt_irrefl, if_false, hr1, List.map_cons, List.map_nil, List.nil_append,
    sample_dummyParticle, Nat.cast_zero, add_zero]

theorem sample_padCell_two :
    padCell sampleClusterCells 3 [sampleOwnedParticle, sampleHaloParticle]
      = ([sampleOwnedParticle, sampleHaloParticle,
          ((Particle.new.setR ![35, 27, 11]).setID UINT64_MAX).setOwned false], 2) := by
  have hcs : sampleClusterCells._clusterSize = 1 := rfl
  have hsort : sortByDim2 [sampleOwnedParticle, sampleHaloParticle]
      = [sampleOwnedParticle, sampleHaloParticle] := by rfl
  have h35 : ((32 : ℚ) + ((3 : Nat) : ℚ)) = 35 := by norm_num
  have hr1 : List.range (if 0 + 1 + 1 > 0 then 1 - 0 else 1) = [0] := rfl
  simp only [padCell, hsort, hcs, List.length_cons, List.length_nil, Nat.mod_one,
    hr1, List.map_cons, List.map_nil, sample_dummyParticle, Nat.cast_zero,
    add_zero, h35]
  rfl

theorem sample_makeBoundingBoxes :
    makeBoundingBoxes sampleClusterCells
        [((Particle.new.setR ![32, 27, 11]).setID UINT64_MAX).setOwned false] 0
      = [![24, 19, 3, -1, -1, -1]] ∧
    makeBoundingBoxes sampleClusterCells
        [sampleOwnedParticle, sampleHaloParticle,
          ((Particle.new.setR ![35, 27, 11]).setID UINT64_MAX).setOwned false] 2
      = [![5, 5, 1, 30, 10, 2], ![24, 5, 2, 30, 5, 2], ![24, 19, 3, -1, -1, -1]] := by
  have hcs : sampleClusterCells._clusterSize = 1 := rfl
  constructor
  · simp only [makeBoundingBoxes, hcs, List.length_cons, List.length_nil, Nat.div_one]
    rfl
  · have hr3 : List.range (0 + 1 + 1 + 1) = [0, 1, 2] := rfl
    have h0 : List.range' (0 * 1) (2 - 0 * 1) = [0, 1] := rfl
    have h1 : List.range' (1 * 1) (2 - 1 * 1) = [1] := rfl
    have h2 : List.range' (2 * 1) (2 - 2 * 1) = [] := rfl
    simp only [makeBoundingBoxes, hcs, List.length_cons, List.length_nil, Nat.div_one, hr3,
      List.map_cons, List.map_nil, h0, h1, h2, List.foldl_cons, List.foldl_nil]
    refine congrArg₂ _ ?_ (congrArg₂ _ ?_ (congrArg₂ _ ?_ rfl))
    · funext k
      fin_cases k <;>
        simp [expandBoundingBox, sampleClusterCells, sampleOwnedParticle, sampleHaloParticle,
          particleAt, Particle.getR, vec6_five, vec6_four, vec6_three] <;> norm_num
    · funext k
      fin_cases k <;>
        simp [expandBoundingBox, sampleClusterCells, sampleOwnedParticle, sampleHaloParticle,
          particleAt, Particle.getR, vec6_five, vec6_four, vec6_three] <;> norm_num
    · rfl

/-- The sample container after `rebuild`. -/
theorem sample_rebuild :
    rebuild sampleCbrt sampleClusterCells = some ([], sampleRebuiltCells) := by
  have hmax : sampleClusterCells._boxMaxWithHalo = ![24, 19, 3] := rfl
  have hmin : sampleClusterCells._boxMinWithHalo = ![-1, -1, -1] := rfl
  have hcs : sampleClusterCells._clusterSize = 1 := rfl
  have hsize : (1 * 3 % (UINT64_MAX + 1)) * 2 % (UINT64_MAX + 1) = 6 := by rfl
  have hr6 : List.range 6 = [0, 1, 2, 3, 4, 5] := rfl
  have e0 := sample_padCell_empty 0
  have e1 := sample_padCell_empty 1
  have e2 := sample_padCell_empty 2
  have e4 := sample_padCell_empty 4
  have e5 := sample_padCell_empty 5
  have n0 : ((32 : ℚ) + ((0 : Nat) : ℚ)) = 32 := by norm_num
  have n1 : ((32 : ℚ) + ((1 : Nat) : ℚ)) = 33 := by norm_num
  have n2 : ((32 : ℚ) + ((2 : Nat) : ℚ)) = 34 := by norm_num
  have n4 : ((32 : ℚ) + ((4 : Nat) : ℚ)) = 36 := by norm_num
  have n5 : ((32 : ℚ) + ((5 : Nat) : ℚ)) = 37 := by norm_num
  rw [n0] at e0
  rw [n1] at e1
  rw [n2] at e2
  rw [n4] at e4
  rw [n5] at e5
  have hbox : ∀ x : ℚ, makeBoundingBoxes sampleClusterCells
      [((Particle.new.setR ![x, 27, 11]).setID UINT64_MAX).setOwned false] 0
      = [![24, 19, 3, -1, -1, -1]] := by
    intro x
    simp only [makeBoundingBoxes, hcs, List.length_cons, List.length_nil, Nat.div_one]
    rfl
  unfold rebuild
  simp only [sample_gridSideLength, sample_invalidParticles.1, sample_invalidParticles.2, hmax,
    hmin, sample_cellsPerDim.1, sample_cellsPerDim.2, hsize, hcs, Nat.one_ne_zero, if_false,
    sample_binParticles, hr6, List.map_cons, List.map_nil]
  simp only [List.getD_cons_zero, List.getD_cons_succ, e0, e1, e2, e4, e5, sample_padCell_two,
    hbox, sample_makeBoundingBoxes.2]
  rfl

end VerletClusterCells

end autopas

namespace autopas

namespace VerletClusterCells

/-- C31 fails on a column with two clusters of real particles: after `rebuild` of the sample
container (cluster size `1`), column `3` holds the owned particle at `(5, 10, 1)` as cluster
`0` and the halo particle at `(30, 5, 2)` as cluster `1`. The stored bounding box of cluster
`0` is `(5, 5, 1, 30, 10, 2)`: it also covers the particle of cluster `1`, while the minimum
and maximum over the members of cluster `0` are `(5, 10, 1, 5, 10, 1)`. -/
theorem rebuild_boundingBox_covers_later_clusters :
    rebuild sampleCbrt sampleClusterCells = some ([], sampleRebuiltCells) ∧
    sampleRebuiltCells._clusterSize = 1 ∧
    sampleRebuiltCells._dummyStarts.getD 3 0 = 2 ∧
    (sampleRebuiltCells._cells.getD 3 []).getD 0 Particle.new = sampleOwnedParticle ∧
    sampleOwnedParticle.getR = ![5, 10, 1] ∧
    (sampleRebuiltCells._boundingBoxes.getD 3 []).getD 0 (fun _ => 0)
      = ![5, 5, 1, 30, 10, 2] ∧
    (![5, 5, 1, 30, 10, 2] : Fin 6 → ℚ) ≠ ![5, 10, 1, 5, 10, 1] := by
  refine ⟨sample_rebuild, rfl, rfl, rfl, rfl, rfl, ?_⟩
  intro h
  have h1 := congrFun h 1
  norm_num at h1

/-- The vector of the non-const region iterator, from the four conversions to `size_t`. -/
theorem cellsOfInterest_of_casts (s : VerletClusterCells) (lo hi : Vec3)
    (xmin ymin xtop ytop : Nat)
    (h1 : doubleToSizeT ((max (lo 0) (s._boxMinWithHalo 0) - s._boxMinWithHalo 0 - s._skin)
      * s._gridSideLengthReciprocal) = some xmin)
    (h2 : doubleToSizeT ((max (lo 1) (s._boxMinWithHalo 1) - s._boxMinWithHalo 1 - s._skin)
      * s._gridSideLengthReciprocal) = some ymin)
    (h3 : doubleToSizeT ((min (hi 0) (s._boxMaxWithHalo 0) - s._boxMinWithHalo 0 + s._skin)
      * s._gridSideLengthReciprocal) = some xtop)
    (h4 : doubleToSizeT ((min (hi 1) (s._boxMaxWithHalo 1) - s._boxMinWithHalo 1 + s._skin)
      * s._gridSideLengthReciprocal) = some ytop) :
    s.cellsOfInterest lo hi
      = some ((List.range
          (((ytop + (UINT64_MAX + 1) - ymin) % (UINT64_MAX + 1) + 1) % (UINT64_MAX + 1))).flatMap
        fun i => List.range' (xmin + ymin * s._cellsPerDim 0 + i * s._cellsPerDim 0)
          (((xtop + (UINT64_MAX + 1) - xmin) % (UINT64_MAX + 1) + 1) % (UINT64_MAX + 1))) := by
  unfold cellsOfInterest
  simp only [h1, h2, h3, h4]

/-- The vector of the const region iterator, from the four conversions to `size_t`. -/
theorem cellsOfInterestConst_of_casts (s : VerletClusterCells) (lo hi : Vec3)
    (xmin ymin xlength ylength : Nat)
    (h1 : doubleToSizeT ((max (lo 0) (s._boxMinWithHalo 0) - s._boxMinWithHalo 0 - s._skin)
      * s._gridSideLengthReciprocal) = some xmin)
    (h2 : doubleToSizeT ((max (lo 1) (s._boxMinWithHalo 1) - s._boxMinWithHalo 1 - s._skin)
      * s._gridSideLengthReciprocal) = some ymin)
    (h3 : doubleToSizeT (((min (hi 0) (s._boxMaxWithHalo 0) - s._boxMinWithHalo 0 + s._skin)
      * s._gridSideLengthReciprocal - (xmin : ℚ)) + 1) = some xlength)
    (h4 : doubleToSizeT (((min (hi 1) (s._boxMaxWithHalo 1) - s._boxMinWithHalo 1 + s._skin)
      * s._gridSideLengthReciprocal - (ymin : ℚ)) + 1) = some ylength) :
    s.cellsOfInterestConst lo hi
      = some ((List.range ylength).flatMap
        fun i => List.range' (xmin + ymin * s._cellsPerDim 0 + i * s._cellsPerDim 0)
          xlength) := by
  unfold cellsOfInterestConst
  simp only [h1, h2, h3, h4]

/-- A difference of two `size_t` values that does not wrap, plus one. -/
theorem sizeT_length_of_le (a b : Nat) (hab : a ≤ b) (hb : b < UINT64_MAX) :
    ((b + (UINT64_MAX + 1) - a) % (UINT64_MAX + 1) + 1) % (UINT64_MAX + 1) = b - a + 1 := by
  have hM : b + 1 < UINT64_MAX + 1 := by omega
  generalize UINT64_MAX + 1 = M at hM
  have e : b + M - a = (b - a) + M := by omega
  rw [e, Nat.add_mod_right, Nat.mod_eq_of_lt (show b - a < M by omega),
    Nat.mod_eq_of_lt (show b - a + 1 < M by omega)]

/-- The region iterator for the whole box with halo on the rebuilt sample container. -/
theorem sample_cellsOfInterest_whole :
    sampleRebuiltCells.cellsOfInterest ![-1, -1, -1] ![24, 19, 3]
      = some [0, 1, 2, 3, 4, 5, 6, 7, 8] := by
  have hu : (2 : Nat) < UINT64_MAX := by norm_num [UINT64_MAX]
  have hmax : sampleRebuiltCells._boxMaxWithHalo = ![24, 19, 3] := rfl
  have hmin : sampleRebuiltCells._boxMinWithHalo = ![-1, -1, -1] := rfl
  have hskin : sampleRebuiltCells._skin = 0 := rfl
  have hrec : sampleRebuiltCells._gridSideLengthReciprocal = 1 / 10 := rfl
  rw [cellsOfInterest_of_casts sampleRebuiltCells _ _ 0 0 2 2
    (by apply doubleToSizeT_eq <;> norm_num [hmax, hmin, hskin, hrec, UINT64_MAX])
    (by apply doubleToSizeT_eq <;> norm_num [hmax, hmin, hskin, hrec, UINT64_MAX])
    (by apply doubleToSizeT_eq <;> norm_num [hmax, hmin, hskin, hrec, UINT64_MAX])
    (by apply doubleToSizeT_eq <;> norm_num [hmax, hmin, hskin, hrec, UINT64_MAX]),
    sizeT_length_of_le 0 2 (by omega) hu]
  rfl

/-- The fields of the rebuilt sample container that the region iterator reads. -/
theorem sampleRebuiltCells_fields :
    sampleRebuiltCells._boxMaxWithHalo = ![24, 19, 3] ∧
    sampleRebuiltCells._boxMinWithHalo = ![-1, -1, -1] ∧
    sampleRebuiltCells._skin = 0 ∧
    sampleRebuiltCells._gridSideLengthReciprocal = 1 / 10 ∧
    sampleRebuiltCells._cellsPerDim 0 = 3 ∧
    sampleRebuiltCells._cellsPerDim 1 = 2 :=
  ⟨rfl, rfl, rfl, rfl, rfl, rfl⟩

/-- C39 fails on the container that `rebuild` leaves for the sample: the grid has `3 x 2`
columns, and the non-const region iterator for the whole box with halo computes the indices
`0, ..., 8`, of which `6, 7, 8` are past the end of `_cells` (their y grid coordinate is `2`).
For the search box `[39, 41] x [4, 6] x [1, 3]` the const overload computes the empty list
and the non-const overload a list of `2^64 - 1` indices. -/
theorem getRegionIterator_cellsOfInterest_past_end :
    rebuild sampleCbrt sampleClusterCells = some ([], sampleRebuiltCells) ∧
    sampleRebuiltCells._skin = 0 ∧
    sampleRebuiltCells._cells.length = 6 ∧
    sampleRebuiltCells._cellsPerDim 0 * sampleRebuiltCells._cellsPerDim 1 = 6 ∧
    sampleRebuiltCells.cellsOfInterest ![-1, -1, -1] ![24, 19, 3]
      = some [0, 1, 2, 3, 4, 5, 6, 7, 8] ∧
    sampleRebuiltCells.cellsOfInterestConst ![39, 4, 1] ![41, 6, 3] = some [] ∧
    (sampleRebuiltCells.cellsOfInterest ![39, 4, 1] ![41, 6, 3]).map List.length
      = some UINT64_MAX := by
  obtain ⟨hmax, hmin, hskin, hrec, -, -⟩ := sampleRebuiltCells_fields
  refine ⟨sample_rebuild, rfl, rfl, rfl, sample_cellsOfInterest_whole, ?_, ?_⟩
  · rw [cellsOfInterestConst_of_casts sampleRebuiltCells _ _ 4 0 0 1
      (by apply doubleToSizeT_eq <;> norm_num [hmax, hmin, hskin, hrec, UINT64_MAX])
      (by apply doubleToSizeT_eq <;> norm_num [hmax, hmin, hskin, hrec, UINT64_MAX])
      (by
        have e : ((min ((![41, 6, 3] : Vec3) 0) (sampleRebuiltCells._boxMaxWithHalo 0)
            - sampleRebuiltCells._boxMinWithHalo 0 + sampleRebuiltCells._skin)
            * sampleRebuiltCells._gridSideLengthReciprocal - ((4 : Nat) : ℚ)) + 1
            = -1 / 2 := by
          norm_num [hmax, hmin, hskin, hrec]
        rw [e]
        unfold doubleToSizeT
        rw [if_neg (by norm_num), if_neg (by norm_num [UINT64_MAX])]
        congr 1
        rw [Nat.floor_eq_zero]
        norm_num)
      (by apply doubleToSizeT_eq <;> norm_num [hmax, hmin, hskin, hrec, UINT64_MAX])]
    rfl
  · rw [cellsOfInterest_of_casts sampleRebuiltCells _ _ 4 0 2 0
      (by apply doubleToSizeT_eq <;> norm_num [hmax, hmin, hskin, hrec, UINT64_MAX])
      (by apply doubleToSizeT_eq <;> norm_num [hmax, hmin, hskin, hrec, UINT64_MAX])
      (by apply doubleToSizeT_eq <;> norm_num [hmax, hmin, hskin, hrec, UINT64_MAX])
      (by apply doubleToSizeT_eq <;> norm_num [hmax, hmin, hskin, hrec, UINT64_MAX])]
    have hy : ((0 + (UINT64_MAX + 1) - 0) % (UINT64_MAX + 1) + 1) % (UINT64_MAX + 1) = 1 := by
      norm_num [UINT64_MAX]
    have hx : ((2 + (UINT64_MAX + 1) - 4) % (UINT64_MAX + 1) + 1) % (UINT64_MAX + 1)
        = UINT64_MAX := by
      norm_num [UINT64_MAX]
    have hr1 : List.range 1 = [0] := rfl
    rw [hy, hx, hr1]
    simp only [Option.map_some', List.flatMap_cons, List.flatMap_nil, List.append_nil,
      List.length_range']

/-- C38 fails for a halo particle far outside the box: the constructor on the box
`[0, 23) x [0, 18) x [0, 2)` (cutoff `1`, skin `0`, cluster size `1`), `addParticle` of the
owned particle at `(5, 10, 1)` and `addHaloParticle` of the particle at `(100, 5, 2)` all
succeed. In `rebuild` the grid side length is `10` and the grid has `3 x 2 = 6` columns, but
the column index of the halo particle is `10`: `_cells[10]` is past the end of the vector and
`rebuild` has no defined result. -/
theorem rebuild_halo_column_index_past_end :
    ((VerletClusterCells.new ![0, 0, 0] ![23, 18, 2] 1 0 1).addParticle sampleOwnedParticle).1
      = .ok () ∧
    (((VerletClusterCells.new ![0, 0, 0] ![23, 18, 2] 1 0 1).addParticle
      sampleOwnedParticle).2.addHaloParticle sampleFarParticle) = (.ok (), sampleFarCells) ∧
    sampleFarCells.rebuildInvalidParticles = [sampleOwnedParticle, sampleFarParticle] ∧
    sampleFarCells.rebuildGridSideLength sampleCbrt = 10 ∧
    doubleToSizeT (⌈(sampleFarCells._boxMaxWithHalo 0 - sampleFarCells._boxMinWithHalo 0)
      * (1 / 10)⌉ : ℚ) = some 3 ∧
    doubleToSizeT (⌈(sampleFarCells._boxMaxWithHalo 1 - sampleFarCells._boxMinWithHalo 1)
      * (1 / 10)⌉ : ℚ) = some 2 ∧
    gridIndex sampleFarCells._boxMinWithHalo (1 / 10) 3 sampleFarParticle = some 10 ∧
    rebuild sampleCbrt sampleFarCells = none := by
  have h1 : utils.inBox sampleOwnedParticle.getR ![0, 0, 0] ![23, 18, 2] = true := by rfl
  have h2 : utils.notInBox sampleFarParticle.getR ![0, 0, 0] ![23, 18, 2] = true := by rfl
  have hminS : ArrayMath.subScalar ![0, 0, 0] (1 + 0) = ![-1, -1, -1] := by
    funext d
    fin_cases d <;> simp [ArrayMath.subScalar]
  have hmaxS : ArrayMath.addScalar ![23, 18, 2] (1 + 0) = ![24, 19, 3] := by
    funext d
    fin_cases d <;> simp [ArrayMath.addScalar] <;> norm_num
  have hmax : sampleFarCells._boxMaxWithHalo = ![24, 19, 3] := rfl
  have hmin : sampleFarCells._boxMinWithHalo = ![-1, -1, -1] := rfl
  have hcs : sampleFarCells._clusterSize = 1 := rfl
  have hinv : sampleFarCells.rebuildInvalidParticles
      = [sampleOwnedParticle, sampleFarParticle] := rfl
  have hg : sampleFarCells.rebuildGridSideLength sampleCbrt = 10 := by
    unfold rebuildGridSideLength
    rw [hinv]
    simp only [hmax, hmin, hcs, sampleCbrt, List.length_cons, List.length_nil]
    norm_num
  have hfar : gridIndex ![-1, -1, -1] (1 / 10) 3 sampleFarParticle = some 10 := by
    have hx : doubleToSizeT ((sampleFarParticle.getR 0 - (![-1, -1, -1] : Vec3) 0) * (1 / 10))
        = some 10 := by
      apply doubleToSizeT_eq <;>
        norm_num [sampleFarParticle, particleAt, Particle.getR, UINT64_MAX]
    have hy : doubleToSizeT ((sampleFarParticle.getR 1 - (![-1, -1, -1] : Vec3) 1) * (1 / 10))
        = some 0 := by
      apply doubleToSizeT_eq <;>
        norm_num [sampleFarParticle, particleAt, Particle.getR, UINT64_MAX]
    simp only [gridIndex, hx, hy]
    rfl
  have hsize : (1 * 3 % (UINT64_MAX + 1)) * 2 % (UINT64_MAX + 1) = 6 := by rfl
  have hbin : binParticles ![-1, -1, -1] (1 / 10) 3 [sampleOwnedParticle, sampleFarParticle]
      (List.replicate 6 []) = none := by
    simp only [binParticles, sample_gridIndex.1, hfar]
    rfl
  refine ⟨?_, ?_, hinv, hg, ?_, ?_, ?_, ?_⟩
  · simp only [VerletClusterCells.new, addParticle, h1, if_true]
  · simp only [VerletClusterCells.new, addParticle, h1, if_true, addHaloParticle, h2, hminS,
      hmaxS]
    rfl
  · rw [hmax, hmin]
    exact sample_cellsPerDim.1
  · rw [hmax, hmin]
    exact sample_cellsPerDim.2
  · rw [hmin]
    exact hfar
  · unfold rebuild
    simp only [hg, hinv, hmax, hmin, sample_cellsPerDim.1, sample_cellsPerDim.2, hsize, hcs,
      Nat.one_ne_zero, if_false, hbin]

/-- C11 fails after `deleteHaloParticles`: the constructor on the box
`[0, 23) x [0, 18) x [0, 2)` (cutoff `1`, skin `0`) and `addHaloParticle` of the particle with
id `7` at `(-1, 5, 1)` give the sample container with one halo particle. After
`deleteHaloParticles` the dummy start of cell `0` is `0` and slot `0` holds the particle with
its id `7`, not the largest `size_t`, at `(10, 5, 1)`, which lies within
`[boxMin - 8 * interactionLength, boxMax + 8 * interactionLength]` in every coordinate. -/
theorem deleteHaloParticles_leaves_halo_as_dummy :
    (VerletClusterCells.new ![0, 0, 0] ![23, 18, 2] 1 0 1).addHaloParticle
      sampleNearHaloParticle = (.ok (), sampleHaloOnlyCells) ∧
    sampleHaloOnlyCells.deleteHaloParticles._dummyStarts = [0] ∧
    sampleHaloOnlyCells.deleteHaloParticles._cells = [[particleAt ![10, 5, 1] 7 false]] ∧
    (particleAt ![10, 5, 1] 7 false).getID ≠ UINT64_MAX ∧
    (∀ d, sampleHaloOnlyCells._boxMin d - 8 * sampleHaloOnlyCells.getInteractionLength
        ≤ (particleAt ![10, 5, 1] 7 false).getR d ∧
      (particleAt ![10, 5, 1] 7 false).getR d
        ≤ sampleHaloOnlyCells._boxMax d + 8 * sampleHaloOnlyCells.getInteractionLength) := by
  have h2 : utils.notInBox sampleNearHaloParticle.getR ![0, 0, 0] ![23, 18, 2] = true := by
    rfl
  have hminS : ArrayMath.subScalar ![0, 0, 0] (1 + 0) = ![-1, -1, -1] := by
    funext d
    fin_cases d <;> simp [ArrayMath.subScalar]
  have hmaxS : ArrayMath.addScalar ![23, 18, 2] (1 + 0) = ![24, 19, 3] := by
    funext d
    fin_cases d <;> simp [ArrayMath.addScalar] <;> norm_num
  have hoff : sampleHaloOnlyCells._boxMaxWithHalo 2 + 8 * sampleHaloOnlyCells.getInteractionLength
      = 11 := by
    have e1 : sampleHaloOnlyCells._boxMaxWithHalo 2 = 3 := rfl
    have e2 : sampleHaloOnlyCells.getInteractionLength = 1 + 0 := rfl
    rw [e1, e2]
    norm_num
  have hIL : sampleHaloOnlyCells.getInteractionLength = 1 := by
    have e2 : sampleHaloOnlyCells.getInteractionLength = 1 + 0 := rfl
    rw [e2]
    norm_num
  have hcells : sampleHaloOnlyCells._cells = [[sampleNearHaloParticle]] := rfl
  have hds : sampleHaloOnlyCells._dummyStarts = [1] := rfl
  have hpos : Function.update sampleNearHaloParticle.getR 0 (sampleNearHaloParticle.getR 0 + 11)
      = ![10, 5, 1] := by
    funext d
    fin_cases d
    · simp [sampleNearHaloParticle, particleAt, Particle.getR]
      norm_num
    · rfl
    · rfl
  have hcell : deleteHaloParticlesCell 11 [sampleNearHaloParticle] 1 0
      = ([particleAt ![10, 5, 1] 7 false], 0) := by
    rw [deleteHaloParticlesCell]
    have hown : (!sampleNearHaloParticle.isOwned) = true := rfl
    simp only [Nat.lt_one_iff, if_true, List.getElem?_cons_zero, hown, moveToDummies, hpos]
    rw [deleteHaloParticlesCell]
    simp only [Nat.lt_irrefl, if_false]
    rfl
  refine ⟨?_, ?_, ?_, by decide, ?_⟩
  · simp only [VerletClusterCells.new, addHaloParticle, h2, if_true, hminS, hmaxS]
    rfl
  · simp only [deleteHaloParticles, hoff, hcells, hds, deleteHaloParticlesCells, hcell]
  · simp only [deleteHaloParticles, hoff, hcells, hds, deleteHaloParticlesCells, hcell]
  · intro d
    rw [hIL]
    fin_cases d <;>
      simp [sampleHaloOnlyCells, sampleClusterCells, particleAt, Particle.getR] <;> norm_num

end VerletClusterCells

end autopas

namespace autopas

namespace VerletClusterCells

end VerletClusterCells

end autopas

namespace autopas

theorem sortByDim2_length (cell : List Particle) : (sortByDim2 cell).length = cell.length :=
  List.length_insertionSort _ _

namespace VerletClusterCells

/-- The padded cell and its dummy start. -/
theorem padCell_eq (s : VerletClusterCells) (i : Nat) (cell : List Particle) :
    padCell s i cell
      = (sortByDim2 cell
          ++ (List.range (s._clusterSize - cell.length % s._clusterSize)).map
            (fun j => s.dummyParticle i j),
        cell.length) := by
  unfold padCell
  by_cases h : cell.length > 0
  · simp only [sortByDim2_length, h, if_true]
  · have h0 : cell.length = 0 := by omega
    simp only [sortByDim2_length, h0, Nat.lt_irrefl, gt_iff_lt, if_false, Nat.zero_mod,
      Nat.sub_zero]

/-- A slot before the dummy start of a padded cell holds a particle of the sorted cell. -/
theorem padCell_getD_real (s : VerletClusterCells) (i : Nat) (cell : List Particle) (j : Nat)
    (h1 : j < cell.length) :
    (padCell s i cell).1.getD j Particle.new = (sortByDim2 cell).getD j Particle.new := by
  have h2 : j < (sortByDim2 cell).length := by rw [sortByDim2_length]; exact h1
  simp only [padCell_eq]
  rw [List.getD_eq_getElem _ _ (by rw [List.length_append]; omega),
    List.getD_eq_getElem _ _ h2, List.getElem_append_left h2]

end VerletClusterCells

namespace VerletClusterCells

end VerletClusterCells

namespace LogicHandler

end LogicHandler

end autopas
